import Mathlib

/-!
# Y2R colour-space conversion (`src/core/hw/y2r.cpp`): shallow embedding

Machine integers are mathematical integers with an explicit wrap-around where the
C++ type is narrower: `s32` values are `Int` reduced by `wrapS32`, `u8` table
entries are `Nat` obtained by `toU8`, `u32` values are `Nat` modulo `2 ^ 32`.
C arrays are total functions on indices; a `for` loop with a known trip count is
`forLoop`, whose `i`-th iteration runs the body at index `i`.
-/

namespace HW.Y2R

/-! ## Machine arithmetic -/

/-- Two's-complement reduction of an integer to the range of `s32`. -/
def wrapS32 (x : Int) : Int := (x + 2147483648) % 4294967296 - 2147483648

/-- Conversion of an `s32` value to `u8` (keeps the low eight bits). -/
def toU8 (x : Int) : Nat := (x % 256).toNat

/-- Reduction of a natural number to the range of `u32` / `unsigned int`. -/
def wrapU32 (x : Nat) : Nat := x % 4294967296

/-- The function `clamp` of `y2r.cpp`, lines 22-24. -/
def clamp (value min max : Int) : Int :=
  if value ≥ min then (if value ≤ max then value else max) else min

/-- Runs `body 0`, `body 1`, ..., `body (n - 1)` in this order on the state `s`:
the loop `for (i = 0; i < n; ++i) body`. -/
def forLoop {σ : Type} : Nat → (Nat → σ → σ) → σ → σ
  | 0, _, s => s
  | n + 1, body, s => body n (forLoop n body s)

/-- Store into a two-dimensional array: `a[i][j] = v`. -/
def set2 (a : Nat → Nat → Nat) (i j v : Nat) : Nat → Nat → Nat :=
  fun x y => if x = i ∧ y = j then v else a x y

/-! ## Coefficient table -/

/-- Modelled from the spec: one coefficient tuple, a row of the array
`Y2R_U::standard_coefficients`, which is declared outside the translated sources:
eight signed fixed-point coefficients `c0..c7`. The tuple is a parameter of the
table constructor. -/
structure CoefficientSet where
  c0 : Int
  c1 : Int
  c2 : Int
  c3 : Int
  c4 : Int
  c5 : Int
  c6 : Int
  c7 : Int
deriving DecidableEq, Repr

/-- A value fits the 16-bit signed element type of a coefficient tuple. -/
def isS16 (x : Int) : Prop := -32768 ≤ x ∧ x ≤ 32767

instance (x : Int) : Decidable (isS16 x) :=
  inferInstanceAs (Decidable (-32768 ≤ x ∧ x ≤ 32767))

/-- Every coefficient of the tuple fits the element type `s16`; products with
8-bit samples and their sums then stay inside `s32`. -/
def CoefficientSet.wellTyped (c : CoefficientSet) : Prop :=
  isS16 c.c0 ∧ isS16 c.c1 ∧ isS16 c.c2 ∧ isS16 c.c3 ∧
  isS16 c.c4 ∧ isS16 c.c5 ∧ isS16 c.c6 ∧ isS16 c.c7

instance (c : CoefficientSet) : Decidable c.wellTyped :=
  inferInstanceAs (Decidable (isS16 c.c0 ∧ isS16 c.c1 ∧ isS16 c.c2 ∧ isS16 c.c3 ∧
    isS16 c.c4 ∧ isS16 c.c5 ∧ isS16 c.c6 ∧ isS16 c.c7))

/-- The four `u8[256][256]` members of `struct Y2UTable`. -/
structure Y2UTable where
  YV2R : Nat → Nat → Nat
  YU2B : Nat → Nat → Nat
  UV2IG : Nat → Nat → Nat
  YIG2G : Nat → Nat → Nat

/-- The constant `rounding_offset` of the constructor. -/
def rounding_offset : Int := 0x18

/-- The local `maxIG` of the constructor (line 40). -/
def maxIG (c : CoefficientSet) : Int := wrapS32 (wrapS32 (c.c2 * 255 + c.c3 * 255) + 1)

/-- The value stored into `UV2IG[U][V]` (lines 43-45); `minIG` is `0`, the
division truncates toward zero. -/
def igEntry (c : CoefficientSet) (U V : Nat) : Nat :=
  let i := wrapS32 (c.c2 * V + c.c3 * U)
  toU8 (wrapS32 (0 + Int.tdiv (wrapS32 (i * 256)) (maxIG c)))

/-- The value stored into `YV2R[Y][V]` (lines 50-54). -/
def rEntry (c : CoefficientSet) (Y V : Nat) : Nat :=
  let cY := wrapS32 (c.c0 * Y)
  let r := wrapS32 (cY + wrapS32 (c.c1 * V))
  let r := wrapS32 (wrapS32 ((r >>> (3 : Nat)) + c.c5) + rounding_offset)
  toU8 (clamp (r >>> (5 : Nat)) 0 0xFF)

/-- The value stored into `YIG2G[Y][UV2IG[U][V]]` (lines 57-59). -/
def gEntry (c : CoefficientSet) (Y U V : Nat) : Nat :=
  let cY := wrapS32 (c.c0 * Y)
  let g := wrapS32 (wrapS32 (cY - wrapS32 (c.c2 * V)) - wrapS32 (c.c3 * U))
  let g := wrapS32 (wrapS32 ((g >>> (3 : Nat)) + c.c6) + rounding_offset)
  toU8 (clamp (g >>> (5 : Nat)) 0 0xFF)

/-- The value stored into `YU2B[Y][U]` (lines 63-65). -/
def bEntry (c : CoefficientSet) (Y U : Nat) : Nat :=
  let cY := wrapS32 (c.c0 * Y)
  let b := wrapS32 (cY + wrapS32 (c.c4 * U))
  let b := wrapS32 (wrapS32 ((b >>> (3 : Nat)) + c.c7) + rounding_offset)
  toU8 (clamp (b >>> (5 : Nat)) 0 0xFF)

/-- First loop nest of the constructor (lines 41-47): fills `UV2IG`. -/
def buildUV2IG (c : CoefficientSet) (t : Y2UTable) : Y2UTable :=
  forLoop 256 (fun V t =>
    forLoop 256 (fun U t => { t with UV2IG := set2 t.UV2IG U V (igEntry c U V) }) t) t

/-- The loop over `U` nested in the loop over `V` (lines 56-60): stores green
values at the index read from `UV2IG`. -/
def greenLoop (c : CoefficientSet) (Y V : Nat) (t : Y2UTable) : Y2UTable :=
  forLoop 256 (fun U t =>
    { t with YIG2G := set2 t.YIG2G Y (t.UV2IG U V) (gEntry c Y U V) }) t

/-- The loop over `V` of one `Y` iteration (lines 51-61). -/
def redGreenLoop (c : CoefficientSet) (Y : Nat) (t : Y2UTable) : Y2UTable :=
  forLoop 256 (fun V t =>
    greenLoop c Y V { t with YV2R := set2 t.YV2R Y V (rEntry c Y V) }) t

/-- The second loop over `U` of one `Y` iteration (lines 62-66). -/
def blueLoop (c : CoefficientSet) (Y : Nat) (t : Y2UTable) : Y2UTable :=
  forLoop 256 (fun U t => { t with YU2B := set2 t.YU2B Y U (bEntry c Y U) }) t

/-- Second loop nest of the constructor (lines 49-67). -/
def buildRGB (c : CoefficientSet) (t : Y2UTable) : Y2UTable :=
  forLoop 256 (fun Y t => blueLoop c Y (redGreenLoop c Y t)) t

/-- The constructor `Y2UTable::Y2UTable`, run on the not yet initialised members
`raw` for the coefficient tuple `c`. -/
def Y2UTable.build (c : CoefficientSet) (raw : Y2UTable) : Y2UTable :=
  buildRGB c (buildUV2IG c raw)

/-- The method `Y2UTable::getRGB` (line 71), for `u8` arguments. -/
def Y2UTable.getRGB (t : Y2UTable) (Y U V : Nat) : Nat :=
  wrapU32 ((t.YV2R Y V <<< 24) ||| (t.YIG2G Y (t.UV2IG U V) <<< 16) ||| (t.YU2B Y U <<< 8))

/-- The method `Y2UTable::getRGB2` (lines 73-77): the pair `(p1, p2)`. -/
def Y2UTable.getRGB2 (t : Y2UTable) (Y1 Y2 U V : Nat) : Nat × Nat :=
  let uv2ig := t.UV2IG U V
  (wrapU32 ((t.YV2R Y1 V <<< 24) ||| (t.YIG2G Y1 uv2ig <<< 16) ||| (t.YU2B Y1 U <<< 8)),
   wrapU32 ((t.YV2R Y2 V <<< 24) ||| (t.YIG2G Y2 uv2ig <<< 16) ||| (t.YU2B Y2 U <<< 8)))

/-- Bits `8 * k + 7 .. 8 * k` of a 32-bit word. -/
def byteOf (w k : Nat) : Nat := (w >>> (8 * k)) % 256

/-- The red formula of the hardware, over the integers. -/
def redFormula (c : CoefficientSet) (Y V : Nat) : Int :=
  clamp (((((c.c0 * Y + c.c1 * V) >>> (3 : Nat)) + c.c5 + 0x18) >>> (5 : Nat))) 0 255

/-- The green formula of the hardware, over the integers. -/
def greenFormula (c : CoefficientSet) (Y U V : Nat) : Int :=
  clamp (((((c.c0 * Y - c.c2 * V - c.c3 * U) >>> (3 : Nat)) + c.c6 + 0x18) >>> (5 : Nat))) 0 255

/-- The blue formula of the hardware, over the integers. -/
def blueFormula (c : CoefficientSet) (Y U : Nat) : Int :=
  clamp (((((c.c0 * Y + c.c4 * U) >>> (3 : Nat)) + c.c7 + 0x18) >>> (5 : Nat))) 0 255

/-- The last index below `n` at which `p` holds, if any. -/
def findLast (p : Nat → Bool) : Nat → Option Nat
  | 0 => none
  | n + 1 => if p n then some n else findLast p n

/-- The constructor visits the chroma pairs in the order of `q = V * 256 + U`
(outer loop `V`, inner loop `U`); this is the last position below `n` whose pair
has the `UV2IG` entry `k`, the entries being given by `ig`. -/
def lastWriter (ig : Nat → Nat → Nat) (k : Nat) (n : Nat) : Option Nat :=
  findLast (fun q => ig (q % 256) (q / 256) == k) n

/-- Content of `YIG2G[Y][k]` once the first `n` chroma pairs of row `Y` have been
processed, `old` being the content before. -/
def greenAfter (c : CoefficientSet) (ig : Nat → Nat → Nat) (Y k n : Nat) (old : Nat) : Nat :=
  match lastWriter ig k n with
  | some q => gEntry c Y (q % 256) (q / 256)
  | none => old

/-- The coefficient tuple `0x100, 0x166, 0xB6, 0x58, 0x1C5, -0x166F, 0x10EE, -0x1C5B`. -/
def sampleCoefficients : CoefficientSet :=
  ⟨0x100, 0x166, 0xB6, 0x58, 0x1C5, -0x166F, 0x10EE, -0x1C5B⟩

/-- A table whose members are all zero before construction. -/
def zeroTable : Y2UTable := ⟨fun _ _ => 0, fun _ _ => 0, fun _ _ => 0, fun _ _ => 0⟩

/-! ## Format decoder -/

/-- Modelled from the spec: the enumeration `InputFormat`, which is declared outside
the translated sources: the five formats the decoder names, and `other` for any
further value of the underlying integer type. -/
inductive InputFormat where
  | YUV422_Indiv8
  | YUV420_Indiv8
  | YUV422_Indiv16
  | YUV420_Indiv16
  | YUYV422_Interleaved
  | other (value : Nat)
deriving DecidableEq, Repr

/-- A `const u8*` argument: `none` is the null pointer, `some a` points to the
bytes `a 0`, `a 1`, ... -/
abbrev BytePtr := Option (Nat → Nat)

/-- The read `p[i]`; reading through the null pointer is a fault. -/
def readAt (p : BytePtr) (i : Nat) : Option Nat := p.map (fun a => a i)

/-- A loop `for (i = 0; i < n; ++i) body` whose body may fault. -/
def forLoopM {σ : Type} : Nat → (Nat → σ → Option σ) → σ → Option σ
  | 0, _, s => some s
  | n + 1, body, s => (forLoopM n body s).bind (body n)

/-- The locals `YI`, `UI`, `VI` of `ConvertYUVToRGB` and the tile array `output`
(`output t i` is element `i` of tile `t`). -/
structure DecodeState where
  YI : Nat
  UI : Nat
  VI : Nat
  output : Nat → Nat → Nat

/-- The tile element index `(y << 3) + (x & 7)` in `unsigned int` arithmetic. -/
def tileIndex (x y : Nat) : Nat := wrapU32 (wrapU32 (y <<< 3) + (x &&& 7))

/-- Body of the inner loop for the planar 4:2:2 formats (lines 105-114). -/
def body422 (table : Y2UTable) (input_Y input_U input_V : BytePtr) (y x : Nat)
    (s : DecodeState) : Option DecodeState := do
  let Y ← readAt input_Y s.YI
  let U ← readAt input_U s.UI
  let V ← readAt input_V s.VI
  let YI := wrapU32 (s.YI + 1)
  some { YI := YI, UI := YI >>> 1, VI := YI >>> 1,
         output := set2 s.output (x >>> 3) (tileIndex x y) (table.getRGB Y U V) }

/-- Body of either inner loop for the planar 4:2:0 formats (lines 122-131 and
136-145); `x` is even and the body handles the pixels `x` and `x + 1`. -/
def body420 (table : Y2UTable) (input_Y input_U input_V : BytePtr) (y x : Nat)
    (s : DecodeState) : Option DecodeState := do
  let Y ← readAt input_Y s.YI
  let U ← readAt input_U s.UI
  let V ← readAt input_V s.UI
  let Y2 ← readAt input_Y (wrapU32 (s.YI + 1))
  let p := table.getRGB2 Y Y2 U V
  let out1 := set2 s.output (x >>> 3) (tileIndex x y) p.1
  let out2 := set2 out1 (wrapU32 (x + 1) >>> 3) (tileIndex (wrapU32 (x + 1)) y) p.2
  some { YI := wrapU32 (s.YI + 2), UI := wrapU32 (s.UI + 1), VI := s.VI, output := out2 }

/-- One pass `for (x = 0; x < width; x += 2)` of the 4:2:0 decoder over row `y`. -/
def row420 (table : Y2UTable) (input_Y input_U input_V : BytePtr) (width y : Nat)
    (s : DecodeState) : Option DecodeState :=
  forLoopM ((width + 1) / 2) (fun j s => body420 table input_Y input_U input_V y (2 * j) s) s

/-- Body of the outer loop for the planar 4:2:0 formats (lines 120-147), entered
with the even row `y`: first row, `UI -= width >> 1`, `++y`, second row. -/
def pair420 (table : Y2UTable) (input_Y input_U input_V : BytePtr) (width y : Nat)
    (s : DecodeState) : Option DecodeState := do
  let s ← row420 table input_Y input_U input_V width y s
  let s := { s with UI := wrapU32 (s.UI + 4294967296 - wrapU32 (width >>> 1)) }
  row420 table input_Y input_U input_V width (y + 1) s

/-- Body of the inner loop for the interleaved format (lines 152-161). The mask
`~1` is `0xFFFFFFFE` as `unsigned int`, and `&` binds weaker than `+`. -/
def bodyYUYV (table : Y2UTable) (input_Y input_U input_V : BytePtr) (width y x : Nat)
    (s : DecodeState) : Option DecodeState := do
  let UI := wrapU32 (wrapU32 ((wrapU32 (wrapU32 (y * width) + x) &&& 0xFFFFFFFE) <<< 1) + 1)
  let VI := wrapU32 (UI + 2)
  let Y ← readAt input_Y s.YI
  let U ← readAt input_U UI
  let V ← readAt input_V VI
  some { YI := wrapU32 (s.YI + 2), UI := UI, VI := VI,
         output := set2 s.output (x >>> 3) (tileIndex x y) (table.getRGB Y U V) }

/-- The `switch (input_format)` of `ConvertYUVToRGB` (lines 100-165) for the
table `table`. In the 4:2:0 case the row counter advances twice per iteration of
the outer loop, so its body runs for `y = 0, 2, 4, ...` below `height`. A format
outside the five cases leaves the tiles as they are. -/
def decodeStrip (table : Y2UTable) (input_format : InputFormat)
    (input_Y input_U input_V : BytePtr) (width height : Nat) (s : DecodeState) :
    Option DecodeState :=
  match input_format with
  | .YUV422_Indiv8 | .YUV422_Indiv16 =>
    forLoopM height (fun y s =>
      forLoopM width (fun x s => body422 table input_Y input_U input_V y x s) s) s
  | .YUV420_Indiv8 | .YUV420_Indiv16 =>
    forLoopM ((height + 1) / 2) (fun i s =>
      pair420 table input_Y input_U input_V width (2 * i) s) s
  | .YUYV422_Interleaved =>
    forLoopM height (fun y s =>
      forLoopM width (fun x s => bodyYUYV table input_Y input_U input_V width y x s) s) s
  | .other _ => some s

/-- The static vector `Y2RTables`: slot `i` is empty or owns a built table. -/
abbrev TableCache := Nat → Option Y2UTable

/-- Lines 94-98 of `ConvertYUVToRGB`: the table of slot `index`, built on first
use from the tuple `standard_coefficients index` in fresh storage `raw`. -/
def lookupTable (standard_coefficients : Nat → CoefficientSet) (raw : Y2UTable)
    (cache : TableCache) (index : Nat) : Y2UTable × TableCache :=
  match cache index with
  | some t => (t, cache)
  | none =>
    let t := Y2UTable.build (standard_coefficients index) raw
    (t, fun i => if i = index then some t else cache i)

/-- The function `ConvertYUVToRGB` (lines 86-166). The array
`Y2R_U::standard_coefficients` and the storage `raw` obtained for a new table are
parameters; the result is the updated table cache and the tiles, or `none` when a
null pointer is read. -/
def ConvertYUVToRGB (standard_coefficients : Nat → CoefficientSet) (raw : Y2UTable)
    (cache : TableCache) (input_format : InputFormat) (input_Y input_U input_V : BytePtr)
    (output : Nat → Nat → Nat) (width height : Nat) (coefficient : Nat) :
    Option (TableCache × (Nat → Nat → Nat)) :=
  let (table, cache) := lookupTable standard_coefficients raw cache coefficient
  (decodeStrip table input_format input_Y input_U input_V width height
    { YI := 0, UI := 0, VI := 0, output := output }).map (fun s => (cache, s.output))

/-! ## Streaming input -/

/-- Modelled from the spec: the byte store behind `Memory::MemorySystem`, which is
not part of the translated sources. Section 6 describes it as a byte-addressable
store whose read operation returns the bytes starting at an address, so the
store is a flat array of bytes indexed by address. -/
abbrev ByteStore := Nat → Nat

/-- Modelled from the spec: `Memory::MemorySystem::GetPointer`, which is not part of
the translated sources. Section 6 has it return the bytes starting at `address`:
the pointer is the position `address` in the flat store, and pointer arithmetic
moves along the store. -/
def GetPointer (address : Nat) : Nat := address

/-- Modelled from the spec: the struct `ConversionBuffer`, which is declared outside
the translated sources: a cursor into the byte store with the current address,
the remaining image size, the transfer-unit size and the gap size. The sum
`transfer_unit + gap` is taken not to overflow. -/
structure ConversionBuffer where
  address : Nat
  image_size : Nat
  transfer_unit : Nat
  gap : Nat
deriving DecidableEq, Repr

/-- Bit widths of the unsigned fields `address` and `image_size` of
`ConversionBuffer`; the declaration is outside the translated sources, so the
widths are parameters. -/
structure FieldWidths where
  addressBits : Nat
  sizeBits : Nat
deriving DecidableEq, Repr

/-- The fields `address` and `image_size` of a buffer hold values of their types. -/
def ConversionBufferFits (w : FieldWidths) (buf : ConversionBuffer) : Prop :=
  buf.address < 2 ^ w.addressBits ∧ buf.image_size < 2 ^ w.sizeBits

instance (w : FieldWidths) (buf : ConversionBuffer) : Decidable (ConversionBufferFits w buf) :=
  inferInstanceAs (Decidable (buf.address < 2 ^ w.addressBits ∧ buf.image_size < 2 ^ w.sizeBits))

/-- The widths when both fields are 32-bit. -/
def widths32 : FieldWidths := ⟨32, 32⟩

/-- Unsigned addition `a + b` in a field of `bits` bits. -/
def addWrap (bits a b : Nat) : Nat := (a + b) % 2 ^ bits

/-- Unsigned subtraction `a - b` in a field of `bits` bits. -/
def subWrap (bits a b : Nat) : Nat := (((a : Int) - (b : Int)) % ((2 ^ bits : Nat) : Int)).toNat

/-- How a call ends: it returns with state `s`, it aborts on a failed `ASSERT`
in state `s`, or the loop did not finish within the iterations granted. -/
inductive Outcome (σ : Type) where
  | done (s : σ)
  | fatal (s : σ)
  | timeout

/-- The state of a finished or aborted call, if there is one. -/
def Outcome.state? {σ : Type} : Outcome σ → Option σ
  | .done s => some s
  | .fatal s => some s
  | .timeout => none

/-- The variables of `ReceiveData`: the store, the destination array with the
position of the pointer `output` in it, the position of the pointer `input` in
the store, the buffer cursor and the remaining `amount_of_data`. -/
structure ReceiveState where
  memory : ByteStore
  output : Nat → Nat
  outPos : Nat
  input : Nat
  buf : ConversionBuffer
  amount_of_data : Nat

/-- Store into a one-dimensional array: `a[i] = v`. -/
def set1 (a : Nat → Nat) (i v : Nat) : Nat → Nat :=
  fun x => if x = i then v else a x

/-- The call `memmove(output, input, n)` from the store into the destination array. -/
def memmoveFrom (memory : ByteStore) (output : Nat → Nat) (outPos input n : Nat) : Nat → Nat :=
  fun p => if outPos ≤ p ∧ p < outPos + n then memory (input + (p - outPos)) else output p

/-- One iteration of the `while` loop of `ReceiveData<N>` (lines 179-192). The
remaining amount is a positive multiple of the unit when the body runs, so its
decrement does not wrap. -/
def receiveStep (N : Nat) (w : FieldWidths) (s : ReceiveState) : ReceiveState :=
  let output_unit := s.buf.transfer_unit / N
  let output :=
    if N = 1 then memmoveFrom s.memory s.output s.outPos s.input output_unit
    else forLoop output_unit
      (fun i out => set1 out (s.outPos + i) (s.memory (s.input + i * N))) s.output
  { memory := s.memory
    output := output
    outPos := s.outPos + output_unit
    input := s.input + (s.buf.transfer_unit + s.buf.gap)
    buf := { address := addWrap w.addressBits s.buf.address (s.buf.transfer_unit + s.buf.gap)
             image_size := subWrap w.sizeBits s.buf.image_size s.buf.transfer_unit
             transfer_unit := s.buf.transfer_unit
             gap := s.buf.gap }
    amount_of_data := s.amount_of_data - output_unit }

/-- The loop `while (amount_of_data > 0)` of `ReceiveData<N>`, granted `fuel`
iterations: `none` when they do not suffice. -/
def receiveLoop (N : Nat) (w : FieldWidths) : Nat → ReceiveState → Option ReceiveState
  | 0, s => if s.amount_of_data > 0 then none else some s
  | fuel + 1, s =>
    if s.amount_of_data > 0 then receiveLoop N w fuel (receiveStep N w s) else some s

/-- The state of `ReceiveData` when the assertion is evaluated. -/
def receiveInit (memory : ByteStore) (output : Nat → Nat) (outPos : Nat)
    (buf : ConversionBuffer) (amount_of_data : Nat) : ReceiveState :=
  { memory := memory, output := output, outPos := outPos, input := GetPointer buf.address,
    buf := buf, amount_of_data := amount_of_data }

/-- The function template `ReceiveData<N>` (lines 170-194). The destination is
the array `output` written from position `outPos` on. A failed `ASSERT` aborts;
the remainder by zero in its condition when `transfer_unit < N` is undefined and
is treated as an abort as well. Every
iteration lowers the remaining amount by at least one, so `amount_of_data`
iterations are granted to the loop. -/
def ReceiveData (N : Nat) (w : FieldWidths) (memory : ByteStore) (output : Nat → Nat)
    (outPos : Nat) (buf : ConversionBuffer) (amount_of_data : Nat) : Outcome ReceiveState :=
  let output_unit := buf.transfer_unit / N
  let s := receiveInit memory output outPos buf amount_of_data
  if output_unit = 0 then .fatal s
  else if amount_of_data % output_unit ≠ 0 then .fatal s
  else match receiveLoop N w amount_of_data s with
    | some s' => .done s'
    | none => .timeout

/-- A store holding the little-endian 16-bit sample `0x1234` at address 0. -/
def sampleStore : ByteStore := fun a => if a = 0 then 0x34 else if a = 1 then 0x12 else 0

/-! ## Streaming output -/

/-- Modelled from the spec: the enumeration `OutputFormat`, which is declared outside
the translated sources: the four formats `SendData` names, and `other` for any
further value of the underlying integer type. -/
inductive OutputFormat where
  | RGBA8
  | RGB8
  | RGB5A1
  | RGB565
  | other (value : Nat)
deriving DecidableEq, Repr

/-- The increment of the pointer `output` after one pixel in each case of
`SendData` (`output += 4`, `output += 3`, `output += 2`, `output += 2`). -/
def bytesPerPixel : OutputFormat → Nat
  | .RGBA8 => 4
  | .RGB8 => 3
  | .RGB5A1 => 2
  | .RGB565 => 2
  | .other _ => 0

/-- Modelled from the spec: the encoders `Color::EncodeRGBA8`, `Color::EncodeRGB8`,
`Color::EncodeRGB5A1` and `Color::EncodeRGB565`, which are not part of the
translated sources. The spec gives each format a fixed encoding rule and byte
width; the rule itself is a parameter: `enc fmt r g b a i` is byte `i` of the
encoding of the colour vector `(r, g, b, a)` in format `fmt`, and the encoder
writes the bytes `i < bytesPerPixel fmt`. -/
abbrev PixelEncoder := OutputFormat → Nat → Nat → Nat → Nat → Nat → Nat

/-- The variables of `SendData`: the store, the number of pixels read through the
pointer `input`, the position of the pointer `output` in the store, the buffer
cursor and the remaining `amount_of_data` (an `int`). -/
structure SendState where
  memory : ByteStore
  inPos : Nat
  output : Nat
  buf : ConversionBuffer
  amount_of_data : Int

/-- Body of the inner loop of `SendData` (for instance lines 207-214): reads one
colour, encodes `(u8)(color >> 24)`, `(u8)(color >> 16)`, `(u8)(color >> 8)` and
`alpha` at `output`, advances `output` and lowers the remaining amount by one. -/
def sendPixel (enc : PixelEncoder) (fmt : OutputFormat) (input : Nat → Nat) (alpha : Nat)
    (s : SendState) : SendState :=
  let color := input s.inPos
  let r := (color >>> 24) % 256
  let g := (color >>> 16) % 256
  let b := (color >>> 8) % 256
  { memory := fun a =>
      if s.output ≤ a ∧ a < s.output + bytesPerPixel fmt
      then enc fmt r g b alpha (a - s.output) else s.memory a
    inPos := s.inPos + 1
    output := s.output + bytesPerPixel fmt
    buf := s.buf
    amount_of_data := s.amount_of_data - 1 }

/-- The inner loop `while (output < unit_end)` of `SendData`, granted `fuel`
iterations: `none` when they do not suffice. -/
def sendUnitLoop (enc : PixelEncoder) (fmt : OutputFormat) (input : Nat → Nat) (alpha : Nat)
    (unit_end : Nat) : Nat → SendState → Option SendState
  | 0, s => if s.output < unit_end then none else some s
  | fuel + 1, s =>
    if s.output < unit_end
    then sendUnitLoop enc fmt input alpha unit_end fuel (sendPixel enc fmt input alpha s)
    else some s

/-- The end of one iteration of the outer loop of `SendData` (for instance lines
217-219): skips the gap and advances the cursor. -/
def sendUnitEnd (w : FieldWidths) (s : SendState) : SendState :=
  { memory := s.memory
    inPos := s.inPos
    output := s.output + s.buf.gap
    buf := { address := addWrap w.addressBits s.buf.address (s.buf.transfer_unit + s.buf.gap)
             image_size := subWrap w.sizeBits s.buf.image_size s.buf.transfer_unit
             transfer_unit := s.buf.transfer_unit
             gap := s.buf.gap }
    amount_of_data := s.amount_of_data }

/-- One iteration of the outer loop of `SendData`. Every pixel advances `output`
by at least one byte, so `transfer_unit` iterations are granted to the inner loop. -/
def sendUnit (enc : PixelEncoder) (w : FieldWidths) (fmt : OutputFormat) (input : Nat → Nat)
    (alpha : Nat) (s : SendState) : Option SendState :=
  (sendUnitLoop enc fmt input alpha (s.output + s.buf.transfer_unit) s.buf.transfer_unit s).map
    (sendUnitEnd w)

/-- The outer loop `while (amount_of_data > 0)` of `SendData`, granted `fuel`
iterations: `none` when they do not suffice. -/
def sendLoop (enc : PixelEncoder) (w : FieldWidths) (fmt : OutputFormat) (input : Nat → Nat)
    (alpha : Nat) : Nat → SendState → Option SendState
  | 0, s => if s.amount_of_data > 0 then none else some s
  | fuel + 1, s =>
    if s.amount_of_data > 0
    then (sendUnit enc w fmt input alpha s).bind (sendLoop enc w fmt input alpha fuel)
    else some s

/-- The number of pixels `SendData` writes per unit: the inner loop runs until
`output` reaches `unit_end`, that is `ceil(transfer_unit / bytesPerPixel)` times. -/
def pixelsPerUnit (fmt : OutputFormat) (transfer_unit : Nat) : Nat :=
  (transfer_unit + bytesPerPixel fmt - 1) / bytesPerPixel fmt

/-- One whole iteration of the outer loop of `SendData` once its inner loop has
run its `pixelsPerUnit` iterations. -/
def sendUnitStep (enc : PixelEncoder) (w : FieldWidths) (fmt : OutputFormat)
    (input : Nat → Nat) (alpha : Nat) (s : SendState) : SendState :=
  sendUnitEnd w ((sendPixel enc fmt input alpha)^[pixelsPerUnit fmt s.buf.transfer_unit] s)

/-- The state of `SendData` before its `switch`. -/
def sendInit (memory : ByteStore) (buf : ConversionBuffer) (amount_of_data : Int) : SendState :=
  { memory := memory, inPos := 0, output := GetPointer buf.address, buf := buf,
    amount_of_data := amount_of_data }

/-- The function `SendData` (lines 198-277). Its four cases differ in the encoder and
in the pixel width only; a format outside the four cases leaves everything as it
is. Whenever a unit holds at least one pixel, every iteration of the outer loop
lowers the remaining amount by at least one, so `amount_of_data` iterations are
granted to it; with an empty unit the loop never ends, which shows as `timeout`. -/
def SendData (enc : PixelEncoder) (w : FieldWidths) (memory : ByteStore) (input : Nat → Nat)
    (buf : ConversionBuffer) (amount_of_data : Int) (output_format : OutputFormat)
    (alpha : Nat) : Outcome SendState :=
  match output_format with
  | .other _ => .done (sendInit memory buf amount_of_data)
  | fmt =>
    match sendLoop enc w fmt input alpha amount_of_data.toNat
        (sendInit memory buf amount_of_data) with
    | some s => .done s
    | none => .timeout

/-! ## Tile transform -/

/-- The table `linear_lut` (lines 279-290). -/
def linear_lut_entries : List Nat :=
  [ 0,  1,  2,  3,  4,  5,  6,  7,
    8,  9, 10, 11, 12, 13, 14, 15,
   16, 17, 18, 19, 20, 21, 22, 23,
   24, 25, 26, 27, 28, 29, 30, 31,
   32, 33, 34, 35, 36, 37, 38, 39,
   40, 41, 42, 43, 44, 45, 46, 47,
   48, 49, 50, 51, 52, 53, 54, 55,
   56, 57, 58, 59, 60, 61, 62, 63]

/-- The read `linear_lut[i]`. -/
def linear_lut (i : Nat) : Nat := linear_lut_entries.getD i 0

/-- The table `morton_lut` (lines 292-303). -/
def morton_lut_entries : List Nat :=
  [ 0,  1,  4,  5, 16, 17, 20, 21,
    2,  3,  6,  7, 18, 19, 22, 23,
    8,  9, 12, 13, 24, 25, 28, 29,
   10, 11, 14, 15, 26, 27, 30, 31,
   32, 33, 36, 37, 48, 49, 52, 53,
   34, 35, 38, 39, 50, 51, 54, 55,
   40, 41, 44, 45, 56, 57, 60, 61,
   42, 43, 46, 47, 58, 59, 62, 63]

/-- The read `morton_lut[i]`. -/
def morton_lut (i : Nat) : Nat := morton_lut_entries.getD i 0

/-- The function `RotateTile0` (lines 305-310). -/
def RotateTile0 (input output : Nat → Nat) (height : Nat) (out_map : Nat → Nat) : Nat → Nat :=
  forLoop (height * 8) (fun i out => set1 out (out_map i) (input i)) output

/-- The statement `output[out_map[out_i++]] = input[src]` on the pair of `out_i`
and the tile `output`. -/
def rotateStore (input : Nat → Nat) (out_map : Nat → Nat) (src : Nat)
    (st : Nat × (Nat → Nat)) : Nat × (Nat → Nat) :=
  (st.1 + 1, set1 st.2 (out_map st.1) (input src))

/-- The function `RotateTile90` (lines 312-320); the inner loop runs `y` from
`height - 1` down to `0`. -/
def RotateTile90 (input output : Nat → Nat) (height : Nat) (out_map : Nat → Nat) : Nat → Nat :=
  (forLoop 8 (fun x st =>
    forLoop height (fun j st => rotateStore input out_map ((height - 1 - j) * 8 + x) st) st)
    (0, output)).2

/-- The function `RotateTile180` (lines 322-328); the loop runs `i` from
`height * 8 - 1` down to `0`. -/
def RotateTile180 (input output : Nat → Nat) (height : Nat) (out_map : Nat → Nat) : Nat → Nat :=
  (forLoop (height * 8) (fun j st => rotateStore input out_map (height * 8 - 1 - j) st)
    (0, output)).2

/-- The function `RotateTile270` (lines 330-338); the outer loop runs `x` from `7`
down to `0`. -/
def RotateTile270 (input output : Nat → Nat) (height : Nat) (out_map : Nat → Nat) : Nat → Nat :=
  (forLoop 8 (fun j st =>
    forLoop height (fun y st => rotateStore input out_map (y * 8 + (7 - j)) st) st)
    (0, output)).2

/-- The `u32` element `i` of a byte buffer viewed through a `u32*` (little-endian). -/
def readU32 (buffer : Nat → Nat) (i : Nat) : Nat :=
  buffer (4 * i) % 256 + (buffer (4 * i + 1) % 256) * 256
    + (buffer (4 * i + 2) % 256) * 65536 + (buffer (4 * i + 3) % 256) * 16777216

/-- The store of the `u32` value `v` into element `i` of a byte buffer viewed
through a `u32*` (little-endian). -/
def writeU32 (buffer : Nat → Nat) (i v : Nat) : Nat → Nat :=
  fun a => if 4 * i ≤ a ∧ a < 4 * i + 4 then (v >>> (8 * (a - 4 * i))) % 256 else buffer a

/-- The function `WriteTileToOutput` (lines 340-346), the pointer `output` being
element `out` of the `u32` view of the byte buffer `buffer`. -/
def WriteTileToOutput (buffer : Nat → Nat) (out : Nat) (tile : Nat → Nat)
    (height line_stride : Nat) : Nat → Nat :=
  forLoop height (fun y buffer =>
    forLoop 8 (fun x buffer =>
      writeU32 buffer (out + (y * line_stride + x)) (tile (y * 8 + x))) buffer) buffer

/-- The four rotations applied in sequence to `input`, each on a full tile with
the linear output map; `o1 .. o4` are the previous contents of the four output
tiles. -/
def rotateAllFour (input o1 o2 o3 o4 : Nat → Nat) : Nat → Nat :=
  RotateTile270
    (RotateTile180
      (RotateTile90 (RotateTile0 input o1 8 linear_lut) o2 8 linear_lut) o3 8 linear_lut)
    o4 8 linear_lut

/-! ## Conversion orchestrator -/

/-- Modelled from the spec: the enumeration `Rotation`, which is declared outside the
translated sources: no rotation, 90, 180 and 270 degrees clockwise, and `other`
for any further value of the underlying integer type. -/
inductive Rotation where
  | None
  | Clockwise_90
  | Clockwise_180
  | Clockwise_270
  | other (value : Nat)
deriving DecidableEq, Repr

/-- Modelled from the spec: the enumeration `BlockAlignment`, which is declared
outside the translated sources: linear output, 8x8 swizzled output, and `other`
for any further value of the underlying integer type. -/
inductive BlockAlignment where
  | Linear
  | Block8x8
  | other (value : Nat)
deriving DecidableEq, Repr

/-- Modelled from the spec: the struct `ConversionConfiguration`, which is declared
outside the translated sources: the parameter set of one conversion job, with one
`ConversionBuffer` per stream. -/
structure ConversionConfiguration where
  input_format : InputFormat
  output_format : OutputFormat
  rotation : Rotation
  block_alignment : BlockAlignment
  input_line_width : Nat
  input_lines : Nat
  coefficient : Nat
  alpha : Nat
  src_Y : ConversionBuffer
  src_U : ConversionBuffer
  src_V : ConversionBuffer
  src_YUYV : ConversionBuffer
  dst : ConversionBuffer
deriving DecidableEq, Repr

/-- The constant `MAX_TILES` (line 80). -/
def MAX_TILES : Nat := 1024 / 8

/-- The constant `TILE_SIZE` (line 81). -/
def TILE_SIZE : Nat := 8 * 8

/-- How a run of `PerformConversion` ends: it returns with state `s`, it aborts on a
failed `ASSERT` in state `s`, it reads through a null pointer in state `s`, or a
loop did not finish within the iterations granted. -/
inductive RunOutcome (σ : Type) where
  | done (s : σ)
  | fatal (s : σ)
  | fault (s : σ)
  | timeout

/-- Continues a run that has not ended. -/
def RunOutcome.andThen {σ : Type} (r : RunOutcome σ) (f : σ → RunOutcome σ) : RunOutcome σ :=
  match r with
  | .done s => f s
  | .fatal s => .fatal s
  | .fault s => .fault s
  | .timeout => .timeout

/-- A loop `for (i = 0; i < n; ++i) body` whose body may end the run. -/
def forLoopR {σ : Type} : Nat → (Nat → σ → RunOutcome σ) → σ → RunOutcome σ
  | 0, _, s => .done s
  | n + 1, body, s => (forLoopR n body s).andThen (body n)

/-- The state of a run of `PerformConversion`: the store, the configuration with its
cursors, the table cache, the byte array `data_buffer`, the array `tiles`, the tile
`tmp_tile`, and, as a trace that is not a variable of the source, the `row_height`
of every strip finished so far with the pixel count handed to `SendData` for it. -/
structure PerformState where
  memory : ByteStore
  cvt : ConversionConfiguration
  cache : TableCache
  data_buffer : Nat → Nat
  tiles : Nat → Nat → Nat
  tmp_tile : Nat → Nat
  sent : List (Nat × Int)

/-- The parameters a run takes from outside the translated sources: the pixel
encoders, the widths of the cursor fields, the array `standard_coefficients`, and
the contents of the memory obtained for a new table, for `data_buffer`, for
`tiles` and for `tmp_tile`. -/
structure Environment where
  enc : PixelEncoder
  widths : FieldWidths
  standard_coefficients : Nat → CoefficientSet
  rawTable : Y2UTable
  rawBuffer : Nat → Nat
  rawTiles : Nat → Nat → Nat
  rawTmp : Nat → Nat

/-- A buffer without its position: `transfer_unit` and `gap` only. -/
def ConversionBuffer.shape (b : ConversionBuffer) : ConversionBuffer :=
  { b with address := 0, image_size := 0 }

/-- A configuration without the positions `address` and `image_size` of its five
cursors: the part of it that no transfer changes. -/
def ConversionConfiguration.job (c : ConversionConfiguration) : ConversionConfiguration :=
  { c with src_Y := c.src_Y.shape, src_U := c.src_U.shape, src_V := c.src_V.shape,
           src_YUYV := c.src_YUYV.shape, dst := c.dst.shape }

/-- The four source streams of a configuration. -/
inductive Stream where
  | Y
  | U
  | V
  | YUYV
deriving DecidableEq, Repr

/-- The buffer `cvt.src_Y`, `cvt.src_U`, `cvt.src_V` or `cvt.src_YUYV`. -/
def ConversionConfiguration.src (cvt : ConversionConfiguration) : Stream → ConversionBuffer
  | .Y => cvt.src_Y
  | .U => cvt.src_U
  | .V => cvt.src_V
  | .YUYV => cvt.src_YUYV

/-- The configuration with one source buffer replaced. -/
def ConversionConfiguration.setSrc (cvt : ConversionConfiguration) (k : Stream)
    (buf : ConversionBuffer) : ConversionConfiguration :=
  match k with
  | .Y => { cvt with src_Y := buf }
  | .U => { cvt with src_U := buf }
  | .V => { cvt with src_V := buf }
  | .YUYV => { cvt with src_YUYV := buf }

/-- A call `ReceiveData<N>(memory, data_buffer + offset, cvt.src, amount)` inside
`PerformConversion`. -/
def receiveInto (env : Environment) (N : Nat) (k : Stream) (offset amount : Nat)
    (st : PerformState) : RunOutcome PerformState :=
  match ReceiveData N env.widths st.memory st.data_buffer offset (st.cvt.src k) amount with
  | .done s =>
    .done { st with memory := s.memory, data_buffer := s.output, cvt := st.cvt.setSrc k s.buf }
  | .fatal _ => .fatal st
  | .timeout => .timeout

/-- The `switch (cvt.input_format)` of `PerformConversion` (lines 433-459): the pulls
of one strip of `row_data_size` pixels, with `input_Y` at the start of
`data_buffer`, `input_U` at offset `width << 3` and `input_V` a further
`width << 2` bytes on. -/
def receiveStrip (env : Environment) (row_data_size : Nat) (st : PerformState) :
    RunOutcome PerformState :=
  let offU := st.cvt.input_line_width <<< 3
  let offV := offU + (st.cvt.input_line_width <<< 2)
  match st.cvt.input_format with
  | .YUV422_Indiv8 =>
    ((receiveInto env 1 .Y 0 row_data_size st).andThen
      (receiveInto env 1 .U offU (row_data_size >>> 1))).andThen
      (receiveInto env 1 .V offV (row_data_size >>> 1))
  | .YUV420_Indiv8 =>
    ((receiveInto env 1 .Y 0 row_data_size st).andThen
      (receiveInto env 1 .U offU (row_data_size >>> 2))).andThen
      (receiveInto env 1 .V offV (row_data_size >>> 2))
  | .YUV422_Indiv16 =>
    ((receiveInto env 2 .Y 0 row_data_size st).andThen
      (receiveInto env 2 .U offU (row_data_size >>> 1))).andThen
      (receiveInto env 2 .V offV (row_data_size >>> 1))
  | .YUV420_Indiv16 =>
    ((receiveInto env 2 .Y 0 row_data_size st).andThen
      (receiveInto env 2 .U offU (row_data_size >>> 2))).andThen
      (receiveInto env 2 .V offV (row_data_size >>> 2))
  | .YUYV422_Interleaved => receiveInto env 1 .YUYV 0 (row_data_size <<< 1) st
  | .other _ => .done st

/-- The pointer `data_buffer + offset` as an argument of the decoder. -/
def bufferPtr (buffer : Nat → Nat) (offset : Nat) : BytePtr := some (fun i => buffer (offset + i))

/-- The call of `ConvertYUVToRGB` in `PerformConversion` (lines 463-464); for the
interleaved format `input_U` and `input_V` are null (lines 455-456). -/
def decodeInto (env : Environment) (row_height : Nat) (st : PerformState) :
    RunOutcome PerformState :=
  let offU := st.cvt.input_line_width <<< 3
  let offV := offU + (st.cvt.input_line_width <<< 2)
  let input_U := if st.cvt.input_format = .YUYV422_Interleaved then none
    else bufferPtr st.data_buffer offU
  let input_V := if st.cvt.input_format = .YUYV422_Interleaved then none
    else bufferPtr st.data_buffer offV
  match ConvertYUVToRGB env.standard_coefficients env.rawTable st.cache st.cvt.input_format
      (bufferPtr st.data_buffer 0) input_U input_V st.tiles st.cvt.input_line_width row_height
      st.cvt.coefficient with
  | some (cache, tiles) => .done { st with cache := cache, tiles := tiles }
  | none => .fault st

/-- The pointer `tile_remap` chosen by the `switch (cvt.block_alignment)` on lines
414-421; it stays null for any other value. -/
def tileRemap : BlockAlignment → Option (Nat → Nat)
  | .Linear => some linear_lut
  | .Block8x8 => some morton_lut
  | .other _ => none

/-- A call of one of the `RotateTile` functions with the pointer `tile_remap`: the
first store reads through it, which is a fault when it is null. -/
def rotateWith (f : (Nat → Nat) → (Nat → Nat) → Nat → (Nat → Nat) → Nat → Nat)
    (tile_remap : Option (Nat → Nat)) (input tmp_tile : Nat → Nat) (row_height : Nat) :
    Option (Nat → Nat) :=
  match tile_remap with
  | some out_map => some (f input tmp_tile row_height out_map)
  | none => if row_height = 0 then some tmp_tile else none

/-- The variables of the loop over the tiles of a strip: `data_buffer`, `tmp_tile`
and the position of the pointer `output_buffer` in the `u32` view of `data_buffer`. -/
structure TileLoopState where
  buffer : Nat → Nat
  tmp_tile : Nat → Nat
  out : Nat

/-- Body of the loop over the tiles (lines 469-506) for tile slot `i`. -/
def tileStep (rotation : Rotation) (block_alignment : BlockAlignment)
    (tiles : Nat → Nat → Nat) (num_tiles width row_height i : Nat) (s : TileLoopState) :
    Option TileLoopState :=
  let tile_remap := tileRemap block_alignment
  let rotated : Option ((Nat → Nat) × Nat × Nat) :=
    match rotation with
    | .None =>
      (rotateWith RotateTile0 tile_remap (tiles i) s.tmp_tile row_height).map
        (fun t => (t, width, 8))
    | .Clockwise_90 =>
      (rotateWith RotateTile90 tile_remap (tiles i) s.tmp_tile row_height).map
        (fun t => (t, 8, row_height <<< 3))
    | .Clockwise_180 =>
      (rotateWith RotateTile180 tile_remap (tiles (num_tiles - i - 1)) s.tmp_tile
        row_height).map (fun t => (t, width, 8))
    | .Clockwise_270 =>
      (rotateWith RotateTile270 tile_remap (tiles (num_tiles - i - 1)) s.tmp_tile
        row_height).map (fun t => (t, 8, row_height <<< 3))
    | .other _ => some (s.tmp_tile, 0, 0)
  rotated.map (fun (tmp_tile, image_strip_width, output_stride) =>
    match block_alignment with
    | .Linear =>
      { buffer := WriteTileToOutput s.buffer s.out tmp_tile row_height image_strip_width
        tmp_tile := tmp_tile
        out := s.out + output_stride }
    | .Block8x8 =>
      { buffer := WriteTileToOutput s.buffer s.out tmp_tile 8 8
        tmp_tile := tmp_tile
        out := s.out + TILE_SIZE }
    | .other _ => { buffer := s.buffer, tmp_tile := tmp_tile, out := s.out })

/-- The loop over the tiles of a strip (lines 466-507), started with
`output_buffer` at the beginning of `data_buffer`. -/
def tileLoop (rotation : Rotation) (block_alignment : BlockAlignment)
    (tiles : Nat → Nat → Nat) (num_tiles width row_height : Nat)
    (buffer tmp_tile : Nat → Nat) : Option TileLoopState :=
  forLoopM num_tiles (tileStep rotation block_alignment tiles num_tiles width row_height)
    { buffer := buffer, tmp_tile := tmp_tile, out := 0 }

/-- The loop over the tiles inside `PerformConversion`. -/
def transformInto (num_tiles row_height : Nat) (st : PerformState) : RunOutcome PerformState :=
  match tileLoop st.cvt.rotation st.cvt.block_alignment st.tiles num_tiles
      st.cvt.input_line_width row_height st.data_buffer st.tmp_tile with
  | some s => .done { st with data_buffer := s.buffer, tmp_tile := s.tmp_tile }
  | none => .fault st

/-- The call of `SendData` in `PerformConversion` (lines 511-512), with the `u32`
view of `data_buffer` as input, the count `(int)row_data_size` and the alpha
`(u8)cvt.alpha`. -/
def sendFrom (env : Environment) (row_height row_data_size : Nat) (st : PerformState) :
    RunOutcome PerformState :=
  let amount := wrapS32 (row_data_size : Int)
  match SendData env.enc env.widths st.memory (readU32 st.data_buffer) st.cvt.dst amount
      st.cvt.output_format (st.cvt.alpha % 256) with
  | .done s =>
    .done { st with memory := s.memory, cvt := { st.cvt with dst := s.buf },
                    sent := st.sent ++ [(row_height, amount)] }
  | .fatal _ => .fatal st
  | .timeout => .timeout

/-- Body of the loop over the strips (lines 424-512) for the strip that starts at
row `y`. -/
def stripStep (env : Environment) (num_tiles y : Nat) (st : PerformState) :
    RunOutcome PerformState :=
  let row_height := min (st.cvt.input_lines - y) 8
  let row_data_size := row_height * st.cvt.input_line_width
  (((receiveStrip env row_data_size st).andThen
    (decodeInto env row_height)).andThen
    (transformInto num_tiles row_height)).andThen
    (sendFrom env row_height row_data_size)

/-- The state of a run at entry. -/
def performInit (env : Environment) (memory : ByteStore) (cache : TableCache)
    (cvt : ConversionConfiguration) : PerformState :=
  { memory := memory, cvt := cvt, cache := cache, data_buffer := env.rawBuffer,
    tiles := env.rawTiles, tmp_tile := env.rawTmp, sent := [] }

/-- The function `PerformConversion` (lines 398-514). The loop over the strips
advances `y` by 8, so its body runs for `y = 0, 8, 16, ...` below `input_lines`. -/
def PerformConversion (env : Environment) (memory : ByteStore) (cache : TableCache)
    (cvt : ConversionConfiguration) : RunOutcome PerformState :=
  let st := performInit env memory cache cvt
  if cvt.input_line_width % 8 ≠ 0 then .fatal st
  else if ¬ (cvt.block_alignment ≠ .Block8x8 ∨ cvt.input_lines % 8 = 0) then .fatal st
  else
    let num_tiles := cvt.input_line_width >>> 3
    if ¬ (num_tiles ≤ MAX_TILES) then .fatal st
    else forLoopR ((cvt.input_lines + 7) / 8) (fun i st => stripStep env num_tiles (8 * i) st) st

/-- The address from which `ReceiveData<1>` takes byte `q` of a stream whose cursor
is `buf`: byte `q mod transfer_unit` of unit `q / transfer_unit`. -/
def ConversionBuffer.byteAddress (buf : ConversionBuffer) (q : Nat) : Nat :=
  buf.address + q / buf.transfer_unit * (buf.transfer_unit + buf.gap) + q % buf.transfer_unit

/-! ## Rows of the decoder and invariant of the table cache -/

/-- The number of tile rows the loops of `ConvertYUVToRGB` pass over for a strip of
`height` rows: the 4:2:2 and interleaved loops handle one row per iteration, the
4:2:0 loop handles two rows per iteration without a second test of `y < height`,
and no loop runs for a format outside the five cases. -/
def rowsWritten : InputFormat → Nat → Nat
  | .YUV422_Indiv8, height => height
  | .YUV422_Indiv16, height => height
  | .YUV420_Indiv8, height => 2 * ((height + 1) / 2)
  | .YUV420_Indiv16, height => 2 * ((height + 1) / 2)
  | .YUYV422_Interleaved, height => height
  | .other _, _ => 0

/-- The invariant of the vector `Y2RTables`: every slot is empty or holds a table
that the constructor of `Y2UTable` produced for the coefficient tuple of that slot,
in whatever storage it was given. -/
def cacheValid (standard_coefficients : Nat → CoefficientSet) (cache : TableCache) : Prop :=
  ∀ i t, cache i = some t → ∃ raw, t = Y2UTable.build (standard_coefficients i) raw

/-- A `const u8*` argument points to bytes: every element is below 256. -/
def bytesOnly (p : BytePtr) : Prop := ∀ a, p = some a → ∀ i, a i < 256

/-! ## Samples delivered to the decoder -/

/-- The three pointer arguments `input_Y`, `input_U`, `input_V` of the decoder. -/
inductive InputArray where
  | Y
  | U
  | V
deriving DecidableEq, Repr

/-- The number of samples the `ReceiveData` call of `PerformConversion` stores into
an input array for a strip of `row_data_size` pixels (lines 433-459): the amount
argument of the call, and `0` where no call fills the array. -/
def delivered (input_format : InputFormat) (row_data_size : Nat) : InputArray → Nat :=
  match input_format with
  | .YUV422_Indiv8 | .YUV422_Indiv16 => fun
    | .Y => row_data_size
    | .U => row_data_size >>> 1
    | .V => row_data_size >>> 1
  | .YUV420_Indiv8 | .YUV420_Indiv16 => fun
    | .Y => row_data_size
    | .U => row_data_size >>> 2
    | .V => row_data_size >>> 2
  | .YUYV422_Interleaved => fun
    | .Y => row_data_size <<< 1
    | .U => 0
    | .V => 0
  | .other _ => fun _ => 0

/-- The offset in `data_buffer` of the array an input pointer of `PerformConversion`
points to (lines 430-432): `input_Y` at the start, `input_U` at `width << 3`,
`input_V` a further `width << 2` bytes on. -/
def arrayOffset (width : Nat) : InputArray → Nat
  | .Y => 0
  | .U => width <<< 3
  | .V => (width <<< 3) + (width <<< 2)

/-! ## Sample inputs -/

/-- A coefficient array whose every row is `sampleCoefficients`. -/
def sampleCoefficientArray : Nat → CoefficientSet := fun _ => sampleCoefficients

/-- The table cache before any table is built. -/
def emptyCache : TableCache := fun _ => none

/-- Tiles filled with zero. -/
def blankTiles : Nat → Nat → Nat := fun _ _ => 0

/-- A luma plane holding the ramp `0, 1, ..., 255, 0, ...`. -/
def sampleLuma : Nat → Nat := fun n => n % 256

/-- A chroma plane holding the constant 128. -/
def sampleChroma : Nat → Nat := fun _ => 128

/-- A luma plane that agrees with `sampleLuma` on the samples `0 .. 7` and holds 255
from sample 8 on. -/
def alteredLuma : Nat → Nat := fun n => if n < 8 then n % 256 else 255

/-- A destination array filled with zero. -/
def blankOutput : Nat → Nat := fun _ => 0

/-- A cursor at address `0x100` with 64 bytes left, units of 16 bytes and gaps of 4. -/
def sampleBuffer : ConversionBuffer := ⟨0x100, 64, 16, 4⟩

/-- A coefficient tuple with the largest `c2` and `c3` of the type `s16`. -/
def largeGreenCoefficients : CoefficientSet := ⟨0, 0, 32767, 32767, 0, 0, 0, 0⟩

/-- The tile whose entry `i` is `i`. -/
def rampTile : Nat → Nat := fun i => i

/-- A sample pixel encoder: the bytes of a pixel are its components in the order
R, G, B, A, as many as the format has bytes. -/
def sampleEncoder : PixelEncoder := fun _ r g b a i => [r, g, b, a].getD i 0

/-- A sample environment: 32-bit cursor fields and zeroed fresh memory. -/
def sampleEnvironment : Environment :=
  { enc := sampleEncoder, widths := widths32, standard_coefficients := sampleCoefficientArray,
    rawTable := zeroTable, rawBuffer := blankOutput, rawTiles := blankTiles,
    rawTmp := blankOutput }

/-- A sample job: an image of 8 x 12 pixels of planar 4:2:2 8-bit input, so that the
second strip has 4 rows, sent as RGBA8 in units of 32 bytes. -/
def sampleConfiguration : ConversionConfiguration :=
  { input_format := .YUV422_Indiv8, output_format := .RGBA8, rotation := .None,
    block_alignment := .Linear, input_line_width := 8, input_lines := 12,
    coefficient := 0, alpha := 255,
    src_Y := ⟨0, 96, 32, 0⟩, src_U := ⟨0x100, 48, 16, 0⟩, src_V := ⟨0x200, 48, 16, 0⟩,
    src_YUYV := ⟨0, 0, 0, 0⟩, dst := ⟨0x1000, 384, 32, 0⟩ }

/-- The sample job with an empty destination unit. -/
def stalledConfiguration : ConversionConfiguration :=
  { sampleConfiguration with dst := ⟨0x1000, 384, 0, 0⟩ }

/-- A job whose line width is not a multiple of 8. -/
def oddWidthConfiguration : ConversionConfiguration :=
  { sampleConfiguration with input_line_width := 12 }

/-- Sample intermediate colours `R << 24 | G << 16 | B << 8`, one per pixel. -/
def samplePixels : Nat → Nat := fun m => 0x11223300 + 0x01000000 * (m % 16)

/-- Sample tiles holding distinct `u32` values. -/
def rampTiles : Nat → Nat → Nat := fun t i => (64 * t + i) % 4294967296

/-- A store holding a uniform image: every sample is 128, with 64 luma bytes from
address 0, 32 bytes of U from `0x100` and 32 bytes of V from `0x200`. -/
def uniformStore : ByteStore := fun a => if a < 0x300 then 128 else 0

/-- The job for the uniform image: 8 x 8 pixels, planar 4:2:2 8-bit input, no
rotation, linear RGBA8 output with alpha 255, every stream in one unit. -/
def uniformConfiguration : ConversionConfiguration :=
  { input_format := .YUV422_Indiv8, output_format := .RGBA8, rotation := .None,
    block_alignment := .Linear, input_line_width := 8, input_lines := 8,
    coefficient := 0, alpha := 255,
    src_Y := ⟨0, 64, 64, 0⟩, src_U := ⟨0x100, 32, 32, 0⟩, src_V := ⟨0x200, 32, 32, 0⟩,
    src_YUYV := ⟨0, 0, 0, 0⟩, dst := ⟨0x1000, 256, 256, 0⟩ }

/-- A coefficient tuple with `c2 = 32767` and `c3 = 130`, for which the shift
`i << 8` leaves the range of `s32` at the largest chroma sums only. -/
def steepGreenCoefficients : CoefficientSet := ⟨0, 0, 32767, 130, 0, 0, 0, 0⟩

/-- A table cache whose slot 0 holds the table built for `sampleCoefficients`. -/
def warmCache : TableCache :=
  fun i => if i = 0 then some (Y2UTable.build sampleCoefficients zeroTable) else none

/-- Fresh table storage whose bytes are all 255. -/
def onesTable : Y2UTable := ⟨fun _ _ => 255, fun _ _ => 255, fun _ _ => 255, fun _ _ => 255⟩

/-- The sample job with an input format value outside the five named formats. -/
def unknownFormatConfiguration : ConversionConfiguration :=
  { sampleConfiguration with input_format := .other 5 }

end HW.Y2R

/-! ## Linear audio interpolation (`src/audio_core/interpolate.cpp`) -/

namespace AudioCore.AudioInterp

/-- The constant `scale_factor` (line 13): `1 << 24` as `u64`. -/
def scale_factor : Nat := 1 <<< 24

/-- The constant `scale_mask` (line 14). -/
def scale_mask : Nat := scale_factor - 1

/-- Reduction of a natural number to the range of `u64`. -/
def wrapU64 (x : Nat) : Nat := x % 18446744073709551616

/-- Conversion of a signed integer to `u64` (two's complement). -/
def toU64 (x : Int) : Nat := (x % 18446744073709551616).toNat

/-- The conversion `static_cast<s16>` of a `u64` value: its low 16 bits read as a
two's-complement number. -/
def toS16 (x : Nat) : Int := (((x + 32768) % 65536 : Nat) : Int) - 32768

/-- The call `std::clamp<s64>(v, lo, hi)`. -/
def clampS64 (v lo hi : Int) : Int := if v < lo then lo else if hi < v then hi else v

/-- The fraction `fposition & scale_mask` handed to the interpolation function by
`StepOverSamples` (line 87, the loop compiled without `_USE_SSE`). -/
def fractionOf (fposition : Nat) : Nat := fposition &&& scale_mask

/-- One channel of the function `Linear` passes to `StepOverSamples` (lines 113-119):
the difference `x1 - x0` is taken in `int` and saturated as `s64`; in
`x0 + fraction * delta / scale_factor` the operand `delta` is converted to `u64`,
the product, the quotient and the sum are `u64`, and the sum is cast to `s16`. -/
def linearChannel (fraction : Nat) (x0 x1 : Int) : Int :=
  let delta : Int := clampS64 (x1 - x0) (-32768) 32767
  toS16 (wrapU64 (toU64 x0 + wrapU64 (fraction * toU64 delta) / scale_factor))

/-- The function `Linear` passes to `StepOverSamples`: both channels of a stereo
sample. -/
def linearSample (fraction : Nat) (x0 x1 : Int × Int) : Int × Int :=
  (linearChannel fraction x0.1 x1.1, linearChannel fraction x0.2 x1.2)

end AudioCore.AudioInterp

/-! ## Alignment helpers (`src/common/alignment.h`) -/

namespace Common

/-- The value `2 ^ 64`: `std::size_t` is taken to be 64 bits wide. -/
def SIZE_MOD : Nat := 18446744073709551616

/-- The sum `a + b` in `std::size_t`. -/
def addSize (a b : Nat) : Nat := (a + b) % SIZE_MOD

/-- The difference `a - b` in `std::size_t`, for `a, b < 2 ^ 64`. -/
def subSize (a b : Nat) : Nat := (a + SIZE_MOD - b) % SIZE_MOD

/-- The complement `~a` in `std::size_t`, for `a < 2 ^ 64`. -/
def notSize (a : Nat) : Nat := SIZE_MOD - 1 - a

/-- The test `(size & (size - 1)) == 0` of both functions. -/
def maskTest (size : Nat) : Bool := size &&& subSize size 1 == 0

/-- The return value of the first branch of `AlignUp` (line 15), for the unsigned
type `T` of `bits` bits. -/
def alignUpMask (bits value size : Nat) : Nat :=
  (subSize (addSize value size) 1 &&& notSize (subSize size 1)) % 2 ^ bits

/-- The return value of the second branch of `AlignUp` (line 17). -/
def alignUpDivide (bits value size : Nat) : Nat :=
  (subSize (addSize value size) 1 / size * size % SIZE_MOD) % 2 ^ bits

/-- The function `Common::AlignUp` (lines 10-18) for the unsigned type `T` of `bits`
bits, `bits <= 64`; `none` stands for a division by zero. -/
def AlignUp (bits value size : Nat) : Option Nat :=
  if maskTest size then some (alignUpMask bits value size)
  else if size = 0 then none
  else some (alignUpDivide bits value size)

/-- The return value of the first branch of `AlignDown` (line 26). -/
def alignDownMask (bits value size : Nat) : Nat :=
  (value &&& notSize (subSize size 1)) % 2 ^ bits

/-- The return value of the second branch of `AlignDown` (line 28). -/
def alignDownDivide (bits value size : Nat) : Nat :=
  (value / size * size % SIZE_MOD) % 2 ^ bits

/-- The function `Common::AlignDown` (lines 20-29) for the unsigned type `T` of
`bits` bits, `bits <= 64`; `none` stands for a division by zero. -/
def AlignDown (bits value size : Nat) : Option Nat :=
  if maskTest size then some (alignDownMask bits value size)
  else if size = 0 then none
  else some (alignDownDivide bits value size)

end Common

/-! ## Ring of recent lookups (`src/common/cache_map.h`) -/

/-- The class template `cache_buffer<key_type, data_type, _size>` (lines 5-40): the
arrays `keys` and `datas` and the `int` members `p` and `l`. The capacity `_size`
is an argument of the member functions. -/
structure cache_buffer (κ δ : Type) where
  keys : Nat → κ
  datas : Nat → δ
  p : Int
  l : Int

namespace cache_buffer

/-- The constructor (line 8) on arrays holding `keys` and `datas`, which it does
not initialise. -/
def create {κ δ : Type} (keys : Nat → κ) (datas : Nat → δ) : cache_buffer κ δ :=
  { keys := keys, datas := datas, p := 0, l := -1 }

/-- The member function `clear` (lines 9-12). -/
def clear {κ δ : Type} (c : cache_buffer κ δ) : cache_buffer κ δ := { c with p := 0, l := -1 }

/-- The member function `cache_data` (lines 14-26); the reference it returns is the
slot `datas[p]`, given by its index; `(int)_size` keeps the low 32 bits. -/
def cache_data {κ δ : Type} (_size : Nat) (c : cache_buffer κ δ) (key : κ) (data : δ) :
    cache_buffer κ δ × Nat :=
  let slot := c.p.toNat
  ({ keys := fun i => if i = slot then key else c.keys i
     datas := fun i => if i = slot then data else c.datas i
     p := if c.p < HW.Y2R.wrapS32 (_size : Int) - 1 then c.p + 1 else 0
     l := if c.l < HW.Y2R.wrapS32 (_size : Int) - 1 then c.l + 1 else c.l }, slot)

/-- The loop of `hit` (lines 29-33) with `n` slots left to visit, from slot `n - 1`
down to slot `0`. -/
def hitScan {κ : Type} [DecidableEq κ] (keys : Nat → κ) (key : κ) : Nat → Option Nat
  | 0 => none
  | n + 1 => if keys n = key then some n else hitScan keys key n

/-- The member function `hit` (lines 28-35): the index of the slot whose address is
returned, `none` for `NULL`. -/
def hit {κ δ : Type} [DecidableEq κ] (c : cache_buffer κ δ) (key : κ) : Option Nat :=
  hitScan c.keys key (c.l + 1).toNat

/-- A call made on a buffer after its construction. -/
inductive Call (κ δ : Type) where
  | store (key : κ) (data : δ)
  | reset

/-- The buffer after a sequence of calls of `cache_data` and `clear`. -/
def after {κ δ : Type} (_size : Nat) (c : cache_buffer κ δ) :
    List (Call κ δ) → cache_buffer κ δ
  | [] => c
  | .store key data :: rest => after _size (cache_data _size c key data).1 rest
  | .reset :: rest => after _size (clear c) rest

end cache_buffer

/-! ## Dumped video frames (`src/core/dumping/backend.cpp`) -/

namespace VideoDumper

/-- Modelled from the spec: the class `VideoFrame`, which is declared outside the
translated sources: the members `width`, `height`, `stride` and the byte vector
`data`, given by its size and its elements. The width in bits of the unsigned
members is the parameter `bits` of the constructor. -/
structure VideoFrame where
  width : Nat
  height : Nat
  stride : Nat
  size : Nat
  data : Nat → Nat

/-- Reduction to the range of an unsigned type of `bits` bits. -/
def wrap (bits x : Nat) : Nat := x % 2 ^ bits

/-- The store `data[index] = value` into a vector of `size` elements; an index
outside the vector is a fault. -/
def storeAt (size : Nat) (data : Nat → Nat) (index value : Nat) : Option (Nat → Nat) :=
  if index < size then some (fun i => if i = index then value else data i) else none

/-- The constructor `VideoFrame::VideoFrame` (lines 10-21) for members of `bits`
bits; the vector is created with `width * height * 4` zero bytes, the loop counters
are `u32`, and `none` is a store outside the vector. -/
def VideoFrame.create (bits : Nat) (width_ height_ : Nat) (data_ : Nat → Nat) :
    Option VideoFrame :=
  let width := wrap bits width_
  let height := wrap bits height_
  let stride := wrap bits (width * 4)
  let size := wrap bits (wrap bits (width * height) * 4)
  (HW.Y2R.forLoopM height (fun i data =>
    HW.Y2R.forLoopM width (fun j data =>
      HW.Y2R.forLoopM 4 (fun k data =>
        storeAt size data (wrap bits (wrap bits (wrap bits (i * stride) + wrap bits (j * 4)) + k))
          (data_ (wrap bits (wrap bits (wrap bits (wrap bits (wrap bits (height - i) - 1) * stride)
            + wrap bits (j * 4)) + k)))) data) data) (fun _ => 0)).map
    (fun data => { width := width, height := height, stride := stride, size := size,
                   data := data })

end VideoDumper

namespace HW.Y2R

/-! # Theorems -/


theorem forLoop_invariant {σ : Type} (P : σ → Prop) (body : Nat → σ → σ)
    (h : ∀ i s, P s → P (body i s)) : ∀ n s, P s → P (forLoop n body s) := by
  intro n
  induction n with
  | zero => intro s hs; exact hs
  | succ k ih => intro s hs; exact h k _ (ih s hs)

theorem forLoop_induct {σ : Type} (P : Nat → σ → Prop) (body : Nat → σ → σ) (s : σ)
    (h0 : P 0 s) (hs : ∀ i s', P i s' → P (i + 1) (body i s')) :
    ∀ n, P n (forLoop n body s) := by
  intro n
  induction n with
  | zero => exact h0
  | succ k ih => exact hs k _ ih

theorem toU8_lt (x : Int) : toU8 x < 256 := by
  unfold toU8; omega

theorem clamp_range (x : Int) : 0 ≤ clamp x 0 255 ∧ clamp x 0 255 ≤ 255 := by
  unfold clamp
  split_ifs
  all_goals omega

theorem toU8_clamp (x : Int) : (toU8 (clamp x 0 255) : Int) = clamp x 0 255 := by
  have h := clamp_range x
  unfold toU8; omega

theorem wrapS32_of_range (x : Int) (h1 : -2147483648 ≤ x) (h2 : x ≤ 2147483647) :
    wrapS32 x = x := by
  unfold wrapS32; omega

theorem s16_mul_u8 (a : Int) (n : Nat) (ha : isS16 a) (hn : n < 256) :
    -8388608 ≤ a * n ∧ a * n ≤ 8388608 := by
  obtain ⟨h1, h2⟩ := ha
  have h3 : (0 : Int) ≤ n := Int.ofNat_nonneg n
  have h4 : (n : Int) ≤ 255 := by omega
  constructor
  · nlinarith
  · nlinarith

theorem pack_bytes (r g b : Nat) (hr : r < 256) (hg : g < 256) (hb : b < 256) :
    wrapU32 ((r <<< 24) ||| (g <<< 16) ||| (b <<< 8)) = r * 16777216 + g * 65536 + b * 256 := by
  have e1 : (r <<< 24) ||| (g <<< 16) = 2 ^ 24 * r + g * 65536 := by
    rw [Nat.mul_add_lt_is_or (by omega) r, Nat.shiftLeft_eq, Nat.shiftLeft_eq]
    congr 1
    ring
  have e2 : 2 ^ 24 * r + g * 65536 = 2 ^ 16 * (256 * r + g) := by ring
  have e3 : b <<< 8 = b * 256 := by rw [Nat.shiftLeft_eq]
  rw [e1, e2, e3, ← Nat.mul_add_lt_is_or (by omega) (256 * r + g)]
  unfold wrapU32
  omega

theorem byteOf_pack (r g b : Nat) (hr : r < 256) (hg : g < 256) (hb : b < 256) :
    byteOf (r * 16777216 + g * 65536 + b * 256) 3 = r ∧
    byteOf (r * 16777216 + g * 65536 + b * 256) 2 = g ∧
    byteOf (r * 16777216 + g * 65536 + b * 256) 1 = b := by
  unfold byteOf
  simp only [Nat.shiftRight_eq_div_pow]
  refine ⟨?_, ?_, ?_⟩
  all_goals omega


/-! ### Frame lemmas of the constructor loops -/

theorem set2_same (a : Nat → Nat → Nat) (i j v : Nat) : set2 a i j v i j = v := by
  simp [set2]

theorem set2_other (a : Nat → Nat → Nat) (i j v x y : Nat) (h : ¬ (x = i ∧ y = j)) :
    set2 a i j v x y = a x y := by
  simp only [set2, if_neg h]

theorem greenLoop_frame (c : CoefficientSet) (Y V : Nat) (t : Y2UTable) :
    (greenLoop c Y V t).YV2R = t.YV2R ∧ (greenLoop c Y V t).YU2B = t.YU2B ∧
    (greenLoop c Y V t).UV2IG = t.UV2IG := by
  unfold greenLoop
  refine forLoop_invariant (fun s => s.YV2R = t.YV2R ∧ s.YU2B = t.YU2B ∧ s.UV2IG = t.UV2IG) _
    ?_ 256 t ⟨rfl, rfl, rfl⟩
  intro _ _ h
  exact h

theorem blueLoop_frame (c : CoefficientSet) (Y : Nat) (t : Y2UTable) :
    (blueLoop c Y t).YV2R = t.YV2R ∧ (blueLoop c Y t).YIG2G = t.YIG2G ∧
    (blueLoop c Y t).UV2IG = t.UV2IG := by
  unfold blueLoop
  refine forLoop_invariant (fun s => s.YV2R = t.YV2R ∧ s.YIG2G = t.YIG2G ∧ s.UV2IG = t.UV2IG) _
    ?_ 256 t ⟨rfl, rfl, rfl⟩
  intro _ _ h
  exact h

theorem redGreenLoop_frame (c : CoefficientSet) (Y : Nat) (t : Y2UTable) :
    (redGreenLoop c Y t).YU2B = t.YU2B ∧ (redGreenLoop c Y t).UV2IG = t.UV2IG := by
  unfold redGreenLoop
  refine forLoop_invariant (fun s => s.YU2B = t.YU2B ∧ s.UV2IG = t.UV2IG) _ ?_ 256 t ⟨rfl, rfl⟩
  intro V s h
  obtain ⟨_, h2, h3⟩ := greenLoop_frame c Y V { s with YV2R := set2 s.YV2R Y V (rEntry c Y V) }
  exact ⟨h2.trans h.1, h3.trans h.2⟩

theorem buildRGB_UV2IG (c : CoefficientSet) (t : Y2UTable) :
    (buildRGB c t).UV2IG = t.UV2IG := by
  unfold buildRGB
  refine forLoop_invariant (fun s => s.UV2IG = t.UV2IG) _ ?_ 256 t rfl
  intro Y s h
  exact ((blueLoop_frame c Y _).2.2.trans (redGreenLoop_frame c Y s).2).trans h

/-- After the first loop nest every entry `UV2IG[U][V]` holds `igEntry c U V`. -/
theorem buildUV2IG_entry (c : CoefficientSet) (t : Y2UTable) (U V : Nat)
    (hU : U < 256) (hV : V < 256) : (buildUV2IG c t).UV2IG U V = igEntry c U V := by
  unfold buildUV2IG
  have key := forLoop_induct
    (fun n s => ∀ u v, u < 256 → v < n → s.UV2IG u v = igEntry c u v)
    (fun V t => forLoop 256
      (fun U t => { t with UV2IG := set2 t.UV2IG U V (igEntry c U V) }) t) t
    (by intro u v _ hv; omega) ?_ 256
  · exact key U V hU hV
  · intro n s ih
    have inner := forLoop_induct
      (fun m s' => ∀ u v, u < 256 → (v < n ∨ (v = n ∧ u < m)) → s'.UV2IG u v = igEntry c u v)
      (fun U t => { t with UV2IG := set2 t.UV2IG U n (igEntry c U n) }) s
      (by intro u v hu hv
          rcases hv with hv | ⟨_, hv⟩
          · exact ih u v hu hv
          · omega) ?_ 256
    · intro u v hu hv
      apply inner u v hu
      omega
    · intro m s' ih' u v hu hv
      show set2 s'.UV2IG m n (igEntry c m n) u v = igEntry c u v
      by_cases e : u = m ∧ v = n
      · obtain ⟨rfl, rfl⟩ := e
        exact set2_same _ _ _ _
      · rw [set2_other _ _ _ _ _ _ e]
        apply ih' u v hu
        omega

theorem build_UV2IG (c : CoefficientSet) (raw : Y2UTable) (U V : Nat)
    (hU : U < 256) (hV : V < 256) : (Y2UTable.build c raw).UV2IG U V = igEntry c U V := by
  unfold Y2UTable.build
  rw [buildRGB_UV2IG]
  exact buildUV2IG_entry c raw U V hU hV


theorem forLoop_succ {σ : Type} (n : Nat) (body : Nat → σ → σ) (s : σ) :
    forLoop (n + 1) body s = body n (forLoop n body s) := rfl

/-- The loop over `V` leaves in `YV2R` the red entries of the processed columns. -/
theorem redGreenLoop_YV2R (c : CoefficientSet) (Y : Nat) (t : Y2UTable) (y v : Nat) :
    (redGreenLoop c Y t).YV2R y v = if y = Y ∧ v < 256 then rEntry c Y v else t.YV2R y v := by
  unfold redGreenLoop
  refine forLoop_induct
    (fun n s => s.YV2R y v = if y = Y ∧ v < n then rEntry c Y v else t.YV2R y v) _ t ?_ ?_ 256
  · simp
  · intro n s ih
    show (greenLoop c Y n { s with YV2R := set2 s.YV2R Y n (rEntry c Y n) }).YV2R y v = _
    rw [(greenLoop_frame c Y n _).1]
    show set2 s.YV2R Y n (rEntry c Y n) y v = _
    by_cases e : y = Y ∧ v = n
    · obtain ⟨rfl, rfl⟩ := e
      simp [set2_same]
    · rw [set2_other _ _ _ _ _ _ e, ih]
      by_cases e1 : y = Y
      · have : v ≠ n := fun h => e ⟨e1, h⟩
        have e2 : (v < n + 1) ↔ (v < n) := by omega
        simp only [e1, true_and, e2]
      · simp [e1]

theorem blueLoop_YU2B (c : CoefficientSet) (Y : Nat) (t : Y2UTable) (y u : Nat) :
    (blueLoop c Y t).YU2B y u = if y = Y ∧ u < 256 then bEntry c Y u else t.YU2B y u := by
  unfold blueLoop
  refine forLoop_induct
    (fun n s => s.YU2B y u = if y = Y ∧ u < n then bEntry c Y u else t.YU2B y u) _ t ?_ ?_ 256
  · simp
  · intro n s ih
    show set2 s.YU2B Y n (bEntry c Y n) y u = _
    by_cases e : y = Y ∧ u = n
    · obtain ⟨rfl, rfl⟩ := e
      simp [set2_same]
    · rw [set2_other _ _ _ _ _ _ e, ih]
      by_cases e1 : y = Y
      · have : u ≠ n := fun h => e ⟨e1, h⟩
        have e2 : (u < n + 1) ↔ (u < n) := by omega
        simp only [e1, true_and, e2]
      · simp [e1]

theorem buildRGB_YV2R (c : CoefficientSet) (t : Y2UTable) (Y V : Nat)
    (hY : Y < 256) (hV : V < 256) : (buildRGB c t).YV2R Y V = rEntry c Y V := by
  unfold buildRGB
  have key := forLoop_induct
    (fun n s => ∀ y v, y < n → v < 256 → s.YV2R y v = rEntry c y v)
    (fun Y t => blueLoop c Y (redGreenLoop c Y t)) t (by intro y v hy; omega) ?_ 256
  · exact key Y V hY hV
  · intro n s ih y v hy hv
    show (blueLoop c n (redGreenLoop c n s)).YV2R y v = _
    rw [(blueLoop_frame c n _).1, redGreenLoop_YV2R]
    by_cases e : y = n
    · simp [e, hv]
    · have : ¬ (y = n ∧ v < 256) := fun h => e h.1
      rw [if_neg this]
      exact ih y v (by omega) hv

theorem buildRGB_YU2B (c : CoefficientSet) (t : Y2UTable) (Y U : Nat)
    (hY : Y < 256) (hU : U < 256) : (buildRGB c t).YU2B Y U = bEntry c Y U := by
  unfold buildRGB
  have key := forLoop_induct
    (fun n s => ∀ y u, y < n → u < 256 → s.YU2B y u = bEntry c y u)
    (fun Y t => blueLoop c Y (redGreenLoop c Y t)) t (by intro y v hy; omega) ?_ 256
  · exact key Y U hY hU
  · intro n s ih y u hy hu
    show (blueLoop c n (redGreenLoop c n s)).YU2B y u = _
    rw [blueLoop_YU2B]
    by_cases e : y = n
    · simp [e, hu]
    · have : ¬ (y = n ∧ u < 256) := fun h => e h.1
      rw [if_neg this, (redGreenLoop_frame c n s).1]
      exact ih y u (by omega) hu


theorem findLast_some {p : Nat → Bool} {n q : Nat} (h : findLast p n = some q) :
    q < n ∧ p q = true ∧ ∀ q', q' < n → p q' = true → q' ≤ q := by
  induction n with
  | zero => simp [findLast] at h
  | succ m ih =>
    unfold findLast at h
    by_cases hp : p m = true
    · rw [if_pos hp] at h
      cases h
      exact ⟨by omega, hp, fun q' hq' _ => by omega⟩
    · rw [if_neg hp] at h
      obtain ⟨h1, h2, h3⟩ := ih h
      refine ⟨by omega, h2, fun q' hq' hpq' => ?_⟩
      by_cases e : q' = m
      · subst e; exact absurd hpq' hp
      · exact h3 q' (by omega) hpq'

theorem findLast_isSome (p : Nat → Bool) (n q : Nat) (hq : q < n) (hp : p q = true) :
    ∃ r, findLast p n = some r := by
  induction n with
  | zero => omega
  | succ m ih =>
    unfold findLast
    by_cases hpm : p m = true
    · exact ⟨m, by rw [if_pos hpm]⟩
    · rw [if_neg hpm]
      by_cases e : q = m
      · subst e; exact absurd hp hpm
      · exact ih (by omega)

theorem greenAfter_step (c : CoefficientSet) (ig : Nat → Nat → Nat) (Y k n m old : Nat)
    (hm : m < 256) :
    greenAfter c ig Y k (n * 256 + m + 1) old =
      if k = ig m n then gEntry c Y m n else greenAfter c ig Y k (n * 256 + m) old := by
  have e1 : (n * 256 + m) % 256 = m := by omega
  have e2 : (n * 256 + m) / 256 = n := by omega
  unfold greenAfter lastWriter
  rw [findLast]
  simp only [e1, e2, beq_iff_eq]
  by_cases e : ig m n = k
  · rw [if_pos e, if_pos e.symm]
    simp only [e1, e2]
  · rw [if_neg e, if_neg (fun h => e h.symm)]

/-- Effect of the loop over `U` on `YIG2G`. -/
theorem greenLoop_YIG2G (c : CoefficientSet) (Y V : Nat) (t : Y2UTable) (old : Nat → Nat)
    (h : ∀ k, t.YIG2G Y k = greenAfter c t.UV2IG Y k (V * 256) (old k)) :
    (∀ k, (greenLoop c Y V t).YIG2G Y k = greenAfter c t.UV2IG Y k ((V + 1) * 256) (old k)) ∧
    (∀ y k, y ≠ Y → (greenLoop c Y V t).YIG2G y k = t.YIG2G y k) := by
  unfold greenLoop
  have key := forLoop_induct
    (fun m s => m ≤ 256 → s.UV2IG = t.UV2IG ∧
      (∀ k, s.YIG2G Y k = greenAfter c t.UV2IG Y k (V * 256 + m) (old k)) ∧
      (∀ y k, y ≠ Y → s.YIG2G y k = t.YIG2G y k))
    (fun U t => { t with YIG2G := set2 t.YIG2G Y (t.UV2IG U V) (gEntry c Y U V) }) t
    ?_ ?_ 256 (le_refl _)
  · have e : (V + 1) * 256 = V * 256 + 256 := by ring
    rw [e]
    exact ⟨key.2.1, key.2.2⟩
  · intro _
    refine ⟨rfl, fun k => ?_, fun _ _ _ => rfl⟩
    rw [Nat.add_zero]
    exact h k
  · intro m s ih hm
    obtain ⟨i1, i2, i3⟩ := ih (by omega)
    refine ⟨i1, fun k => ?_, fun y k hy => ?_⟩
    · show set2 s.YIG2G Y (s.UV2IG m V) (gEntry c Y m V) Y k = _
      rw [← Nat.add_assoc, greenAfter_step c t.UV2IG Y k V m (old k) (by omega), i1]
      by_cases e : k = t.UV2IG m V
      · rw [if_pos e, e]; exact set2_same _ _ _ _
      · rw [if_neg e, set2_other _ _ _ _ _ _ (fun h => e h.2), i2]
    · show set2 s.YIG2G Y (s.UV2IG m V) (gEntry c Y m V) y k = _
      rw [set2_other _ _ _ _ _ _ (fun h => hy h.1)]
      exact i3 y k hy

/-- Effect of one `Y` iteration's loop over `V` on `YIG2G`: row `Y` holds, at
each index, the green value of the last chroma pair mapped to that index. -/
theorem redGreenLoop_YIG2G (c : CoefficientSet) (Y : Nat) (t : Y2UTable) :
    (∀ k, (redGreenLoop c Y t).YIG2G Y k = greenAfter c t.UV2IG Y k 65536 (t.YIG2G Y k)) ∧
    (∀ y k, y ≠ Y → (redGreenLoop c Y t).YIG2G y k = t.YIG2G y k) := by
  unfold redGreenLoop
  have key := forLoop_induct
    (fun n s => s.UV2IG = t.UV2IG ∧
      (∀ k, s.YIG2G Y k = greenAfter c t.UV2IG Y k (n * 256) (t.YIG2G Y k)) ∧
      (∀ y k, y ≠ Y → s.YIG2G y k = t.YIG2G y k))
    (fun V t => greenLoop c Y V { t with YV2R := set2 t.YV2R Y V (rEntry c Y V) }) t
    ⟨rfl, fun k => by simp [greenAfter, lastWriter, findLast], fun _ _ _ => rfl⟩ ?_ 256
  · exact ⟨key.2.1, key.2.2⟩
  · intro n s ih
    obtain ⟨i1, i2, i3⟩ := ih
    have g := greenLoop_YIG2G c Y n { s with YV2R := set2 s.YV2R Y n (rEntry c Y n) }
      (fun k => t.YIG2G Y k) (by intro k; show s.YIG2G Y k = _; rw [i2 k]; rw [← i1])
    have f := greenLoop_frame c Y n { s with YV2R := set2 s.YV2R Y n (rEntry c Y n) }
    refine ⟨f.2.2.trans i1, fun k => ?_, fun y k hy => ?_⟩
    · have := g.1 k
      rw [this]
      show greenAfter c s.UV2IG Y k ((n + 1) * 256) (t.YIG2G Y k) = _
      rw [i1]
    · rw [g.2 y k hy]
      exact i3 y k hy


theorem findLast_congr (p p2 : Nat → Bool) (n : Nat) (h : ∀ q, q < n → p q = p2 q) :
    findLast p n = findLast p2 n := by
  induction n with
  | zero => rfl
  | succ m ih =>
    unfold findLast
    rw [h m (by omega), ih (fun q hq => h q (by omega))]

theorem greenAfter_congr (c : CoefficientSet) (ig ig' : Nat → Nat → Nat) (Y k old : Nat)
    (h : ∀ U V, U < 256 → V < 256 → ig U V = ig' U V) :
    greenAfter c ig Y k 65536 old = greenAfter c ig' Y k 65536 old := by
  unfold greenAfter lastWriter
  have e := findLast_congr (fun q => ig (q % 256) (q / 256) == k)
    (fun q => ig' (q % 256) (q / 256) == k) 65536 (by
      intro q hq
      show (ig (q % 256) (q / 256) == k) = (ig' (q % 256) (q / 256) == k)
      rw [h _ _ (by omega) (by omega)])
  rw [e]

theorem buildRGB_YIG2G (c : CoefficientSet) (t : Y2UTable) (Y k : Nat) (hY : Y < 256) :
    (buildRGB c t).YIG2G Y k = greenAfter c t.UV2IG Y k 65536 (t.YIG2G Y k) := by
  unfold buildRGB
  have key := forLoop_induct
    (fun n s => s.UV2IG = t.UV2IG ∧
      (∀ y k, y < n → s.YIG2G y k = greenAfter c t.UV2IG y k 65536 (t.YIG2G y k)) ∧
      (∀ y k, n ≤ y → s.YIG2G y k = t.YIG2G y k))
    (fun Y t => blueLoop c Y (redGreenLoop c Y t)) t
    ⟨rfl, fun y k hy => by omega, fun _ _ _ => rfl⟩ ?_ 256
  · exact key.2.1 Y k hY
  · intro n s ih
    obtain ⟨i1, i2, i3⟩ := ih
    have fb := blueLoop_frame c n (redGreenLoop c n s)
    have fr := redGreenLoop_frame c n s
    have g := redGreenLoop_YIG2G c n s
    refine ⟨(fb.2.2.trans fr.2).trans i1, fun y k hy => ?_, fun y k hy => ?_⟩
    · show (blueLoop c n (redGreenLoop c n s)).YIG2G y k = _
      rw [fb.2.1]
      by_cases e : y = n
      · subst e
        rw [g.1 k, i1, i3 y k (le_refl _)]
      · rw [g.2 y k e]
        exact i2 y k (by omega)
    · show (blueLoop c n (redGreenLoop c n s)).YIG2G y k = _
      rw [fb.2.1, g.2 y k (by omega)]
      exact i3 y k (by omega)

theorem buildUV2IG_frame (c : CoefficientSet) (t : Y2UTable) :
    (buildUV2IG c t).YV2R = t.YV2R ∧ (buildUV2IG c t).YU2B = t.YU2B ∧
    (buildUV2IG c t).YIG2G = t.YIG2G := by
  unfold buildUV2IG
  refine forLoop_invariant (fun s => s.YV2R = t.YV2R ∧ s.YU2B = t.YU2B ∧ s.YIG2G = t.YIG2G) _
    ?_ 256 t ⟨rfl, rfl, rfl⟩
  intro V s h
  refine forLoop_invariant (fun s => s.YV2R = t.YV2R ∧ s.YU2B = t.YU2B ∧ s.YIG2G = t.YIG2G) _
    ?_ 256 s h
  intro _ _ h'
  exact h'

/-- Content of the green table after construction: the entry at index `k` of
row `Y` is the green value of the last chroma pair, in construction order, whose
`UV2IG` entry is `k`; an index no pair maps to keeps its uninitialised content. -/
theorem build_YIG2G (c : CoefficientSet) (raw : Y2UTable) (Y k : Nat) (hY : Y < 256) :
    (Y2UTable.build c raw).YIG2G Y k = greenAfter c (igEntry c) Y k 65536 (raw.YIG2G Y k) := by
  unfold Y2UTable.build
  rw [buildRGB_YIG2G c _ Y k hY, (buildUV2IG_frame c raw).2.2]
  exact greenAfter_congr c _ _ Y k _ (fun U V hU hV => buildUV2IG_entry c raw U V hU hV)

theorem build_YV2R (c : CoefficientSet) (raw : Y2UTable) (Y V : Nat)
    (hY : Y < 256) (hV : V < 256) : (Y2UTable.build c raw).YV2R Y V = rEntry c Y V :=
  buildRGB_YV2R c _ Y V hY hV

theorem build_YU2B (c : CoefficientSet) (raw : Y2UTable) (Y U : Nat)
    (hY : Y < 256) (hU : U < 256) : (Y2UTable.build c raw).YU2B Y U = bEntry c Y U :=
  buildRGB_YU2B c _ Y U hY hU

/-- The green entry read by `getRGB` for a pair `(U, V)` was written: it holds the
green value of the last pair `(U', V')` in construction order with the same index. -/
theorem build_green_slot (c : CoefficientSet) (raw : Y2UTable) (Y U V : Nat)
    (hY : Y < 256) (hU : U < 256) (hV : V < 256) :
    ∃ U' V', U' < 256 ∧ V' < 256 ∧ igEntry c U' V' = igEntry c U V ∧
      (∀ U2 V2, U2 < 256 → V2 < 256 → igEntry c U2 V2 = igEntry c U V →
        V2 * 256 + U2 ≤ V' * 256 + U') ∧
      (Y2UTable.build c raw).YIG2G Y ((Y2UTable.build c raw).UV2IG U V) = gEntry c Y U' V' := by
  rw [build_UV2IG c raw U V hU hV, build_YIG2G c raw Y _ hY]
  have mk : ∀ u v, u < 256 → (v * 256 + u) % 256 = u ∧ (v * 256 + u) / 256 = v := by
    intro u v hu; omega
  have hp : (igEntry c ((V * 256 + U) % 256) ((V * 256 + U) / 256) == igEntry c U V) = true := by
    rw [(mk U V hU).1, (mk U V hU).2]; exact beq_self_eq_true _
  obtain ⟨r, hr⟩ := findLast_isSome
    (fun q => igEntry c (q % 256) (q / 256) == igEntry c U V) 65536 (V * 256 + U) (by omega) hp
  obtain ⟨r1, r2, r3⟩ := findLast_some hr
  refine ⟨r % 256, r / 256, by omega, by omega, by simpa using r2, ?_, ?_⟩
  · intro U2 V2 hU2 hV2 hig
    have := r3 (V2 * 256 + U2) (by omega) (by
      show (igEntry c ((V2 * 256 + U2) % 256) ((V2 * 256 + U2) / 256) == igEntry c U V) = true
      rw [(mk U2 V2 hU2).1, (mk U2 V2 hU2).2, hig]; exact beq_self_eq_true _)
    omega
  · unfold greenAfter lastWriter
    rw [hr]


theorem shift_formula (a b k : Int) (ha : -8388608 ≤ a ∧ a ≤ 8388608)
    (hb : -16777216 ≤ b ∧ b ≤ 16777216) (hk : isS16 k) :
    (toU8 (clamp ((wrapS32 (wrapS32 (((wrapS32 (wrapS32 a + b)) >>> (3 : Nat)) + k) + rounding_offset))
      >>> (5 : Nat)) 0 0xFF) : Int) = clamp ((((a + b) >>> (3 : Nat)) + k + 0x18) >>> (5 : Nat)) 0 255 := by
  obtain ⟨k1, k2⟩ := hk
  have w1 : wrapS32 a = a := wrapS32_of_range a (by omega) (by omega)
  have w2 : wrapS32 (a + b) = a + b := wrapS32_of_range _ (by omega) (by omega)
  rw [w1, w2]
  have s1 : (a + b) >>> (3 : Nat) = (a + b) / 8 := by
    rw [Int.shiftRight_eq_div_pow]; rfl
  rw [s1]
  have w3 : wrapS32 ((a + b) / 8 + k) = (a + b) / 8 + k :=
    wrapS32_of_range _ (by omega) (by omega)
  have w4 : wrapS32 ((a + b) / 8 + k + rounding_offset) = (a + b) / 8 + k + 0x18 :=
    wrapS32_of_range _ (by unfold rounding_offset; omega) (by unfold rounding_offset; omega)
  rw [w3, w4]
  exact toU8_clamp _

theorem rEntry_eq (c : CoefficientSet) (hc : c.wellTyped) (Y V : Nat)
    (hY : Y < 256) (hV : V < 256) : (rEntry c Y V : Int) = redFormula c Y V := by
  obtain ⟨h0, h1, h2, h3, h4, h5, h6, h7⟩ := hc
  have p0 := s16_mul_u8 c.c0 Y h0 hY
  have p1 := s16_mul_u8 c.c1 V h1 hV
  unfold rEntry redFormula
  have w : wrapS32 (c.c1 * V) = c.c1 * V := wrapS32_of_range _ (by omega) (by omega)
  simp only [w]
  exact shift_formula (c.c0 * Y) (c.c1 * V) c.c5 p0 (by omega) h5

theorem bEntry_eq (c : CoefficientSet) (hc : c.wellTyped) (Y U : Nat)
    (hY : Y < 256) (hU : U < 256) : (bEntry c Y U : Int) = blueFormula c Y U := by
  obtain ⟨h0, h1, h2, h3, h4, h5, h6, h7⟩ := hc
  have p0 := s16_mul_u8 c.c0 Y h0 hY
  have p1 := s16_mul_u8 c.c4 U h4 hU
  unfold bEntry blueFormula
  have w : wrapS32 (c.c4 * U) = c.c4 * U := wrapS32_of_range _ (by omega) (by omega)
  simp only [w]
  exact shift_formula (c.c0 * Y) (c.c4 * U) c.c7 p0 (by omega) h7

theorem gEntry_eq (c : CoefficientSet) (hc : c.wellTyped) (Y U V : Nat)
    (hY : Y < 256) (hU : U < 256) (hV : V < 256) :
    (gEntry c Y U V : Int) = greenFormula c Y U V := by
  obtain ⟨h0, h1, h2, h3, h4, h5, h6, h7⟩ := hc
  have p0 := s16_mul_u8 c.c0 Y h0 hY
  have p2 := s16_mul_u8 c.c2 V h2 hV
  have p3 := s16_mul_u8 c.c3 U h3 hU
  unfold gEntry greenFormula
  have w2 : wrapS32 (c.c2 * V) = c.c2 * V := wrapS32_of_range _ (by omega) (by omega)
  have w3 : wrapS32 (c.c3 * U) = c.c3 * U := wrapS32_of_range _ (by omega) (by omega)
  have w0 : wrapS32 (c.c0 * Y) = c.c0 * Y := wrapS32_of_range _ (by omega) (by omega)
  have w4 : wrapS32 (c.c0 * Y - c.c2 * V) = c.c0 * Y - c.c2 * V :=
    wrapS32_of_range _ (by omega) (by omega)
  simp only [w0, w2, w3, w4]
  have e : c.c0 * Y - c.c2 * V - c.c3 * U = c.c0 * Y + (-(c.c2 * V) - c.c3 * U) := by ring
  have := shift_formula (c.c0 * Y) (-(c.c2 * V) - c.c3 * U) c.c6 p0 (by omega) h6
  rw [w0, ← e] at this
  exact this


theorem build_getRGB_bytes (c : CoefficientSet) (raw : Y2UTable) (Y U V : Nat)
    (hY : Y < 256) (hU : U < 256) (hV : V < 256) :
    byteOf ((Y2UTable.build c raw).getRGB Y U V) 3 = rEntry c Y V ∧
    byteOf ((Y2UTable.build c raw).getRGB Y U V) 2 =
      (Y2UTable.build c raw).YIG2G Y ((Y2UTable.build c raw).UV2IG U V) ∧
    byteOf ((Y2UTable.build c raw).getRGB Y U V) 1 = bEntry c Y U := by
  obtain ⟨U', V', _, _, _, _, hg⟩ := build_green_slot c raw Y U V hY hU hV
  have hr : rEntry c Y V < 256 := toU8_lt _
  have hb : bEntry c Y U < 256 := toU8_lt _
  have hG : (Y2UTable.build c raw).YIG2G Y ((Y2UTable.build c raw).UV2IG U V) < 256 := by
    rw [hg]; exact toU8_lt _
  unfold Y2UTable.getRGB
  rw [build_YV2R c raw Y V hY hV, build_YU2B c raw Y U hY hU, pack_bytes _ _ _ hr hG hb]
  exact byteOf_pack _ _ _ hr hG hb

/-- Claim C2. For a coefficient tuple of `s16` values and all `Y`, `U`, `V` in
`0..255`, the red byte (bits 31..24) of `getRGB(Y,U,V)` on the constructed table is
`clamp((((c0*Y + c1*V) >> 3) + c5 + 0x18) >> 5, 0, 255)` and the blue byte (bits
15..8) is `clamp((((c0*Y + c4*U) >> 3) + c7 + 0x18) >> 5, 0, 255)`, the shifts
being arithmetic; no intermediate value leaves the range of `s32`. -/
theorem getRGB_red_blue_bytes (c : CoefficientSet) (hc : c.wellTyped) (raw : Y2UTable)
    (Y U V : Nat) (hY : Y < 256) (hU : U < 256) (hV : V < 256) :
    (byteOf ((Y2UTable.build c raw).getRGB Y U V) 3 : Int) = redFormula c Y V ∧
    (byteOf ((Y2UTable.build c raw).getRGB Y U V) 1 : Int) = blueFormula c Y U := by
  obtain ⟨h3, _, h1⟩ := build_getRGB_bytes c raw Y U V hY hU hV
  rw [h3, h1]
  exact ⟨rEntry_eq c hc Y V hY hV, bEntry_eq c hc Y U hY hU⟩

/-- Green byte of `getRGB`. For a coefficient tuple of `s16` values and all `Y`,
`U`, `V` in `0..255`, the green byte (bits 23..16) of `getRGB(Y,U,V)` is the green
formula evaluated at `Y` and at the chroma pair `(U', V')` that is last in
construction order (outer loop `V`, inner loop `U`) among the pairs with
`UV2IG[U'][V'] = UV2IG[U][V]`, which need not be `(U, V)` itself. -/
theorem getRGB_green_byte_last_writer (c : CoefficientSet) (hc : c.wellTyped) (raw : Y2UTable)
    (Y U V : Nat) (hY : Y < 256) (hU : U < 256) (hV : V < 256) :
    ∃ U' V', U' < 256 ∧ V' < 256 ∧ igEntry c U' V' = igEntry c U V ∧
      (∀ U2 V2, U2 < 256 → V2 < 256 → igEntry c U2 V2 = igEntry c U V →
        V2 * 256 + U2 ≤ V' * 256 + U') ∧
      (byteOf ((Y2UTable.build c raw).getRGB Y U V) 2 : Int) = greenFormula c Y U' V' := by
  obtain ⟨U', V', hU', hV', e, hl, hg⟩ := build_green_slot c raw Y U V hY hU hV
  refine ⟨U', V', hU', hV', e, hl, ?_⟩
  rw [(build_getRGB_bytes c raw Y U V hY hU hV).2.1, hg]
  exact gEntry_eq c hc Y U' V' hY hU' hV'

/-- Claim C1, the behaviour of the code. The claim is that the green byte of
`getRGB(Y,U,V)` is the green formula at the same triple. For the tuple
`sampleCoefficients` the green byte of `getRGB(255, 252, 255)` is 122, the value
stored last at index `UV2IG[252][255] = 255` (for `U = V = 255`), while the green
formula at `(255, 252, 255)` gives 123. -/
theorem getRGB_green_byte_at_shared_index :
    (byteOf ((Y2UTable.build sampleCoefficients zeroTable).getRGB 255 252 255) 2 : Int) = 122 ∧
    greenFormula sampleCoefficients 255 252 255 = 123 := by
  refine ⟨?_, by decide⟩
  rw [(build_getRGB_bytes sampleCoefficients zeroTable 255 252 255
    (by decide) (by decide) (by decide)).2.1,
    build_UV2IG _ _ _ _ (by decide) (by decide), build_YIG2G _ _ _ _ (by decide)]
  have e : igEntry sampleCoefficients 252 255 = 255 := by decide
  have l : lastWriter (igEntry sampleCoefficients) 255 65536 = some 65535 := by
    unfold lastWriter
    rw [show (65536 : Nat) = 65535 + 1 from rfl, findLast]
    decide
  rw [e]
  unfold greenAfter
  rw [l]
  decide


theorem shr3 (x : Nat) : x >>> 3 = x / 8 := by
  rw [Nat.shiftRight_eq_div_pow]

theorem shr1 (x : Nat) : x >>> 1 = x / 2 := by
  rw [Nat.shiftRight_eq_div_pow]

theorem and7 (x : Nat) : x &&& 7 = x % 8 :=
  Nat.and_pow_two_sub_one_eq_mod x 3

theorem tileIndex_eq (x y : Nat) (hy : y < 8) : tileIndex x y = 8 * y + x % 8 := by
  unfold tileIndex wrapU32
  rw [and7, Nat.shiftLeft_eq]
  omega

theorem forLoopM_succ {σ : Type} (n : Nat) (body : Nat → σ → Option σ) (s : σ) :
    forLoopM (n + 1) body s = (forLoopM n body s).bind (body n) := rfl

/-- One row of the planar 4:2:2 decoder. -/
theorem row422_spec (table : Y2UTable) (iy iu iv : Nat → Nat) (y : Nat) (hy : y < 8)
    (s : DecodeState) (hYI : s.YI < 4294967296) (hUI : s.UI = s.YI / 2)
    (hVI : s.VI = s.YI / 2) (m : Nat) :
    ∃ s', forLoopM m (fun x s => body422 table (some iy) (some iu) (some iv) y x s) s = some s' ∧
      s'.YI = wrapU32 (s.YI + m) ∧ s'.UI = s'.YI / 2 ∧ s'.VI = s'.YI / 2 ∧
      (∀ x, x < m → s'.output (x / 8) (8 * y + x % 8) =
        table.getRGB (iy (wrapU32 (s.YI + x))) (iu (wrapU32 (s.YI + x) / 2))
          (iv (wrapU32 (s.YI + x) / 2))) ∧
      (∀ t i, (∀ x, x < m → ¬ (t = x / 8 ∧ i = 8 * y + x % 8)) →
        s'.output t i = s.output t i) := by
  induction m with
  | zero =>
    refine ⟨s, rfl, ?_, hUI, hVI, ?_, ?_⟩
    · unfold wrapU32; omega
    · intro x hx; omega
    · intro t i _; rfl
  | succ m ih =>
    obtain ⟨s1, e1, a1, a2, a3, a4, a5⟩ := ih
    have hw : wrapU32 (wrapU32 (s.YI + m) + 1) = wrapU32 (s.YI + (m + 1)) := by
      unfold wrapU32; omega
    refine ⟨{ YI := wrapU32 (s1.YI + 1), UI := wrapU32 (s1.YI + 1) >>> 1,
              VI := wrapU32 (s1.YI + 1) >>> 1,
              output := set2 s1.output (m >>> 3) (tileIndex m y)
                (table.getRGB (iy s1.YI) (iu s1.UI) (iv s1.VI)) }, ?_, ?_, ?_, ?_, ?_, ?_⟩
    · rw [forLoopM_succ, e1]
      rfl
    · show wrapU32 (s1.YI + 1) = _
      rw [a1, hw]
    · show wrapU32 (s1.YI + 1) >>> 1 = wrapU32 (s1.YI + 1) / 2
      exact shr1 _
    · show wrapU32 (s1.YI + 1) >>> 1 = wrapU32 (s1.YI + 1) / 2
      exact shr1 _
    · intro x hx
      show set2 s1.output (m >>> 3) (tileIndex m y) _ (x / 8) (8 * y + x % 8) = _
      rw [shr3, tileIndex_eq m y hy]
      by_cases e : x = m
      · subst e
        rw [set2_same]
        show table.getRGB (iy s1.YI) (iu s1.UI) (iv s1.VI) = _
        rw [a2, a3, a1]
      · rw [set2_other _ _ _ _ _ _ (by omega)]
        exact a4 x (by omega)
    · intro t i h
      show set2 s1.output (m >>> 3) (tileIndex m y) _ t i = _
      rw [shr3, tileIndex_eq m y hy, set2_other _ _ _ _ _ _ (h m (by omega))]
      exact a5 t i (fun x hx => h x (by omega))


/-- The first `k` rows of the planar 4:2:2 decoder. -/
theorem strip422_spec (table : Y2UTable) (iy iu iv : Nat → Nat) (out0 : Nat → Nat → Nat)
    (width k : Nat) (hk : k ≤ 8) :
    ∃ s', forLoopM k (fun y s =>
        forLoopM width (fun x s => body422 table (some iy) (some iu) (some iv) y x s) s)
        { YI := 0, UI := 0, VI := 0, output := out0 } = some s' ∧
      s'.YI = wrapU32 (k * width) ∧ s'.UI = s'.YI / 2 ∧ s'.VI = s'.YI / 2 ∧
      (∀ x y, x < width → y < k → s'.output (x / 8) (8 * y + x % 8) =
        table.getRGB (iy (wrapU32 (y * width + x))) (iu (wrapU32 (y * width + x) / 2))
          (iv (wrapU32 (y * width + x) / 2))) ∧
      (∀ t i, (∀ x y, x < width → y < k → ¬ (t = x / 8 ∧ i = 8 * y + x % 8)) →
        s'.output t i = out0 t i) := by
  induction k with
  | zero =>
    refine ⟨_, rfl, ?_, by simp, by simp, ?_, ?_⟩
    · simp [wrapU32]
    · intro x y _ hy; omega
    · intro t i _; rfl
  | succ k ih =>
    obtain ⟨s1, e1, a1, a2, a3, a4, a5⟩ := ih (by omega)
    have hlt : s1.YI < 4294967296 := by rw [a1]; unfold wrapU32; omega
    obtain ⟨s2, e2, b1, b2, b3, b4, b5⟩ :=
      row422_spec table iy iu iv k (by omega) s1 hlt a2 a3 width
    have hw : ∀ x, wrapU32 (s1.YI + x) = wrapU32 (k * width + x) := by
      intro x; rw [a1]; unfold wrapU32; omega
    refine ⟨s2, ?_, ?_, b2, b3, ?_, ?_⟩
    · rw [forLoopM_succ, e1]
      exact e2
    · rw [b1, hw, Nat.succ_mul]
    · intro x y hx hy
      by_cases e : y = k
      · subst e
        rw [b4 x hx, hw]
      · rw [b5 _ _ (fun x' _ => by omega)]
        exact a4 x y hx (by omega)
    · intro t i h
      rw [b5 t i (fun x hx => h x k hx (by omega))]
      exact a5 t i (fun x y hx hy => h x y hx (by omega))

/-- Claim C4. For the planar 4:2:2 formats, a width that is a multiple of 8 and a
height of at most 8 (a strip of fewer than `2 ^ 32` pixels, so that the `unsigned
int` cursors do not wrap), `ConvertYUVToRGB` returns and, for every `x < width`
and `y < height`, has stored `getRGB(input_Y[n], input_U[n >> 1], input_V[n >> 1])`
with `n = y * width + x` in `output[x >> 3][(y << 3) + (x & 7)]`. -/
theorem ConvertYUVToRGB_planar422 (sc : Nat → CoefficientSet) (raw : Y2UTable) (cache : TableCache)
    (fmt : InputFormat) (hf : fmt = .YUV422_Indiv8 ∨ fmt = .YUV422_Indiv16)
    (iy iu iv : Nat → Nat) (out0 : Nat → Nat → Nat) (width height : Nat)
    (_hw : width % 8 = 0) (hh : height ≤ 8) (hsz : width * height < 4294967296)
    (coefficient : Nat) :
    ∃ cache' out,
      ConvertYUVToRGB sc raw cache fmt (some iy) (some iu) (some iv) out0 width height
        coefficient = some (cache', out) ∧
      ∀ x y, x < width → y < height →
        out (x >>> 3) ((y <<< 3) + (x &&& 7)) =
          (lookupTable sc raw cache coefficient).1.getRGB (iy (y * width + x))
            (iu ((y * width + x) >>> 1)) (iv ((y * width + x) >>> 1)) := by
  obtain ⟨s', e, _, _, _, a4, _⟩ :=
    strip422_spec (lookupTable sc raw cache coefficient).1 iy iu iv out0 width height hh
  have hd : decodeStrip (lookupTable sc raw cache coefficient).1 fmt (some iy) (some iu) (some iv)
      width height { YI := 0, UI := 0, VI := 0, output := out0 } = some s' := by
    rcases hf with rfl | rfl <;> exact e
  refine ⟨(lookupTable sc raw cache coefficient).2, s'.output, ?_, ?_⟩
  · unfold ConvertYUVToRGB
    simp only [hd, Option.map_some']
  · intro x y hx hy
    have hn : y * width + x < 4294967296 := by
      have : (y + 1) * width ≤ height * width := Nat.mul_le_mul_right _ hy
      rw [Nat.mul_comm height width] at this
      rw [Nat.succ_mul] at this
      omega
    have hwr : wrapU32 (y * width + x) = y * width + x := Nat.mod_eq_of_lt hn
    rw [shr3, shr1, and7, Nat.shiftLeft_eq]
    have := a4 x y hx hy
    rw [hwr] at this
    rw [← this]
    congr 1
    omega


/-- One pass of the planar 4:2:0 decoder over a row: the first `m` pixel pairs. -/
theorem row420_loop_spec (table : Y2UTable) (iy iu iv : Nat → Nat) (y : Nat) (hy : y < 8)
    (s : DecodeState) (hYI : s.YI < 4294967296) (hUI : s.UI < 4294967296) (m : Nat)
    (hm : 2 * m ≤ 4294967296) :
    ∃ s', forLoopM m (fun j s => body420 table (some iy) (some iu) (some iv) y (2 * j) s) s
        = some s' ∧
      s'.YI = wrapU32 (s.YI + 2 * m) ∧ s'.UI = wrapU32 (s.UI + m) ∧ s'.VI = s.VI ∧
      (∀ x, x < 2 * m → s'.output (x / 8) (8 * y + x % 8) =
        table.getRGB (iy (wrapU32 (s.YI + x))) (iu (wrapU32 (s.UI + x / 2)))
          (iv (wrapU32 (s.UI + x / 2)))) ∧
      (∀ t i, (∀ x, x < 2 * m → ¬ (t = x / 8 ∧ i = 8 * y + x % 8)) →
        s'.output t i = s.output t i) := by
  induction m with
  | zero =>
    refine ⟨s, rfl, ?_, ?_, rfl, ?_, ?_⟩
    · unfold wrapU32; omega
    · unfold wrapU32; omega
    · intro x hx; omega
    · intro t i _; rfl
  | succ m ih =>
    obtain ⟨s1, e1, a1, a2, a3, a4, a5⟩ := ih (by omega)
    have hx1 : wrapU32 (2 * m + 1) = 2 * m + 1 := Nat.mod_eq_of_lt (by omega)
    refine ⟨{ YI := wrapU32 (s1.YI + 2), UI := wrapU32 (s1.UI + 1), VI := s1.VI,
              output := set2 (set2 s1.output ((2 * m) >>> 3) (tileIndex (2 * m) y)
                  (table.getRGB (iy s1.YI) (iu s1.UI) (iv s1.UI)))
                (wrapU32 (2 * m + 1) >>> 3) (tileIndex (wrapU32 (2 * m + 1)) y)
                (table.getRGB (iy (wrapU32 (s1.YI + 1))) (iu s1.UI) (iv s1.UI)) },
            ?_, ?_, ?_, a3, ?_, ?_⟩
    · rw [forLoopM_succ, e1]
      rfl
    · show wrapU32 (s1.YI + 2) = _
      rw [a1]; unfold wrapU32; omega
    · show wrapU32 (s1.UI + 1) = _
      rw [a2]; unfold wrapU32; omega
    · intro x hx
      show set2 (set2 s1.output _ _ _) _ _ _ (x / 8) (8 * y + x % 8) = _
      rw [hx1, shr3, shr3, tileIndex_eq _ y hy, tileIndex_eq _ y hy]
      by_cases e : x = 2 * m + 1
      · subst e
        rw [set2_same, a1, a2]
        have h1 : wrapU32 (wrapU32 (s.YI + 2 * m) + 1) = wrapU32 (s.YI + (2 * m + 1)) := by
          unfold wrapU32; omega
        have h2 : (2 * m + 1) / 2 = m := by omega
        rw [h1, h2]
      · rw [set2_other _ _ _ _ _ _ (by omega)]
        by_cases e' : x = 2 * m
        · subst e'
          rw [set2_same, a1, a2]
          have h2 : (2 * m) / 2 = m := by omega
          rw [h2]
        · rw [set2_other _ _ _ _ _ _ (by omega)]
          exact a4 x (by omega)
    · intro t i h
      show set2 (set2 s1.output _ _ _) _ _ _ t i = _
      rw [hx1, shr3, shr3, tileIndex_eq _ y hy, tileIndex_eq _ y hy,
        set2_other _ _ _ _ _ _ (h (2 * m + 1) (by omega)),
        set2_other _ _ _ _ _ _ (h (2 * m) (by omega))]
      exact a5 t i (fun x hx => h x (by omega))

/-- One row pair of the planar 4:2:0 decoder, for an even width. -/
theorem pair420_spec (table : Y2UTable) (iy iu iv : Nat → Nat) (width y : Nat)
    (hw : width % 2 = 0) (hwlt : width ≤ 4294967296) (hy : y + 1 < 8)
    (s : DecodeState) (hYI : s.YI < 4294967296) (hUI : s.UI < 4294967296) :
    ∃ s', pair420 table (some iy) (some iu) (some iv) width y s = some s' ∧
      s'.YI = wrapU32 (s.YI + 2 * width) ∧ s'.UI = wrapU32 (s.UI + width / 2) ∧
      (∀ x r, x < width → r < 2 → s'.output (x / 8) (8 * (y + r) + x % 8) =
        table.getRGB (iy (wrapU32 (s.YI + r * width + x))) (iu (wrapU32 (s.UI + x / 2)))
          (iv (wrapU32 (s.UI + x / 2)))) ∧
      (∀ t i, (∀ x r, x < width → r < 2 → ¬ (t = x / 8 ∧ i = 8 * (y + r) + x % 8)) →
        s'.output t i = s.output t i) := by
  have hm : (width + 1) / 2 = width / 2 := by omega
  have h2m : 2 * (width / 2) = width := by omega
  obtain ⟨s1, e1, a1, a2, _, a4, a5⟩ := row420_loop_spec table iy iu iv y (by omega) s hYI hUI
    (width / 2) (by omega)
  rw [h2m] at a1 a4 a5
  have hY1 : s1.YI < 4294967296 := by rw [a1]; unfold wrapU32; omega
  have hU1 : wrapU32 (s1.UI + 4294967296 - wrapU32 (width >>> 1)) = s.UI := by
    rw [a2, shr1]; unfold wrapU32; omega
  obtain ⟨s2, e2, b1, b2, _, b4, b5⟩ := row420_loop_spec table iy iu iv (y + 1) (by omega)
    { s1 with UI := wrapU32 (s1.UI + 4294967296 - wrapU32 (width >>> 1)) } hY1
    (by show wrapU32 _ < _; unfold wrapU32; omega) (width / 2) (by omega)
  rw [h2m] at b1 b4 b5
  refine ⟨s2, ?_, ?_, ?_, ?_, ?_⟩
  · unfold pair420 row420
    rw [hm, e1]
    exact e2
  · rw [b1]
    show wrapU32 (s1.YI + width) = _
    rw [a1]; unfold wrapU32; omega
  · rw [b2]
    show wrapU32 (wrapU32 (s1.UI + 4294967296 - wrapU32 (width >>> 1)) + width / 2) = _
    rw [hU1]
  · intro x r hx hr
    have hr' : r = 0 ∨ r = 1 := by omega
    rcases hr' with rfl | rfl
    · rw [b5 _ _ (fun x' _ => by omega)]
      show s1.output _ _ = _
      rw [Nat.add_zero, a4 x hx, Nat.zero_mul, Nat.add_zero]
    · rw [b4 x hx]
      show table.getRGB (iy (wrapU32 (s1.YI + x)))
        (iu (wrapU32 (wrapU32 (s1.UI + 4294967296 - wrapU32 (width >>> 1)) + x / 2)))
        (iv (wrapU32 (wrapU32 (s1.UI + 4294967296 - wrapU32 (width >>> 1)) + x / 2))) = _
      rw [hU1, a1]
      have : wrapU32 (wrapU32 (s.YI + width) + x) = wrapU32 (s.YI + 1 * width + x) := by
        unfold wrapU32; omega
      rw [this]
  · intro t i h
    rw [b5 t i (fun x hx => h x 1 hx (by omega))]
    show s1.output t i = _
    exact a5 t i (fun x hx => h x 0 hx (by omega))


/-- The first `p` row pairs of the planar 4:2:0 decoder, for an even width. -/
theorem strip420_spec (table : Y2UTable) (iy iu iv : Nat → Nat) (out0 : Nat → Nat → Nat)
    (width p : Nat) (hw : width % 2 = 0) (hwlt : width ≤ 4294967296) (hp : p ≤ 4) :
    ∃ s', forLoopM p (fun i s => pair420 table (some iy) (some iu) (some iv) width (2 * i) s)
        { YI := 0, UI := 0, VI := 0, output := out0 } = some s' ∧
      s'.YI = wrapU32 (2 * p * width) ∧ s'.UI = wrapU32 (p * (width / 2)) ∧
      (∀ x y, x < width → y < 2 * p → s'.output (x / 8) (8 * y + x % 8) =
        table.getRGB (iy (wrapU32 (y * width + x)))
          (iu (wrapU32 (y / 2 * (width / 2) + x / 2)))
          (iv (wrapU32 (y / 2 * (width / 2) + x / 2)))) ∧
      (∀ t i, (∀ x y, x < width → y < 2 * p → ¬ (t = x / 8 ∧ i = 8 * y + x % 8)) →
        s'.output t i = out0 t i) := by
  induction p with
  | zero =>
    refine ⟨_, rfl, ?_, ?_, ?_, ?_⟩
    · simp [wrapU32]
    · simp [wrapU32]
    · intro x y _ hy; omega
    · intro t i _; rfl
  | succ p ih =>
    obtain ⟨s1, e1, a1, a2, a4, a5⟩ := ih (by omega)
    have hY : s1.YI < 4294967296 := by rw [a1]; unfold wrapU32; omega
    have hU : s1.UI < 4294967296 := by rw [a2]; unfold wrapU32; omega
    obtain ⟨s2, e2, b1, b2, b4, b5⟩ :=
      pair420_spec table iy iu iv width (2 * p) hw hwlt (by omega) s1 hY hU
    have eY : ∀ z, wrapU32 (s1.YI + z) = wrapU32 (2 * p * width + z) := by
      intro z; rw [a1]; unfold wrapU32; omega
    have eU : ∀ z, wrapU32 (s1.UI + z) = wrapU32 (p * (width / 2) + z) := by
      intro z; rw [a2]; unfold wrapU32; omega
    refine ⟨s2, ?_, ?_, ?_, ?_, ?_⟩
    · rw [forLoopM_succ, e1]
      exact e2
    · rw [b1, eY]
      congr 1
      ring
    · rw [b2, eU, Nat.succ_mul]
    · intro x y hx hy
      by_cases e : y < 2 * p
      · rw [b5 _ _ (fun x' r _ hr => by omega)]
        exact a4 x y hx e
      · obtain ⟨r, hr, rfl⟩ : ∃ r, r < 2 ∧ y = 2 * p + r := ⟨y - 2 * p, by omega, by omega⟩
        rw [b4 x r hx hr, Nat.add_assoc, eY, eU]
        have h1 : (2 * p + r) / 2 = p := by omega
        have h2 : 2 * p * width + (r * width + x) = (2 * p + r) * width + x := by ring
        rw [h1, h2]
    · intro t i h
      rw [b5 t i (fun x r hx hr => h x (2 * p + r) hx (by omega))]
      exact a5 t i (fun x y hx hy => h x y hx (by omega))

/-- Claim C5. For the planar 4:2:0 formats, a width that is a multiple of 8 and an
even height of at most 8 (a strip of fewer than `2 ^ 32` pixels), `ConvertYUVToRGB`
returns and, for every `x < width` and `y < height`, has stored
`getRGB(input_Y[y * width + x], input_U[c], input_V[c])` with
`c = (y / 2) * (width / 2) + x / 2` in `output[x >> 3][(y << 3) + (x & 7)]`; the two
rows `2k` and `2k + 1` of a pair use the same chroma index in every column. -/
theorem ConvertYUVToRGB_planar420 (sc : Nat → CoefficientSet) (raw : Y2UTable)
    (cache : TableCache) (fmt : InputFormat)
    (hf : fmt = .YUV420_Indiv8 ∨ fmt = .YUV420_Indiv16)
    (iy iu iv : Nat → Nat) (out0 : Nat → Nat → Nat) (width height : Nat)
    (hw : width % 8 = 0) (hh : height ≤ 8) (heven : height % 2 = 0)
    (hsz : width * height < 4294967296) (coefficient : Nat) :
    ∃ cache' out,
      ConvertYUVToRGB sc raw cache fmt (some iy) (some iu) (some iv) out0 width height
        coefficient = some (cache', out) ∧
      (∀ x y, x < width → y < height →
        out (x >>> 3) ((y <<< 3) + (x &&& 7)) =
          (lookupTable sc raw cache coefficient).1.getRGB (iy (y * width + x))
            (iu ((y / 2) * (width / 2) + x / 2)) (iv ((y / 2) * (width / 2) + x / 2))) ∧
      (∀ x k, x < width → 2 * k + 1 < height → ∃ c,
        out (x >>> 3) (((2 * k) <<< 3) + (x &&& 7)) =
          (lookupTable sc raw cache coefficient).1.getRGB (iy (2 * k * width + x))
            (iu c) (iv c) ∧
        out (x >>> 3) (((2 * k + 1) <<< 3) + (x &&& 7)) =
          (lookupTable sc raw cache coefficient).1.getRGB (iy ((2 * k + 1) * width + x))
            (iu c) (iv c)) := by
  by_cases h0 : height = 0
  · subst h0
    refine ⟨(lookupTable sc raw cache coefficient).2, out0, ?_, fun x y _ hy => by omega,
      fun x k _ hk => by omega⟩
    rcases hf with rfl | rfl <;> rfl
  have hwlt : width ≤ 4294967296 := by
    have : width * 1 ≤ width * height := Nat.mul_le_mul_left _ (by omega)
    omega
  obtain ⟨s', e, _, _, a4, _⟩ :=
    strip420_spec (lookupTable sc raw cache coefficient).1 iy iu iv out0 width (height / 2)
      (by omega) hwlt (by omega)
  have hp : (height + 1) / 2 = height / 2 := by omega
  have hd : decodeStrip (lookupTable sc raw cache coefficient).1 fmt (some iy) (some iu) (some iv)
      width height { YI := 0, UI := 0, VI := 0, output := out0 } = some s' := by
    rcases hf with rfl | rfl
    · show forLoopM ((height + 1) / 2) _ _ = _
      rw [hp]; exact e
    · show forLoopM ((height + 1) / 2) _ _ = _
      rw [hp]; exact e
  have main : ∀ x y, x < width → y < height →
      s'.output (x >>> 3) ((y <<< 3) + (x &&& 7)) =
        (lookupTable sc raw cache coefficient).1.getRGB (iy (y * width + x))
          (iu ((y / 2) * (width / 2) + x / 2)) (iv ((y / 2) * (width / 2) + x / 2)) := by
    intro x y hx hy
    have hn : y * width + x < 4294967296 := by
      have : (y + 1) * width ≤ height * width := Nat.mul_le_mul_right _ hy
      rw [Nat.mul_comm height width] at this
      rw [Nat.succ_mul] at this
      omega
    have hc : y / 2 * (width / 2) + x / 2 ≤ y * width + x := by
      have h1 : y / 2 * (width / 2) ≤ y * width :=
        Nat.mul_le_mul (Nat.div_le_self _ _) (Nat.div_le_self _ _)
      have h2 : x / 2 ≤ x := Nat.div_le_self _ _
      omega
    have hwr : wrapU32 (y * width + x) = y * width + x := Nat.mod_eq_of_lt hn
    have hwc : wrapU32 (y / 2 * (width / 2) + x / 2) = y / 2 * (width / 2) + x / 2 :=
      Nat.mod_eq_of_lt (by omega)
    rw [shr3, and7, Nat.shiftLeft_eq]
    have := a4 x y hx (by omega)
    rw [hwr, hwc] at this
    rw [← this]
    congr 1
    omega
  refine ⟨(lookupTable sc raw cache coefficient).2, s'.output, ?_, main, ?_⟩
  · unfold ConvertYUVToRGB
    simp only [hd, Option.map_some']
  · intro x k hx hk
    refine ⟨k * (width / 2) + x / 2, ?_, ?_⟩
    · have := main x (2 * k) hx (by omega)
      have h1 : 2 * k / 2 = k := by omega
      rw [h1] at this
      exact this
    · have := main x (2 * k + 1) hx hk
      have h1 : (2 * k + 1) / 2 = k := by omega
      rw [h1] at this
      exact this

/-- Claim C3, the behaviour of the code. For the interleaved format the decoder
reads its chroma samples through `input_U` and `input_V`, not from the stream
passed as `input_Y`: with the null pointers that `PerformConversion` passes, the
first pixel of an 8 x 1 strip already faults, and with separate chroma arrays
pixel `(0, 0)` is `getRGB(stream[0], input_U[1], input_V[3])`. -/
theorem ConvertYUVToRGB_interleaved_reads_chroma_inputs (sc : Nat → CoefficientSet)
    (raw : Y2UTable) (cache : TableCache) (stream : Nat → Nat) (out0 : Nat → Nat → Nat)
    (coefficient : Nat) :
    ConvertYUVToRGB sc raw cache .YUYV422_Interleaved (some stream) none none out0 8 1
      coefficient = none ∧
    ∀ iu iv : Nat → Nat, ∃ cache' out,
      ConvertYUVToRGB sc raw cache .YUYV422_Interleaved (some stream) (some iu) (some iv) out0 8 1
        coefficient = some (cache', out) ∧
      out 0 0 = (lookupTable sc raw cache coefficient).1.getRGB (stream 0) (iu 1) (iv 3) := by
  constructor
  · rfl
  · intro iu iv
    exact ⟨_, _, rfl, rfl⟩


theorem set1_same (a : Nat → Nat) (i v : Nat) : set1 a i v i = v := by
  simp [set1]

theorem set1_other (a : Nat → Nat) (i v x : Nat) (h : x ≠ i) : set1 a i v x = a x := by
  simp only [set1, if_neg h]

/-- The bytes written by one iteration: `output_unit` bytes from position
`outPos`, the `j`-th of them read at offset `j * N` from `input`. -/
theorem receiveStep_output (N : Nat) (hN : 1 ≤ N) (w : FieldWidths) (s : ReceiveState) (p : Nat) :
    (receiveStep N w s).output p =
      if s.outPos ≤ p ∧ p < s.outPos + s.buf.transfer_unit / N
      then s.memory (s.input + (p - s.outPos) * N) else s.output p := by
  by_cases h1 : N = 1
  · subst h1
    have e : (receiveStep 1 w s).output =
        memmoveFrom s.memory s.output s.outPos s.input (s.buf.transfer_unit / 1) := by
      unfold receiveStep
      simp only [if_true]
    rw [e]
    unfold memmoveFrom
    simp only [Nat.mul_one]
  · have e : (receiveStep N w s).output = forLoop (s.buf.transfer_unit / N)
        (fun i out => set1 out (s.outPos + i) (s.memory (s.input + i * N))) s.output := by
      unfold receiveStep
      simp only [if_neg h1]
    rw [e]
    have key := forLoop_induct
      (fun m out => ∀ p, out p = if s.outPos ≤ p ∧ p < s.outPos + m
        then s.memory (s.input + (p - s.outPos) * N) else s.output p)
      (fun i out => set1 out (s.outPos + i) (s.memory (s.input + i * N))) s.output
      ?_ ?_ (s.buf.transfer_unit / N)
    · exact key p
    · intro p
      rw [if_neg (by omega)]
    · intro m out ih p
      show set1 out (s.outPos + m) _ p = _
      by_cases e : p = s.outPos + m
      · subst e
        rw [set1_same, if_pos (by omega), Nat.add_sub_cancel_left]
      · rw [set1_other _ _ _ _ e, ih p]
        by_cases c : s.outPos ≤ p ∧ p < s.outPos + m
        · rw [if_pos c, if_pos (by omega)]
        · rw [if_neg c, if_neg (by omega)]

theorem addWrap_addWrap (bits a b c : Nat) :
    addWrap bits (addWrap bits a b) c = addWrap bits a (b + c) := by
  unfold addWrap
  rw [Nat.add_mod, Nat.mod_mod, ← Nat.add_mod, Nat.add_assoc]

theorem subWrap_subWrap (bits a b c : Nat) :
    subWrap bits (subWrap bits a b) c = subWrap bits a (b + c) := by
  unfold subWrap
  have hpos : (0 : Int) < ((2 ^ bits : Nat) : Int) := by
    have : 0 < 2 ^ bits := Nat.pow_pos (by omega)
    omega
  have h1 : (0 : Int) ≤ ((a : Int) - (b : Int)) % ((2 ^ bits : Nat) : Int) :=
    Int.emod_nonneg _ (by omega)
  rw [Int.toNat_of_nonneg h1]
  congr 1
  rw [Int.sub_emod, Int.emod_emod, ← Int.sub_emod]
  congr 1
  push_cast
  ring

theorem addWrap_zero (bits a : Nat) (h : a < 2 ^ bits) : addWrap bits a 0 = a := by
  unfold addWrap
  rw [Nat.add_zero, Nat.mod_eq_of_lt h]

theorem subWrap_zero (bits a : Nat) (h : a < 2 ^ bits) : subWrap bits a 0 = a := by
  unfold subWrap
  have : ((a : Int) - ((0 : Nat) : Int)) % ((2 ^ bits : Nat) : Int) = (a : Int) := by
    rw [Int.ofNat_zero, Int.sub_zero]
    exact Int.emod_eq_of_lt (by omega) (by exact_mod_cast h)
  rw [this]
  rfl


theorem div_mod_block (ou k d : Nat) (hd : d < ou) :
    (k * ou + d) / ou = k ∧ (k * ou + d) % ou = d := by
  have hpos : 0 < ou := by omega
  constructor
  · rw [Nat.add_comm, Nat.add_mul_div_right _ _ hpos, Nat.div_eq_of_lt hd, Nat.zero_add]
  · rw [Nat.add_comm, Nat.add_mul_mod_self_right, Nat.mod_eq_of_lt hd]

/-- State after `k` iterations of the loop body of `ReceiveData<N>`. -/
theorem receiveIter_spec (N : Nat) (hN : 1 ≤ N) (w : FieldWidths) (s : ReceiveState) (k : Nat) :
    ((receiveStep N w)^[k] s).memory = s.memory ∧
    ((receiveStep N w)^[k] s).outPos = s.outPos + k * (s.buf.transfer_unit / N) ∧
    ((receiveStep N w)^[k] s).input = s.input + k * (s.buf.transfer_unit + s.buf.gap) ∧
    ((receiveStep N w)^[k] s).buf.transfer_unit = s.buf.transfer_unit ∧
    ((receiveStep N w)^[k] s).buf.gap = s.buf.gap ∧
    ((receiveStep N w)^[k] s).amount_of_data =
      s.amount_of_data - k * (s.buf.transfer_unit / N) ∧
    (∀ p, ((receiveStep N w)^[k] s).output p =
      if s.outPos ≤ p ∧ p < s.outPos + k * (s.buf.transfer_unit / N)
      then s.memory (s.input
        + (p - s.outPos) / (s.buf.transfer_unit / N) * (s.buf.transfer_unit + s.buf.gap)
        + (p - s.outPos) % (s.buf.transfer_unit / N) * N)
      else s.output p) := by
  induction k with
  | zero =>
    refine ⟨rfl, by simp, by simp, rfl, rfl, by simp, fun p => ?_⟩
    rw [if_neg (by omega)]
    rfl
  | succ k ih =>
    obtain ⟨i1, i2, i3, i4, i5, i6, i7⟩ := ih
    rw [Function.iterate_succ_apply']
    generalize (receiveStep N w)^[k] s = sk at i1 i2 i3 i4 i5 i6 i7
    refine ⟨i1, ?_, ?_, i4, i5, ?_, fun p => ?_⟩
    · show sk.outPos + sk.buf.transfer_unit / N = _
      rw [i2, i4, Nat.succ_mul, Nat.add_assoc]
    · show sk.input + (sk.buf.transfer_unit + sk.buf.gap) = _
      rw [i3, i4, i5, Nat.succ_mul, Nat.add_assoc]
    · show sk.amount_of_data - sk.buf.transfer_unit / N = _
      rw [i6, i4, Nat.succ_mul, Nat.sub_sub]
    · rw [receiveStep_output N hN w sk p, i1, i2, i3, i4, i7 p, Nat.succ_mul]
      generalize hou : s.buf.transfer_unit / N = ou
      by_cases c1 : s.outPos + k * ou ≤ p ∧ p < s.outPos + k * ou + ou
      · rw [if_pos c1, if_pos (by omega)]
        obtain ⟨d, hd, hp⟩ : ∃ d, d < ou ∧ p - s.outPos = k * ou + d :=
          ⟨p - s.outPos - k * ou, by omega, by omega⟩
        have hp' : p - (s.outPos + k * ou) = d := by omega
        rw [hp, hp', (div_mod_block ou k d hd).1, (div_mod_block ou k d hd).2, Nat.add_assoc]
      · rw [if_neg c1]
        by_cases c2 : s.outPos ≤ p ∧ p < s.outPos + k * ou
        · rw [if_pos c2, if_pos (by omega)]
        · rw [if_neg c2, if_neg (by omega)]

/-- Cursor after `k` iterations of the loop body of `ReceiveData<N>`. -/
theorem receiveIter_cursor (N : Nat) (w : FieldWidths) (s : ReceiveState)
    (hfit : ConversionBufferFits w s.buf) (k : Nat) :
    ((receiveStep N w)^[k] s).buf =
      { address := addWrap w.addressBits s.buf.address
          (k * (s.buf.transfer_unit + s.buf.gap))
        image_size := subWrap w.sizeBits s.buf.image_size (k * s.buf.transfer_unit)
        transfer_unit := s.buf.transfer_unit
        gap := s.buf.gap } := by
  induction k with
  | zero =>
    show s.buf = _
    rw [Nat.zero_mul, Nat.zero_mul, addWrap_zero _ _ hfit.1, subWrap_zero _ _ hfit.2]
  | succ k ih =>
    rw [Function.iterate_succ_apply']
    generalize (receiveStep N w)^[k] s = sk at ih
    show ({ address := addWrap w.addressBits sk.buf.address (sk.buf.transfer_unit + sk.buf.gap)
            image_size := subWrap w.sizeBits sk.buf.image_size sk.buf.transfer_unit
            transfer_unit := sk.buf.transfer_unit
            gap := sk.buf.gap } : ConversionBuffer) = _
    rw [ih]
    simp only [addWrap_addWrap, subWrap_subWrap, Nat.succ_mul]

/-- The loop of `ReceiveData<N>` runs exactly `k` iterations when the remaining
amount is `k` units: `k` iterations suffice and fewer do not. -/
theorem receiveLoop_spec (N : Nat) (w : FieldWidths) (k : Nat) :
    ∀ (s : ReceiveState), 0 < s.buf.transfer_unit / N →
      s.amount_of_data = k * (s.buf.transfer_unit / N) → ∀ fuel,
      receiveLoop N w fuel s = if k ≤ fuel then some ((receiveStep N w)^[k] s) else none := by
  induction k with
  | zero =>
    intro s _ ha fuel
    rw [Nat.zero_mul] at ha
    rw [if_pos (Nat.zero_le _)]
    cases fuel with
    | zero => unfold receiveLoop; rw [if_neg (by omega)]; rfl
    | succ f => unfold receiveLoop; rw [if_neg (by omega)]; rfl
  | succ k ih =>
    intro s hou ha fuel
    have hpos : s.amount_of_data > 0 := by
      rw [ha, Nat.succ_mul]; omega
    cases fuel with
    | zero => unfold receiveLoop; rw [if_pos hpos, if_neg (by omega)]
    | succ f =>
      unfold receiveLoop
      rw [if_pos hpos, Function.iterate_succ_apply]
      have h1 : (receiveStep N w s).buf.transfer_unit = s.buf.transfer_unit := rfl
      have h2 : (receiveStep N w s).amount_of_data =
          k * ((receiveStep N w s).buf.transfer_unit / N) := by
        show s.amount_of_data - s.buf.transfer_unit / N = k * (s.buf.transfer_unit / N)
        rw [ha, Nat.succ_mul, Nat.add_sub_cancel]
      rw [ih (receiveStep N w s) (by rw [h1]; exact hou) h2 f]
      by_cases c : k ≤ f
      · rw [if_pos c, if_pos (by omega)]
      · rw [if_neg c, if_neg (by omega)]


theorem addWrap_lt (bits a b : Nat) : addWrap bits a b < 2 ^ bits :=
  Nat.mod_lt _ (Nat.pow_pos (by omega))

theorem subWrap_lt (bits a b : Nat) : subWrap bits a b < 2 ^ bits := by
  unfold subWrap
  have hpos : (0 : Int) < ((2 ^ bits : Nat) : Int) := by
    have : 0 < 2 ^ bits := Nat.pow_pos (by omega)
    omega
  have h1 := Int.emod_nonneg ((a : Int) - (b : Int)) (ne_of_gt hpos)
  have h2 := Int.emod_lt_of_pos ((a : Int) - (b : Int)) hpos
  omega

/-- A request of `k` whole units makes `ReceiveData<N>` return the state reached
by `k` iterations of its loop body. -/
theorem ReceiveData_units (N : Nat) (hN : 1 ≤ N) (w : FieldWidths) (memory : ByteStore)
    (output : Nat → Nat) (outPos : Nat) (buf : ConversionBuffer) (htu : N ≤ buf.transfer_unit)
    (k : Nat) :
    ReceiveData N w memory output outPos buf (k * (buf.transfer_unit / N)) =
      .done ((receiveStep N w)^[k]
        (receiveInit memory output outPos buf (k * (buf.transfer_unit / N)))) := by
  have hou : 0 < buf.transfer_unit / N := Nat.div_pos htu (by omega)
  unfold ReceiveData
  rw [if_neg (by omega), if_neg (by rw [Nat.mul_mod_left]; simp)]
  rw [receiveLoop_spec N w k _ hou rfl]
  rw [if_pos (Nat.le_mul_of_pos_right k hou)]


/-- Claim C7. For `transfer_unit >= 1` and a request of `k * transfer_unit` bytes,
`ReceiveData<1>` returns with output byte `k' * transfer_unit + j` (`k' < k`,
`j < transfer_unit`) equal to the byte of the store at address
`addr0 + k' * (transfer_unit + gap) + j`; nothing else of the output array is
written, so no gap byte (offset `transfer_unit` or more within a stride) is copied. -/
theorem ReceiveData_1_copies_units (w : FieldWidths) (memory : ByteStore)
    (output : Nat → Nat) (outPos : Nat) (buf : ConversionBuffer)
    (htu : 1 ≤ buf.transfer_unit) (k : Nat) :
    ∃ s, ReceiveData 1 w memory output outPos buf (k * buf.transfer_unit) = .done s ∧
      (∀ k' j, k' < k → j < buf.transfer_unit →
        s.output (outPos + k' * buf.transfer_unit + j) =
          memory (buf.address + k' * (buf.transfer_unit + buf.gap) + j)) ∧
      (∀ p, p < outPos ∨ outPos + k * buf.transfer_unit ≤ p → s.output p = output p) := by
  have h := ReceiveData_units 1 (le_refl _) w memory output outPos buf htu k
  rw [Nat.div_one] at h
  refine ⟨_, h, ?_, ?_⟩
  · intro k' j hk' hj
    have hlt : k' * buf.transfer_unit + j < k * buf.transfer_unit := by
      have : (k' + 1) * buf.transfer_unit ≤ k * buf.transfer_unit :=
        Nat.mul_le_mul_right _ hk'
      rw [Nat.succ_mul] at this
      omega
    rw [(receiveIter_spec 1 (le_refl _) w _ k).2.2.2.2.2.2 _]
    show (if outPos ≤ outPos + k' * buf.transfer_unit + j ∧
        outPos + k' * buf.transfer_unit + j < outPos + k * (buf.transfer_unit / 1)
      then memory (GetPointer buf.address +
        (outPos + k' * buf.transfer_unit + j - outPos) / (buf.transfer_unit / 1)
          * (buf.transfer_unit + buf.gap)
        + (outPos + k' * buf.transfer_unit + j - outPos) % (buf.transfer_unit / 1) * 1)
      else output _) = _
    rw [Nat.div_one, if_pos ⟨by omega, by omega⟩]
    have e : outPos + k' * buf.transfer_unit + j - outPos = k' * buf.transfer_unit + j := by
      omega
    rw [e, (div_mod_block _ k' j hj).1, (div_mod_block _ k' j hj).2, Nat.mul_one]
    rfl
  · intro p hp
    rw [(receiveIter_spec 1 (le_refl _) w _ k).2.2.2.2.2.2 _]
    show (if outPos ≤ p ∧ p < outPos + k * (buf.transfer_unit / 1) then _ else output p) = _
    rw [Nat.div_one, if_neg (by omega)]

/-- Claim C6, amended. For `transfer_unit >= 2` and a request of
`k * (transfer_unit / 2)` samples, `ReceiveData<2>` returns with output sample
`k' * (transfer_unit / 2) + j` equal to the byte at offset `2 * j` of unit `k'`,
the byte at `addr0 + k' * (transfer_unit + gap) + 2 * j`: the first, low-order byte
of the little-endian 16-bit sample. -/
theorem ReceiveData_2_takes_first_byte (w : FieldWidths) (memory : ByteStore)
    (output : Nat → Nat) (outPos : Nat) (buf : ConversionBuffer)
    (htu : 2 ≤ buf.transfer_unit) (k : Nat) :
    ∃ s, ReceiveData 2 w memory output outPos buf (k * (buf.transfer_unit / 2)) = .done s ∧
      ∀ k' j, k' < k → j < buf.transfer_unit / 2 →
        s.output (outPos + k' * (buf.transfer_unit / 2) + j) =
          memory (buf.address + k' * (buf.transfer_unit + buf.gap) + 2 * j) := by
  have h := ReceiveData_units 2 (by omega) w memory output outPos buf htu k
  refine ⟨_, h, ?_⟩
  intro k' j hk' hj
  generalize hou : buf.transfer_unit / 2 = ou at *
  have hlt : k' * ou + j < k * ou := by
    have : (k' + 1) * ou ≤ k * ou := Nat.mul_le_mul_right _ hk'
    rw [Nat.succ_mul] at this
    omega
  rw [(receiveIter_spec 2 (by omega) w _ k).2.2.2.2.2.2 _]
  show (if outPos ≤ outPos + k' * ou + j ∧
      outPos + k' * ou + j < outPos + k * (buf.transfer_unit / 2)
    then memory (GetPointer buf.address +
      (outPos + k' * ou + j - outPos) / (buf.transfer_unit / 2)
        * (buf.transfer_unit + buf.gap)
      + (outPos + k' * ou + j - outPos) % (buf.transfer_unit / 2) * 2)
    else output _) = _
  rw [hou, if_pos ⟨by omega, by omega⟩]
  have e : outPos + k' * ou + j - outPos = k' * ou + j := by omega
  rw [e, (div_mod_block _ k' j hj).1, (div_mod_block _ k' j hj).2, Nat.mul_comm j 2]
  rfl

/-- Claim C6, counterexample. With the sample `0x1234` stored little-endian at
address 0 (bytes `0x34`, `0x12`), `ReceiveData<2>` for one sample outputs `0x34`,
the byte at offset `2j`, and not the high-order byte `0x12` at offset `2j + 1`. -/
theorem ReceiveData_2_high_byte_counterexample :
    (ReceiveData 2 widths32 sampleStore (fun _ => 0) 0 ⟨0, 2, 2, 0⟩ 1).state?.map
      (fun s => s.output 0) = some 0x34 ∧
    sampleStore (0 + 0 * (2 + 0) + (2 * 0 + 1)) = 0x12 := by
  constructor
  · rfl
  · rfl

/-- Claim C8. For `N >= 1` (the instances are `N = 1` and `N = 2`),
`transfer_unit >= N` and a request of `k * (transfer_unit / N)`, `ReceiveData<N>`
returns after exactly `k` iterations of its loop (`k` iterations suffice, fewer do
not) with `address = address0 + k * (transfer_unit + gap)` and
`image_size = image_size0 - k * transfer_unit` in the unsigned arithmetic of the
fields, `transfer_unit` and `gap` unchanged and the store unchanged. -/
theorem ReceiveData_cursor (N : Nat) (hN : 1 ≤ N) (w : FieldWidths) (memory : ByteStore)
    (output : Nat → Nat) (outPos : Nat) (buf : ConversionBuffer)
    (htu : N ≤ buf.transfer_unit) (hfit : ConversionBufferFits w buf) (k : Nat) :
    ∃ s, ReceiveData N w memory output outPos buf (k * (buf.transfer_unit / N)) = .done s ∧
      receiveLoop N w k
        (receiveInit memory output outPos buf (k * (buf.transfer_unit / N))) = some s ∧
      (∀ fuel, fuel < k → receiveLoop N w fuel
        (receiveInit memory output outPos buf (k * (buf.transfer_unit / N))) = none) ∧
      s.buf.address = (buf.address + k * (buf.transfer_unit + buf.gap)) % 2 ^ w.addressBits ∧
      (s.buf.image_size : Int) =
        ((buf.image_size : Int) - (k * buf.transfer_unit : Nat)) % (2 ^ w.sizeBits : Nat) ∧
      s.buf.transfer_unit = buf.transfer_unit ∧ s.buf.gap = buf.gap ∧
      s.memory = memory := by
  have hou : 0 < buf.transfer_unit / N := Nat.div_pos htu (by omega)
  have h := ReceiveData_units N hN w memory output outPos buf htu k
  have hl := receiveLoop_spec N w k
    (receiveInit memory output outPos buf (k * (buf.transfer_unit / N))) hou rfl
  have hc := receiveIter_cursor N w
    (receiveInit memory output outPos buf (k * (buf.transfer_unit / N))) hfit k
  refine ⟨_, h, ?_, ?_, ?_, ?_, ?_, ?_, ?_⟩
  · rw [hl k, if_pos (le_refl _)]
  · intro fuel hf
    rw [hl fuel, if_neg (by omega)]
  · rw [hc]; rfl
  · rw [hc]
    show ((subWrap w.sizeBits buf.image_size (k * buf.transfer_unit) : Nat) : Int) = _
    unfold subWrap
    have hpos : (0 : Int) < ((2 ^ w.sizeBits : Nat) : Int) := by
      have : 0 < 2 ^ w.sizeBits := Nat.pow_pos (by omega)
      omega
    exact Int.toNat_of_nonneg (Int.emod_nonneg _ (ne_of_gt hpos))
  · rw [hc]; rfl
  · rw [hc]; rfl
  · exact (receiveIter_spec N hN w _ k).1


/-- Claim C9. For `N >= 1` and `transfer_unit >= N`, `ReceiveData<N>` aborts exactly
when the requested amount is not a multiple of `transfer_unit / N`; it then aborts
in its entry state, with the output array and the cursor as they were, and it
returns normally for every multiple. -/
theorem ReceiveData_fatal_iff (N : Nat) (hN : 1 ≤ N) (w : FieldWidths) (memory : ByteStore)
    (output : Nat → Nat) (outPos : Nat) (buf : ConversionBuffer)
    (htu : N ≤ buf.transfer_unit) (amount_of_data : Nat) :
    ((∃ s, ReceiveData N w memory output outPos buf amount_of_data = .fatal s) ↔
      amount_of_data % (buf.transfer_unit / N) ≠ 0) ∧
    (amount_of_data % (buf.transfer_unit / N) ≠ 0 →
      ReceiveData N w memory output outPos buf amount_of_data =
        .fatal { memory := memory, output := output, outPos := outPos, input := buf.address,
                 buf := buf, amount_of_data := amount_of_data }) ∧
    (amount_of_data % (buf.transfer_unit / N) = 0 →
      ∃ s, ReceiveData N w memory output outPos buf amount_of_data = .done s) := by
  have hou : 0 < buf.transfer_unit / N := Nat.div_pos htu (by omega)
  have hf : amount_of_data % (buf.transfer_unit / N) ≠ 0 →
      ReceiveData N w memory output outPos buf amount_of_data =
        .fatal { memory := memory, output := output, outPos := outPos, input := buf.address,
                 buf := buf, amount_of_data := amount_of_data } := by
    intro h
    unfold ReceiveData
    rw [if_neg (by omega), if_pos h]
    rfl
  have hd : amount_of_data % (buf.transfer_unit / N) = 0 →
      ReceiveData N w memory output outPos buf amount_of_data =
        .done ((receiveStep N w)^[amount_of_data / (buf.transfer_unit / N)]
          (receiveInit memory output outPos buf amount_of_data)) := by
    intro hmod
    have e : amount_of_data / (buf.transfer_unit / N) * (buf.transfer_unit / N) =
        amount_of_data := Nat.div_mul_cancel (Nat.dvd_of_mod_eq_zero hmod)
    have := ReceiveData_units N hN w memory output outPos buf htu
      (amount_of_data / (buf.transfer_unit / N))
    rw [e] at this
    exact this
  refine ⟨⟨?_, fun h => ⟨_, hf h⟩⟩, hf, fun h => ⟨_, hd h⟩⟩
  rintro ⟨s, hs⟩ hmod
  rw [hd hmod] at hs
  cases hs

/-- Claim C10. For `transfer_unit >= N` and amounts `a` and `b` that are multiples
of `transfer_unit / N`, with the part of the source read for `a` lying inside the
address space (the cursor does not wrap between the two calls), one call of
`ReceiveData<N>` for `a + b` leaves the same output bytes and the same cursor as a
call for `a` followed by a call for `b` on the updated cursor that writes directly
after the output of the first. -/
theorem ReceiveData_chunking (N : Nat) (hN : 1 ≤ N) (w : FieldWidths) (memory : ByteStore)
    (output : Nat → Nat) (outPos : Nat) (buf : ConversionBuffer)
    (htu : N ≤ buf.transfer_unit) (hfit : ConversionBufferFits w buf) (a b : Nat)
    (ha : a % (buf.transfer_unit / N) = 0) (hb : b % (buf.transfer_unit / N) = 0)
    (hwrap : buf.address + a / (buf.transfer_unit / N) * (buf.transfer_unit + buf.gap)
      < 2 ^ w.addressBits) :
    ∃ s1 s2 s12,
      ReceiveData N w memory output outPos buf a = .done s1 ∧
      ReceiveData N w memory s1.output (outPos + a) s1.buf b = .done s2 ∧
      ReceiveData N w memory output outPos buf (a + b) = .done s12 ∧
      (∀ p, s12.output p = s2.output p) ∧ s12.buf = s2.buf := by
  have hou : 0 < buf.transfer_unit / N := Nat.div_pos htu (by omega)
  generalize hka : a / (buf.transfer_unit / N) = ka at hwrap
  generalize hkb : b / (buf.transfer_unit / N) = kb
  have ea : a = ka * (buf.transfer_unit / N) := by
    rw [← hka]; exact (Nat.div_mul_cancel (Nat.dvd_of_mod_eq_zero ha)).symm
  have eb : b = kb * (buf.transfer_unit / N) := by
    rw [← hkb]; exact (Nat.div_mul_cancel (Nat.dvd_of_mod_eq_zero hb)).symm
  have eab : a + b = (ka + kb) * (buf.transfer_unit / N) := by rw [ea, eb, Nat.add_mul]
  have h1 := ReceiveData_units N hN w memory output outPos buf htu ka
  have c1 := receiveIter_cursor N w (receiveInit memory output outPos buf a) hfit ka
  have o1 := (receiveIter_spec N hN w (receiveInit memory output outPos buf a) ka).2.2.2.2.2.2
  rw [← ea] at h1
  generalize (receiveStep N w)^[ka] (receiveInit memory output outPos buf a) = s1
    at h1 c1 o1
  simp only [receiveInit, GetPointer] at c1 o1
  have a1 : addWrap w.addressBits buf.address (ka * (buf.transfer_unit + buf.gap)) =
      buf.address + ka * (buf.transfer_unit + buf.gap) := Nat.mod_eq_of_lt hwrap
  rw [a1] at c1
  have t1 : s1.buf.transfer_unit = buf.transfer_unit := by rw [c1]
  have fit1 : ConversionBufferFits w s1.buf := by
    rw [c1]; exact ⟨hwrap, subWrap_lt _ _ _⟩
  have h2 := ReceiveData_units N hN w memory s1.output (outPos + a) s1.buf
    (by rw [t1]; exact htu) kb
  have c2 := receiveIter_cursor N w
    (receiveInit memory s1.output (outPos + a) s1.buf (kb * (s1.buf.transfer_unit / N))) fit1 kb
  have o2 := (receiveIter_spec N hN w
    (receiveInit memory s1.output (outPos + a) s1.buf (kb * (s1.buf.transfer_unit / N)))
    kb).2.2.2.2.2.2
  rw [t1, ← eb] at h2 c2 o2
  generalize (receiveStep N w)^[kb] (receiveInit memory s1.output (outPos + a) s1.buf b) = s2
    at h2 c2 o2
  simp only [receiveInit, GetPointer] at c2 o2
  rw [c1] at c2 o2
  simp only [] at c2 o2
  have h12 := ReceiveData_units N hN w memory output outPos buf htu (ka + kb)
  have c12 := receiveIter_cursor N w (receiveInit memory output outPos buf (a + b)) hfit (ka + kb)
  have o12 := (receiveIter_spec N hN w (receiveInit memory output outPos buf (a + b))
    (ka + kb)).2.2.2.2.2.2
  rw [← eab] at h12
  generalize (receiveStep N w)^[ka + kb] (receiveInit memory output outPos buf (a + b)) = s12
    at h12 c12 o12
  simp only [receiveInit, GetPointer] at c12 o12
  refine ⟨s1, s2, s12, h1, h2, h12, ?_, ?_⟩
  · intro p
    rw [o12 p, o2 p, o1 p]
    generalize buf.transfer_unit / N = ou at *
    subst ea
    subst eb
    rw [Nat.add_mul]
    by_cases c : outPos + ka * ou ≤ p ∧ p < outPos + ka * ou + kb * ou
    · rw [if_pos c, if_pos (by omega)]
      obtain ⟨d, hd⟩ : ∃ d, p - outPos = ka * ou + d := ⟨p - outPos - ka * ou, by omega⟩
      have hd' : p - (outPos + ka * ou) = d := by omega
      have e1 : (ka * ou + d) / ou = ka + d / ou := by
        rw [Nat.add_comm, Nat.add_mul_div_right _ _ hou, Nat.add_comm]
      have e2 : (ka * ou + d) % ou = d % ou := by
        rw [Nat.add_comm, Nat.add_mul_mod_self_right]
      rw [hd, hd', e1, e2, Nat.add_mul]
      congr 1
      omega
    · rw [if_neg c]
      by_cases c' : outPos ≤ p ∧ p < outPos + ka * ou
      · rw [if_pos c', if_pos (by omega)]
      · rw [if_neg c', if_neg (by omega)]
  · rw [c12, c2, subWrap_subWrap, Nat.add_mul, Nat.add_mul]
    unfold addWrap
    rw [Nat.add_assoc]

/-! ## Green index table, tile rotations and the `u32` view -/

theorem igEntry_exact (c : CoefficientSet) (h2 : 0 ≤ c.c2) (h3 : 0 ≤ c.c3)
    (hsmall : (c.c2 * 255 + c.c3 * 255) * 256 < 2147483648) (U V : Nat)
    (hU : U < 256) (hV : V < 256) :
    (igEntry c U V : Int) = (256 * (c.c2 * V + c.c3 * U)) / (255 * c.c2 + 255 * c.c3 + 1) ∧
    0 ≤ (256 * (c.c2 * V + c.c3 * U)) / (255 * c.c2 + 255 * c.c3 + 1) ∧
    (256 * (c.c2 * V + c.c3 * U)) / (255 * c.c2 + 255 * c.c3 + 1) ≤ 255 := by
  have hV' : (V : Int) ≤ 255 := by omega
  have hU' : (U : Int) ≤ 255 := by omega
  have hV0 : (0 : Int) ≤ V := Int.ofNat_nonneg V
  have hU0 : (0 : Int) ≤ U := Int.ofNat_nonneg U
  have a1 : 0 ≤ c.c2 * V := mul_nonneg h2 hV0
  have a2 : c.c2 * V ≤ c.c2 * 255 := mul_le_mul_of_nonneg_left hV' h2
  have b1 : 0 ≤ c.c3 * U := mul_nonneg h3 hU0
  have b2 : c.c3 * U ≤ c.c3 * 255 := mul_le_mul_of_nonneg_left hU' h3
  generalize hi : c.c2 * (V : Int) + c.c3 * (U : Int) = i at *
  have i0 : 0 ≤ i := by omega
  have i1 : i ≤ c.c2 * 255 + c.c3 * 255 := by omega
  have hm : maxIG c = 255 * c.c2 + 255 * c.c3 + 1 := by
    unfold maxIG
    rw [wrapS32_of_range (c.c2 * 255 + c.c3 * 255) (by omega) (by omega),
      wrapS32_of_range _ (by omega) (by omega)]
    ring
  generalize hmm : 255 * c.c2 + 255 * c.c3 + 1 = m at *
  have m1 : i + 1 ≤ m := by omega
  have q0 : 0 ≤ 256 * i / m := Int.ediv_nonneg (by omega) (by omega)
  have q1 : 256 * i / m < 256 := Int.ediv_lt_of_lt_mul (by omega) (by omega)
  refine ⟨?_, q0, by omega⟩
  unfold igEntry
  simp only [hi]
  rw [wrapS32_of_range i (by omega) (by omega), wrapS32_of_range (i * 256) (by omega) (by omega),
    hm, Int.zero_add, Int.tdiv_eq_ediv (by omega) (by omega), Int.mul_comm i 256,
    wrapS32_of_range _ (by omega) (by omega)]
  unfold toU8
  omega

/-! ### Tile rotations -/

/-- A run of `n` stores `output[out_map[out_i++]] = input[src j]`, `j = 0 .. n - 1`,
started with `out_i = k0`: when `out_map` is injective on the positions used, the
`j`-th position holds the `j`-th source entry, and no other entry changes. -/
theorem rotateStore_loop (input out_map src : Nat → Nat) (k0 n : Nat) (out : Nat → Nat)
    (hinj : ∀ a b, a < k0 + n → b < k0 + n → out_map a = out_map b → a = b) :
    (forLoop n (fun j st => rotateStore input out_map (src j) st) (k0, out)).1 = k0 + n ∧
    (∀ j, j < n →
      (forLoop n (fun j st => rotateStore input out_map (src j) st) (k0, out)).2
        (out_map (k0 + j)) = input (src j)) ∧
    (∀ a, (∀ j, j < n → a ≠ out_map (k0 + j)) →
      (forLoop n (fun j st => rotateStore input out_map (src j) st) (k0, out)).2 a = out a) := by
  induction n with
  | zero =>
    refine ⟨rfl, fun j hj => by omega, fun a _ => rfl⟩
  | succ n ih =>
    obtain ⟨i1, i2, i3⟩ := ih (fun a b ha hb => hinj a b (by omega) (by omega))
    rw [forLoop_succ]
    generalize forLoop n (fun j st => rotateStore input out_map (src j) st) (k0, out) = st
      at i1 i2 i3
    refine ⟨?_, ?_, ?_⟩
    · show st.1 + 1 = _
      omega
    · intro j hj
      show set1 st.2 (out_map st.1) (input (src n)) (out_map (k0 + j)) = _
      rw [i1]
      by_cases e : j = n
      · subst e
        exact set1_same _ _ _
      · have hne : out_map (k0 + j) ≠ out_map (k0 + n) := by
          intro h
          have := hinj _ _ (by omega) (by omega) h
          omega
        rw [set1_other _ _ _ _ hne]
        exact i2 j (by omega)
    · intro a ha
      show set1 st.2 (out_map st.1) (input (src n)) a = _
      rw [i1, set1_other _ _ _ _ (ha n (by omega))]
      exact i3 a (fun j hj => ha j (by omega))

theorem RotateTile0_spec (input output out_map : Nat → Nat) (height : Nat)
    (hinj : ∀ a b, a < height * 8 → b < height * 8 → out_map a = out_map b → a = b) :
    (∀ i, i < height * 8 → RotateTile0 input output height out_map (out_map i) = input i) ∧
    (∀ a, (∀ i, i < height * 8 → a ≠ out_map i) →
      RotateTile0 input output height out_map a = output a) := by
  unfold RotateTile0
  generalize height * 8 = n at *
  induction n with
  | zero => exact ⟨fun i hi => by omega, fun a _ => rfl⟩
  | succ n ih =>
    obtain ⟨i1, i2⟩ := ih (fun a b ha hb => hinj a b (by omega) (by omega))
    rw [forLoop_succ]
    refine ⟨?_, ?_⟩
    · intro i hi
      show set1 _ (out_map n) (input n) (out_map i) = _
      by_cases e : i = n
      · subst e
        exact set1_same _ _ _
      · have hne : out_map i ≠ out_map n := by
          intro h
          exact e (hinj _ _ (by omega) (by omega) h)
        rw [set1_other _ _ _ _ hne]
        exact i1 i (by omega)
    · intro a ha
      show set1 _ (out_map n) (input n) a = _
      rw [set1_other _ _ _ _ (ha n (by omega))]
      exact i2 a (fun i hi => ha i (by omega))

theorem RotateTile180_spec (input output out_map : Nat → Nat) (height : Nat)
    (hinj : ∀ a b, a < height * 8 → b < height * 8 → out_map a = out_map b → a = b) :
    (∀ j, j < height * 8 →
      RotateTile180 input output height out_map (out_map j) = input (height * 8 - 1 - j)) ∧
    (∀ a, (∀ j, j < height * 8 → a ≠ out_map j) →
      RotateTile180 input output height out_map a = output a) := by
  unfold RotateTile180
  obtain ⟨_, h2, h3⟩ := rotateStore_loop input out_map (fun j => height * 8 - 1 - j) 0
    (height * 8) output (by simpa using hinj)
  refine ⟨?_, ?_⟩
  · intro j hj
    have := h2 j hj
    rw [Nat.zero_add] at this
    exact this
  · intro a ha
    exact h3 a (fun j hj => by rw [Nat.zero_add]; exact ha j hj)

/-- The nested loops of `RotateTile90` and `RotateTile270`: column `x` of the result
occupies the positions `x * height .. x * height + height - 1`. -/
theorem rotateColumns_spec (input out_map : Nat → Nat) (src : Nat → Nat → Nat)
    (height : Nat) (output : Nat → Nat) (cols : Nat)
    (hinj : ∀ a b, a < cols * height → b < cols * height → out_map a = out_map b → a = b) :
    (forLoop cols (fun x st =>
      forLoop height (fun j st => rotateStore input out_map (src x j) st) st) (0, output)).1
      = cols * height ∧
    (∀ x j, x < cols → j < height →
      (forLoop cols (fun x st =>
        forLoop height (fun j st => rotateStore input out_map (src x j) st) st) (0, output)).2
        (out_map (x * height + j)) = input (src x j)) ∧
    (∀ a, (∀ x j, x < cols → j < height → a ≠ out_map (x * height + j)) →
      (forLoop cols (fun x st =>
        forLoop height (fun j st => rotateStore input out_map (src x j) st) st) (0, output)).2 a
        = output a) := by
  induction cols with
  | zero =>
    refine ⟨by simp [forLoop], fun x j hx => by omega, fun a _ => rfl⟩
  | succ n ih =>
    have hle : n * height + height = (n + 1) * height := by ring
    obtain ⟨i1, i2, i3⟩ := ih (fun a b ha hb => hinj a b (by omega) (by omega))
    rw [forLoop_succ]
    generalize forLoop n (fun x st =>
      forLoop height (fun j st => rotateStore input out_map (src x j) st) st) (0, output) = st
      at i1 i2 i3
    obtain ⟨k, o⟩ := st
    simp only at i1 i2 i3
    subst i1
    obtain ⟨r1, r2, r3⟩ := rotateStore_loop input out_map (src n) (n * height) height o
      (fun a b ha hb => hinj a b (by omega) (by omega))
    refine ⟨by rw [r1, hle], ?_, ?_⟩
    · intro x j hx hj
      by_cases e : x = n
      · subst e
        exact r2 j hj
      · have hlt : x * height + j < n * height := by
          have : (x + 1) * height ≤ n * height := Nat.mul_le_mul_right _ (by omega)
          rw [Nat.succ_mul] at this
          omega
        rw [r3 _ (fun j' hj' h => by
          have := hinj _ _ (by omega) (by omega) h
          omega)]
        exact i2 x j (by omega) hj
    · intro a ha
      rw [r3 a (fun j hj => ha n j (by omega) hj)]
      exact i3 a (fun x j hx hj => ha x j (by omega) hj)

theorem RotateTile90_spec (input output out_map : Nat → Nat) (height : Nat)
    (hinj : ∀ a b, a < 8 * height → b < 8 * height → out_map a = out_map b → a = b) :
    (∀ x j, x < 8 → j < height →
      RotateTile90 input output height out_map (out_map (x * height + j))
        = input ((height - 1 - j) * 8 + x)) ∧
    (∀ a, (∀ x j, x < 8 → j < height → a ≠ out_map (x * height + j)) →
      RotateTile90 input output height out_map a = output a) := by
  obtain ⟨_, h2, h3⟩ := rotateColumns_spec input out_map (fun x j => (height - 1 - j) * 8 + x)
    height output 8 hinj
  exact ⟨h2, h3⟩

theorem RotateTile270_spec (input output out_map : Nat → Nat) (height : Nat)
    (hinj : ∀ a b, a < 8 * height → b < 8 * height → out_map a = out_map b → a = b) :
    (∀ x y, x < 8 → y < height →
      RotateTile270 input output height out_map (out_map (x * height + y))
        = input (y * 8 + (7 - x))) ∧
    (∀ a, (∀ x y, x < 8 → y < height → a ≠ out_map (x * height + y)) →
      RotateTile270 input output height out_map a = output a) := by
  obtain ⟨_, h2, h3⟩ := rotateColumns_spec input out_map (fun x y => y * 8 + (7 - x))
    height output 8 hinj
  exact ⟨h2, h3⟩

theorem linear_lut_eq (i : Nat) (hi : i < 64) : linear_lut i = i := by
  revert i
  decide

theorem linear_lut_inj (n : Nat) (hn : n ≤ 64) (a b : Nat) (ha : a < n) (hb : b < n)
    (h : linear_lut a = linear_lut b) : a = b := by
  rw [linear_lut_eq a (by omega), linear_lut_eq b (by omega)] at h
  exact h

theorem RotateTile0_linear (input output : Nat → Nat) (height : Nat) (hh : height ≤ 8)
    (k : Nat) (hk : k < height * 8) : RotateTile0 input output height linear_lut k = input k := by
  have h := (RotateTile0_spec input output linear_lut height
    (linear_lut_inj (height * 8) (by omega))).1 k hk
  rw [linear_lut_eq k (by omega)] at h
  exact h

theorem RotateTile180_linear (input output : Nat → Nat) (height : Nat) (hh : height ≤ 8)
    (k : Nat) (hk : k < height * 8) :
    RotateTile180 input output height linear_lut k = input (height * 8 - 1 - k) := by
  have h := (RotateTile180_spec input output linear_lut height
    (linear_lut_inj (height * 8) (by omega))).1 k hk
  rw [linear_lut_eq k (by omega)] at h
  exact h

theorem RotateTile90_linear (input output : Nat → Nat) (height : Nat) (hh : height ≤ 8)
    (x j : Nat) (hx : x < 8) (hj : j < height) :
    RotateTile90 input output height linear_lut (x * height + j)
      = input ((height - 1 - j) * 8 + x) := by
  have hlt : x * height + j < 8 * height := by
    have : (x + 1) * height ≤ 8 * height := Nat.mul_le_mul_right _ (by omega)
    rw [Nat.succ_mul] at this
    omega
  have h := (RotateTile90_spec input output linear_lut height
    (linear_lut_inj (8 * height) (by omega))).1 x j hx hj
  rw [linear_lut_eq _ (by omega)] at h
  exact h

theorem RotateTile270_linear (input output : Nat → Nat) (height : Nat) (hh : height ≤ 8)
    (x y : Nat) (hx : x < 8) (hy : y < height) :
    RotateTile270 input output height linear_lut (x * height + y)
      = input (y * 8 + (7 - x)) := by
  have hlt : x * height + y < 8 * height := by
    have : (x + 1) * height ≤ 8 * height := Nat.mul_le_mul_right _ (by omega)
    rw [Nat.succ_mul] at this
    omega
  have h := (RotateTile270_spec input output linear_lut height
    (linear_lut_inj (8 * height) (by omega))).1 x y hx hy
  rw [linear_lut_eq _ (by omega)] at h
  exact h

theorem rotateAllFour_entry (input o1 o2 o3 o4 : Nat → Nat) (k : Nat) (hk : k < 64) :
    rotateAllFour input o1 o2 o3 o4 k = input (63 - k) := by
  unfold rotateAllFour
  obtain ⟨x, c, hx, hc, rfl⟩ : ∃ x c, x < 8 ∧ c < 8 ∧ k = x * 8 + c :=
    ⟨k / 8, k % 8, by omega, by omega, by omega⟩
  rw [RotateTile270_linear _ _ 8 (le_refl _) x c hx hc,
    RotateTile180_linear _ _ 8 (le_refl _) _ (by omega)]
  have e1 : 8 * 8 - 1 - (c * 8 + (7 - x)) = (7 - c) * 8 + x := by omega
  rw [e1, RotateTile90_linear _ _ 8 (le_refl _) (7 - c) x (by omega) hx,
    RotateTile0_linear _ _ 8 (le_refl _) _ (by omega)]
  congr 1
  omega

/-- Claim C19, corrected. For a full 8-row tile with the linear output map, the four
rotations applied in sequence (`RotateTile0`, `RotateTile90`, `RotateTile180`,
`RotateTile270`, each with height 8) give the tile rotated by a half turn, not the
original tile: entry `k` of the result is entry `63 - k` of the original, which is
what one call of `RotateTile180` gives. -/
theorem rotateAllFour_is_half_turn (input o1 o2 o3 o4 o : Nat → Nat) (k : Nat) (hk : k < 64) :
    rotateAllFour input o1 o2 o3 o4 k = input (63 - k) ∧
    rotateAllFour input o1 o2 o3 o4 k = RotateTile180 input o 8 linear_lut k := by
  refine ⟨rotateAllFour_entry input o1 o2 o3 o4 k hk, ?_⟩
  rw [rotateAllFour_entry input o1 o2 o3 o4 k hk,
    RotateTile180_linear _ _ 8 (le_refl _) k (by omega)]

/-- Claim C19, counterexample. The four rotations in sequence are not the identity:
entry 0 of the tile whose entry `i` is `i` is 63 afterwards. -/
theorem rotateAllFour_not_identity :
    rotateAllFour rampTile blankOutput blankOutput blankOutput blankOutput 0 = 63 ∧
    rampTile 0 = 0 := by
  constructor
  · rw [rotateAllFour_entry _ _ _ _ _ 0 (by decide)]
    rfl
  · rfl

/-! ### The `u32` view of the byte buffer -/

theorem writeU32_byte (buffer : Nat → Nat) (i v k : Nat) (hk : k < 4) :
    writeU32 buffer i v (4 * i + k) = (v >>> (8 * k)) % 256 := by
  unfold writeU32
  rw [if_pos ⟨by omega, by omega⟩, Nat.add_sub_cancel_left]

theorem writeU32_outside (buffer : Nat → Nat) (i v a : Nat) (ha : a < 4 * i ∨ 4 * i + 4 ≤ a) :
    writeU32 buffer i v a = buffer a := by
  unfold writeU32
  rw [if_neg (by omega)]

theorem readU32_writeU32_same (buffer : Nat → Nat) (i v : Nat) :
    readU32 (writeU32 buffer i v) i = v % 4294967296 := by
  unfold readU32
  have h0 := writeU32_byte buffer i v 0 (by omega)
  have h1 := writeU32_byte buffer i v 1 (by omega)
  have h2 := writeU32_byte buffer i v 2 (by omega)
  have h3 := writeU32_byte buffer i v 3 (by omega)
  rw [Nat.add_zero] at h0
  rw [h0, h1, h2, h3]
  simp only [Nat.shiftRight_eq_div_pow]
  omega

theorem readU32_writeU32_other (buffer : Nat → Nat) (i v j : Nat) (h : j ≠ i) :
    readU32 (writeU32 buffer i v) j = readU32 buffer j := by
  unfold readU32
  rw [writeU32_outside buffer i v (4 * j) (by omega),
    writeU32_outside buffer i v (4 * j + 1) (by omega),
    writeU32_outside buffer i v (4 * j + 2) (by omega),
    writeU32_outside buffer i v (4 * j + 3) (by omega)]

/-- A store through the `u32` view changes bytes `4 * i .. 4 * i + 3` only. -/
theorem readU32_lt (buffer : Nat → Nat) (i : Nat) : readU32 buffer i < 4294967296 := by
  unfold readU32
  omega

/-- One row of `WriteTileToOutput`. -/
theorem writeRow_spec (buffer : Nat → Nat) (base : Nat) (tile : Nat → Nat) (row m : Nat) :
    (∀ x, x < m →
      readU32 (forLoop m (fun x buffer => writeU32 buffer (base + x) (tile (row * 8 + x))) buffer)
        (base + x) = tile (row * 8 + x) % 4294967296) ∧
    (∀ idx, (idx < base ∨ base + m ≤ idx) →
      readU32 (forLoop m (fun x buffer => writeU32 buffer (base + x) (tile (row * 8 + x))) buffer)
        idx = readU32 buffer idx) := by
  induction m with
  | zero => exact ⟨fun x hx => by omega, fun idx _ => rfl⟩
  | succ m ih =>
    obtain ⟨i1, i2⟩ := ih
    rw [forLoop_succ]
    refine ⟨?_, ?_⟩
    · intro x hx
      by_cases e : x = m
      · subst e
        exact readU32_writeU32_same _ _ _
      · rw [readU32_writeU32_other _ _ _ _ (by omega)]
        exact i1 x (by omega)
    · intro idx hidx
      rw [readU32_writeU32_other _ _ _ _ (by omega)]
      exact i2 idx (by omega)

theorem WriteTileToOutput_spec (buffer : Nat → Nat) (out : Nat) (tile : Nat → Nat)
    (height line_stride : Nat) (hs : 8 ≤ line_stride) :
    (∀ y x, y < height → x < 8 →
      readU32 (WriteTileToOutput buffer out tile height line_stride)
        (out + (y * line_stride + x)) = tile (y * 8 + x) % 4294967296) ∧
    (∀ idx, (∀ y x, y < height → x < 8 → idx ≠ out + (y * line_stride + x)) →
      readU32 (WriteTileToOutput buffer out tile height line_stride) idx = readU32 buffer idx) := by
  unfold WriteTileToOutput
  induction height with
  | zero => exact ⟨fun y x hy => by omega, fun idx _ => rfl⟩
  | succ n ih =>
    obtain ⟨i1, i2⟩ := ih
    rw [forLoop_succ]
    generalize forLoop n (fun y buffer => forLoop 8 (fun x buffer =>
      writeU32 buffer (out + (y * line_stride + x)) (tile (y * 8 + x))) buffer) buffer = b1
      at i1 i2
    have row := writeRow_spec b1 (out + n * line_stride) tile n 8
    have e : (fun x buffer => writeU32 buffer (out + (n * line_stride + x)) (tile (n * 8 + x)))
        = (fun x buffer => writeU32 buffer (out + n * line_stride + x) (tile (n * 8 + x))) := by
      funext x b
      rw [Nat.add_assoc]
    show (∀ y x, y < n + 1 → x < 8 →
        readU32 (forLoop 8 (fun x buffer =>
          writeU32 buffer (out + (n * line_stride + x)) (tile (n * 8 + x))) b1)
          (out + (y * line_stride + x)) = _) ∧
      (∀ idx, _ → readU32 (forLoop 8 (fun x buffer =>
          writeU32 buffer (out + (n * line_stride + x)) (tile (n * 8 + x))) b1) idx = _)
    rw [e]
    obtain ⟨r1, r2⟩ := row
    refine ⟨?_, ?_⟩
    · intro y x hy hx
      by_cases ey : y = n
      · subst ey
        rw [← Nat.add_assoc]
        exact r1 x hx
      · have hlt : y * line_stride + x < n * line_stride := by
          have : (y + 1) * line_stride ≤ n * line_stride := Nat.mul_le_mul_right _ (by omega)
          rw [Nat.succ_mul] at this
          omega
        rw [r2 _ (by omega)]
        exact i1 y x (by omega) hx
    · intro idx hidx
      have hrow : idx < out + n * line_stride ∨ out + n * line_stride + 8 ≤ idx := by
        by_contra hc
        have := hidx n (idx - (out + n * line_stride)) (by omega) (by omega)
        omega
      rw [r2 idx hrow]
      exact i2 idx (fun y x hy hx => hidx y x (by omega) hx)

/-- A loop over tile slots in which slot `i` writes, with `WriteTileToOutput`, a tile
whose first `8 * height` entries are `f i`, at position `i * adv`: when the
positions of distinct slots differ, every written position holds its entry and
no other position changes. -/
theorem tileSlots_spec (step : Nat → TileLoopState → Option TileLoopState)
    (g : Nat → (Nat → Nat) → Nat → Nat) (f : Nat → Nat → Nat)
    (height stride adv n : Nat) (hs : 8 ≤ stride)
    (hstep : ∀ i s, step i s =
      some { buffer := WriteTileToOutput s.buffer s.out (g i s.tmp_tile) height stride
             tmp_tile := g i s.tmp_tile
             out := s.out + adv })
    (hg : ∀ i tmp q, i < n → q < height * 8 → g i tmp q = f i q)
    (hdist : ∀ i j y z x u, i < n → j < i → y < height → z < height → x < 8 → u < 8 →
      j * adv + (z * stride + u) ≠ i * adv + (y * stride + x))
    (buffer tmp : Nat → Nat) (m : Nat) (hm : m ≤ n) :
    ∃ s, forLoopM m step { buffer := buffer, tmp_tile := tmp, out := 0 } = some s ∧
      s.out = m * adv ∧
      (∀ i y x, i < m → y < height → x < 8 →
        readU32 s.buffer (i * adv + (y * stride + x)) = f i (y * 8 + x) % 4294967296) ∧
      (∀ idx, (∀ i y x, i < m → y < height → x < 8 → idx ≠ i * adv + (y * stride + x)) →
        readU32 s.buffer idx = readU32 buffer idx) := by
  induction m with
  | zero =>
    exact ⟨_, rfl, by simp, fun i y x hi => by omega, fun idx _ => rfl⟩
  | succ m ih =>
    obtain ⟨s, e, a1, a2, a3⟩ := ih (by omega)
    obtain ⟨w1, w2⟩ := WriteTileToOutput_spec s.buffer s.out (g m s.tmp_tile) height stride hs
    refine ⟨_, by rw [forLoopM_succ, e]; exact hstep m s, ?_, ?_, ?_⟩
    · show s.out + adv = _
      rw [a1, Nat.succ_mul]
    · intro i y x hi hy hx
      show readU32 (WriteTileToOutput s.buffer s.out (g m s.tmp_tile) height stride) _ = _
      by_cases ei : i = m
      · subst ei
        rw [← a1, w1 y x hy hx, hg i _ _ (by omega) (by omega)]
      · rw [w2 _ (fun z u hz hu => by
          rw [a1]
          exact hdist m i z y u x (by omega) (by omega) hz hy hu hx)]
        exact a2 i y x (by omega) hy hx
    · intro idx hidx
      show readU32 (WriteTileToOutput s.buffer s.out (g m s.tmp_tile) height stride) _ = _
      rw [w2 idx (fun y x hy hx => by rw [a1]; exact hidx m y x (by omega) hy hx)]
      exact a3 idx (fun i y x hi hy hx => hidx i y x (by omega) hy hx)

theorem block_decompose (w a b y z : Nat) (ha : a < w) (hb : b < w)
    (h : y * w + a = z * w + b) : y = z ∧ a = b := by
  have h1 := div_mod_block w y a ha
  have h2 := div_mod_block w z b hb
  rw [h] at h1
  exact ⟨h1.1.symm.trans h2.1, h1.2.symm.trans h2.2⟩

/-- Positions of distinct tile slots in a row-major strip of width `8 * n` differ. -/
theorem rowMajor_distinct (n height : Nat) (i j y z x u : Nat) (hi : i < n) (hj : j < i)
    (_hy : y < height) (_hz : z < height) (hx : x < 8) (hu : u < 8) :
    j * 8 + (z * (8 * n) + u) ≠ i * 8 + (y * (8 * n) + x) := by
  intro h
  have h' : z * (8 * n) + (j * 8 + u) = y * (8 * n) + (i * 8 + x) := by omega
  have := block_decompose (8 * n) (j * 8 + u) (i * 8 + x) z y (by omega) (by omega) h'
  omega

/-- Positions of distinct tile slots differ when slot `i` starts at `i * (height * 8)`
and is written with stride 8. -/
theorem slotMajor_distinct (n height : Nat) (i j y z x u : Nat) (_hi : i < n) (hj : j < i)
    (hy : y < height) (hz : z < height) (hx : x < 8) (hu : u < 8) :
    j * (height <<< 3) + (z * 8 + u) ≠ i * (height <<< 3) + (y * 8 + x) := by
  rw [Nat.shiftLeft_eq]
  intro h
  have h1 : z * 8 + u < height * 2 ^ 3 := by omega
  have h2 : y * 8 + x < height * 2 ^ 3 := by omega
  have := block_decompose (height * 2 ^ 3) _ _ j i h1 h2 h
  omega

/-! ## Tile loop -/

theorem tileStep_none_linear (tiles : Nat → Nat → Nat) (n w h i : Nat) (s : TileLoopState) :
    tileStep .None .Linear tiles n w h i s =
      some { buffer := WriteTileToOutput s.buffer s.out
               (RotateTile0 (tiles i) s.tmp_tile h linear_lut) h w
             tmp_tile := RotateTile0 (tiles i) s.tmp_tile h linear_lut
             out := s.out + 8 } := rfl

theorem tileStep_180_linear (tiles : Nat → Nat → Nat) (n w h i : Nat) (s : TileLoopState) :
    tileStep .Clockwise_180 .Linear tiles n w h i s =
      some { buffer := WriteTileToOutput s.buffer s.out
               (RotateTile180 (tiles (n - i - 1)) s.tmp_tile h linear_lut) h w
             tmp_tile := RotateTile180 (tiles (n - i - 1)) s.tmp_tile h linear_lut
             out := s.out + 8 } := rfl

theorem tileStep_90_linear (tiles : Nat → Nat → Nat) (n w h i : Nat) (s : TileLoopState) :
    tileStep .Clockwise_90 .Linear tiles n w h i s =
      some { buffer := WriteTileToOutput s.buffer s.out
               (RotateTile90 (tiles i) s.tmp_tile h linear_lut) h 8
             tmp_tile := RotateTile90 (tiles i) s.tmp_tile h linear_lut
             out := s.out + h <<< 3 } := rfl

theorem tileStep_270_linear (tiles : Nat → Nat → Nat) (n w h i : Nat) (s : TileLoopState) :
    tileStep .Clockwise_270 .Linear tiles n w h i s =
      some { buffer := WriteTileToOutput s.buffer s.out
               (RotateTile270 (tiles (n - i - 1)) s.tmp_tile h linear_lut) h 8
             tmp_tile := RotateTile270 (tiles (n - i - 1)) s.tmp_tile h linear_lut
             out := s.out + h <<< 3 } := rfl

/-- The tile loop with `Rotation::None` and Linear alignment leaves the strip in
row-major order in the `u32` view of `data_buffer`. -/
theorem tileLoop_none_linear_spec (tiles : Nat → Nat → Nat) (w h : Nat)
    (hw : w % 8 = 0) (_hh1 : 1 ≤ h) (hh8 : h ≤ 8)
    (htyped : ∀ t i, tiles t i < 4294967296) (buffer tmp : Nat → Nat) :
    ∃ s, tileLoop .None .Linear tiles (w >>> 3) w h buffer tmp = some s ∧
      ∀ X y, X < w → y < h →
        readU32 s.buffer (y * w + X) = tiles (X >>> 3) ((y <<< 3) + (X &&& 7)) := by
  rw [shr3]
  obtain ⟨n, rfl⟩ : ∃ n, w = 8 * n := ⟨w / 8, by omega⟩
  have hn : 8 * n / 8 = n := by omega
  rw [hn]
  by_cases h0 : n = 0
  · subst h0
    exact ⟨_, rfl, fun X y hX => by omega⟩
  obtain ⟨s, e, _, a2, _⟩ := tileSlots_spec
    (tileStep .None .Linear tiles n (8 * n) h)
    (fun i tmp => RotateTile0 (tiles i) tmp h linear_lut) (fun i q => tiles i q)
    h (8 * n) 8 n (by omega) (tileStep_none_linear tiles n (8 * n) h)
    (fun i tmp q _ hq => RotateTile0_linear (tiles i) tmp h hh8 q hq)
    (rowMajor_distinct n h) buffer tmp n (le_refl _)
  refine ⟨s, e, ?_⟩
  intro X y hX hy
  have := a2 (X / 8) y (X % 8) (by omega) hy (by omega)
  rw [Nat.mod_eq_of_lt (htyped _ _)] at this
  rw [shr3, and7, Nat.shiftLeft_eq, ← this]
  congr 1
  omega

/-- Claim C15. With `Rotation::None` and Linear alignment, for a strip of
`row_height` `h` in `1..8` and a width `w` that is a multiple of 8, whose tiles hold
`u32` values, the tile loop returns and leaves the strip in row-major order in the
`u32` view of `data_buffer`, the buffer handed to `SendData`: entry `y * w + X` is
`tiles[X >> 3][(y << 3) + (X & 7)]`, the decoded pixel at column `X`, row `y`, for
every `X < w` and `y < h`. -/
theorem tileLoop_none_linear_row_major (tiles : Nat → Nat → Nat) (w h : Nat)
    (hw : w % 8 = 0) (hh1 : 1 ≤ h) (hh8 : h ≤ 8)
    (htyped : ∀ t i, tiles t i < 4294967296) (buffer tmp : Nat → Nat) :
    ∃ s, tileLoop .None .Linear tiles (w >>> 3) w h buffer tmp = some s ∧
      ∀ X y, X < w → y < h →
        readU32 s.buffer (y * w + X) = tiles (X >>> 3) ((y <<< 3) + (X &&& 7)) :=
  tileLoop_none_linear_spec tiles w h hw hh1 hh8 htyped buffer tmp

/-- Claim C16. With `Clockwise_180` and Linear alignment, for a strip of
`row_height` `h` in `1..8` and a width `w` that is a multiple of 8, whose tiles hold
`u32` values, the tile loop returns; output tile slot `i` holds the half turn of
decoded tile `num_tiles - 1 - i`, and the whole strip is rotated by 180 degrees:
entry `y * w + X` of the `u32` view of `data_buffer` is the decoded pixel at column
`w - 1 - X`, row `h - 1 - y`, for every `X < w` and `y < h`. -/
theorem tileLoop_180_linear_half_turn (tiles : Nat → Nat → Nat) (w h : Nat)
    (hw : w % 8 = 0) (_hh1 : 1 ≤ h) (hh8 : h ≤ 8)
    (htyped : ∀ t i, tiles t i < 4294967296) (buffer tmp : Nat → Nat) :
    ∃ s, tileLoop .Clockwise_180 .Linear tiles (w >>> 3) w h buffer tmp = some s ∧
      (∀ i y x, i < w >>> 3 → y < h → x < 8 →
        readU32 s.buffer (y * w + (i * 8 + x)) =
          RotateTile180 (tiles ((w >>> 3) - 1 - i)) tmp h linear_lut (y * 8 + x)) ∧
      (∀ X y, X < w → y < h →
        readU32 s.buffer (y * w + X) =
          tiles ((w - 1 - X) >>> 3) (((h - 1 - y) <<< 3) + ((w - 1 - X) &&& 7))) := by
  rw [shr3]
  obtain ⟨n, rfl⟩ : ∃ n, w = 8 * n := ⟨w / 8, by omega⟩
  have hn : 8 * n / 8 = n := by omega
  rw [hn]
  by_cases h0 : n = 0
  · subst h0
    exact ⟨_, rfl, fun i y x hi => by omega, fun X y hX => by omega⟩
  obtain ⟨s, e, _, a2, _⟩ := tileSlots_spec
    (tileStep .Clockwise_180 .Linear tiles n (8 * n) h)
    (fun i tmp => RotateTile180 (tiles (n - i - 1)) tmp h linear_lut)
    (fun i q => tiles (n - i - 1) (h * 8 - 1 - q))
    h (8 * n) 8 n (by omega) (tileStep_180_linear tiles n (8 * n) h)
    (fun i tmp q _ hq => RotateTile180_linear (tiles (n - i - 1)) tmp h hh8 q hq)
    (rowMajor_distinct n h) buffer tmp n (le_refl _)
  refine ⟨s, e, ?_, ?_⟩
  · intro i y x hi hy hx
    have := a2 i y x hi hy hx
    rw [Nat.mod_eq_of_lt (htyped _ _)] at this
    have e1 : n - 1 - i = n - i - 1 := by omega
    have e2 : y * (8 * n) + (i * 8 + x) = i * 8 + (y * (8 * n) + x) := by omega
    rw [RotateTile180_linear _ _ h hh8 _ (by omega), e1, e2, this]
  · intro X y hX hy
    have := a2 (X / 8) y (X % 8) (by omega) hy (by omega)
    rw [Nat.mod_eq_of_lt (htyped _ _)] at this
    rw [shr3, and7, Nat.shiftLeft_eq]
    have e1 : y * (8 * n) + X = X / 8 * 8 + (y * (8 * n) + X % 8) := by omega
    have e2 : (8 * n - 1 - X) / 8 = n - X / 8 - 1 := by omega
    have e3 : (h - 1 - y) * 2 ^ 3 + (8 * n - 1 - X) % 8 = h * 8 - 1 - (y * 8 + X % 8) := by omega
    rw [e1, this, e2, e3]


/-- Slot `i` of a quarter-turn strip: the writes of the `i`-th iteration stay inside
the positions `i * (8 * height) .. (i + 1) * (8 * height) - 1`. -/
theorem quarterTurn_slot (step : Nat → TileLoopState → Option TileLoopState)
    (g : Nat → (Nat → Nat) → Nat → Nat) (f : Nat → Nat → Nat) (height n : Nat)
    (hstep : ∀ i s, step i s =
      some { buffer := WriteTileToOutput s.buffer s.out (g i s.tmp_tile) height 8
             tmp_tile := g i s.tmp_tile
             out := s.out + height <<< 3 })
    (hg : ∀ i tmp q, i < n → q < height * 8 → g i tmp q = f i q)
    (buffer tmp : Nat → Nat) (i : Nat) (hi : i < n) :
    ∃ si sj, forLoopM i step { buffer := buffer, tmp_tile := tmp, out := 0 } = some si ∧
      forLoopM (i + 1) step { buffer := buffer, tmp_tile := tmp, out := 0 } = some sj ∧
      si.out = i * (8 * height) ∧
      ∀ idx, (idx < i * (8 * height) ∨ (i + 1) * (8 * height) ≤ idx) →
        readU32 sj.buffer idx = readU32 si.buffer idx := by
  obtain ⟨si, e, a1, _, _⟩ := tileSlots_spec step g f height 8 (height <<< 3) n (le_refl _)
    hstep hg (slotMajor_distinct n height) buffer tmp i (by omega)
  have hadv : height <<< 3 = 8 * height := by rw [Nat.shiftLeft_eq]; omega
  rw [hadv] at a1
  refine ⟨si, _, e, by rw [forLoopM_succ, e]; exact hstep i si, a1, ?_⟩
  intro idx hidx
  show readU32 (WriteTileToOutput si.buffer si.out (g i si.tmp_tile) height 8) idx = _
  have e1 : (i + 1) * (8 * height) = i * (8 * height) + 8 * height := by ring
  rw [e1] at hidx
  exact (WriteTileToOutput_spec si.buffer si.out (g i si.tmp_tile) height 8 (le_refl _)).2 idx
    (fun y x hy hx => by rw [a1]; omega)

theorem quarterTurn_index (h R c : Nat) (_hh : 1 ≤ h) (hc : c < h) :
    R * h + c = R / 8 * (h <<< 3) + ((R % 8 * h + c) / 8 * 8 + (R % 8 * h + c) % 8) ∧
    (R % 8 * h + c) / 8 < h ∧ (R % 8 * h + c) % 8 < 8 ∧
    (R % 8 * h + c) / h = R % 8 ∧ (R % 8 * h + c) % h = c := by
  have h1 := div_mod_block h (R % 8) c hc
  have hq : R % 8 * h + c < 8 * h := by
    have : (R % 8 + 1) * h ≤ 8 * h := Nat.mul_le_mul_right _ (by omega)
    rw [Nat.succ_mul] at this
    omega
  refine ⟨?_, by omega, by omega, h1.1, h1.2⟩
  rw [Nat.shiftLeft_eq]
  have e : R * h = R / 8 * (h * 2 ^ 3) + R % 8 * h := by
    have : R = R / 8 * 8 + R % 8 := by omega
    calc R * h = (R / 8 * 8 + R % 8) * h := by rw [← this]
      _ = R / 8 * (h * 2 ^ 3) + R % 8 * h := by ring
  omega

/-- Claim C17. With a quarter-turn rotation and Linear alignment, for a strip of
`row_height` `h` in `1..8` and a width `w` that is a multiple of 8, whose tiles hold
`u32` values, the tile loop returns and the strip is emitted as `w` rows of `h`
pixels: entry `R * h + c` of the `u32` view of `data_buffer` is the decoded pixel at
column `R`, row `h - 1 - c` for `Clockwise_90`, and at column `w - 1 - R`, row `c`
for `Clockwise_270`. Tile slot `i` is written at `output_buffer = i * 8 * h` and
changes no entry outside `[i * 8 * h, (i + 1) * 8 * h)`, so distinct tiles do not
overlap. -/
theorem tileLoop_quarter_turn_linear (tiles : Nat → Nat → Nat) (w h : Nat)
    (hw : w % 8 = 0) (hh1 : 1 ≤ h) (hh8 : h ≤ 8)
    (htyped : ∀ t i, tiles t i < 4294967296) (buffer tmp : Nat → Nat) :
    (∃ s, tileLoop .Clockwise_90 .Linear tiles (w >>> 3) w h buffer tmp = some s ∧
      ∀ R c, R < w → c < h →
        readU32 s.buffer (R * h + c) = tiles (R >>> 3) (((h - 1 - c) <<< 3) + (R &&& 7))) ∧
    (∃ s, tileLoop .Clockwise_270 .Linear tiles (w >>> 3) w h buffer tmp = some s ∧
      ∀ R c, R < w → c < h →
        readU32 s.buffer (R * h + c) =
          tiles ((w - 1 - R) >>> 3) ((c <<< 3) + ((w - 1 - R) &&& 7))) ∧
    (∀ rotation, rotation = Rotation.Clockwise_90 ∨ rotation = Rotation.Clockwise_270 →
      ∀ i, i < w >>> 3 → ∃ si sj,
        forLoopM i (tileStep rotation .Linear tiles (w >>> 3) w h)
          { buffer := buffer, tmp_tile := tmp, out := 0 } = some si ∧
        forLoopM (i + 1) (tileStep rotation .Linear tiles (w >>> 3) w h)
          { buffer := buffer, tmp_tile := tmp, out := 0 } = some sj ∧
        si.out = i * (8 * h) ∧
        ∀ idx, (idx < i * (8 * h) ∨ (i + 1) * (8 * h) ≤ idx) →
          readU32 sj.buffer idx = readU32 si.buffer idx) := by
  rw [shr3]
  obtain ⟨n, rfl⟩ : ∃ n, w = 8 * n := ⟨w / 8, by omega⟩
  have hn : 8 * n / 8 = n := by omega
  rw [hn]
  have g90 : ∀ i tmp q, i < n → q < h * 8 →
      RotateTile90 (tiles i) tmp h linear_lut q = tiles i ((h - 1 - q % h) * 8 + q / h) := by
    intro i tmp q _ hq
    have hx : q / h < 8 := Nat.div_lt_of_lt_mul (by omega)
    have hj : q % h < h := Nat.mod_lt _ (by omega)
    have := RotateTile90_linear (tiles i) tmp h hh8 (q / h) (q % h) hx hj
    rw [Nat.div_add_mod' q h] at this
    exact this
  have g270 : ∀ i tmp q, i < n → q < h * 8 →
      RotateTile270 (tiles (n - i - 1)) tmp h linear_lut q
        = tiles (n - i - 1) (q % h * 8 + (7 - q / h)) := by
    intro i tmp q _ hq
    have hx : q / h < 8 := Nat.div_lt_of_lt_mul (by omega)
    have hj : q % h < h := Nat.mod_lt _ (by omega)
    have := RotateTile270_linear (tiles (n - i - 1)) tmp h hh8 (q / h) (q % h) hx hj
    rw [Nat.div_add_mod' q h] at this
    exact this
  refine ⟨?_, ?_, ?_⟩
  · obtain ⟨s, e, _, a2, _⟩ := tileSlots_spec
      (tileStep .Clockwise_90 .Linear tiles n (8 * n) h)
      (fun i tmp => RotateTile90 (tiles i) tmp h linear_lut)
      (fun i q => tiles i ((h - 1 - q % h) * 8 + q / h))
      h 8 (h <<< 3) n (le_refl _) (tileStep_90_linear tiles n (8 * n) h) g90
      (slotMajor_distinct n h) buffer tmp n (le_refl _)
    refine ⟨s, e, ?_⟩
    intro R c hR hc
    obtain ⟨q1, q2, q3, q4, q5⟩ := quarterTurn_index h R c hh1 hc
    have := a2 (R / 8) ((R % 8 * h + c) / 8) ((R % 8 * h + c) % 8) (by omega) q2 q3
    rw [Nat.mod_eq_of_lt (htyped _ _)] at this
    rw [q1, this, shr3, and7, Nat.shiftLeft_eq]
    have e1 : (R % 8 * h + c) / 8 * 8 + (R % 8 * h + c) % 8 = R % 8 * h + c := by omega
    rw [e1, q4, q5]
  · obtain ⟨s, e, _, a2, _⟩ := tileSlots_spec
      (tileStep .Clockwise_270 .Linear tiles n (8 * n) h)
      (fun i tmp => RotateTile270 (tiles (n - i - 1)) tmp h linear_lut)
      (fun i q => tiles (n - i - 1) (q % h * 8 + (7 - q / h)))
      h 8 (h <<< 3) n (le_refl _) (tileStep_270_linear tiles n (8 * n) h) g270
      (slotMajor_distinct n h) buffer tmp n (le_refl _)
    refine ⟨s, e, ?_⟩
    intro R c hR hc
    obtain ⟨q1, q2, q3, q4, q5⟩ := quarterTurn_index h R c hh1 hc
    have := a2 (R / 8) ((R % 8 * h + c) / 8) ((R % 8 * h + c) % 8) (by omega) q2 q3
    rw [Nat.mod_eq_of_lt (htyped _ _)] at this
    rw [q1, this, shr3, and7, Nat.shiftLeft_eq]
    have e1 : (R % 8 * h + c) / 8 * 8 + (R % 8 * h + c) % 8 = R % 8 * h + c := by omega
    have e2 : (8 * n - 1 - R) / 8 = n - R / 8 - 1 := by omega
    have e3 : (8 * n - 1 - R) % 8 = 7 - R % 8 := by omega
    rw [e1, q4, q5, e2, e3]
  · intro rotation hrot i hi
    rcases hrot with rfl | rfl
    · exact quarterTurn_slot (tileStep .Clockwise_90 .Linear tiles n (8 * n) h)
        (fun i tmp => RotateTile90 (tiles i) tmp h linear_lut)
        (fun i q => tiles i ((h - 1 - q % h) * 8 + q / h)) h n
        (tileStep_90_linear tiles n (8 * n) h) g90 buffer tmp i hi
    · exact quarterTurn_slot (tileStep .Clockwise_270 .Linear tiles n (8 * n) h)
        (fun i tmp => RotateTile270 (tiles (n - i - 1)) tmp h linear_lut)
        (fun i q => tiles (n - i - 1) (q % h * 8 + (7 - q / h))) h n
        (tileStep_270_linear tiles n (8 * n) h) g270 buffer tmp i hi

/-! ## Streaming output: `SendData` -/

/-! ### Streaming output -/

/-- The colour vector `SendData` encodes for the intermediate colour `color`. -/
theorem sendPixel_memory (enc : PixelEncoder) (fmt : OutputFormat) (input : Nat → Nat)
    (alpha : Nat) (s : SendState) (a : Nat) :
    (sendPixel enc fmt input alpha s).memory a =
      if s.output ≤ a ∧ a < s.output + bytesPerPixel fmt
      then enc fmt (byteOf (input s.inPos) 3) (byteOf (input s.inPos) 2)
        (byteOf (input s.inPos) 1) alpha (a - s.output)
      else s.memory a := rfl

/-- State after `j` pixels of one unit. -/
theorem sendPixels_spec (enc : PixelEncoder) (fmt : OutputFormat) (input : Nat → Nat)
    (alpha : Nat) (s : SendState) (j : Nat) :
    ((sendPixel enc fmt input alpha)^[j] s).output = s.output + j * bytesPerPixel fmt ∧
    ((sendPixel enc fmt input alpha)^[j] s).inPos = s.inPos + j ∧
    ((sendPixel enc fmt input alpha)^[j] s).amount_of_data = s.amount_of_data - j ∧
    ((sendPixel enc fmt input alpha)^[j] s).buf = s.buf ∧
    (∀ i b, i < j → b < bytesPerPixel fmt →
      ((sendPixel enc fmt input alpha)^[j] s).memory (s.output + i * bytesPerPixel fmt + b) =
        enc fmt (byteOf (input (s.inPos + i)) 3) (byteOf (input (s.inPos + i)) 2)
          (byteOf (input (s.inPos + i)) 1) alpha b) ∧
    (∀ a, (a < s.output ∨ s.output + j * bytesPerPixel fmt ≤ a) →
      ((sendPixel enc fmt input alpha)^[j] s).memory a = s.memory a) := by
  induction j with
  | zero =>
    refine ⟨by simp, rfl, by simp, rfl, fun i b hi => by omega, fun a _ => rfl⟩
  | succ j ih =>
    obtain ⟨i1, i2, i3, i4, i5, i6⟩ := ih
    rw [Function.iterate_succ_apply']
    generalize (sendPixel enc fmt input alpha)^[j] s = sj at i1 i2 i3 i4 i5 i6
    generalize hbpp : bytesPerPixel fmt = bpp at *
    refine ⟨?_, ?_, ?_, i4, ?_, ?_⟩
    · show sj.output + bytesPerPixel fmt = _
      rw [i1, hbpp, Nat.succ_mul, Nat.add_assoc]
    · show sj.inPos + 1 = _
      rw [i2, Nat.add_assoc]
    · show sj.amount_of_data - 1 = _
      rw [i3]
      push_cast
      ring
    · intro i b hi hb
      rw [sendPixel_memory, hbpp, i1, i2]
      by_cases e : i = j
      · subst e
        rw [if_pos ⟨by omega, by omega⟩]
        congr 1
        omega
      · have hlt : i * bpp + b < j * bpp := by
          have : (i + 1) * bpp ≤ j * bpp := Nat.mul_le_mul_right _ (by omega)
          rw [Nat.succ_mul] at this
          omega
        rw [if_neg (by omega)]
        exact i5 i b (by omega) hb
    · intro a ha
      rw [Nat.succ_mul] at ha
      rw [sendPixel_memory, hbpp, i1, if_neg (by omega)]
      exact i6 a (by omega)

/-- The inner loop of `SendData` runs exactly `r` iterations when `r` is the least
number of pixels that reaches `unit_end`. -/
theorem sendUnitLoop_spec (enc : PixelEncoder) (fmt : OutputFormat) (input : Nat → Nat)
    (alpha : Nat) (unit_end : Nat) (r : Nat) :
    ∀ (s : SendState) (fuel : Nat), r ≤ fuel →
      unit_end ≤ s.output + r * bytesPerPixel fmt →
      (∀ t, t < r → s.output + t * bytesPerPixel fmt < unit_end) →
      sendUnitLoop enc fmt input alpha unit_end fuel s =
        some ((sendPixel enc fmt input alpha)^[r] s) := by
  induction r with
  | zero =>
    intro s fuel _ h1 _
    rw [Nat.zero_mul, Nat.add_zero] at h1
    cases fuel with
    | zero => unfold sendUnitLoop; rw [if_neg (by omega)]; rfl
    | succ f => unfold sendUnitLoop; rw [if_neg (by omega)]; rfl
  | succ r ih =>
    intro s fuel hf h1 h2
    have h0 := h2 0 (by omega)
    rw [Nat.zero_mul, Nat.add_zero] at h0
    cases fuel with
    | zero => omega
    | succ f =>
      unfold sendUnitLoop
      rw [if_pos h0, Function.iterate_succ_apply]
      apply ih _ f (by omega)
      · show unit_end ≤ s.output + bytesPerPixel fmt + r * bytesPerPixel fmt
        rw [Nat.succ_mul] at h1
        omega
      · intro t ht
        show s.output + bytesPerPixel fmt + t * bytesPerPixel fmt < unit_end
        have := h2 (t + 1) (by omega)
        rw [Nat.succ_mul] at this
        omega

/-- The number of pixels of a unit: the least `p` with `p * bpp >= transfer_unit`. -/
theorem pixelsPerUnit_spec (tu bpp : Nat) (hb : 0 < bpp) :
    tu ≤ (tu + bpp - 1) / bpp * bpp ∧ (∀ t, t < (tu + bpp - 1) / bpp → t * bpp < tu) ∧
    (tu + bpp - 1) / bpp ≤ tu := by
  have h1 := Nat.div_add_mod (tu + bpp - 1) bpp
  have h2 := Nat.mod_lt (tu + bpp - 1) hb
  generalize (tu + bpp - 1) / bpp = p at *
  generalize (tu + bpp - 1) % bpp = r at *
  rw [Nat.mul_comm] at h1
  have key : ∀ t, t < p → t * bpp < tu := by
    intro t ht
    have : (t + 1) * bpp ≤ p * bpp := Nat.mul_le_mul_right _ ht
    rw [Nat.succ_mul] at this
    omega
  refine ⟨by omega, key, ?_⟩
  by_cases hp : p = 0
  · omega
  · have h3 := key (p - 1) (by omega)
    have h4 : (p - 1) * 1 ≤ (p - 1) * bpp := Nat.mul_le_mul_left _ hb
    omega


theorem sendUnit_eq (enc : PixelEncoder) (w : FieldWidths) (fmt : OutputFormat)
    (input : Nat → Nat) (alpha : Nat) (hb : 0 < bytesPerPixel fmt) (s : SendState) :
    sendUnit enc w fmt input alpha s = some (sendUnitStep enc w fmt input alpha s) := by
  obtain ⟨p1, p2, p3⟩ := pixelsPerUnit_spec s.buf.transfer_unit (bytesPerPixel fmt) hb
  unfold sendUnit sendUnitStep pixelsPerUnit
  rw [sendUnitLoop_spec enc fmt input alpha _ _ s _ p3 (by omega)
    (fun t ht => by have := p2 t ht; omega)]
  rfl

/-- State after `u` whole units of `SendData`, each of `p` pixels. -/
theorem sendUnits_spec (enc : PixelEncoder) (w : FieldWidths) (fmt : OutputFormat)
    (input : Nat → Nat) (alpha : Nat) (s : SendState) (u : Nat) :
    ((sendUnitStep enc w fmt input alpha)^[u] s).buf.transfer_unit = s.buf.transfer_unit ∧
    ((sendUnitStep enc w fmt input alpha)^[u] s).buf.gap = s.buf.gap ∧
    ((sendUnitStep enc w fmt input alpha)^[u] s).output = s.output
      + u * (pixelsPerUnit fmt s.buf.transfer_unit * bytesPerPixel fmt + s.buf.gap) ∧
    ((sendUnitStep enc w fmt input alpha)^[u] s).inPos
      = s.inPos + u * pixelsPerUnit fmt s.buf.transfer_unit ∧
    ((sendUnitStep enc w fmt input alpha)^[u] s).amount_of_data
      = s.amount_of_data - (u * pixelsPerUnit fmt s.buf.transfer_unit : Nat) ∧
    (∀ v i b, v < u → i < pixelsPerUnit fmt s.buf.transfer_unit → b < bytesPerPixel fmt →
      ((sendUnitStep enc w fmt input alpha)^[u] s).memory
        (s.output + v * (pixelsPerUnit fmt s.buf.transfer_unit * bytesPerPixel fmt + s.buf.gap)
          + i * bytesPerPixel fmt + b) =
        enc fmt (byteOf (input (s.inPos + v * pixelsPerUnit fmt s.buf.transfer_unit + i)) 3)
          (byteOf (input (s.inPos + v * pixelsPerUnit fmt s.buf.transfer_unit + i)) 2)
          (byteOf (input (s.inPos + v * pixelsPerUnit fmt s.buf.transfer_unit + i)) 1)
          alpha b) ∧
    (∀ a, (∀ v, v < u →
        ¬ (s.output
            + v * (pixelsPerUnit fmt s.buf.transfer_unit * bytesPerPixel fmt + s.buf.gap) ≤ a ∧
          a < s.output
            + v * (pixelsPerUnit fmt s.buf.transfer_unit * bytesPerPixel fmt + s.buf.gap)
            + pixelsPerUnit fmt s.buf.transfer_unit * bytesPerPixel fmt)) →
      ((sendUnitStep enc w fmt input alpha)^[u] s).memory a = s.memory a) := by
  induction u with
  | zero =>
    refine ⟨rfl, rfl, by simp, by simp, by simp, fun v i b hv => by omega, fun a _ => rfl⟩
  | succ u ih =>
    obtain ⟨i1, i2, i3, i4, i5, i6, i7⟩ := ih
    rw [Function.iterate_succ_apply']
    generalize (sendUnitStep enc w fmt input alpha)^[u] s = su at i1 i2 i3 i4 i5 i6 i7
    obtain ⟨q1, q2, q3, q4, q5, q6⟩ := sendPixels_spec enc fmt input alpha su
      (pixelsPerUnit fmt su.buf.transfer_unit)
    rw [i1] at q1 q2 q3 q4 q5 q6
    have hstep : sendUnitStep enc w fmt input alpha su = sendUnitEnd w
        ((sendPixel enc fmt input alpha)^[pixelsPerUnit fmt s.buf.transfer_unit] su) := by
      unfold sendUnitStep; rw [i1]
    rw [hstep]
    generalize (sendPixel enc fmt input alpha)^[pixelsPerUnit fmt s.buf.transfer_unit] su = sp
      at q1 q2 q3 q4 q5 q6
    generalize hp : pixelsPerUnit fmt s.buf.transfer_unit = p at *
    generalize hbpp : bytesPerPixel fmt = bpp at *
    refine ⟨?_, ?_, ?_, ?_, ?_, ?_, ?_⟩
    · show sp.buf.transfer_unit = _
      rw [q4, i1]
    · show sp.buf.gap = _
      rw [q4, i2]
    · show sp.output + sp.buf.gap = _
      rw [q1, q4, i2, i3, Nat.succ_mul]
      omega
    · show sp.inPos = _
      rw [q2, i4, Nat.succ_mul, Nat.add_assoc]
    · show sp.amount_of_data = _
      rw [q3, i5, Nat.succ_mul]
      push_cast
      ring
    · intro v i b hv hi hb
      show sp.memory _ = _
      by_cases e : v = u
      · subst e
        have := q5 i b hi hb
        rw [i3, i4] at this
        exact this
      · have hlt : v * (p * bpp + s.buf.gap) + (i * bpp + b) < u * (p * bpp + s.buf.gap) := by
          have h1 : (v + 1) * (p * bpp + s.buf.gap) ≤ u * (p * bpp + s.buf.gap) :=
            Nat.mul_le_mul_right _ (by omega)
          rw [Nat.succ_mul] at h1
          have h2 : (i + 1) * bpp ≤ p * bpp := Nat.mul_le_mul_right _ hi
          rw [Nat.succ_mul] at h2
          omega
        rw [q6 _ (by rw [i3]; omega)]
        exact i6 v i b (by omega) hi hb
    · intro a ha
      show sp.memory a = _
      have hu := ha u (by omega)
      rw [q6 a (by rw [i3]; omega)]
      exact i7 a (fun v hv => ha v (by omega))

/-- Cursor after `u` whole units of `SendData`. -/
theorem sendUnits_cursor (enc : PixelEncoder) (w : FieldWidths) (fmt : OutputFormat)
    (input : Nat → Nat) (alpha : Nat) (s : SendState)
    (hfit : ConversionBufferFits w s.buf) (u : Nat) :
    ((sendUnitStep enc w fmt input alpha)^[u] s).buf =
      { address := addWrap w.addressBits s.buf.address
          (u * (s.buf.transfer_unit + s.buf.gap))
        image_size := subWrap w.sizeBits s.buf.image_size (u * s.buf.transfer_unit)
        transfer_unit := s.buf.transfer_unit
        gap := s.buf.gap } := by
  induction u with
  | zero =>
    show s.buf = _
    rw [Nat.zero_mul, Nat.zero_mul, addWrap_zero _ _ hfit.1, subWrap_zero _ _ hfit.2]
  | succ u ih =>
    rw [Function.iterate_succ_apply']
    generalize (sendUnitStep enc w fmt input alpha)^[u] s = su at ih
    have hb := (sendPixels_spec enc fmt input alpha su
      (pixelsPerUnit fmt su.buf.transfer_unit)).2.2.2.1
    show ({ address := addWrap w.addressBits _ _, image_size := subWrap w.sizeBits _ _,
            transfer_unit := _, gap := _ } : ConversionBuffer) = _
    rw [hb, ih]
    simp only [addWrap_addWrap, subWrap_subWrap, Nat.succ_mul]

/-- The outer loop of `SendData` runs exactly `n` iterations when `n` units are the
least number that exhausts the remaining amount: `n` iterations suffice and fewer
do not. -/
theorem sendLoop_spec (enc : PixelEncoder) (w : FieldWidths) (fmt : OutputFormat)
    (input : Nat → Nat) (alpha : Nat) (hb : 0 < bytesPerPixel fmt) (n : Nat) :
    ∀ (s : SendState),
      (∀ v, v < n →
        0 < s.amount_of_data - (v * pixelsPerUnit fmt s.buf.transfer_unit : Nat)) →
      s.amount_of_data - (n * pixelsPerUnit fmt s.buf.transfer_unit : Nat) ≤ 0 →
      ∀ fuel, sendLoop enc w fmt input alpha fuel s =
        if n ≤ fuel then some ((sendUnitStep enc w fmt input alpha)^[n] s) else none := by
  induction n with
  | zero =>
    intro s _ h2 fuel
    rw [Nat.zero_mul] at h2
    rw [if_pos (Nat.zero_le _)]
    have : ¬ s.amount_of_data > 0 := by
      simp only [Nat.cast_zero, sub_zero] at h2
      omega
    cases fuel with
    | zero => unfold sendLoop; rw [if_neg this]; rfl
    | succ f => unfold sendLoop; rw [if_neg this]; rfl
  | succ n ih =>
    intro s h1 h2 fuel
    have hpos : s.amount_of_data > 0 := by
      have := h1 0 (by omega)
      simp only [Nat.zero_mul, Nat.cast_zero, sub_zero] at this
      exact this
    cases fuel with
    | zero => unfold sendLoop; rw [if_pos hpos, if_neg (by omega)]
    | succ f =>
      unfold sendLoop
      rw [if_pos hpos, sendUnit_eq enc w fmt input alpha hb s, Option.some_bind,
        Function.iterate_succ_apply]
      obtain ⟨t1, _, _, _, t5, _, _⟩ := sendUnits_spec enc w fmt input alpha s 1
      rw [Function.iterate_one] at t1 t5
      rw [ih (sendUnitStep enc w fmt input alpha s)
        (by
          intro v hv
          rw [t1, t5]
          have := h1 (v + 1) (by omega)
          rw [Nat.succ_mul] at this
          push_cast at this ⊢
          omega)
        (by
          rw [t1, t5]
          rw [Nat.succ_mul] at h2
          push_cast at h2 ⊢
          omega) f]
      by_cases c : n ≤ f
      · rw [if_pos c, if_pos (by omega)]
      · rw [if_neg c, if_neg (by omega)]


theorem SendData_named (enc : PixelEncoder) (w : FieldWidths) (memory : ByteStore)
    (input : Nat → Nat) (buf : ConversionBuffer) (amount : Int) (fmt : OutputFormat)
    (alpha : Nat) (hfmt : fmt = .RGBA8 ∨ fmt = .RGB8 ∨ fmt = .RGB5A1 ∨ fmt = .RGB565) :
    0 < bytesPerPixel fmt ∧
    SendData enc w memory input buf amount fmt alpha =
      match sendLoop enc w fmt input alpha amount.toNat (sendInit memory buf amount) with
      | some s => .done s
      | none => .timeout := by
  rcases hfmt with rfl | rfl | rfl | rfl
  · exact ⟨by decide, rfl⟩
  · exact ⟨by decide, rfl⟩
  · exact ⟨by decide, rfl⟩
  · exact ⟨by decide, rfl⟩

/-- With `transfer_unit >= 1`, `SendData` returns for every amount, after the least
number of whole units that exhausts it. -/
theorem SendData_terminates (enc : PixelEncoder) (w : FieldWidths) (memory : ByteStore)
    (input : Nat → Nat) (buf : ConversionBuffer) (amount : Int) (fmt : OutputFormat)
    (alpha : Nat) (hfmt : fmt = .RGBA8 ∨ fmt = .RGB8 ∨ fmt = .RGB5A1 ∨ fmt = .RGB565)
    (htu : 1 ≤ buf.transfer_unit) :
    SendData enc w memory input buf amount fmt alpha =
      .done ((sendUnitStep enc w fmt input alpha)^[
        (amount.toNat + pixelsPerUnit fmt buf.transfer_unit - 1)
          / pixelsPerUnit fmt buf.transfer_unit]
        (sendInit memory buf amount)) := by
  obtain ⟨hb, hS⟩ := SendData_named enc w memory input buf amount fmt alpha hfmt
  have hp : 0 < pixelsPerUnit fmt buf.transfer_unit := by
    have := (pixelsPerUnit_spec buf.transfer_unit (bytesPerPixel fmt) hb).1
    unfold pixelsPerUnit
    rcases Nat.eq_zero_or_pos ((buf.transfer_unit + bytesPerPixel fmt - 1) / bytesPerPixel fmt)
      with h0 | h0
    · rw [h0] at this
      omega
    · exact h0
  obtain ⟨c1, c2, c3⟩ := pixelsPerUnit_spec amount.toNat (pixelsPerUnit fmt buf.transfer_unit) hp
  rw [hS, sendLoop_spec enc w fmt input alpha hb _ (sendInit memory buf amount)
    (by
      intro v hv
      have := c2 v hv
      show 0 < amount - ((v * pixelsPerUnit fmt buf.transfer_unit : Nat) : Int)
      omega)
    (by
      show amount - ((_ * pixelsPerUnit fmt buf.transfer_unit : Nat) : Int) ≤ 0
      omega), if_pos c3]

theorem pixelsPerUnit_exact (fmt : OutputFormat) (tu : Nat) (hb : 0 < bytesPerPixel fmt)
    (hmul : tu % bytesPerPixel fmt = 0) :
    pixelsPerUnit fmt tu = tu / bytesPerPixel fmt ∧
    tu / bytesPerPixel fmt * bytesPerPixel fmt = tu := by
  unfold pixelsPerUnit
  have h1 := Nat.div_add_mod tu (bytesPerPixel fmt)
  rw [hmul, Nat.add_zero, Nat.mul_comm] at h1
  refine ⟨?_, h1⟩
  generalize bytesPerPixel fmt = bpp at *
  generalize tu / bpp = q at *
  subst h1
  have e : q * bpp + bpp - 1 = q * bpp + (bpp - 1) := by omega
  rw [e, (div_mod_block bpp q (bpp - 1) (by omega)).1]

/-- A request of `k` whole units makes `SendData` return the state reached by `k`
iterations of its outer loop. -/
theorem SendData_units (enc : PixelEncoder) (w : FieldWidths) (memory : ByteStore)
    (input : Nat → Nat) (buf : ConversionBuffer) (fmt : OutputFormat) (alpha : Nat)
    (hfmt : fmt = .RGBA8 ∨ fmt = .RGB8 ∨ fmt = .RGB5A1 ∨ fmt = .RGB565)
    (hpos : 0 < buf.transfer_unit) (hmul : buf.transfer_unit % bytesPerPixel fmt = 0)
    (k : Nat) :
    SendData enc w memory input buf
        ((k * (buf.transfer_unit / bytesPerPixel fmt) : Nat) : Int) fmt alpha =
      .done ((sendUnitStep enc w fmt input alpha)^[k]
        (sendInit memory buf ((k * (buf.transfer_unit / bytesPerPixel fmt) : Nat) : Int))) := by
  obtain ⟨hb, _⟩ := SendData_named enc w memory input buf 0 fmt alpha hfmt
  obtain ⟨e1, e2⟩ := pixelsPerUnit_exact fmt buf.transfer_unit hb hmul
  rw [SendData_terminates enc w memory input buf _ fmt alpha hfmt hpos, e1]
  have hp : 0 < buf.transfer_unit / bytesPerPixel fmt := by
    by_contra h0
    have : buf.transfer_unit / bytesPerPixel fmt = 0 := by omega
    rw [this] at e2
    omega
  generalize buf.transfer_unit / bytesPerPixel fmt = p at *
  have e3 : ((k * p : Nat) : Int).toNat = k * p := Int.toNat_natCast _
  have e4 : k * p + p - 1 = k * p + (p - 1) := by omega
  rw [e3, e4, (div_mod_block p k (p - 1) (by omega)).1]

theorem sendPixel_congr (enc : PixelEncoder) (fmt : OutputFormat) (input input2 : Nat → Nat)
    (alpha : Nat) (s : SendState) (h : input2 s.inPos = input s.inPos) :
    sendPixel enc fmt input2 alpha s = sendPixel enc fmt input alpha s := by
  have e : ∀ f : Nat → Nat, sendPixel enc fmt f alpha s =
      sendPixel enc fmt (fun _ => f s.inPos) alpha s := fun _ => rfl
  rw [e input2, e input, h]

theorem sendPixels_congr (enc : PixelEncoder) (fmt : OutputFormat) (input input2 : Nat → Nat)
    (alpha : Nat) (s : SendState) (j : Nat)
    (h : ∀ m, s.inPos ≤ m → m < s.inPos + j → input2 m = input m) :
    (sendPixel enc fmt input2 alpha)^[j] s = (sendPixel enc fmt input alpha)^[j] s := by
  induction j with
  | zero => rw [Function.iterate_zero_apply, Function.iterate_zero_apply]
  | succ j ih =>
    rw [Function.iterate_succ_apply', Function.iterate_succ_apply',
      ih (fun m h1 h2 => h m h1 (by omega))]
    have hpos := (sendPixels_spec enc fmt input alpha s j).2.1
    exact sendPixel_congr enc fmt input input2 alpha _
      (h _ (by rw [hpos]; omega) (by rw [hpos]; omega))

theorem sendUnits_congr (enc : PixelEncoder) (w : FieldWidths) (fmt : OutputFormat)
    (input input2 : Nat → Nat) (alpha : Nat) (s : SendState) (u : Nat)
    (h : ∀ m, s.inPos ≤ m → m < s.inPos + u * pixelsPerUnit fmt s.buf.transfer_unit →
      input2 m = input m) :
    (sendUnitStep enc w fmt input2 alpha)^[u] s = (sendUnitStep enc w fmt input alpha)^[u] s := by
  induction u with
  | zero => rw [Function.iterate_zero_apply, Function.iterate_zero_apply]
  | succ u ih =>
    rw [Function.iterate_succ_apply', Function.iterate_succ_apply',
      ih (fun m h1 h2 => h m h1 (by rw [Nat.succ_mul]; omega))]
    obtain ⟨t1, _, _, t4, _, _, _⟩ := sendUnits_spec enc w fmt input alpha s u
    generalize (sendUnitStep enc w fmt input alpha)^[u] s = su at t1 t4
    unfold sendUnitStep
    rw [sendPixels_congr enc fmt input input2 alpha su _ (fun m h1 h2 => h m (by omega) (by
      rw [t1, t4] at h2
      rw [Nat.succ_mul]
      omega))]


theorem sendInit_buf (memory : ByteStore) (buf : ConversionBuffer) (a : Int) :
    (sendInit memory buf a).buf = buf := rfl

theorem sendInit_inPos (memory : ByteStore) (buf : ConversionBuffer) (a : Int) :
    (sendInit memory buf a).inPos = 0 := rfl

theorem sendInit_output (memory : ByteStore) (buf : ConversionBuffer) (a : Int) :
    (sendInit memory buf a).output = buf.address := rfl

theorem sendInit_memory (memory : ByteStore) (buf : ConversionBuffer) (a : Int) :
    (sendInit memory buf a).memory = memory := rfl

/-- Claim C11. For each of the four output formats, with `transfer_unit` a positive
multiple of the pixel width `bpp` and a request of `k * (transfer_unit / bpp)`
pixels, `SendData` returns having consumed exactly the first `pixel_count` input
pixels (its read position ends there, and changing any later input pixel changes
nothing), with `address = address0 + k * (transfer_unit + gap)` and
`image_size = image_size0 - k * transfer_unit` in the unsigned arithmetic of the
fields, `transfer_unit` and `gap` unchanged. -/
theorem SendData_cursor (enc : PixelEncoder) (w : FieldWidths) (memory : ByteStore)
    (input : Nat → Nat) (buf : ConversionBuffer) (fmt : OutputFormat) (alpha : Nat)
    (hfmt : fmt = .RGBA8 ∨ fmt = .RGB8 ∨ fmt = .RGB5A1 ∨ fmt = .RGB565)
    (hpos : 0 < buf.transfer_unit) (hmul : buf.transfer_unit % bytesPerPixel fmt = 0)
    (hfit : ConversionBufferFits w buf) (k : Nat) :
    ∃ s, SendData enc w memory input buf
        ((k * (buf.transfer_unit / bytesPerPixel fmt) : Nat) : Int) fmt alpha = .done s ∧
      s.inPos = k * (buf.transfer_unit / bytesPerPixel fmt) ∧
      (∀ input2 : Nat → Nat,
        (∀ m, m < k * (buf.transfer_unit / bytesPerPixel fmt) → input2 m = input m) →
        SendData enc w memory input2 buf
          ((k * (buf.transfer_unit / bytesPerPixel fmt) : Nat) : Int) fmt alpha = .done s) ∧
      s.buf.address = (buf.address + k * (buf.transfer_unit + buf.gap)) % 2 ^ w.addressBits ∧
      (s.buf.image_size : Int) =
        ((buf.image_size : Int) - (k * buf.transfer_unit : Nat)) % (2 ^ w.sizeBits : Nat) ∧
      s.buf.transfer_unit = buf.transfer_unit ∧ s.buf.gap = buf.gap := by
  obtain ⟨hb, _⟩ := SendData_named enc w memory input buf 0 fmt alpha hfmt
  obtain ⟨e1, _⟩ := pixelsPerUnit_exact fmt buf.transfer_unit hb hmul
  have h := SendData_units enc w memory input buf fmt alpha hfmt hpos hmul k
  have hc := sendUnits_cursor enc w fmt input alpha
    (sendInit memory buf ((k * (buf.transfer_unit / bytesPerPixel fmt) : Nat) : Int)) hfit k
  obtain ⟨_, _, _, t4, _, _, _⟩ := sendUnits_spec enc w fmt input alpha
    (sendInit memory buf ((k * (buf.transfer_unit / bytesPerPixel fmt) : Nat) : Int)) k
  simp only [sendInit_buf, sendInit_inPos] at hc t4
  refine ⟨_, h, ?_, ?_, ?_, ?_, ?_, ?_⟩
  · rw [t4, e1, Nat.zero_add]
  · intro input2 h2
    rw [SendData_units enc w memory input2 buf fmt alpha hfmt hpos hmul k,
      sendUnits_congr enc w fmt input input2 alpha _ k (fun m _ hm => h2 m (by
        have : 0 + k * pixelsPerUnit fmt buf.transfer_unit
            = k * (buf.transfer_unit / bytesPerPixel fmt) := by rw [e1, Nat.zero_add]
        exact this ▸ hm))]
  · rw [hc]; rfl
  · rw [hc]
    show ((subWrap w.sizeBits buf.image_size (k * buf.transfer_unit) : Nat) : Int) = _
    unfold subWrap
    rw [Int.toNat_of_nonneg (Int.emod_nonneg _ (by positivity))]
  · exact (congrArg ConversionBuffer.transfer_unit hc).trans rfl
  · exact (congrArg ConversionBuffer.gap hc).trans rfl

/-- Claim C12. For each of the four output formats, with `transfer_unit` a positive
multiple of the pixel width `bpp`, `p = transfer_unit / bpp` and a request of `k * p`
pixels, `SendData` returns with byte `i` of the encoding of input pixel `m`
(components: bits 31..24, 23..16 and 15..8 of the colour, and the alpha constant) at
`address0 + (m / p) * (transfer_unit + gap) + (m mod p) * bpp + i`, and with every
byte outside these ranges unchanged. -/
theorem SendData_byte_placement (enc : PixelEncoder) (w : FieldWidths) (memory : ByteStore)
    (input : Nat → Nat) (buf : ConversionBuffer) (fmt : OutputFormat) (alpha : Nat)
    (hfmt : fmt = .RGBA8 ∨ fmt = .RGB8 ∨ fmt = .RGB5A1 ∨ fmt = .RGB565)
    (hpos : 0 < buf.transfer_unit) (hmul : buf.transfer_unit % bytesPerPixel fmt = 0)
    (k : Nat) :
    ∃ s, SendData enc w memory input buf
        ((k * (buf.transfer_unit / bytesPerPixel fmt) : Nat) : Int) fmt alpha = .done s ∧
      (∀ m i, m < k * (buf.transfer_unit / bytesPerPixel fmt) → i < bytesPerPixel fmt →
        s.memory (buf.address
            + m / (buf.transfer_unit / bytesPerPixel fmt) * (buf.transfer_unit + buf.gap)
            + m % (buf.transfer_unit / bytesPerPixel fmt) * bytesPerPixel fmt + i) =
          enc fmt ((input m >>> 24) % 256) ((input m >>> 16) % 256) ((input m >>> 8) % 256)
            alpha i) ∧
      (∀ a, (∀ m i, m < k * (buf.transfer_unit / bytesPerPixel fmt) → i < bytesPerPixel fmt →
          a ≠ buf.address
            + m / (buf.transfer_unit / bytesPerPixel fmt) * (buf.transfer_unit + buf.gap)
            + m % (buf.transfer_unit / bytesPerPixel fmt) * bytesPerPixel fmt + i) →
        s.memory a = memory a) := by
  obtain ⟨hb, _⟩ := SendData_named enc w memory input buf 0 fmt alpha hfmt
  obtain ⟨e1, e2⟩ := pixelsPerUnit_exact fmt buf.transfer_unit hb hmul
  have h := SendData_units enc w memory input buf fmt alpha hfmt hpos hmul k
  obtain ⟨_, _, _, _, _, t6, t7⟩ := sendUnits_spec enc w fmt input alpha
    (sendInit memory buf ((k * (buf.transfer_unit / bytesPerPixel fmt) : Nat) : Int)) k
  have hp : 0 < buf.transfer_unit / bytesPerPixel fmt := by
    rcases Nat.eq_zero_or_pos (buf.transfer_unit / bytesPerPixel fmt) with h0 | h0
    · rw [h0] at e2; omega
    · exact h0
  simp only [sendInit_buf, sendInit_inPos, sendInit_output, sendInit_memory, e1, e2,
    Nat.zero_add] at t6 t7
  refine ⟨_, h, ?_, ?_⟩
  · intro m i hm hi
    have hv : m / (buf.transfer_unit / bytesPerPixel fmt) < k :=
      (Nat.div_lt_iff_lt_mul hp).2 hm
    have hr := Nat.mod_lt m hp
    have hdm := Nat.div_add_mod m (buf.transfer_unit / bytesPerPixel fmt)
    have := t6 (m / (buf.transfer_unit / bytesPerPixel fmt))
      (m % (buf.transfer_unit / bytesPerPixel fmt)) i hv hr hi
    have e3 : m / (buf.transfer_unit / bytesPerPixel fmt) * (buf.transfer_unit / bytesPerPixel fmt)
        + m % (buf.transfer_unit / bytesPerPixel fmt) = m := by
      rw [Nat.mul_comm]
      exact hdm
    rw [e3] at this
    exact this
  · intro a ha
    apply t7
    intro v hv hin
    obtain ⟨h1, h2⟩ := hin
    have h1' : buf.address + v * (buf.transfer_unit + buf.gap) ≤ a := h1
    have h2' : a < buf.address + v * (buf.transfer_unit + buf.gap) + buf.transfer_unit := h2
    obtain ⟨q1, q2⟩ := div_mod_block (bytesPerPixel fmt)
      ((a - (buf.address + v * (buf.transfer_unit + buf.gap))) / bytesPerPixel fmt)
      ((a - (buf.address + v * (buf.transfer_unit + buf.gap))) % bytesPerPixel fmt)
      (Nat.mod_lt _ hb)
    have hd := Nat.div_add_mod (a - (buf.address + v * (buf.transfer_unit + buf.gap)))
      (bytesPerPixel fmt)
    have hjl : (a - (buf.address + v * (buf.transfer_unit + buf.gap))) / bytesPerPixel fmt
        < buf.transfer_unit / bytesPerPixel fmt := by
      apply (Nat.div_lt_iff_lt_mul hb).2
      rw [e2]
      omega
    generalize (a - (buf.address + v * (buf.transfer_unit + buf.gap))) / bytesPerPixel fmt
      = j at *
    generalize hr : (a - (buf.address + v * (buf.transfer_unit + buf.gap))) % bytesPerPixel fmt
      = r at *
    have hrl : r < bytesPerPixel fmt := by rw [← hr]; exact Nat.mod_lt _ hb
    obtain ⟨d1, d2⟩ := div_mod_block (buf.transfer_unit / bytesPerPixel fmt) v j hjl
    apply ha (v * (buf.transfer_unit / bytesPerPixel fmt) + j) r
    · have : (v + 1) * (buf.transfer_unit / bytesPerPixel fmt)
          ≤ k * (buf.transfer_unit / bytesPerPixel fmt) := Nat.mul_le_mul_right _ hv
      rw [Nat.succ_mul] at this
      omega
    · exact hrl
    · rw [d1, d2]
      rw [Nat.mul_comm] at hd
      omega

/-! ## Conversion orchestrator: `PerformConversion` -/

theorem forLoopM_total {σ : Type} (body : Nat → σ → Option σ)
    (h : ∀ i s, ∃ s', body i s = some s') (n : Nat) (s : σ) :
    ∃ s', forLoopM n body s = some s' := by
  induction n with
  | zero => exact ⟨s, rfl⟩
  | succ n ih =>
    obtain ⟨s1, h1⟩ := ih
    obtain ⟨s2, h2⟩ := h n s1
    exact ⟨s2, by rw [forLoopM_succ, h1]; exact h2⟩

theorem shape_eq (a b : ConversionBuffer) (h1 : a.transfer_unit = b.transfer_unit)
    (h2 : a.gap = b.gap) : a.shape = b.shape := by
  unfold ConversionBuffer.shape
  rw [h1, h2]

theorem job_setSrc (cvt : ConversionConfiguration) (k : Stream) (b : ConversionBuffer)
    (h : b.shape = (cvt.src k).shape) : (cvt.setSrc k b).job = cvt.job := by
  cases k <;>
    simp only [ConversionConfiguration.setSrc, ConversionConfiguration.job,
      ConversionConfiguration.src] at h ⊢ <;> rw [h]

theorem job_setDst (cvt : ConversionConfiguration) (b : ConversionBuffer)
    (h : b.shape = cvt.dst.shape) : ({ cvt with dst := b }).job = cvt.job := by
  simp only [ConversionConfiguration.job]
  rw [h]

/-- A pull whose amount is a whole number of units returns, leaving the store,
`transfer_unit` and `gap` as they were. -/
theorem ReceiveData_done (N : Nat) (hN : 1 ≤ N) (w : FieldWidths) (memory : ByteStore)
    (output : Nat → Nat) (outPos : Nat) (buf : ConversionBuffer) (htu : N ≤ buf.transfer_unit)
    (amount : Nat) (hdiv : amount % (buf.transfer_unit / N) = 0) :
    ∃ s, ReceiveData N w memory output outPos buf amount = .done s ∧ s.memory = memory ∧
      s.buf.shape = buf.shape := by
  have hk : amount / (buf.transfer_unit / N) * (buf.transfer_unit / N) = amount :=
    Nat.div_mul_cancel (Nat.dvd_of_mod_eq_zero hdiv)
  have h := ReceiveData_units N hN w memory output outPos buf htu
    (amount / (buf.transfer_unit / N))
  rw [hk] at h
  obtain ⟨r1, _, _, r4, r5, _, _⟩ := receiveIter_spec N hN w
    (receiveInit memory output outPos buf amount) (amount / (buf.transfer_unit / N))
  exact ⟨_, h, r1, shape_eq _ _ r4 r5⟩

theorem receiveInto_done (env : Environment) (N : Nat) (hN : 1 ≤ N) (k : Stream)
    (offset amount : Nat) (st : PerformState)
    (htu : N ≤ (st.cvt.src k).transfer_unit)
    (hdiv : amount % ((st.cvt.src k).transfer_unit / N) = 0) :
    ∃ st', receiveInto env N k offset amount st = .done st' ∧ st'.memory = st.memory ∧
      st'.cvt.job = st.cvt.job ∧ st'.sent = st.sent := by
  obtain ⟨s, hs, hm, hb⟩ := ReceiveData_done N hN env.widths st.memory st.data_buffer offset
    (st.cvt.src k) htu amount hdiv
  refine ⟨{ st with memory := s.memory, data_buffer := s.output, cvt := st.cvt.setSrc k s.buf },
    ?_, hm, job_setSrc _ _ _ hb, rfl⟩
  unfold receiveInto
  rw [hs]

theorem job_fields (a b : ConversionConfiguration) (h : a.job = b.job) :
    a.input_format = b.input_format ∧ a.output_format = b.output_format ∧
    a.rotation = b.rotation ∧ a.block_alignment = b.block_alignment ∧
    a.input_line_width = b.input_line_width ∧ a.input_lines = b.input_lines ∧
    a.alpha = b.alpha ∧
    a.src_Y.transfer_unit = b.src_Y.transfer_unit ∧
    a.src_U.transfer_unit = b.src_U.transfer_unit ∧
    a.src_V.transfer_unit = b.src_V.transfer_unit ∧
    a.dst.transfer_unit = b.dst.transfer_unit := by
  have h1 := congrArg ConversionConfiguration.input_format h
  have h2 := congrArg ConversionConfiguration.output_format h
  have h3 := congrArg ConversionConfiguration.rotation h
  have h4 := congrArg ConversionConfiguration.block_alignment h
  have h5 := congrArg ConversionConfiguration.input_line_width h
  have h6 := congrArg ConversionConfiguration.input_lines h
  have h7 := congrArg ConversionConfiguration.alpha h
  have h8 := congrArg (fun c => c.src_Y.transfer_unit) h
  have h9 := congrArg (fun c => c.src_U.transfer_unit) h
  have h10 := congrArg (fun c => c.src_V.transfer_unit) h
  have h11 := congrArg (fun c => c.dst.transfer_unit) h
  exact ⟨h1, h2, h3, h4, h5, h6, h7, h8, h9, h10, h11⟩

/-- The pulls of a planar 4:2:2 8-bit strip return when each amount is a whole
number of units of its stream. -/
theorem receiveStrip_done_422 (env : Environment) (rds : Nat) (st : PerformState)
    (hfmt : st.cvt.input_format = .YUV422_Indiv8)
    (hY : 1 ≤ st.cvt.src_Y.transfer_unit ∧ rds % st.cvt.src_Y.transfer_unit = 0)
    (hU : 1 ≤ st.cvt.src_U.transfer_unit ∧ (rds >>> 1) % st.cvt.src_U.transfer_unit = 0)
    (hV : 1 ≤ st.cvt.src_V.transfer_unit ∧ (rds >>> 1) % st.cvt.src_V.transfer_unit = 0) :
    ∃ st', receiveStrip env rds st = .done st' ∧ st'.cvt.job = st.cvt.job ∧
      st'.sent = st.sent := by
  obtain ⟨s1, e1, _, j1, t1⟩ := receiveInto_done env 1 (le_refl _) .Y 0 rds st hY.1
    (by rw [Nat.div_one]; exact hY.2)
  obtain ⟨f1, _⟩ := job_fields _ _ j1
  have q1 := (job_fields _ _ j1).2.2.2.2.2.2.2.2
  obtain ⟨s2, e2, _, j2, t2⟩ := receiveInto_done env 1 (le_refl _) .U
    (st.cvt.input_line_width <<< 3) (rds >>> 1) s1
    (by show 1 ≤ s1.cvt.src_U.transfer_unit; rw [q1.1]; exact hU.1)
    (by show _ % (s1.cvt.src_U.transfer_unit / 1) = 0; rw [Nat.div_one, q1.1]; exact hU.2)
  have q2 := (job_fields _ _ (j2.trans j1)).2.2.2.2.2.2.2.2
  obtain ⟨s3, e3, _, j3, t3⟩ := receiveInto_done env 1 (le_refl _) .V
    (st.cvt.input_line_width <<< 3 + st.cvt.input_line_width <<< 2) (rds >>> 1) s2
    (by show 1 ≤ s2.cvt.src_V.transfer_unit; rw [q2.2.1]; exact hV.1)
    (by show _ % (s2.cvt.src_V.transfer_unit / 1) = 0; rw [Nat.div_one, q2.2.1]; exact hV.2)
  refine ⟨s3, ?_, j3.trans (j2.trans j1), t3.trans (t2.trans t1)⟩
  unfold receiveStrip
  simp only [hfmt]
  rw [e1]
  show ((receiveInto env 1 .U _ _ s1).andThen _) = _
  rw [e2]
  exact e3

theorem decodeInto_done_422 (env : Environment) (h : Nat) (hh : h ≤ 8) (st : PerformState)
    (hfmt : st.cvt.input_format = .YUV422_Indiv8) :
    ∃ st', decodeInto env h st = .done st' ∧ st'.cvt = st.cvt ∧ st'.memory = st.memory ∧
      st'.sent = st.sent := by
  obtain ⟨s', e, _⟩ := strip422_spec
    (lookupTable env.standard_coefficients env.rawTable st.cache st.cvt.coefficient).1
    (fun i => st.data_buffer (0 + i))
    (fun i => st.data_buffer (st.cvt.input_line_width <<< 3 + i))
    (fun i => st.data_buffer
      (st.cvt.input_line_width <<< 3 + st.cvt.input_line_width <<< 2 + i))
    st.tiles st.cvt.input_line_width h hh
  have hd : ConvertYUVToRGB env.standard_coefficients env.rawTable st.cache
      .YUV422_Indiv8 (bufferPtr st.data_buffer 0)
      (bufferPtr st.data_buffer (st.cvt.input_line_width <<< 3))
      (bufferPtr st.data_buffer
        (st.cvt.input_line_width <<< 3 + st.cvt.input_line_width <<< 2))
      st.tiles st.cvt.input_line_width h st.cvt.coefficient =
      some ((lookupTable env.standard_coefficients env.rawTable st.cache
        st.cvt.coefficient).2, s'.output) := by
    have hd' : decodeStrip
        (lookupTable env.standard_coefficients env.rawTable st.cache st.cvt.coefficient).1
        .YUV422_Indiv8 (bufferPtr st.data_buffer 0)
        (bufferPtr st.data_buffer (st.cvt.input_line_width <<< 3))
        (bufferPtr st.data_buffer
          (st.cvt.input_line_width <<< 3 + st.cvt.input_line_width <<< 2))
        st.cvt.input_line_width h { YI := 0, UI := 0, VI := 0, output := st.tiles }
        = some s' := e
    unfold ConvertYUVToRGB
    simp only [hd', Option.map_some']
  refine ⟨{ st with cache := (lookupTable env.standard_coefficients env.rawTable st.cache
      st.cvt.coefficient).2, tiles := s'.output }, ?_, rfl, rfl, rfl⟩
  unfold decodeInto
  simp only [hfmt, if_neg (show ¬ (InputFormat.YUV422_Indiv8 = InputFormat.YUYV422_Interleaved)
    by decide)]
  rw [hd]

theorem tileStep_linear_some (rotation : Rotation) (tiles : Nat → Nat → Nat)
    (num_tiles width row_height i : Nat) (s : TileLoopState) :
    ∃ s', tileStep rotation .Linear tiles num_tiles width row_height i s = some s' := by
  cases rotation <;> exact ⟨_, rfl⟩

theorem transformInto_done_linear (num_tiles h : Nat) (st : PerformState)
    (hal : st.cvt.block_alignment = .Linear) :
    ∃ st', transformInto num_tiles h st = .done st' ∧ st'.cvt = st.cvt ∧
      st'.memory = st.memory ∧ st'.sent = st.sent := by
  obtain ⟨s, hs⟩ := forLoopM_total
    (tileStep st.cvt.rotation .Linear st.tiles num_tiles st.cvt.input_line_width h)
    (fun i s => tileStep_linear_some _ _ _ _ _ i s) num_tiles
    { buffer := st.data_buffer, tmp_tile := st.tmp_tile, out := 0 }
  refine ⟨{ st with data_buffer := s.buffer, tmp_tile := s.tmp_tile }, ?_, rfl, rfl, rfl⟩
  unfold transformInto tileLoop
  rw [hal, hs]


/-- With `transfer_unit >= 1`, `SendData` returns for every format and every
amount, leaving `transfer_unit` and `gap` as they were. -/
theorem SendData_done (enc : PixelEncoder) (w : FieldWidths) (memory : ByteStore)
    (input : Nat → Nat) (buf : ConversionBuffer) (amount : Int) (fmt : OutputFormat)
    (alpha : Nat) (htu : 1 ≤ buf.transfer_unit) :
    ∃ s, SendData enc w memory input buf amount fmt alpha = .done s ∧
      s.buf.shape = buf.shape := by
  have named : (fmt = .RGBA8 ∨ fmt = .RGB8 ∨ fmt = .RGB5A1 ∨ fmt = .RGB565) →
      ∃ s, SendData enc w memory input buf amount fmt alpha = .done s ∧
        s.buf.shape = buf.shape := by
    intro hfmt
    obtain ⟨t1, t2, _⟩ := sendUnits_spec enc w fmt input alpha (sendInit memory buf amount)
      ((amount.toNat + pixelsPerUnit fmt buf.transfer_unit - 1)
        / pixelsPerUnit fmt buf.transfer_unit)
    exact ⟨_, SendData_terminates enc w memory input buf amount fmt alpha hfmt htu,
      shape_eq _ _ t1 t2⟩
  cases fmt with
  | RGBA8 => exact named (Or.inl rfl)
  | RGB8 => exact named (Or.inr (Or.inl rfl))
  | RGB5A1 => exact named (Or.inr (Or.inr (Or.inl rfl)))
  | RGB565 => exact named (Or.inr (Or.inr (Or.inr rfl)))
  | other v => exact ⟨_, rfl, rfl⟩

/-- With `transfer_unit = 0` an iteration of the outer loop of `SendData` writes no
pixel, so a positive remaining amount stays positive and no number of iterations
suffices. -/
theorem sendLoop_stalls (enc : PixelEncoder) (w : FieldWidths) (fmt : OutputFormat)
    (input : Nat → Nat) (alpha : Nat) (fuel : Nat) :
    ∀ s : SendState, s.buf.transfer_unit = 0 → 0 < s.amount_of_data →
      sendLoop enc w fmt input alpha fuel s = none := by
  induction fuel with
  | zero =>
    intro s _ ha
    unfold sendLoop
    rw [if_pos ha]
  | succ fuel ih =>
    intro s htu ha
    have hu : sendUnit enc w fmt input alpha s = some (sendUnitEnd w s) := by
      unfold sendUnit
      rw [htu]
      unfold sendUnitLoop
      rw [if_neg (by omega)]
      rfl
    unfold sendLoop
    rw [if_pos ha, hu]
    exact ih (sendUnitEnd w s) htu ha

theorem SendData_stalls (enc : PixelEncoder) (w : FieldWidths) (memory : ByteStore)
    (input : Nat → Nat) (buf : ConversionBuffer) (amount : Int) (fmt : OutputFormat)
    (alpha : Nat) (hfmt : fmt = .RGBA8 ∨ fmt = .RGB8 ∨ fmt = .RGB5A1 ∨ fmt = .RGB565)
    (htu : buf.transfer_unit = 0) (ha : 0 < amount) :
    SendData enc w memory input buf amount fmt alpha = .timeout := by
  rw [(SendData_named enc w memory input buf amount fmt alpha hfmt).2,
    sendLoop_stalls enc w fmt input alpha _ (sendInit memory buf amount) htu ha]

theorem sendFrom_done (env : Environment) (h rds : Nat) (st : PerformState)
    (htu : 1 ≤ st.cvt.dst.transfer_unit) (hsmall : rds ≤ 2147483647) :
    ∃ st', sendFrom env h rds st = .done st' ∧ st'.cvt.job = st.cvt.job ∧
      st'.sent = st.sent ++ [(h, (rds : Int))] := by
  obtain ⟨s, hs, hb⟩ := SendData_done env.enc env.widths st.memory (readU32 st.data_buffer)
    st.cvt.dst (wrapS32 (rds : Int)) st.cvt.output_format (st.cvt.alpha % 256) htu
  refine ⟨{ st with memory := s.memory, cvt := { st.cvt with dst := s.buf },
                    sent := st.sent ++ [(h, wrapS32 (rds : Int))] }, ?_, job_setDst _ _ hb, ?_⟩
  · unfold sendFrom
    simp only [hs]
  · show st.sent ++ [(h, wrapS32 (rds : Int))] = _
    rw [wrapS32_of_range _ (by omega) (by omega)]

theorem sendFrom_stalls (env : Environment) (h rds : Nat) (st : PerformState)
    (hfmt : st.cvt.output_format = .RGBA8 ∨ st.cvt.output_format = .RGB8 ∨
      st.cvt.output_format = .RGB5A1 ∨ st.cvt.output_format = .RGB565)
    (htu : st.cvt.dst.transfer_unit = 0) (hpos : 0 < rds) (hsmall : rds ≤ 2147483647) :
    sendFrom env h rds st = .timeout := by
  unfold sendFrom
  simp only [SendData_stalls env.enc env.widths st.memory (readU32 st.data_buffer)
    st.cvt.dst (wrapS32 (rds : Int)) st.cvt.output_format (st.cvt.alpha % 256) hfmt htu
    (by rw [wrapS32_of_range _ (by omega) (by omega)]; omega)]

/-- The first three stages of a strip of planar 4:2:2 8-bit input with Linear
alignment: the pulls, the decoder and the tile loop all return. -/
theorem stripStages_done_422 (env : Environment) (num_tiles h : Nat) (hh : h ≤ 8)
    (st : PerformState)
    (hfmt : st.cvt.input_format = .YUV422_Indiv8)
    (hal : st.cvt.block_alignment = .Linear)
    (hY : 1 ≤ st.cvt.src_Y.transfer_unit ∧
      (h * st.cvt.input_line_width) % st.cvt.src_Y.transfer_unit = 0)
    (hU : 1 ≤ st.cvt.src_U.transfer_unit ∧
      ((h * st.cvt.input_line_width) >>> 1) % st.cvt.src_U.transfer_unit = 0)
    (hV : 1 ≤ st.cvt.src_V.transfer_unit ∧
      ((h * st.cvt.input_line_width) >>> 1) % st.cvt.src_V.transfer_unit = 0) :
    ∃ st', (((receiveStrip env (h * st.cvt.input_line_width) st).andThen
        (decodeInto env h)).andThen (transformInto num_tiles h)) = .done st' ∧
      st'.cvt.job = st.cvt.job ∧ st'.sent = st.sent := by
  obtain ⟨s1, e1, j1, t1⟩ := receiveStrip_done_422 env _ st hfmt hY hU hV
  obtain ⟨f1, _, _, f4, _⟩ := job_fields _ _ j1
  obtain ⟨s2, e2, c2, _, t2⟩ := decodeInto_done_422 env h hh s1 (f1.trans hfmt)
  obtain ⟨s3, e3, c3, _, t3⟩ := transformInto_done_linear num_tiles h s2
    (by rw [c2]; exact f4.trans hal)
  refine ⟨s3, ?_, ?_, t3.trans (t2.trans t1)⟩
  · rw [e1]
    show ((decodeInto env h s1).andThen _) = _
    rw [e2]
    exact e3
  · rw [c3, c2]
    exact j1

theorem stripStep_done_422 (env : Environment) (num_tiles y : Nat) (st : PerformState)
    (hfmt : st.cvt.input_format = .YUV422_Indiv8)
    (hal : st.cvt.block_alignment = .Linear)
    (hY : 1 ≤ st.cvt.src_Y.transfer_unit ∧
      (min (st.cvt.input_lines - y) 8 * st.cvt.input_line_width)
        % st.cvt.src_Y.transfer_unit = 0)
    (hU : 1 ≤ st.cvt.src_U.transfer_unit ∧
      ((min (st.cvt.input_lines - y) 8 * st.cvt.input_line_width) >>> 1)
        % st.cvt.src_U.transfer_unit = 0)
    (hV : 1 ≤ st.cvt.src_V.transfer_unit ∧
      ((min (st.cvt.input_lines - y) 8 * st.cvt.input_line_width) >>> 1)
        % st.cvt.src_V.transfer_unit = 0)
    (hdst : 1 ≤ st.cvt.dst.transfer_unit)
    (hsmall : 8 * st.cvt.input_line_width ≤ 2147483647) :
    ∃ st', stripStep env num_tiles y st = .done st' ∧ st'.cvt.job = st.cvt.job ∧
      st'.sent = st.sent ++ [(min (st.cvt.input_lines - y) 8,
        ((min (st.cvt.input_lines - y) 8 * st.cvt.input_line_width : Nat) : Int))] := by
  have hh : min (st.cvt.input_lines - y) 8 ≤ 8 := Nat.min_le_right _ _
  obtain ⟨s3, e3, j3, t3⟩ := stripStages_done_422 env num_tiles _ hh st hfmt hal hY hU hV
  obtain ⟨_, _, _, _, _, _, _, _, _, _, f11⟩ := job_fields _ _ j3
  have hle : min (st.cvt.input_lines - y) 8 * st.cvt.input_line_width ≤ 2147483647 :=
    le_trans (Nat.mul_le_mul_right _ hh) hsmall
  obtain ⟨s4, e4, j4, t4⟩ := sendFrom_done env (min (st.cvt.input_lines - y) 8)
    (min (st.cvt.input_lines - y) 8 * st.cvt.input_line_width) s3
    (by rw [f11]; exact hdst) hle
  refine ⟨s4, ?_, j4.trans j3, by rw [t4, t3]⟩
  unfold stripStep
  show ((((receiveStrip env _ st).andThen _).andThen _).andThen _) = _
  rw [e3]
  exact e4


theorem forLoopR_succ {σ : Type} (n : Nat) (body : Nat → σ → RunOutcome σ) (s : σ) :
    forLoopR (n + 1) body s = (forLoopR n body s).andThen (body n) := rfl

/-- The loop over the strips for planar 4:2:2 8-bit input with Linear alignment:
after `m` strips the trace holds their heights and pixel counts. -/
theorem stripLoop_done_422 (env : Environment) (cvt : ConversionConfiguration)
    (num_tiles : Nat)
    (hfmt : cvt.input_format = .YUV422_Indiv8) (hal : cvt.block_alignment = .Linear)
    (hsmall : 8 * cvt.input_line_width ≤ 2147483647)
    (hY : 1 ≤ cvt.src_Y.transfer_unit) (hU : 1 ≤ cvt.src_U.transfer_unit)
    (hV : 1 ≤ cvt.src_V.transfer_unit) (hdst : 1 ≤ cvt.dst.transfer_unit) (n : Nat)
    (hpull : ∀ i, i < n →
      (min (cvt.input_lines - 8 * i) 8 * cvt.input_line_width)
        % cvt.src_Y.transfer_unit = 0 ∧
      ((min (cvt.input_lines - 8 * i) 8 * cvt.input_line_width) >>> 1)
        % cvt.src_U.transfer_unit = 0 ∧
      ((min (cvt.input_lines - 8 * i) 8 * cvt.input_line_width) >>> 1)
        % cvt.src_V.transfer_unit = 0)
    (st0 : PerformState) (h0 : st0.cvt.job = cvt.job) :
    ∀ m, m ≤ n →
      ∃ st, forLoopR m (fun i st => stripStep env num_tiles (8 * i) st) st0 = .done st ∧
        st.cvt.job = cvt.job ∧
        st.sent = st0.sent ++ (List.range m).map (fun i =>
          (min (cvt.input_lines - 8 * i) 8,
            ((min (cvt.input_lines - 8 * i) 8 * cvt.input_line_width : Nat) : Int))) := by
  intro m
  induction m with
  | zero =>
    intro _
    exact ⟨st0, rfl, h0, by simp⟩
  | succ m ih =>
    intro hm
    obtain ⟨st, e, j, t⟩ := ih (by omega)
    obtain ⟨f1, _, _, f4, f5, f6, _, f8, f9, f10, f11⟩ := job_fields _ _ j
    obtain ⟨p1, p2, p3⟩ := hpull m (by omega)
    obtain ⟨st', e', j', t'⟩ := stripStep_done_422 env num_tiles (8 * m) st
      (f1.trans hfmt) (f4.trans hal)
      (by rw [f5, f6, f8]; exact ⟨hY, p1⟩)
      (by rw [f5, f6, f9]; exact ⟨hU, p2⟩)
      (by rw [f5, f6, f10]; exact ⟨hV, p3⟩)
      (by rw [f11]; exact hdst)
      (by rw [f5]; exact hsmall)
    refine ⟨st', ?_, j'.trans j, ?_⟩
    · rw [forLoopR_succ, e]
      exact e'
    · rw [t', t, f5, f6, List.range_succ, List.map_append, List.append_assoc]
      rfl

theorem stripHeights_sum (L W : Nat) (m : Nat) :
    (((List.range m).map (fun i =>
      (min (L - 8 * i) 8, ((min (L - 8 * i) 8 * W : Nat) : Int)))).map Prod.snd).sum =
      ((min (8 * m) L * W : Nat) : Int) := by
  induction m with
  | zero => simp
  | succ m ih =>
    rw [List.range_succ, List.map_append, List.map_append, List.sum_append, ih]
    have e : min (8 * (m + 1)) L = min (8 * m) L + min (L - 8 * m) 8 := by omega
    rw [e, Nat.add_mul]
    simp

theorem PerformConversion_loop (env : Environment) (memory : ByteStore) (cache : TableCache)
    (cvt : ConversionConfiguration) (hw : cvt.input_line_width % 8 = 0)
    (hal : cvt.block_alignment ≠ .Block8x8 ∨ cvt.input_lines % 8 = 0)
    (ht : cvt.input_line_width / 8 ≤ 128) :
    PerformConversion env memory cache cvt =
      forLoopR ((cvt.input_lines + 7) / 8)
        (fun i st => stripStep env (cvt.input_line_width >>> 3) (8 * i) st)
        (performInit env memory cache cvt) := by
  unfold PerformConversion
  have h3 : cvt.input_line_width >>> 3 ≤ MAX_TILES := by
    rw [shr3]
    exact ht
  simp only [hw, hal, h3, ne_eq, not_true_eq_false, not_false_eq_true, if_false, if_true]

/-- Claim C13. `PerformConversion` aborts at entry when `input_line_width` is not a
multiple of 8, or `block_alignment` is `Block8x8` and `input_lines` is not a
multiple of 8, or `input_line_width / 8` exceeds 128: the state in which it
aborts has the store and the configuration, with all five cursors, as they were
at the call, and nothing has been handed to `SendData`. -/
theorem PerformConversion_entry_checks (env : Environment) (memory : ByteStore)
    (cache : TableCache) (cvt : ConversionConfiguration)
    (h : cvt.input_line_width % 8 ≠ 0 ∨
      (cvt.block_alignment = .Block8x8 ∧ cvt.input_lines % 8 ≠ 0) ∨
      128 < cvt.input_line_width / 8) :
    ∃ st, PerformConversion env memory cache cvt = .fatal st ∧
      st.memory = memory ∧ st.cvt = cvt ∧ st.sent = [] := by
  refine ⟨performInit env memory cache cvt, ?_, rfl, rfl, rfl⟩
  unfold PerformConversion
  by_cases h1 : cvt.input_line_width % 8 ≠ 0
  · simp only [if_pos h1]
  · by_cases h2 : ¬ (cvt.block_alignment ≠ .Block8x8 ∨ cvt.input_lines % 8 = 0)
    · simp only [if_neg h1, if_pos h2]
    · have h3 : ¬ (cvt.input_line_width >>> 3 ≤ MAX_TILES) := by
        rw [shr3]
        rcases h with h | h | h
        · exact absurd h h1
        · exact absurd (fun hc => hc.elim (fun a => a h.1) (fun b => h.2 b)) h2
        · show ¬ (cvt.input_line_width / 8 ≤ 128)
          omega
      simp only [if_neg h1, if_neg h2, if_pos h3]

theorem forLoopR_timeout {σ : Type} (body : Nat → σ → RunOutcome σ) (s : σ)
    (h : body 0 s = .timeout) (m : Nat) : forLoopR (m + 1) body s = .timeout := by
  induction m with
  | zero => exact h
  | succ m ih => rw [forLoopR_succ, ih]; rfl

/-- A strip of planar 4:2:2 8-bit input with Linear alignment whose pulls return
does not end when the destination unit is empty. -/
theorem stripStep_stalls_422 (env : Environment) (num_tiles y : Nat) (st : PerformState)
    (hfmt : st.cvt.input_format = .YUV422_Indiv8)
    (hal : st.cvt.block_alignment = .Linear)
    (hY : 1 ≤ st.cvt.src_Y.transfer_unit ∧
      (min (st.cvt.input_lines - y) 8 * st.cvt.input_line_width)
        % st.cvt.src_Y.transfer_unit = 0)
    (hU : 1 ≤ st.cvt.src_U.transfer_unit ∧
      ((min (st.cvt.input_lines - y) 8 * st.cvt.input_line_width) >>> 1)
        % st.cvt.src_U.transfer_unit = 0)
    (hV : 1 ≤ st.cvt.src_V.transfer_unit ∧
      ((min (st.cvt.input_lines - y) 8 * st.cvt.input_line_width) >>> 1)
        % st.cvt.src_V.transfer_unit = 0)
    (hout : st.cvt.output_format = .RGBA8 ∨ st.cvt.output_format = .RGB8 ∨
      st.cvt.output_format = .RGB5A1 ∨ st.cvt.output_format = .RGB565)
    (hdst : st.cvt.dst.transfer_unit = 0)
    (hpos : 0 < min (st.cvt.input_lines - y) 8 * st.cvt.input_line_width)
    (hsmall : 8 * st.cvt.input_line_width ≤ 2147483647) :
    stripStep env num_tiles y st = .timeout := by
  have hh : min (st.cvt.input_lines - y) 8 ≤ 8 := Nat.min_le_right _ _
  obtain ⟨s3, e3, j3, _⟩ := stripStages_done_422 env num_tiles _ hh st hfmt hal hY hU hV
  obtain ⟨_, f2, _, _, _, _, _, _, _, _, f11⟩ := job_fields _ _ j3
  have hle : min (st.cvt.input_lines - y) 8 * st.cvt.input_line_width ≤ 2147483647 :=
    le_trans (Nat.mul_le_mul_right _ hh) hsmall
  unfold stripStep
  show ((((receiveStrip env _ st).andThen _).andThen _).andThen _) = _
  rw [e3]
  exact sendFrom_stalls env _ _ s3 (by rw [f2]; exact hout) (by rw [f11]; exact hdst) hpos hle

/-- Claim C14, with the condition on the destination added. For planar 4:2:2 8-bit
input, Linear alignment, a line width that is a multiple of 8 with at most 128
tiles, at least one line, source units of at least one byte that divide the amount
of every pull, and a destination unit of at least one byte, `PerformConversion`
returns after `ceil(input_lines / 8)` strips: every strip but the last has
`row_height = 8`, the last has `input_lines mod 8` when that is not zero and 8
otherwise, each hands `row_height * input_line_width` pixels to `SendData`, and
these counts sum to `input_lines * input_line_width`. -/
theorem PerformConversion_strips (env : Environment) (memory : ByteStore) (cache : TableCache)
    (cvt : ConversionConfiguration)
    (hfmt : cvt.input_format = .YUV422_Indiv8) (hal : cvt.block_alignment = .Linear)
    (hw : cvt.input_line_width % 8 = 0) (ht : cvt.input_line_width / 8 ≤ 128)
    (hl : 1 ≤ cvt.input_lines)
    (hY : 1 ≤ cvt.src_Y.transfer_unit) (hU : 1 ≤ cvt.src_U.transfer_unit)
    (hV : 1 ≤ cvt.src_V.transfer_unit)
    (hpull : ∀ i, i < (cvt.input_lines + 7) / 8 →
      (min (cvt.input_lines - 8 * i) 8 * cvt.input_line_width)
        % cvt.src_Y.transfer_unit = 0 ∧
      ((min (cvt.input_lines - 8 * i) 8 * cvt.input_line_width) >>> 1)
        % cvt.src_U.transfer_unit = 0 ∧
      ((min (cvt.input_lines - 8 * i) 8 * cvt.input_line_width) >>> 1)
        % cvt.src_V.transfer_unit = 0)
    (hdst : 1 ≤ cvt.dst.transfer_unit) :
    ∃ st, PerformConversion env memory cache cvt = .done st ∧
      st.sent.length = (cvt.input_lines + 7) / 8 ∧
      (∀ i, i + 1 < (cvt.input_lines + 7) / 8 →
        st.sent[i]? = some (8, ((8 * cvt.input_line_width : Nat) : Int))) ∧
      st.sent[(cvt.input_lines + 7) / 8 - 1]? =
        some (if cvt.input_lines % 8 = 0 then 8 else cvt.input_lines % 8,
          (((if cvt.input_lines % 8 = 0 then 8 else cvt.input_lines % 8)
            * cvt.input_line_width : Nat) : Int)) ∧
      (st.sent.map Prod.snd).sum = ((cvt.input_lines * cvt.input_line_width : Nat) : Int) := by
  obtain ⟨st, e, _, t⟩ := stripLoop_done_422 env cvt (cvt.input_line_width >>> 3) hfmt hal
    (by omega) hY hU hV hdst ((cvt.input_lines + 7) / 8) hpull
    (performInit env memory cache cvt) rfl ((cvt.input_lines + 7) / 8) (le_refl _)
  have t' : st.sent = (List.range ((cvt.input_lines + 7) / 8)).map (fun i =>
      (min (cvt.input_lines - 8 * i) 8,
        ((min (cvt.input_lines - 8 * i) 8 * cvt.input_line_width : Nat) : Int))) := by
    rw [t]; rfl
  refine ⟨st, ?_, ?_, ?_, ?_, ?_⟩
  · rw [PerformConversion_loop env memory cache cvt hw (Or.inl (by rw [hal]; decide)) ht]
    exact e
  · rw [t', List.length_map, List.length_range]
  · intro i hi
    have e8 : min (cvt.input_lines - 8 * i) 8 = 8 := by omega
    rw [t', List.getElem?_map, List.getElem?_range (by omega)]
    show some (_, _) = _
    rw [e8]
  · have e8 : min (cvt.input_lines - 8 * ((cvt.input_lines + 7) / 8 - 1)) 8 =
        if cvt.input_lines % 8 = 0 then 8 else cvt.input_lines % 8 := by
      split_ifs <;> omega
    rw [t', List.getElem?_map, List.getElem?_range (by omega)]
    show some (_, _) = _
    rw [e8]
  · rw [t', stripHeights_sum]
    have e : min (8 * ((cvt.input_lines + 7) / 8)) cvt.input_lines = cvt.input_lines := by
      omega
    rw [e]

/-- Claim C14, counterexample. The sample job with an empty destination unit meets
the conditions of the claim, yet `SendData` never returns from the first strip. -/
theorem PerformConversion_stalls_on_empty_unit :
    stalledConfiguration.input_format = .YUV422_Indiv8 ∧
    stalledConfiguration.block_alignment = .Linear ∧
    stalledConfiguration.input_line_width % 8 = 0 ∧
    stalledConfiguration.input_line_width / 8 ≤ 128 ∧
    1 ≤ stalledConfiguration.input_lines ∧
    (∀ i, i < (stalledConfiguration.input_lines + 7) / 8 →
      1 ≤ stalledConfiguration.src_Y.transfer_unit ∧
      (min (stalledConfiguration.input_lines - 8 * i) 8 * stalledConfiguration.input_line_width)
        % stalledConfiguration.src_Y.transfer_unit = 0 ∧
      1 ≤ stalledConfiguration.src_U.transfer_unit ∧
      ((min (stalledConfiguration.input_lines - 8 * i) 8
          * stalledConfiguration.input_line_width) >>> 1)
        % stalledConfiguration.src_U.transfer_unit = 0 ∧
      1 ≤ stalledConfiguration.src_V.transfer_unit ∧
      ((min (stalledConfiguration.input_lines - 8 * i) 8
          * stalledConfiguration.input_line_width) >>> 1)
        % stalledConfiguration.src_V.transfer_unit = 0) ∧
    PerformConversion sampleEnvironment sampleStore emptyCache stalledConfiguration
      = .timeout := by
  refine ⟨rfl, rfl, by decide, by decide, by decide, by decide, ?_⟩
  rw [PerformConversion_loop sampleEnvironment sampleStore emptyCache stalledConfiguration
    (by decide) (Or.inl (by decide)) (by decide)]
  refine forLoopR_timeout _ _ ?_ 1
  exact stripStep_stalls_422 sampleEnvironment _ (8 * 0) _ rfl rfl (by decide) (by decide)
    (by decide) (Or.inl rfl) rfl (by decide) (by decide)

/-! ## Exactness of `UV2IG` -/

/-- Claim C20, with the range of the shift added. For a coefficient tuple with
`c2 >= 0`, `c3 >= 0` and `(c2 * 255 + c3 * 255) * 256 < 2 ^ 31`, and all `U`, `V`
in `0..255`, the entry `UV2IG[U][V]` of the built table equals
`floor(256 * (c2 * V + c3 * U) / (255 * c2 + 255 * c3 + 1))`, and this quotient lies
in `[0, 255]`, so the 8-bit entry holds it exactly. -/
theorem build_UV2IG_exact (c : CoefficientSet) (raw : Y2UTable) (h2 : 0 ≤ c.c2)
    (h3 : 0 ≤ c.c3) (hsmall : (c.c2 * 255 + c.c3 * 255) * 256 < 2147483648) (U V : Nat)
    (hU : U < 256) (hV : V < 256) :
    (((Y2UTable.build c raw).UV2IG U V : Nat) : Int) =
      (256 * (c.c2 * V + c.c3 * U)) / (255 * c.c2 + 255 * c.c3 + 1) ∧
    0 ≤ (256 * (c.c2 * V + c.c3 * U)) / (255 * c.c2 + 255 * c.c3 + 1) ∧
    (256 * (c.c2 * V + c.c3 * U)) / (255 * c.c2 + 255 * c.c3 + 1) ≤ 255 := by
  rw [build_UV2IG c raw U V hU hV]
  exact igEntry_exact c h2 h3 hsmall U V hU hV

/-- Claim C20, counterexample. With `c2 = c3 = 32767` the shift `i << 8` leaves
the range of `s32` at `U = 255`, `V = 2`, and the entry is 128 where the quotient
is 129. -/
theorem build_UV2IG_shift_overflow :
    0 ≤ largeGreenCoefficients.c2 ∧ 0 ≤ largeGreenCoefficients.c3 ∧
    (Y2UTable.build largeGreenCoefficients zeroTable).UV2IG 255 2 = 128 ∧
    (256 * (largeGreenCoefficients.c2 * 2 + largeGreenCoefficients.c3 * 255))
      / (255 * largeGreenCoefficients.c2 + 255 * largeGreenCoefficients.c3 + 1) = 129 := by
  refine ⟨by decide, by decide, ?_, by decide⟩
  rw [build_UV2IG _ _ _ _ (by decide) (by decide)]
  decide

/-! ## A uniform image through `PerformConversion` -/

theorem getRGB_lt (t : Y2UTable) (Y U V : Nat) : t.getRGB Y U V < 4294967296 :=
  Nat.mod_lt _ (by decide)

/-- A pull of `ReceiveData<1>` whose amount is a whole number of units returns with
byte `q` of the stream at position `outPos + q` of the destination array and the
other positions as they were. -/
theorem ReceiveData_1_content (w : FieldWidths) (memory : ByteStore) (output : Nat → Nat)
    (outPos : Nat) (buf : ConversionBuffer) (htu : 1 ≤ buf.transfer_unit) (amount : Nat)
    (hdiv : amount % buf.transfer_unit = 0) :
    ∃ s, ReceiveData 1 w memory output outPos buf amount = .done s ∧ s.memory = memory ∧
      s.buf.shape = buf.shape ∧
      ∀ p, s.output p = if outPos ≤ p ∧ p < outPos + amount
        then memory (buf.byteAddress (p - outPos)) else output p := by
  have hk : amount / (buf.transfer_unit / 1) * (buf.transfer_unit / 1) = amount := by
    rw [Nat.div_one]
    exact Nat.div_mul_cancel (Nat.dvd_of_mod_eq_zero hdiv)
  have h := ReceiveData_units 1 (le_refl _) w memory output outPos buf htu
    (amount / (buf.transfer_unit / 1))
  rw [hk] at h
  obtain ⟨r1, _, _, r4, r5, _, r7⟩ := receiveIter_spec 1 (le_refl _) w
    (receiveInit memory output outPos buf amount) (amount / (buf.transfer_unit / 1))
  refine ⟨_, h, r1, shape_eq _ _ r4 r5, ?_⟩
  intro p
  rw [r7 p]
  show (if outPos ≤ p ∧
        p < outPos + amount / (buf.transfer_unit / 1) * (buf.transfer_unit / 1)
      then memory (buf.address
        + (p - outPos) / (buf.transfer_unit / 1) * (buf.transfer_unit + buf.gap)
        + (p - outPos) % (buf.transfer_unit / 1) * 1)
      else output p) = _
  rw [hk, Nat.div_one, Nat.mul_one]
  rfl

theorem receiveInto_1_content (env : Environment) (k : Stream) (offset amount : Nat)
    (st : PerformState) (htu : 1 ≤ (st.cvt.src k).transfer_unit)
    (hdiv : amount % (st.cvt.src k).transfer_unit = 0) :
    ∃ st' b, receiveInto env 1 k offset amount st = .done st' ∧
      st'.cvt = st.cvt.setSrc k b ∧ b.shape = (st.cvt.src k).shape ∧
      st'.memory = st.memory ∧ st'.cache = st.cache ∧ st'.tiles = st.tiles ∧
      st'.tmp_tile = st.tmp_tile ∧ st'.sent = st.sent ∧
      ∀ p, st'.data_buffer p = if offset ≤ p ∧ p < offset + amount
        then st.memory ((st.cvt.src k).byteAddress (p - offset)) else st.data_buffer p := by
  obtain ⟨s, hs, hm, hb, hc⟩ := ReceiveData_1_content env.widths st.memory st.data_buffer
    offset (st.cvt.src k) htu amount hdiv
  refine ⟨{ st with memory := s.memory, data_buffer := s.output, cvt := st.cvt.setSrc k s.buf },
    s.buf, ?_, rfl, hb, hm, rfl, rfl, rfl, rfl, hc⟩
  unfold receiveInto
  rw [hs]

/-- The pulls of a planar 4:2:2 8-bit strip leave the three streams in
`data_buffer`: luma from position 0, U from `width << 3`, V a further `width << 2`
on; nothing else of the state changes but the source cursors. -/
theorem receiveStrip_content_422 (env : Environment) (rds : Nat) (st : PerformState)
    (hfmt : st.cvt.input_format = .YUV422_Indiv8)
    (hY : 1 ≤ st.cvt.src_Y.transfer_unit ∧ rds % st.cvt.src_Y.transfer_unit = 0)
    (hU : 1 ≤ st.cvt.src_U.transfer_unit ∧ (rds >>> 1) % st.cvt.src_U.transfer_unit = 0)
    (hV : 1 ≤ st.cvt.src_V.transfer_unit ∧ (rds >>> 1) % st.cvt.src_V.transfer_unit = 0)
    (hfit : rds ≤ st.cvt.input_line_width <<< 3) :
    ∃ st', receiveStrip env rds st = .done st' ∧ st'.cvt.job = st.cvt.job ∧
      st'.cvt.dst = st.cvt.dst ∧
      st'.memory = st.memory ∧ st'.cache = st.cache ∧ st'.tiles = st.tiles ∧
      st'.tmp_tile = st.tmp_tile ∧ st'.sent = st.sent ∧
      (∀ q, q < rds → st'.data_buffer (0 + q) = st.memory (st.cvt.src_Y.byteAddress q)) ∧
      (∀ q, q < rds >>> 1 → st'.data_buffer (st.cvt.input_line_width <<< 3 + q) =
        st.memory (st.cvt.src_U.byteAddress q)) ∧
      (∀ q, q < rds >>> 1 →
        st'.data_buffer (st.cvt.input_line_width <<< 3 + st.cvt.input_line_width <<< 2 + q) =
          st.memory (st.cvt.src_V.byteAddress q)) := by
  obtain ⟨s1, b1, e1, c1, sh1, m1, k1, t1, p1, n1, d1⟩ :=
    receiveInto_1_content env .Y 0 rds st hY.1 hY.2
  have cU : s1.cvt.src .U = st.cvt.src_U := by rw [c1]; rfl
  obtain ⟨s2, b2, e2, c2, sh2, m2, k2, t2, p2, n2, d2⟩ :=
    receiveInto_1_content env .U (st.cvt.input_line_width <<< 3) (rds >>> 1) s1
      (by rw [cU]; exact hU.1) (by rw [cU]; exact hU.2)
  have cV : s2.cvt.src .V = st.cvt.src_V := by rw [c2, c1]; rfl
  obtain ⟨s3, b3, e3, c3, sh3, m3, k3, t3, p3, n3, d3⟩ :=
    receiveInto_1_content env .V
      (st.cvt.input_line_width <<< 3 + st.cvt.input_line_width <<< 2) (rds >>> 1) s2
      (by rw [cV]; exact hV.1) (by rw [cV]; exact hV.2)
  have j1 : s1.cvt.job = st.cvt.job := by rw [c1]; exact job_setSrc _ _ _ sh1
  have j2 : s2.cvt.job = s1.cvt.job := by rw [c2]; exact job_setSrc _ _ _ sh2
  have j3 : s3.cvt.job = s2.cvt.job := by rw [c3]; exact job_setSrc _ _ _ sh3
  have h4 : st.cvt.input_line_width <<< 2 = st.cvt.input_line_width * 4 := by
    rw [Nat.shiftLeft_eq]
  have h2 : rds >>> 1 = rds / 2 := shr1 rds
  have h8 : st.cvt.input_line_width <<< 3 = st.cvt.input_line_width * 8 := by
    rw [Nat.shiftLeft_eq]
  refine ⟨s3, ?_, j3.trans (j2.trans j1), by rw [c3, c2, c1]; rfl, by rw [m3, m2, m1],
    by rw [k3, k2, k1], by rw [t3, t2, t1], by rw [p3, p2, p1], by rw [n3, n2, n1],
    ?_, ?_, ?_⟩
  · unfold receiveStrip
    simp only [hfmt]
    rw [e1]
    show ((receiveInto env 1 .U _ _ s1).andThen _) = _
    rw [e2]
    exact e3
  · intro q hq
    rw [d3, if_neg (by omega), d2, if_neg (by omega), d1, if_pos (by omega)]
    have : 0 + q - 0 = q := by omega
    rw [this]
    rfl
  · intro q hq
    rw [d3, if_neg (by omega), d2, if_pos (by omega), m1, cU]
    have : st.cvt.input_line_width <<< 3 + q - st.cvt.input_line_width <<< 3 = q := by omega
    rw [this]
  · intro q hq
    rw [d3, if_pos (by omega), m2, m1, cV]
    have : st.cvt.input_line_width <<< 3 + st.cvt.input_line_width <<< 2 + q
        - (st.cvt.input_line_width <<< 3 + st.cvt.input_line_width <<< 2) = q := by omega
    rw [this]


/-- The decoder call of a planar 4:2:2 8-bit strip stores, for every pixel of the
strip, the table lookup of its three samples in `data_buffer`, and changes no
other tile entry. -/
theorem decodeInto_content_422 (env : Environment) (h : Nat) (hh : h ≤ 8) (st : PerformState)
    (hfmt : st.cvt.input_format = .YUV422_Indiv8) :
    ∃ st', decodeInto env h st = .done st' ∧ st'.cvt = st.cvt ∧ st'.memory = st.memory ∧
      st'.data_buffer = st.data_buffer ∧ st'.tmp_tile = st.tmp_tile ∧ st'.sent = st.sent ∧
      (∀ x y, x < st.cvt.input_line_width → y < h →
        st'.tiles (x / 8) (8 * y + x % 8) =
          (lookupTable env.standard_coefficients env.rawTable st.cache
              st.cvt.coefficient).1.getRGB
            (st.data_buffer (0 + wrapU32 (y * st.cvt.input_line_width + x)))
            (st.data_buffer (st.cvt.input_line_width <<< 3
              + wrapU32 (y * st.cvt.input_line_width + x) / 2))
            (st.data_buffer (st.cvt.input_line_width <<< 3 + st.cvt.input_line_width <<< 2
              + wrapU32 (y * st.cvt.input_line_width + x) / 2))) ∧
      (∀ t i, (∀ x y, x < st.cvt.input_line_width → y < h →
          ¬ (t = x / 8 ∧ i = 8 * y + x % 8)) → st'.tiles t i = st.tiles t i) := by
  obtain ⟨s', e, _, _, _, a4, a5⟩ := strip422_spec
    (lookupTable env.standard_coefficients env.rawTable st.cache st.cvt.coefficient).1
    (fun i => st.data_buffer (0 + i))
    (fun i => st.data_buffer (st.cvt.input_line_width <<< 3 + i))
    (fun i => st.data_buffer
      (st.cvt.input_line_width <<< 3 + st.cvt.input_line_width <<< 2 + i))
    st.tiles st.cvt.input_line_width h hh
  have hd : ConvertYUVToRGB env.standard_coefficients env.rawTable st.cache
      .YUV422_Indiv8 (bufferPtr st.data_buffer 0)
      (bufferPtr st.data_buffer (st.cvt.input_line_width <<< 3))
      (bufferPtr st.data_buffer
        (st.cvt.input_line_width <<< 3 + st.cvt.input_line_width <<< 2))
      st.tiles st.cvt.input_line_width h st.cvt.coefficient =
      some ((lookupTable env.standard_coefficients env.rawTable st.cache
        st.cvt.coefficient).2, s'.output) := by
    have hd' : decodeStrip
        (lookupTable env.standard_coefficients env.rawTable st.cache st.cvt.coefficient).1
        .YUV422_Indiv8 (bufferPtr st.data_buffer 0)
        (bufferPtr st.data_buffer (st.cvt.input_line_width <<< 3))
        (bufferPtr st.data_buffer
          (st.cvt.input_line_width <<< 3 + st.cvt.input_line_width <<< 2))
        st.cvt.input_line_width h { YI := 0, UI := 0, VI := 0, output := st.tiles }
        = some s' := e
    unfold ConvertYUVToRGB
    simp only [hd', Option.map_some']
  refine ⟨{ st with cache := (lookupTable env.standard_coefficients env.rawTable st.cache
      st.cvt.coefficient).2, tiles := s'.output }, ?_, rfl, rfl, rfl, rfl, rfl, a4, a5⟩
  unfold decodeInto
  simp only [hfmt, if_neg (show ¬ (InputFormat.YUV422_Indiv8 = InputFormat.YUYV422_Interleaved)
    by decide)]
  rw [hd]

theorem transformInto_content_none (h : Nat) (hh1 : 1 ≤ h) (hh8 : h ≤ 8) (st : PerformState)
    (hrot : st.cvt.rotation = .None) (hal : st.cvt.block_alignment = .Linear)
    (hw : st.cvt.input_line_width % 8 = 0) (htyped : ∀ t i, st.tiles t i < 4294967296) :
    ∃ st', transformInto (st.cvt.input_line_width >>> 3) h st = .done st' ∧
      st'.cvt = st.cvt ∧ st'.memory = st.memory ∧ st'.sent = st.sent ∧
      ∀ X y, X < st.cvt.input_line_width → y < h →
        readU32 st'.data_buffer (y * st.cvt.input_line_width + X) =
          st.tiles (X >>> 3) ((y <<< 3) + (X &&& 7)) := by
  obtain ⟨s, hs, a⟩ := tileLoop_none_linear_spec st.tiles st.cvt.input_line_width h hw hh1 hh8
    htyped st.data_buffer st.tmp_tile
  refine ⟨{ st with data_buffer := s.buffer, tmp_tile := s.tmp_tile }, ?_, rfl, rfl, rfl, a⟩
  unfold transformInto
  rw [hrot, hal, hs]

/-- The call of `SendData` for a strip of `k` whole units: byte `b` of pixel `i` of
unit `v` is byte `b` of the encoding of entry `v * p + i` of the `u32` view of
`data_buffer`. -/
theorem sendFrom_content (env : Environment) (h rds k : Nat) (st : PerformState)
    (fmt : OutputFormat) (hout : st.cvt.output_format = fmt)
    (hfmt : fmt = .RGBA8 ∨ fmt = .RGB8 ∨ fmt = .RGB5A1 ∨ fmt = .RGB565)
    (hpos : 0 < st.cvt.dst.transfer_unit)
    (hmul : st.cvt.dst.transfer_unit % bytesPerPixel fmt = 0)
    (hk : rds = k * (st.cvt.dst.transfer_unit / bytesPerPixel fmt))
    (hsmall : rds ≤ 2147483647) :
    ∃ st', sendFrom env h rds st = .done st' ∧
      ∀ v i b, v < k → i < st.cvt.dst.transfer_unit / bytesPerPixel fmt →
        b < bytesPerPixel fmt →
        st'.memory (st.cvt.dst.address + v * (st.cvt.dst.transfer_unit + st.cvt.dst.gap)
            + i * bytesPerPixel fmt + b) =
          env.enc fmt
            (byteOf (readU32 st.data_buffer
              (v * (st.cvt.dst.transfer_unit / bytesPerPixel fmt) + i)) 3)
            (byteOf (readU32 st.data_buffer
              (v * (st.cvt.dst.transfer_unit / bytesPerPixel fmt) + i)) 2)
            (byteOf (readU32 st.data_buffer
              (v * (st.cvt.dst.transfer_unit / bytesPerPixel fmt) + i)) 1)
            (st.cvt.alpha % 256) b := by
  obtain ⟨hb, _⟩ := SendData_named env.enc env.widths st.memory (readU32 st.data_buffer)
    st.cvt.dst 0 fmt (st.cvt.alpha % 256) hfmt
  obtain ⟨e1, e2⟩ := pixelsPerUnit_exact fmt st.cvt.dst.transfer_unit hb hmul
  have hS := SendData_units env.enc env.widths st.memory (readU32 st.data_buffer) st.cvt.dst
    fmt (st.cvt.alpha % 256) hfmt hpos hmul k
  rw [← hk] at hS
  have hwrap : wrapS32 (rds : Int) = (rds : Int) := wrapS32_of_range _ (by omega) (by omega)
  obtain ⟨_, _, _, _, _, t6, _⟩ := sendUnits_spec env.enc env.widths fmt
    (readU32 st.data_buffer) (st.cvt.alpha % 256)
    (sendInit st.memory st.cvt.dst (rds : Int)) k
  simp only [sendInit_buf, sendInit_inPos, sendInit_output, sendInit_memory, e1, e2,
    Nat.zero_add] at t6
  refine ⟨{ st with
      memory := ((sendUnitStep env.enc env.widths fmt (readU32 st.data_buffer)
        (st.cvt.alpha % 256))^[k] (sendInit st.memory st.cvt.dst (rds : Int))).memory
      cvt := { st.cvt with dst :=
        ((sendUnitStep env.enc env.widths fmt (readU32 st.data_buffer)
          (st.cvt.alpha % 256))^[k] (sendInit st.memory st.cvt.dst (rds : Int))).buf }
      sent := st.sent ++ [(h, wrapS32 (rds : Int))] }, ?_, ?_⟩
  · unfold sendFrom
    simp only [hwrap, hout, hS]
  · intro v i b hv hi hbb
    exact t6 v i b hv hi hbb


theorem stripStep_eq (env : Environment) (num_tiles y : Nat) (st : PerformState) :
    stripStep env num_tiles y st =
      ((((receiveStrip env (min (st.cvt.input_lines - y) 8 * st.cvt.input_line_width) st).andThen
        (decodeInto env (min (st.cvt.input_lines - y) 8))).andThen
        (transformInto num_tiles (min (st.cvt.input_lines - y) 8))).andThen
        (sendFrom env (min (st.cvt.input_lines - y) 8)
          (min (st.cvt.input_lines - y) 8 * st.cvt.input_line_width))) := rfl

/-- A uniform image of one strip: for planar 4:2:2 8-bit input of 8 lines, no
rotation, Linear alignment and RGBA8 output in whole units, when every luma sample
is `y0`, every U sample `u0` and every V sample `v0`, `PerformConversion` returns
and every pixel it has written is the encoding of the components of
`getRGB(y0, u0, v0)` of the table of the job, with the alpha constant. -/
theorem PerformConversion_uniform_strip (env : Environment) (memory : ByteStore)
    (cache : TableCache) (cvt : ConversionConfiguration) (y0 u0 v0 k : Nat)
    (hfmt : cvt.input_format = .YUV422_Indiv8) (hrot : cvt.rotation = .None)
    (hal : cvt.block_alignment = .Linear) (hout : cvt.output_format = .RGBA8)
    (hw : cvt.input_line_width % 8 = 0) (ht : cvt.input_line_width / 8 ≤ 128)
    (hl : cvt.input_lines = 8)
    (hY : 1 ≤ cvt.src_Y.transfer_unit ∧
      (8 * cvt.input_line_width) % cvt.src_Y.transfer_unit = 0)
    (hU : 1 ≤ cvt.src_U.transfer_unit ∧
      ((8 * cvt.input_line_width) >>> 1) % cvt.src_U.transfer_unit = 0)
    (hV : 1 ≤ cvt.src_V.transfer_unit ∧
      ((8 * cvt.input_line_width) >>> 1) % cvt.src_V.transfer_unit = 0)
    (hpos : 0 < cvt.dst.transfer_unit) (hmul : cvt.dst.transfer_unit % 4 = 0)
    (hk : 8 * cvt.input_line_width = k * (cvt.dst.transfer_unit / 4))
    (hmY : ∀ q, q < 8 * cvt.input_line_width → memory (cvt.src_Y.byteAddress q) = y0)
    (hmU : ∀ q, q < 4 * cvt.input_line_width → memory (cvt.src_U.byteAddress q) = u0)
    (hmV : ∀ q, q < 4 * cvt.input_line_width → memory (cvt.src_V.byteAddress q) = v0)
    (htiles : ∀ t i, env.rawTiles t i < 4294967296) :
    ∃ st, PerformConversion env memory cache cvt = .done st ∧
      ∀ v i b, v < k → i < cvt.dst.transfer_unit / 4 → b < 4 →
        st.memory (cvt.dst.address + v * (cvt.dst.transfer_unit + cvt.dst.gap) + i * 4 + b) =
          env.enc .RGBA8
            (byteOf ((lookupTable env.standard_coefficients env.rawTable cache
              cvt.coefficient).1.getRGB y0 u0 v0) 3)
            (byteOf ((lookupTable env.standard_coefficients env.rawTable cache
              cvt.coefficient).1.getRGB y0 u0 v0) 2)
            (byteOf ((lookupTable env.standard_coefficients env.rawTable cache
              cvt.coefficient).1.getRGB y0 u0 v0) 1)
            (cvt.alpha % 256) b := by
  have hW8 : cvt.input_line_width <<< 3 = cvt.input_line_width * 8 := by
    rw [Nat.shiftLeft_eq]
  have hWle : cvt.input_line_width ≤ 1031 := by omega
  -- the pulls
  obtain ⟨s1, e1, j1, d1, m1, k1, t1, _, _, bY, bU, bV⟩ :=
    receiveStrip_content_422 env (8 * cvt.input_line_width)
      (performInit env memory cache cvt) hfmt hY hU hV (by
        show 8 * cvt.input_line_width ≤ cvt.input_line_width <<< 3
        rw [hW8]; omega)
  have j1c : s1.cvt.job = cvt.job := j1
  obtain ⟨f1, f2, f3, f4, f5, _, f7, _⟩ := job_fields _ _ j1c
  have f8 := congrArg ConversionConfiguration.coefficient j1c
  have f8c : s1.cvt.coefficient = cvt.coefficient := f8
  have d1c : s1.cvt.dst = cvt.dst := d1
  have m1c : s1.memory = memory := m1
  have k1c : s1.cache = cache := k1
  have t1c : s1.tiles = env.rawTiles := t1
  have bYc : ∀ q, q < 8 * cvt.input_line_width → s1.data_buffer (0 + q) = y0 :=
    fun q hq => (bY q hq).trans (hmY q hq)
  have bUc : ∀ q, q < 4 * cvt.input_line_width →
      s1.data_buffer (cvt.input_line_width <<< 3 + q) = u0 :=
    fun q hq => (bU q (by rw [shr1]; omega)).trans (hmU q hq)
  have bVc : ∀ q, q < 4 * cvt.input_line_width →
      s1.data_buffer (cvt.input_line_width <<< 3 + cvt.input_line_width <<< 2 + q) = v0 :=
    fun q hq => (bV q (by rw [shr1]; omega)).trans (hmV q hq)
  -- the decoder
  obtain ⟨s2, e2, c2, m2, b2, _, _, a4, a5⟩ :=
    decodeInto_content_422 env 8 (le_refl _) s1 (f1.trans hfmt)
  rw [f5, f8c, k1c] at a4
  rw [f5, t1c] at a5
  have hC : ∀ x y, x < cvt.input_line_width → y < 8 → s2.tiles (x / 8) (8 * y + x % 8) =
      (lookupTable env.standard_coefficients env.rawTable cache cvt.coefficient).1.getRGB
        y0 u0 v0 := by
    intro x y hx hy
    have hn : y * cvt.input_line_width + x < 8 * cvt.input_line_width := by
      have : (y + 1) * cvt.input_line_width ≤ 8 * cvt.input_line_width :=
        Nat.mul_le_mul_right _ hy
      rw [Nat.succ_mul] at this
      omega
    have hwr : wrapU32 (y * cvt.input_line_width + x) = y * cvt.input_line_width + x :=
      Nat.mod_eq_of_lt (by omega)
    rw [a4 x y hx hy, hwr, bYc _ hn, bUc _ (by omega), bVc _ (by omega)]
  have htyped : ∀ t i, s2.tiles t i < 4294967296 := by
    intro t i
    by_cases hc : t < cvt.input_line_width / 8 ∧ i < 64
    · have := hC (8 * t + i % 8) (i / 8) (by omega) (by omega)
      have ex : (8 * t + i % 8) / 8 = t := by omega
      have ei : 8 * (i / 8) + (8 * t + i % 8) % 8 = i := by omega
      rw [ex, ei] at this
      rw [this]
      exact getRGB_lt _ _ _ _
    · rw [a5 t i (fun x y hx hy hc' => hc ⟨by omega, by omega⟩)]
      exact htiles t i
  -- the tile loop
  have w2 : s2.cvt.input_line_width = cvt.input_line_width := by rw [c2]; exact f5
  obtain ⟨s3, e3, c3, _, _, a3⟩ := transformInto_content_none 8 (by decide) (le_refl _) s2
    (by rw [c2]; exact f3.trans hrot) (by rw [c2]; exact f4.trans hal)
    (by rw [w2]; exact hw) htyped
  rw [w2] at e3 a3
  have hB : ∀ m, m < 8 * cvt.input_line_width → readU32 s3.data_buffer m =
      (lookupTable env.standard_coefficients env.rawTable cache cvt.coefficient).1.getRGB
        y0 u0 v0 := by
    intro m hm
    have hWpos : 0 < cvt.input_line_width := by omega
    have hy : m / cvt.input_line_width < 8 :=
      Nat.div_lt_of_lt_mul (by rw [Nat.mul_comm]; exact hm)
    have hX := Nat.mod_lt m hWpos
    have := a3 (m % cvt.input_line_width) (m / cvt.input_line_width) hX hy
    rw [Nat.div_add_mod' m cvt.input_line_width, shr3, and7, Nat.shiftLeft_eq] at this
    rw [this]
    have e8 : m / cvt.input_line_width * 2 ^ 3 + m % cvt.input_line_width % 8 =
        8 * (m / cvt.input_line_width) + m % cvt.input_line_width % 8 := by omega
    rw [e8]
    exact hC _ _ hX hy
  -- the send
  have d3 : s3.cvt.dst = cvt.dst := by rw [c3, c2]; exact d1c
  have al3 : s3.cvt.alpha = cvt.alpha := by rw [c3, c2]; exact f7
  obtain ⟨s4, e4, a6⟩ := sendFrom_content env 8 (8 * cvt.input_line_width) k s3 .RGBA8
    (by rw [c3, c2]; exact f2.trans hout) (Or.inl rfl)
    (by rw [d3]; exact hpos) (by rw [d3]; exact hmul) (by rw [d3]; exact hk) (by omega)
  rw [d3, al3] at a6
  refine ⟨s4, ?_, ?_⟩
  · rw [PerformConversion_loop env memory cache cvt hw (Or.inl (by rw [hal]; decide)) ht]
    have n1 : (cvt.input_lines + 7) / 8 = 1 := by omega
    have hmin : min (cvt.input_lines - 8 * 0) 8 = 8 := by omega
    rw [n1]
    show stripStep env (cvt.input_line_width >>> 3) (8 * 0)
      (performInit env memory cache cvt) = _
    rw [stripStep_eq]
    show ((((receiveStrip env (min (cvt.input_lines - 8 * 0) 8 * cvt.input_line_width)
        (performInit env memory cache cvt)).andThen
        (decodeInto env (min (cvt.input_lines - 8 * 0) 8))).andThen
        (transformInto (cvt.input_line_width >>> 3) (min (cvt.input_lines - 8 * 0) 8))).andThen
        (sendFrom env (min (cvt.input_lines - 8 * 0) 8)
          (min (cvt.input_lines - 8 * 0) 8 * cvt.input_line_width))) = _
    rw [hmin, e1]
    show (((decodeInto env 8 s1).andThen _).andThen _) = _
    rw [e2]
    show ((transformInto (cvt.input_line_width >>> 3) 8 s2).andThen _) = _
    rw [e3]
    exact e4
  · intro v i b hv hi hb
    have := a6 v i b hv hi hb
    have hidx : v * (cvt.dst.transfer_unit / bytesPerPixel .RGBA8) + i
        < 8 * cvt.input_line_width := by
      have h4 : bytesPerPixel .RGBA8 = 4 := rfl
      rw [h4]
      have : (v + 1) * (cvt.dst.transfer_unit / 4) ≤ k * (cvt.dst.transfer_unit / 4) :=
        Nat.mul_le_mul_right _ hv
      rw [Nat.succ_mul] at this
      omega
    rw [hB _ hidx] at this
    exact this


/-- The green byte of `getRGB(128, 128, 128)` for the tuple `sampleCoefficients`:
the slot `UV2IG[128][128] = 128` is written last for `U = 1`, `V = 190`, whose
green value is 128. -/
theorem sample_green_slot (raw : Y2UTable) :
    byteOf ((Y2UTable.build sampleCoefficients raw).getRGB 128 128 128) 2 = 128 := by
  obtain ⟨U', V', hU', hV', e, hl, hg⟩ :=
    build_green_slot sampleCoefficients raw 128 128 128 (by decide) (by decide) (by decide)
  have e128 : igEntry sampleCoefficients 128 128 = 128 := by decide
  have h1 := hl 1 190 (by decide) (by decide) (by rw [e128]; decide)
  have hx := (igEntry_exact sampleCoefficients (by decide) (by decide) (by decide)
    U' V' hU' hV').1
  rw [e, e128] at hx
  have c2v : sampleCoefficients.c2 = 182 := rfl
  have c3v : sampleCoefficients.c3 = 88 := rfl
  rw [c2v, c3v] at hx
  have hub : V' * 256 + U' ≤ 48641 := by
    by_contra hcon
    have h129 : (129 : Int) ≤ (256 * (182 * (V' : Int) + 88 * (U' : Int)))
        / (255 * 182 + 255 * 88 + 1) :=
      Int.le_ediv_of_mul_le (by decide) (by omega)
    rw [← hx] at h129
    exact absurd h129 (by decide)
  have hUV : U' = 1 ∧ V' = 190 := by omega
  rw [(build_getRGB_bytes sampleCoefficients raw 128 128 128
    (by decide) (by decide) (by decide)).2.1, hg, hUV.1, hUV.2]
  decide

/-- Claim C18, the behaviour of the code at the claim's own witness. For the 8 x 8
image whose samples are all 128, planar 4:2:2 8-bit input, no rotation, Linear
alignment, RGBA8 output with alpha 255 and the tuple `sampleCoefficients`,
`PerformConversion` returns and every one of the 64 pixels it has written is the
encoding, by whatever encoder is in use, of the colour `(128, 128, 128)` with alpha
255: the output is uniform and its red and blue are the values of the formulas, but
the green formula at `(128, 128, 128)` gives 129. -/
theorem PerformConversion_uniform_green (enc : PixelEncoder) :
    ∃ st, PerformConversion
        { sampleEnvironment with enc := enc } uniformStore emptyCache uniformConfiguration
        = .done st ∧
      (∀ i b, i < 64 → b < 4 → st.memory (0x1000 + i * 4 + b) = enc .RGBA8 128 128 128 255 b) ∧
      redFormula sampleCoefficients 128 128 = 128 ∧
      greenFormula sampleCoefficients 128 128 128 = 129 ∧
      blueFormula sampleCoefficients 128 128 = 128 := by
  obtain ⟨st, e, a⟩ := PerformConversion_uniform_strip
    { sampleEnvironment with enc := enc } uniformStore emptyCache uniformConfiguration
    128 128 128 1 rfl rfl rfl rfl (by decide) (by decide) rfl (by decide) (by decide)
    (by decide) (by decide) (by decide) (by decide) (by decide) (by decide) (by decide)
    (fun _ _ => (by decide : (0 : Nat) < 4294967296))
  refine ⟨st, e, ?_, by decide, by decide, by decide⟩
  intro i b hi hb
  have := a 0 i b (by decide) hi hb
  have hb3 := (build_getRGB_bytes sampleCoefficients zeroTable 128 128 128
    (by decide) (by decide) (by decide))
  have hr : rEntry sampleCoefficients 128 128 = 128 := by decide
  have hbl : bEntry sampleCoefficients 128 128 = 128 := by decide
  have hg := sample_green_slot zeroTable
  have ht : (lookupTable sampleCoefficientArray zeroTable emptyCache 0).1 =
      Y2UTable.build sampleCoefficients zeroTable := rfl
  have this2 : st.memory (0x1000 + 0 * (256 + 0) + i * 4 + b) =
      enc .RGBA8
        (byteOf ((lookupTable sampleCoefficientArray zeroTable emptyCache 0).1.getRGB
          128 128 128) 3)
        (byteOf ((lookupTable sampleCoefficientArray zeroTable emptyCache 0).1.getRGB
          128 128 128) 2)
        (byteOf ((lookupTable sampleCoefficientArray zeroTable emptyCache 0).1.getRGB
          128 128 128) 1)
        (255 % 256) b := this
  rw [ht, hb3.1, hg, hb3.2.2, hr, hbl] at this2
  have e0 : 0x1000 + 0 * (256 + 0) + i * 4 + b = 0x1000 + i * 4 + b := by omega
  rw [e0] at this2
  exact this2

/-! ## Monotonicity of `UV2IG`, packing of `getRGB` -/

/-- Claim C21, with the range of the shift added. For a coefficient tuple with
`c2 >= 0`, `c3 >= 0` and `(c2 * 255 + c3 * 255) * 256 < 2 ^ 31`, and all `U`, `V`,
`U2`, `V2` in `0..255`, `c2 * V + c3 * U <= c2 * V2 + c3 * U2` implies
`UV2IG[U][V] <= UV2IG[U2][V2]` in the built table. -/
theorem build_UV2IG_monotone (c : CoefficientSet) (raw : Y2UTable) (h2 : 0 ≤ c.c2)
    (h3 : 0 ≤ c.c3) (hsmall : (c.c2 * 255 + c.c3 * 255) * 256 < 2147483648)
    (U V U2 V2 : Nat) (hU : U < 256) (hV : V < 256) (hU2 : U2 < 256) (hV2 : V2 < 256)
    (hle : c.c2 * V + c.c3 * U ≤ c.c2 * V2 + c.c3 * U2) :
    (Y2UTable.build c raw).UV2IG U V ≤ (Y2UTable.build c raw).UV2IG U2 V2 := by
  rw [build_UV2IG c raw U V hU hV, build_UV2IG c raw U2 V2 hU2 hV2]
  have e1 := (igEntry_exact c h2 h3 hsmall U V hU hV).1
  have e2 := (igEntry_exact c h2 h3 hsmall U2 V2 hU2 hV2).1
  have hpos : (0 : Int) < 255 * c.c2 + 255 * c.c3 + 1 := by omega
  have hdiv : (256 * (c.c2 * V + c.c3 * U)) / (255 * c.c2 + 255 * c.c3 + 1) ≤
      (256 * (c.c2 * V2 + c.c3 * U2)) / (255 * c.c2 + 255 * c.c3 + 1) :=
    Int.ediv_le_ediv hpos (by omega)
  rw [← e1, ← e2] at hdiv
  exact Int.ofNat_le.mp hdiv

/-- Claim C21, counterexample. For `c2 = 32767`, `c3 = 130` the chroma sum at
`(U, V) = (0, 255)` is below the sum at `(255, 255)`, yet the entries are 254 and 1:
at the larger sum the shift `i << 8` leaves the range of `s32`. -/
theorem build_UV2IG_not_monotone :
    0 ≤ steepGreenCoefficients.c2 ∧ 0 ≤ steepGreenCoefficients.c3 ∧
    steepGreenCoefficients.c2 * (255 : Nat) + steepGreenCoefficients.c3 * (0 : Nat) ≤
      steepGreenCoefficients.c2 * (255 : Nat) + steepGreenCoefficients.c3 * (255 : Nat) ∧
    (Y2UTable.build steepGreenCoefficients zeroTable).UV2IG 0 255 = 254 ∧
    (Y2UTable.build steepGreenCoefficients zeroTable).UV2IG 255 255 = 1 := by
  refine ⟨by decide, by decide, by decide, ?_, ?_⟩
  · rw [build_UV2IG _ _ _ _ (by decide) (by decide)]
    decide
  · rw [build_UV2IG _ _ _ _ (by decide) (by decide)]
    decide

/-- Claim C22. For all `Y`, `U`, `V` in `0..255`, `getRGB(Y,U,V)` of the built table
equals `YV2R[Y][V] * 2^24 + YIG2G[Y][UV2IG[U][V]] * 2^16 + YU2B[Y][U] * 2^8`, a value
below `2^32`: the three table entries are bytes, they are bits 31..24, 23..16 and
15..8 of the result, and bits 7..0 are zero. -/
theorem getRGB_packed (c : CoefficientSet) (raw : Y2UTable) (Y U V : Nat)
    (hY : Y < 256) (hU : U < 256) (hV : V < 256) :
    (Y2UTable.build c raw).getRGB Y U V =
      (Y2UTable.build c raw).YV2R Y V * 2 ^ 24
        + (Y2UTable.build c raw).YIG2G Y ((Y2UTable.build c raw).UV2IG U V) * 2 ^ 16
        + (Y2UTable.build c raw).YU2B Y U * 2 ^ 8 ∧
    (Y2UTable.build c raw).getRGB Y U V < 2 ^ 32 ∧
    ((Y2UTable.build c raw).YV2R Y V < 256 ∧
      (Y2UTable.build c raw).YIG2G Y ((Y2UTable.build c raw).UV2IG U V) < 256 ∧
      (Y2UTable.build c raw).YU2B Y U < 256) ∧
    ((Y2UTable.build c raw).getRGB Y U V >>> 24) % 256 = (Y2UTable.build c raw).YV2R Y V ∧
    ((Y2UTable.build c raw).getRGB Y U V >>> 16) % 256 =
      (Y2UTable.build c raw).YIG2G Y ((Y2UTable.build c raw).UV2IG U V) ∧
    ((Y2UTable.build c raw).getRGB Y U V >>> 8) % 256 = (Y2UTable.build c raw).YU2B Y U ∧
    (Y2UTable.build c raw).getRGB Y U V % 256 = 0 := by
  obtain ⟨U', V', _, _, _, _, hg⟩ := build_green_slot c raw Y U V hY hU hV
  have hr : (Y2UTable.build c raw).YV2R Y V < 256 := by
    rw [build_YV2R c raw Y V hY hV]; exact toU8_lt _
  have hb : (Y2UTable.build c raw).YU2B Y U < 256 := by
    rw [build_YU2B c raw Y U hY hU]; exact toU8_lt _
  have hG : (Y2UTable.build c raw).YIG2G Y ((Y2UTable.build c raw).UV2IG U V) < 256 := by
    rw [hg]; exact toU8_lt _
  have hp : (Y2UTable.build c raw).getRGB Y U V =
      (Y2UTable.build c raw).YV2R Y V * 16777216
        + (Y2UTable.build c raw).YIG2G Y ((Y2UTable.build c raw).UV2IG U V) * 65536
        + (Y2UTable.build c raw).YU2B Y U * 256 := pack_bytes _ _ _ hr hG hb
  obtain ⟨b3, b2, b1⟩ := byteOf_pack _ _ _ hr hG hb
  rw [← hp] at b3 b2 b1
  refine ⟨hp, ?_, ⟨hr, hG, hb⟩, b3, b2, b1, ?_⟩
  · rw [hp]
    show _ < 4294967296
    omega
  · rw [hp]
    omega

/-- Claim C23. The paired lookup gives what two single lookups give: for every
table and all arguments, `getRGB2(Y1, Y2, U, V)` sets `p1 = getRGB(Y1, U, V)` and
`p2 = getRGB(Y2, U, V)`. -/
theorem getRGB2_eq_getRGB_pair (t : Y2UTable) (Y1 Y2 U V : Nat) :
    t.getRGB2 Y1 Y2 U V = (t.getRGB Y1 U V, t.getRGB Y2 U V) := rfl

/-! ## Frame of the decoder -/

theorem forLoopM_preserves {σ : Type} (Q : σ → Prop) (body : Nat → σ → Option σ) (n : Nat)
    (h : ∀ i s s', i < n → Q s → body i s = some s' → Q s') (s : σ) (h0 : Q s) :
    ∀ s', forLoopM n body s = some s' → Q s' := by
  induction n with
  | zero =>
    intro s' e
    cases e
    exact h0
  | succ n ih =>
    intro s' e
    rw [forLoopM_succ] at e
    cases e1 : forLoopM n body s with
    | none => rw [e1] at e; cases e
    | some s1 =>
      rw [e1] at e
      exact h n s1 s' (by omega) (ih (fun i s s' hi => h i s s' (by omega)) s1 e1) e

/-- The tile entry of pixel `(x, y)` of a strip lies in the first `rows` rows of the
first `width / 8` tiles when `x < width` and `y < rows`. -/
theorem decode_region (width rows x y : Nat) (hw : width % 8 = 0) (hx : x < width)
    (hy : y < rows) (hr : rows ≤ 8) (t i : Nat) (h : ¬ (t < width / 8 ∧ i < 8 * rows)) :
    ¬ (t = x >>> 3 ∧ i = tileIndex x y) := by
  rw [shr3, tileIndex_eq x y (by omega)]
  omega

theorem body422_frame (table : Y2UTable) (input_Y input_U input_V : BytePtr) (y x : Nat)
    (s s' : DecodeState) (e : body422 table input_Y input_U input_V y x s = some s') :
    ∃ v, s'.output = set2 s.output (x >>> 3) (tileIndex x y) v := by
  cases input_Y with
  | none => cases e
  | some iy =>
    cases input_U with
    | none => cases e
    | some iu =>
      cases input_V with
      | none => cases e
      | some iv =>
        cases e
        exact ⟨_, rfl⟩

theorem bodyYUYV_frame (table : Y2UTable) (input_Y input_U input_V : BytePtr) (width y x : Nat)
    (s s' : DecodeState) (e : bodyYUYV table input_Y input_U input_V width y x s = some s') :
    ∃ v, s'.output = set2 s.output (x >>> 3) (tileIndex x y) v := by
  cases input_Y with
  | none => cases e
  | some iy =>
    cases input_U with
    | none => cases e
    | some iu =>
      cases input_V with
      | none => cases e
      | some iv =>
        cases e
        exact ⟨_, rfl⟩

theorem body420_frame (table : Y2UTable) (input_Y input_U input_V : BytePtr) (y x : Nat)
    (s s' : DecodeState) (e : body420 table input_Y input_U input_V y x s = some s') :
    ∃ v1 v2, s'.output = set2 (set2 s.output (x >>> 3) (tileIndex x y) v1)
      (wrapU32 (x + 1) >>> 3) (tileIndex (wrapU32 (x + 1)) y) v2 := by
  cases input_Y with
  | none => cases e
  | some iy =>
    cases input_U with
    | none => cases e
    | some iu =>
      cases input_V with
      | none => cases e
      | some iv =>
        cases e
        exact ⟨_, _, rfl⟩

theorem row422_frame (table : Y2UTable) (input_Y input_U input_V : BytePtr)
    (out0 : Nat → Nat → Nat) (width rows y : Nat) (hw : width % 8 = 0) (hy : y < rows)
    (hr : rows ≤ 8) (s : DecodeState)
    (h0 : ∀ t i, ¬ (t < width / 8 ∧ i < 8 * rows) → s.output t i = out0 t i) :
    ∀ s', forLoopM width (fun x s => body422 table input_Y input_U input_V y x s) s = some s' →
      ∀ t i, ¬ (t < width / 8 ∧ i < 8 * rows) → s'.output t i = out0 t i := by
  refine forLoopM_preserves
    (fun s => ∀ t i, ¬ (t < width / 8 ∧ i < 8 * rows) → s.output t i = out0 t i) _ width ?_ s h0
  intro x s1 s2 hx hQ e t i hti
  obtain ⟨v, hv⟩ := body422_frame table input_Y input_U input_V y x s1 s2 e
  rw [hv, set2_other _ _ _ _ _ _ (decode_region width rows x y hw hx hy hr t i hti)]
  exact hQ t i hti

theorem rowYUYV_frame (table : Y2UTable) (input_Y input_U input_V : BytePtr)
    (out0 : Nat → Nat → Nat) (width rows y : Nat) (hw : width % 8 = 0) (hy : y < rows)
    (hr : rows ≤ 8) (s : DecodeState)
    (h0 : ∀ t i, ¬ (t < width / 8 ∧ i < 8 * rows) → s.output t i = out0 t i) :
    ∀ s', forLoopM width
        (fun x s => bodyYUYV table input_Y input_U input_V width y x s) s = some s' →
      ∀ t i, ¬ (t < width / 8 ∧ i < 8 * rows) → s'.output t i = out0 t i := by
  refine forLoopM_preserves
    (fun s => ∀ t i, ¬ (t < width / 8 ∧ i < 8 * rows) → s.output t i = out0 t i) _ width ?_ s h0
  intro x s1 s2 hx hQ e t i hti
  obtain ⟨v, hv⟩ := bodyYUYV_frame table input_Y input_U input_V width y x s1 s2 e
  rw [hv, set2_other _ _ _ _ _ _ (decode_region width rows x y hw hx hy hr t i hti)]
  exact hQ t i hti

theorem row420_frame (table : Y2UTable) (input_Y input_U input_V : BytePtr)
    (out0 : Nat → Nat → Nat) (width rows y : Nat) (hw : width % 8 = 0)
    (hwlt : width < 4294967296) (hy : y < rows) (hr : rows ≤ 8) (s : DecodeState)
    (h0 : ∀ t i, ¬ (t < width / 8 ∧ i < 8 * rows) → s.output t i = out0 t i) :
    ∀ s', row420 table input_Y input_U input_V width y s = some s' →
      ∀ t i, ¬ (t < width / 8 ∧ i < 8 * rows) → s'.output t i = out0 t i := by
  unfold row420
  refine forLoopM_preserves
    (fun s => ∀ t i, ¬ (t < width / 8 ∧ i < 8 * rows) → s.output t i = out0 t i) _ _ ?_ s h0
  intro j s1 s2 hj hQ e t i hti
  obtain ⟨v1, v2, hv⟩ := body420_frame table input_Y input_U input_V y (2 * j) s1 s2 e
  have hwr : wrapU32 (2 * j + 1) = 2 * j + 1 := Nat.mod_eq_of_lt (by omega)
  rw [hv, hwr,
    set2_other _ _ _ _ _ _ (decode_region width rows (2 * j + 1) y hw (by omega) hy hr t i hti),
    set2_other _ _ _ _ _ _ (decode_region width rows (2 * j) y hw (by omega) hy hr t i hti)]
  exact hQ t i hti

theorem pair420_frame (table : Y2UTable) (input_Y input_U input_V : BytePtr)
    (out0 : Nat → Nat → Nat) (width rows y : Nat) (hw : width % 8 = 0)
    (hwlt : width < 4294967296) (hy : y + 1 < rows) (hr : rows ≤ 8) (s : DecodeState)
    (h0 : ∀ t i, ¬ (t < width / 8 ∧ i < 8 * rows) → s.output t i = out0 t i) :
    ∀ s', pair420 table input_Y input_U input_V width y s = some s' →
      ∀ t i, ¬ (t < width / 8 ∧ i < 8 * rows) → s'.output t i = out0 t i := by
  intro s' e
  unfold pair420 at e
  cases e1 : row420 table input_Y input_U input_V width y s with
  | none => rw [e1] at e; cases e
  | some s1 =>
    rw [e1] at e
    have q1 := row420_frame table input_Y input_U input_V out0 width rows y hw hwlt
      (by omega) hr s h0 s1 e1
    exact row420_frame table input_Y input_U input_V out0 width rows (y + 1) hw hwlt hy hr
      { s1 with UI := wrapU32 (s1.UI + 4294967296 - wrapU32 (width >>> 1)) } q1 s' e

/-- Whenever the loops of the decoder return, every tile entry outside the first
`rowsWritten` rows of the first `width / 8` tiles is as before. -/
theorem decodeStrip_frame (table : Y2UTable) (fmt : InputFormat)
    (input_Y input_U input_V : BytePtr) (width height : Nat) (hw : width % 8 = 0)
    (hwlt : width < 4294967296) (hh8 : height ≤ 8) (s s' : DecodeState)
    (e : decodeStrip table fmt input_Y input_U input_V width height s = some s') :
    ∀ t i, ¬ (t < width / 8 ∧ i < 8 * rowsWritten fmt height) →
      s'.output t i = s.output t i := by
  have h422 : ∀ s', forLoopM height (fun y s =>
      forLoopM width (fun x s => body422 table input_Y input_U input_V y x s) s) s = some s' →
      ∀ t i, ¬ (t < width / 8 ∧ i < 8 * height) → s'.output t i = s.output t i := by
    refine forLoopM_preserves
      (fun s1 => ∀ t i, ¬ (t < width / 8 ∧ i < 8 * height) → s1.output t i = s.output t i)
      _ height ?_ s (fun _ _ _ => rfl)
    intro y s1 s2 hy hQ e2
    exact row422_frame table input_Y input_U input_V s.output width height y hw hy hh8 s1 hQ
      s2 e2
  have h420 : ∀ s', forLoopM ((height + 1) / 2) (fun i s =>
      pair420 table input_Y input_U input_V width (2 * i) s) s = some s' →
      ∀ t i, ¬ (t < width / 8 ∧ i < 8 * (2 * ((height + 1) / 2))) →
        s'.output t i = s.output t i := by
    refine forLoopM_preserves
      (fun s1 => ∀ t i, ¬ (t < width / 8 ∧ i < 8 * (2 * ((height + 1) / 2))) →
        s1.output t i = s.output t i)
      _ _ ?_ s (fun _ _ _ => rfl)
    intro j s1 s2 hj hQ e2
    exact pair420_frame table input_Y input_U input_V s.output width _ (2 * j) hw hwlt
      (by omega) (by omega) s1 hQ s2 e2
  have hyuyv : ∀ s', forLoopM height (fun y s =>
      forLoopM width (fun x s => bodyYUYV table input_Y input_U input_V width y x s) s) s
        = some s' →
      ∀ t i, ¬ (t < width / 8 ∧ i < 8 * height) → s'.output t i = s.output t i := by
    refine forLoopM_preserves
      (fun s1 => ∀ t i, ¬ (t < width / 8 ∧ i < 8 * height) → s1.output t i = s.output t i)
      _ height ?_ s (fun _ _ _ => rfl)
    intro y s1 s2 hy hQ e2
    exact rowYUYV_frame table input_Y input_U input_V s.output width height y hw hy hh8 s1 hQ
      s2 e2
  cases fmt with
  | YUV422_Indiv8 => exact h422 s' e
  | YUV422_Indiv16 => exact h422 s' e
  | YUV420_Indiv8 => exact h420 s' e
  | YUV420_Indiv16 => exact h420 s' e
  | YUYV422_Interleaved => exact hyuyv s' e
  | other v =>
    cases e
    intro t i _
    rfl


theorem ConvertYUVToRGB_eq (sc : Nat → CoefficientSet) (raw : Y2UTable) (cache : TableCache)
    (fmt : InputFormat) (input_Y input_U input_V : BytePtr) (out0 : Nat → Nat → Nat)
    (width height coefficient : Nat) :
    ConvertYUVToRGB sc raw cache fmt input_Y input_U input_V out0 width height coefficient =
      (decodeStrip (lookupTable sc raw cache coefficient).1 fmt input_Y input_U input_V
        width height { YI := 0, UI := 0, VI := 0, output := out0 }).map
        (fun s => ((lookupTable sc raw cache coefficient).2, s.output)) := rfl

/-- With three non-null pointers the loops of the decoder return for every format. -/
theorem decodeStrip_total (table : Y2UTable) (fmt : InputFormat) (iy iu iv : Nat → Nat)
    (width height : Nat) (s : DecodeState) :
    ∃ s', decodeStrip table fmt (some iy) (some iu) (some iv) width height s = some s' := by
  have r420 : ∀ y s, ∃ s', row420 table (some iy) (some iu) (some iv) width y s = some s' :=
    fun y s => forLoopM_total _ (fun j s => ⟨_, rfl⟩) _ s
  have p420 : ∀ y s, ∃ s', pair420 table (some iy) (some iu) (some iv) width y s = some s' := by
    intro y s
    obtain ⟨s1, e1⟩ := r420 y s
    obtain ⟨s2, e2⟩ := r420 (y + 1)
      { s1 with UI := wrapU32 (s1.UI + 4294967296 - wrapU32 (width >>> 1)) }
    refine ⟨s2, ?_⟩
    unfold pair420
    rw [e1]
    exact e2
  cases fmt with
  | YUV422_Indiv8 =>
    exact forLoopM_total _ (fun y s => forLoopM_total _ (fun x s => ⟨_, rfl⟩) _ s) _ s
  | YUV422_Indiv16 =>
    exact forLoopM_total _ (fun y s => forLoopM_total _ (fun x s => ⟨_, rfl⟩) _ s) _ s
  | YUV420_Indiv8 => exact forLoopM_total _ (fun i s => p420 (2 * i) s) _ s
  | YUV420_Indiv16 => exact forLoopM_total _ (fun i s => p420 (2 * i) s) _ s
  | YUYV422_Interleaved =>
    exact forLoopM_total _ (fun y s => forLoopM_total _ (fun x s => ⟨_, rfl⟩) _ s) _ s
  | other v => exact ⟨s, rfl⟩

/-- Claim C24, with the rows of the 4:2:0 loop stated. For every input format, a
width that is a multiple of 8 and a height of at most 8, whenever `ConvertYUVToRGB`
returns (it does when its three pointers are not null), every tile entry
`output[t][i]` with `t >= width / 8` or `i >= 8 * rows` has the value it had before
the call, where `rows` is `height`, except that for the 4:2:0 formats with an odd
height it is `height + 1`: their loop decodes two rows per iteration. -/
theorem ConvertYUVToRGB_frame (sc : Nat → CoefficientSet) (raw : Y2UTable) (cache : TableCache)
    (fmt : InputFormat) (input_Y input_U input_V : BytePtr) (out0 : Nat → Nat → Nat)
    (width height : Nat) (hw : width % 8 = 0) (hwlt : width < 4294967296)
    (hh8 : height ≤ 8) (coefficient : Nat) :
    (∀ c out, ConvertYUVToRGB sc raw cache fmt input_Y input_U input_V out0 width height
        coefficient = some (c, out) →
      ∀ t i, (width / 8 ≤ t ∨ 8 * rowsWritten fmt height ≤ i) → out t i = out0 t i) ∧
    (input_Y ≠ none → input_U ≠ none → input_V ≠ none →
      ∃ c out, ConvertYUVToRGB sc raw cache fmt input_Y input_U input_V out0 width height
        coefficient = some (c, out)) ∧
    rowsWritten fmt height ≤ height + 1 ∧
    ((fmt ≠ .YUV420_Indiv8 ∧ fmt ≠ .YUV420_Indiv16) ∨ height % 2 = 0 →
      rowsWritten fmt height ≤ height) ∧
    ((fmt = .YUV420_Indiv8 ∨ fmt = .YUV420_Indiv16) → height % 2 = 1 →
      rowsWritten fmt height = height + 1) := by
  refine ⟨?_, ?_, ?_, ?_, ?_⟩
  · intro c out e t i hti
    rw [ConvertYUVToRGB_eq] at e
    cases hd : decodeStrip (lookupTable sc raw cache coefficient).1 fmt input_Y input_U input_V
        width height { YI := 0, UI := 0, VI := 0, output := out0 } with
    | none => rw [hd] at e; cases e
    | some s' =>
      rw [hd] at e
      cases e
      exact decodeStrip_frame _ fmt input_Y input_U input_V width height hw hwlt hh8 _ s' hd
        t i (by omega)
  · intro hY hU hV
    obtain ⟨iy, rfl⟩ : ∃ iy, input_Y = some iy := Option.ne_none_iff_exists'.mp hY
    obtain ⟨iu, rfl⟩ : ∃ iu, input_U = some iu := Option.ne_none_iff_exists'.mp hU
    obtain ⟨iv, rfl⟩ : ∃ iv, input_V = some iv := Option.ne_none_iff_exists'.mp hV
    obtain ⟨s', hs⟩ := decodeStrip_total (lookupTable sc raw cache coefficient).1 fmt iy iu iv
      width height { YI := 0, UI := 0, VI := 0, output := out0 }
    exact ⟨_, s'.output, by rw [ConvertYUVToRGB_eq, hs]; rfl⟩
  · cases fmt <;> simp only [rowsWritten] <;> omega
  · intro h
    have key : ∀ f : InputFormat,
        (f = .YUV420_Indiv8 ∨ f = .YUV420_Indiv16 → height % 2 = 0) →
        rowsWritten f height ≤ height := by
      intro f hf
      cases f with
      | YUV422_Indiv8 => exact le_refl _
      | YUV422_Indiv16 => exact le_refl _
      | YUV420_Indiv8 =>
        have := hf (Or.inl rfl)
        show 2 * ((height + 1) / 2) ≤ height
        omega
      | YUV420_Indiv16 =>
        have := hf (Or.inr rfl)
        show 2 * ((height + 1) / 2) ≤ height
        omega
      | YUYV422_Interleaved => exact le_refl _
      | other v => exact Nat.zero_le _
    apply key
    intro hf
    rcases h with h | h
    · rcases hf with e | e
      · exact absurd e h.1
      · exact absurd e h.2
    · exact h
  · intro hf ho
    rcases hf with rfl | rfl <;> simp only [rowsWritten] <;> omega


/-- Claim C24, counterexample. For the 4:2:0 format with width 8 and height 1 the
decoder also writes row 1: entry 8 of tile 0, which was 0, has the red byte 8 of
the pixel decoded from luma byte 8. -/
theorem ConvertYUVToRGB_420_writes_next_row :
    (8 : Nat) % 8 = 0 ∧ 1 ≤ 1 ∧ 1 ≤ 8 ∧
    (ConvertYUVToRGB sampleCoefficientArray zeroTable emptyCache .YUV420_Indiv8
      (some sampleLuma) (some sampleChroma) (some sampleChroma) blankTiles 8 1 0).map
      (fun r => byteOf (r.2 0 (1 * 8 + 0)) 3) = some 8 ∧
    byteOf (blankTiles 0 (1 * 8 + 0)) 3 = 0 := by
  refine ⟨by decide, by decide, by decide, ?_, by decide⟩
  obtain ⟨s', e, _, _, a4, _⟩ := strip420_spec
    (Y2UTable.build sampleCoefficients zeroTable) sampleLuma sampleChroma sampleChroma
    blankTiles 8 1 (by decide) (by decide) (by decide)
  have hd : decodeStrip (lookupTable sampleCoefficientArray zeroTable emptyCache 0).1
      .YUV420_Indiv8 (some sampleLuma) (some sampleChroma) (some sampleChroma) 8 1
      { YI := 0, UI := 0, VI := 0, output := blankTiles } = some s' := e
  rw [ConvertYUVToRGB_eq, hd]
  have h := a4 0 1 (by decide) (by decide)
  have e1 : s'.output 0 (1 * 8 + 0) = s'.output (0 / 8) (8 * 1 + 0 % 8) := rfl
  show some (byteOf (s'.output 0 (1 * 8 + 0)) 3) = some 8
  rw [e1, h]
  have hy : sampleLuma (wrapU32 (1 * 8 + 0)) = 8 := by decide
  have hu : sampleChroma (wrapU32 (1 / 2 * (8 / 2) + 0 / 2)) = 128 := by decide
  rw [hy, hu, (build_getRGB_bytes sampleCoefficients zeroTable 8 128 128
    (by decide) (by decide) (by decide)).1]
  decide

/-! ## The table cache -/

/-- What `getRGB` reads from a built table does not depend on the storage the table
was built in: every slot it reads was written by the constructor. -/
theorem build_getRGB_storage (c : CoefficientSet) (raw1 raw2 : Y2UTable) (Y U V : Nat)
    (hY : Y < 256) (hU : U < 256) (hV : V < 256) :
    (Y2UTable.build c raw1).getRGB Y U V = (Y2UTable.build c raw2).getRGB Y U V := by
  obtain ⟨U1, V1, hU1, hV1, e1, m1, g1⟩ := build_green_slot c raw1 Y U V hY hU hV
  obtain ⟨U2, V2, hU2, hV2, e2, m2, g2⟩ := build_green_slot c raw2 Y U V hY hU hV
  have h12 := m1 U2 V2 hU2 hV2 e2
  have h21 := m2 U1 V1 hU1 hV1 e1
  have eU : U1 = U2 := by omega
  have eV : V1 = V2 := by omega
  unfold Y2UTable.getRGB
  rw [g1, g2, build_YV2R c raw1 Y V hY hV, build_YV2R c raw2 Y V hY hV,
    build_YU2B c raw1 Y U hY hU, build_YU2B c raw2 Y U hY hU, eU, eV]

theorem getRGB2_fst (t : Y2UTable) (Y1 Y2 U V : Nat) :
    (t.getRGB2 Y1 Y2 U V).1 = t.getRGB Y1 U V := rfl

theorem getRGB2_snd (t : Y2UTable) (Y1 Y2 U V : Nat) :
    (t.getRGB2 Y1 Y2 U V).2 = t.getRGB Y2 U V := rfl

theorem body422_congr (T1 T2 : Y2UTable)
    (hT : ∀ Y U V, Y < 256 → U < 256 → V < 256 → T1.getRGB Y U V = T2.getRGB Y U V)
    (input_Y input_U input_V : BytePtr) (hY : bytesOnly input_Y) (hU : bytesOnly input_U)
    (hV : bytesOnly input_V) (y x : Nat) (s : DecodeState) :
    body422 T1 input_Y input_U input_V y x s = body422 T2 input_Y input_U input_V y x s := by
  unfold body422
  cases input_Y with
  | none => simp only [readAt, Option.map_none', Option.bind_eq_bind, Option.none_bind]
  | some iy =>
    cases input_U with
    | none => simp only [readAt, Option.map_none', Option.map_some', Option.bind_eq_bind,
        Option.none_bind, Option.some_bind]
    | some iu =>
      cases input_V with
      | none => simp only [readAt, Option.map_none', Option.map_some', Option.bind_eq_bind,
          Option.none_bind, Option.some_bind]
      | some iv =>
        simp only [readAt, Option.map_some', Option.bind_eq_bind, Option.some_bind]
        rw [hT _ _ _ (hY iy rfl _) (hU iu rfl _) (hV iv rfl _)]

theorem bodyYUYV_congr (T1 T2 : Y2UTable)
    (hT : ∀ Y U V, Y < 256 → U < 256 → V < 256 → T1.getRGB Y U V = T2.getRGB Y U V)
    (input_Y input_U input_V : BytePtr) (hY : bytesOnly input_Y) (hU : bytesOnly input_U)
    (hV : bytesOnly input_V) (width y x : Nat) (s : DecodeState) :
    bodyYUYV T1 input_Y input_U input_V width y x s =
      bodyYUYV T2 input_Y input_U input_V width y x s := by
  unfold bodyYUYV
  cases input_Y with
  | none => simp only [readAt, Option.map_none', Option.bind_eq_bind, Option.none_bind]
  | some iy =>
    cases input_U with
    | none => simp only [readAt, Option.map_none', Option.map_some', Option.bind_eq_bind,
        Option.none_bind, Option.some_bind]
    | some iu =>
      cases input_V with
      | none => simp only [readAt, Option.map_none', Option.map_some', Option.bind_eq_bind,
          Option.none_bind, Option.some_bind]
      | some iv =>
        simp only [readAt, Option.map_some', Option.bind_eq_bind, Option.some_bind]
        rw [hT _ _ _ (hY iy rfl _) (hU iu rfl _) (hV iv rfl _)]

theorem body420_congr (T1 T2 : Y2UTable)
    (hT : ∀ Y U V, Y < 256 → U < 256 → V < 256 → T1.getRGB Y U V = T2.getRGB Y U V)
    (input_Y input_U input_V : BytePtr) (hY : bytesOnly input_Y) (hU : bytesOnly input_U)
    (hV : bytesOnly input_V) (y x : Nat) (s : DecodeState) :
    body420 T1 input_Y input_U input_V y x s = body420 T2 input_Y input_U input_V y x s := by
  unfold body420
  cases input_Y with
  | none => simp only [readAt, Option.map_none', Option.bind_eq_bind, Option.none_bind]
  | some iy =>
    cases input_U with
    | none => simp only [readAt, Option.map_none', Option.map_some', Option.bind_eq_bind,
        Option.none_bind, Option.some_bind]
    | some iu =>
      cases input_V with
      | none => simp only [readAt, Option.map_none', Option.map_some', Option.bind_eq_bind,
          Option.none_bind, Option.some_bind]
      | some iv =>
        simp only [readAt, Option.map_some', Option.bind_eq_bind, Option.some_bind,
          getRGB2_fst, getRGB2_snd]
        rw [hT _ _ _ (hY iy rfl _) (hU iu rfl _) (hV iv rfl _),
          hT _ _ _ (hY iy rfl _) (hU iu rfl _) (hV iv rfl _)]

theorem forLoopM_congr {σ : Type} (n : Nat) (b1 b2 : Nat → σ → Option σ)
    (h : ∀ i s, b1 i s = b2 i s) (s : σ) : forLoopM n b1 s = forLoopM n b2 s := by
  have e : b1 = b2 := funext fun i => funext fun s => h i s
  rw [e]

/-- The loops of the decoder give the same result for two tables that agree on
`getRGB` for byte arguments. -/
theorem decodeStrip_congr (T1 T2 : Y2UTable)
    (hT : ∀ Y U V, Y < 256 → U < 256 → V < 256 → T1.getRGB Y U V = T2.getRGB Y U V)
    (fmt : InputFormat) (input_Y input_U input_V : BytePtr) (hY : bytesOnly input_Y)
    (hU : bytesOnly input_U) (hV : bytesOnly input_V) (width height : Nat) (s : DecodeState) :
    decodeStrip T1 fmt input_Y input_U input_V width height s =
      decodeStrip T2 fmt input_Y input_U input_V width height s := by
  have r420 : ∀ y s, row420 T1 input_Y input_U input_V width y s =
      row420 T2 input_Y input_U input_V width y s := by
    intro y s
    unfold row420
    exact forLoopM_congr _ _ _
      (fun j s => body420_congr T1 T2 hT input_Y input_U input_V hY hU hV y (2 * j) s) s
  have p420 : ∀ y s, pair420 T1 input_Y input_U input_V width y s =
      pair420 T2 input_Y input_U input_V width y s := by
    intro y s
    unfold pair420
    rw [r420]
    cases row420 T2 input_Y input_U input_V width y s with
    | none => simp only [Option.bind_eq_bind, Option.none_bind]
    | some s1 =>
      simp only [Option.bind_eq_bind, Option.some_bind]
      exact r420 _ _
  have h422 : forLoopM height (fun y s =>
      forLoopM width (fun x s => body422 T1 input_Y input_U input_V y x s) s) s =
      forLoopM height (fun y s =>
        forLoopM width (fun x s => body422 T2 input_Y input_U input_V y x s) s) s :=
    forLoopM_congr _ _ _ (fun y s => forLoopM_congr _ _ _
      (fun x s => body422_congr T1 T2 hT input_Y input_U input_V hY hU hV y x s) s) s
  have hyuyv : forLoopM height (fun y s =>
      forLoopM width (fun x s => bodyYUYV T1 input_Y input_U input_V width y x s) s) s =
      forLoopM height (fun y s =>
        forLoopM width (fun x s => bodyYUYV T2 input_Y input_U input_V width y x s) s) s :=
    forLoopM_congr _ _ _ (fun y s => forLoopM_congr _ _ _
      (fun x s => bodyYUYV_congr T1 T2 hT input_Y input_U input_V hY hU hV width y x s) s) s
  have h420 : forLoopM ((height + 1) / 2) (fun i s =>
      pair420 T1 input_Y input_U input_V width (2 * i) s) s =
      forLoopM ((height + 1) / 2) (fun i s =>
        pair420 T2 input_Y input_U input_V width (2 * i) s) s :=
    forLoopM_congr _ _ _ (fun i s => p420 (2 * i) s) s
  cases fmt with
  | YUV422_Indiv8 => exact h422
  | YUV422_Indiv16 => exact h422
  | YUV420_Indiv8 => exact h420
  | YUV420_Indiv16 => exact h420
  | YUYV422_Interleaved => exact hyuyv
  | other v => rfl


theorem cacheValid_empty (sc : Nat → CoefficientSet) : cacheValid sc (fun _ => none) :=
  fun _ _ h => Option.noConfusion h

theorem cacheValid_warm : cacheValid sampleCoefficientArray warmCache := by
  intro i t h
  unfold warmCache at h
  by_cases h0 : i = 0
  · rw [if_pos h0] at h
    have e := Option.some.inj h
    exact ⟨zeroTable, e.symm⟩
  · rw [if_neg h0] at h
    exact Option.noConfusion h

theorem lookupTable_hit (sc : Nat → CoefficientSet) (raw : Y2UTable) (cache : TableCache)
    (index : Nat) (t : Y2UTable) (h : cache index = some t) :
    lookupTable sc raw cache index = (t, cache) := by
  unfold lookupTable
  rw [h]

theorem lookupTable_miss (sc : Nat → CoefficientSet) (raw : Y2UTable) (cache : TableCache)
    (index : Nat) (h : cache index = none) :
    lookupTable sc raw cache index =
      (Y2UTable.build (sc index) raw,
        fun i => if i = index then some (Y2UTable.build (sc index) raw) else cache i) := by
  unfold lookupTable
  rw [h]

/-- The table lookup at the start of `ConvertYUVToRGB`: a filled slot is returned as
it is and the cache stays the same; an empty slot is filled with a new table and
no other slot changes. -/
theorem lookupTable_spec (sc : Nat → CoefficientSet) (raw : Y2UTable) (cache : TableCache)
    (index : Nat) :
    (∀ t, cache index = some t →
      lookupTable sc raw cache index = (t, cache)) ∧
    (cache index = none →
      (lookupTable sc raw cache index).1 = Y2UTable.build (sc index) raw) ∧
    (lookupTable sc raw cache index).2 index = some (lookupTable sc raw cache index).1 ∧
    (∀ i, i ≠ index → (lookupTable sc raw cache index).2 i = cache i) := by
  cases h : cache index with
  | some t =>
    rw [lookupTable_hit sc raw cache index t h]
    exact ⟨fun t' e => by rw [Option.some.inj e], fun e => Option.noConfusion e, h,
      fun i _ => rfl⟩
  | none =>
    rw [lookupTable_miss sc raw cache index h]
    refine ⟨fun t' e => Option.noConfusion e, fun _ => rfl, ?_, ?_⟩
    · show (if index = index then _ else _) = _
      rw [if_pos rfl]
    · intro i hi
      show (if i = index then _ else _) = _
      rw [if_neg hi]

theorem lookupTable_built (sc : Nat → CoefficientSet) (raw : Y2UTable) (cache : TableCache)
    (hv : cacheValid sc cache) (index : Nat) :
    ∃ raw', (lookupTable sc raw cache index).1 = Y2UTable.build (sc index) raw' := by
  obtain ⟨l1, l2, _, _⟩ := lookupTable_spec sc raw cache index
  cases h : cache index with
  | some t =>
    obtain ⟨raw', e⟩ := hv index t h
    exact ⟨raw', by rw [l1 t h]; exact e⟩
  | none => exact ⟨raw, l2 h⟩

theorem lookupTable_valid (sc : Nat → CoefficientSet) (raw : Y2UTable) (cache : TableCache)
    (hv : cacheValid sc cache) (index : Nat) :
    cacheValid sc (lookupTable sc raw cache index).2 := by
  obtain ⟨_, _, l3, l4⟩ := lookupTable_spec sc raw cache index
  obtain ⟨raw', e⟩ := lookupTable_built sc raw cache hv index
  intro i t h
  by_cases hi : i = index
  · subst hi
    rw [l3] at h
    cases h
    exact ⟨raw', e⟩
  · rw [l4 i hi] at h
    exact hv i t h

/-- Claim C25. The vector `Y2RTables` starts with empty slots, which satisfies the
invariant that every slot is empty or holds a table produced by the constructor for
the coefficient tuple of that slot. Every returning call of `ConvertYUVToRGB` keeps
the invariant, leaves every filled slot as it is (a call for a filled slot leaves
the whole cache as it is, so no table is built twice) and changes no slot but the
requested one. For byte inputs the tiles a call produces are the same for any two
caches that satisfy the invariant and any storage given to a new table. -/
theorem ConvertYUVToRGB_cache (sc : Nat → CoefficientSet) (raw raw2 : Y2UTable)
    (cache cache2 : TableCache) (hv : cacheValid sc cache) (hv2 : cacheValid sc cache2)
    (fmt : InputFormat) (input_Y input_U input_V : BytePtr) (hY : bytesOnly input_Y)
    (hU : bytesOnly input_U) (hV : bytesOnly input_V) (out0 : Nat → Nat → Nat)
    (width height coefficient : Nat) :
    cacheValid sc (fun _ => none) ∧
    (∀ c out, ConvertYUVToRGB sc raw cache fmt input_Y input_U input_V out0 width height
        coefficient = some (c, out) →
      cacheValid sc c ∧
      (∀ i t, cache i = some t → c i = some t) ∧
      (∀ i, i ≠ coefficient → c i = cache i) ∧
      (∀ t, cache coefficient = some t → c = cache) ∧
      (cache coefficient = none →
        c coefficient = some (Y2UTable.build (sc coefficient) raw))) ∧
    (ConvertYUVToRGB sc raw cache fmt input_Y input_U input_V out0 width height
        coefficient).map Prod.snd =
      (ConvertYUVToRGB sc raw2 cache2 fmt input_Y input_U input_V out0 width height
        coefficient).map Prod.snd := by
  refine ⟨cacheValid_empty sc, ?_, ?_⟩
  · intro c out e
    rw [ConvertYUVToRGB_eq] at e
    obtain ⟨l1, l2, l3, l4⟩ := lookupTable_spec sc raw cache coefficient
    have hc : c = (lookupTable sc raw cache coefficient).2 := by
      cases hd : decodeStrip (lookupTable sc raw cache coefficient).1 fmt input_Y input_U
          input_V width height { YI := 0, UI := 0, VI := 0, output := out0 } with
      | none => rw [hd] at e; exact Option.noConfusion e
      | some s' =>
        rw [hd, Option.map_some'] at e
        have e2 := congrArg Prod.fst (Option.some.inj e)
        exact e2.symm
    subst hc
    refine ⟨lookupTable_valid sc raw cache hv coefficient, ?_, l4, ?_, ?_⟩
    · intro i t h
      by_cases hi : i = coefficient
      · subst hi
        rw [l1 t h]
        exact h
      · rw [l4 i hi]
        exact h
    · intro t h
      rw [l1 t h]
    · intro h
      rw [l3, l2 h]
  · obtain ⟨r1, e1⟩ := lookupTable_built sc raw cache hv coefficient
    obtain ⟨r2, e2⟩ := lookupTable_built sc raw2 cache2 hv2 coefficient
    have hT : ∀ Y U V, Y < 256 → U < 256 → V < 256 →
        (lookupTable sc raw cache coefficient).1.getRGB Y U V =
          (lookupTable sc raw2 cache2 coefficient).1.getRGB Y U V := by
      intro Y U V hY' hU' hV'
      rw [e1, e2]
      exact build_getRGB_storage _ r1 r2 Y U V hY' hU' hV'
    have m : ∀ (c : TableCache) (o : Option DecodeState),
        (o.map (fun s => (c, s.output))).map Prod.snd = o.map (fun s => s.output) := by
      intro c o
      cases o with
      | none => rfl
      | some s => rfl
    rw [ConvertYUVToRGB_eq, ConvertYUVToRGB_eq, m, m,
      decodeStrip_congr _ _ hT fmt input_Y input_U input_V hY hU hV width height]

/-! ## An input format outside the five cases -/

theorem ConvertYUVToRGB_other (sc : Nat → CoefficientSet) (raw : Y2UTable) (cache : TableCache)
    (v : Nat) (input_Y input_U input_V : BytePtr) (out0 : Nat → Nat → Nat)
    (width height coefficient : Nat) :
    ConvertYUVToRGB sc raw cache (.other v) input_Y input_U input_V out0 width height
      coefficient = some ((lookupTable sc raw cache coefficient).2, out0) := rfl

/-- A strip of a job whose input format is outside the five cases, with Linear
alignment and a destination unit of at least one byte: nothing is pulled, the tiles
are not written, and the strip is sent. -/
theorem stripStep_done_other (env : Environment) (num_tiles y : Nat) (st : PerformState)
    (v : Nat) (hfmt : st.cvt.input_format = .other v)
    (hal : st.cvt.block_alignment = .Linear) (hdst : 1 ≤ st.cvt.dst.transfer_unit)
    (hsmall : 8 * st.cvt.input_line_width ≤ 2147483647) :
    ∃ st' b, stripStep env num_tiles y st = .done st' ∧
      st'.cvt = { st.cvt with dst := b } ∧ b.shape = st.cvt.dst.shape ∧
      st'.tiles = st.tiles ∧
      st'.sent = st.sent ++ [(min (st.cvt.input_lines - y) 8,
        ((min (st.cvt.input_lines - y) 8 * st.cvt.input_line_width : Nat) : Int))] := by
  have hh : min (st.cvt.input_lines - y) 8 ≤ 8 := Nat.min_le_right _ _
  have hle : min (st.cvt.input_lines - y) 8 * st.cvt.input_line_width ≤ 2147483647 :=
    le_trans (Nat.mul_le_mul_right _ hh) hsmall
  have e1 : receiveStrip env (min (st.cvt.input_lines - y) 8 * st.cvt.input_line_width) st
      = .done st := by
    unfold receiveStrip
    simp only [hfmt]
  have e2 : decodeInto env (min (st.cvt.input_lines - y) 8) st =
      .done { st with cache := (lookupTable env.standard_coefficients env.rawTable st.cache
        st.cvt.coefficient).2 } := by
    unfold decodeInto
    simp only [hfmt, ConvertYUVToRGB_other]
  obtain ⟨s, hs⟩ := forLoopM_total
    (tileStep st.cvt.rotation .Linear st.tiles num_tiles st.cvt.input_line_width
      (min (st.cvt.input_lines - y) 8))
    (fun i s => tileStep_linear_some _ _ _ _ _ i s) num_tiles
    { buffer := st.data_buffer, tmp_tile := st.tmp_tile, out := 0 }
  have e3 : transformInto num_tiles (min (st.cvt.input_lines - y) 8)
      { st with cache := (lookupTable env.standard_coefficients env.rawTable st.cache
        st.cvt.coefficient).2 } =
      .done { st with
        cache := (lookupTable env.standard_coefficients env.rawTable st.cache
          st.cvt.coefficient).2
        data_buffer := s.buffer, tmp_tile := s.tmp_tile } := by
    unfold transformInto tileLoop
    simp only [hal, hs]
  obtain ⟨s4, hs4, hb⟩ := SendData_done env.enc env.widths st.memory (readU32 s.buffer)
    st.cvt.dst (wrapS32 ((min (st.cvt.input_lines - y) 8 * st.cvt.input_line_width : Nat) : Int))
    st.cvt.output_format (st.cvt.alpha % 256) hdst
  have e4 : sendFrom env (min (st.cvt.input_lines - y) 8)
      (min (st.cvt.input_lines - y) 8 * st.cvt.input_line_width)
      { st with
        cache := (lookupTable env.standard_coefficients env.rawTable st.cache
          st.cvt.coefficient).2
        data_buffer := s.buffer, tmp_tile := s.tmp_tile } =
      .done { st with
        cache := (lookupTable env.standard_coefficients env.rawTable st.cache
          st.cvt.coefficient).2
        data_buffer := s.buffer, tmp_tile := s.tmp_tile
        memory := s4.memory, cvt := { st.cvt with dst := s4.buf }
        sent := st.sent ++ [(min (st.cvt.input_lines - y) 8,
          wrapS32 ((min (st.cvt.input_lines - y) 8 * st.cvt.input_line_width : Nat) : Int))] } := by
    unfold sendFrom
    simp only [hs4]
  refine ⟨{ st with
      cache := (lookupTable env.standard_coefficients env.rawTable st.cache
        st.cvt.coefficient).2
      data_buffer := s.buffer, tmp_tile := s.tmp_tile
      memory := s4.memory, cvt := { st.cvt with dst := s4.buf }
      sent := st.sent ++ [(min (st.cvt.input_lines - y) 8,
        wrapS32 ((min (st.cvt.input_lines - y) 8 * st.cvt.input_line_width : Nat) : Int))] },
    s4.buf, ?_, rfl, hb, rfl, ?_⟩
  · rw [stripStep_eq, e1]
    show ((decodeInto env _ st).andThen _).andThen _ = _
    rw [e2]
    show (transformInto num_tiles _ _).andThen _ = _
    rw [e3]
    exact e4
  · show st.sent ++ [(_, wrapS32 _)] = _
    rw [wrapS32_of_range _ (by omega) (by omega)]


/-- A job whose input format is outside the five cases, with Linear alignment and a
destination unit of at least one byte, runs through all its strips: no strip
pulls or decodes anything. -/
theorem PerformConversion_other_done (env : Environment) (memory : ByteStore)
    (cache : TableCache) (cvt : ConversionConfiguration) (v : Nat)
    (hfmt : cvt.input_format = .other v) (hal : cvt.block_alignment = .Linear)
    (hw : cvt.input_line_width % 8 = 0) (ht : cvt.input_line_width / 8 ≤ 128)
    (hdst : 1 ≤ cvt.dst.transfer_unit) :
    ∃ st, PerformConversion env memory cache cvt = .done st ∧ st.tiles = env.rawTiles ∧
      st.cvt.src_Y = cvt.src_Y ∧ st.cvt.src_U = cvt.src_U ∧ st.cvt.src_V = cvt.src_V ∧
      st.cvt.src_YUYV = cvt.src_YUYV ∧ st.sent.length = (cvt.input_lines + 7) / 8 := by
  have loop : ∀ m, ∃ st d,
      forLoopR m (fun i st => stripStep env (cvt.input_line_width >>> 3) (8 * i) st)
        (performInit env memory cache cvt) = .done st ∧
      st.cvt = { cvt with dst := d } ∧ d.shape = cvt.dst.shape ∧
      st.tiles = env.rawTiles ∧ st.sent.length = m := by
    intro m
    induction m with
    | zero => exact ⟨performInit env memory cache cvt, cvt.dst, rfl, rfl, rfl, rfl, rfl⟩
    | succ m ih =>
      obtain ⟨st, d, e, hc, hd, htl, hs⟩ := ih
      have hdt := congrArg ConversionBuffer.transfer_unit hd
      have hdt2 : d.transfer_unit = cvt.dst.transfer_unit := hdt
      obtain ⟨st', b, e', hc', hb', htl', hs'⟩ := stripStep_done_other env
        (cvt.input_line_width >>> 3) (8 * m) st v
        (by rw [hc]; exact hfmt) (by rw [hc]; exact hal)
        (by rw [hc]; show 1 ≤ d.transfer_unit; rw [hdt2]; exact hdst)
        (by rw [hc]; show 8 * cvt.input_line_width ≤ 2147483647; omega)
      refine ⟨st', b, ?_, ?_, ?_, htl'.trans htl, ?_⟩
      · rw [forLoopR_succ, e]
        exact e'
      · rw [hc', hc]
      · rw [hb', hc]
        exact hd
      · rw [hs', List.length_append, hs]
        rfl
  obtain ⟨st, d, e, hc, _, htl, hs⟩ := loop ((cvt.input_lines + 7) / 8)
  refine ⟨st, ?_, htl, by rw [hc], by rw [hc], by rw [hc], by rw [hc], hs⟩
  rw [PerformConversion_loop env memory cache cvt hw (Or.inl (by rw [hal]; decide)) ht]
  exact e

/-- Claim C26, as the code behaves. An input format value outside the five named
formats is not rejected. `ConvertYUVToRGB` called with such a value returns, after
its table lookup, with the tiles untouched, whatever its pointers are; and
`PerformConversion` (here with Linear alignment, a passing entry check and a
destination unit of at least one byte) returns normally after all its strips
without a pull and without a write to the tiles. -/
theorem unknown_format_not_rejected (env : Environment) (memory : ByteStore)
    (cache : TableCache) (cvt : ConversionConfiguration) (v : Nat)
    (hfmt : cvt.input_format = .other v) (hal : cvt.block_alignment = .Linear)
    (hw : cvt.input_line_width % 8 = 0) (ht : cvt.input_line_width / 8 ≤ 128)
    (hdst : 1 ≤ cvt.dst.transfer_unit)
    (input_Y input_U input_V : BytePtr) (out0 : Nat → Nat → Nat)
    (width height coefficient : Nat) :
    ConvertYUVToRGB env.standard_coefficients env.rawTable cache (.other v)
        input_Y input_U input_V out0 width height coefficient =
      some ((lookupTable env.standard_coefficients env.rawTable cache coefficient).2, out0) ∧
    ∃ st, PerformConversion env memory cache cvt = .done st ∧ st.tiles = env.rawTiles ∧
      st.cvt.src_Y = cvt.src_Y ∧ st.cvt.src_U = cvt.src_U ∧ st.cvt.src_V = cvt.src_V ∧
      st.cvt.src_YUYV = cvt.src_YUYV ∧ st.sent.length = (cvt.input_lines + 7) / 8 :=
  ⟨ConvertYUVToRGB_other _ _ _ _ _ _ _ _ _ _ _,
    PerformConversion_other_done env memory cache cvt v hfmt hal hw ht hdst⟩

/-- Claim C26, counterexample. Called with the format value 5 of no named format,
`ConvertYUVToRGB` returns with the tiles as they were, and `PerformConversion`
returns normally for the sample job with that format. -/
theorem unknown_format_returns :
    (ConvertYUVToRGB sampleCoefficientArray zeroTable emptyCache (.other 5)
      (some sampleLuma) (some sampleChroma) (some sampleChroma) blankTiles 8 8 0).map
      Prod.snd = some blankTiles ∧
    ∃ st, PerformConversion sampleEnvironment sampleStore emptyCache
      unknownFormatConfiguration = .done st := by
  constructor
  · rw [ConvertYUVToRGB_other]
    rfl
  · obtain ⟨st, e, _⟩ := PerformConversion_other_done sampleEnvironment sampleStore
      emptyCache unknownFormatConfiguration 5 rfl rfl (by decide) (by decide) (by decide)
    exact ⟨st, e⟩

/-! ## The rotations as index maps -/

theorem RotateTile90_map (input output out_map : Nat → Nat) (height : Nat)
    (hinj : ∀ a b, a < 8 * height → b < 8 * height → out_map a = out_map b → a = b)
    (k : Nat) (hk : k < 8 * height) :
    RotateTile90 input output height out_map (out_map k) =
      input ((height - 1 - k % height) * 8 + k / height) := by
  have hpos : 0 < height := by omega
  have hx : k / height < 8 := Nat.div_lt_of_lt_mul (by rw [Nat.mul_comm]; exact hk)
  have h := (RotateTile90_spec input output out_map height hinj).1 (k / height) (k % height)
    hx (Nat.mod_lt _ hpos)
  rw [Nat.div_add_mod' k height] at h
  exact h

theorem RotateTile270_map (input output out_map : Nat → Nat) (height : Nat)
    (hinj : ∀ a b, a < 8 * height → b < 8 * height → out_map a = out_map b → a = b)
    (k : Nat) (hk : k < 8 * height) :
    RotateTile270 input output height out_map (out_map k) =
      input (k % height * 8 + (7 - k / height)) := by
  have hpos : 0 < height := by omega
  have hx : k / height < 8 := Nat.div_lt_of_lt_mul (by rw [Nat.mul_comm]; exact hk)
  have h := (RotateTile270_spec input output out_map height hinj).1 (k / height) (k % height)
    hx (Nat.mod_lt _ hpos)
  rw [Nat.div_add_mod' k height] at h
  exact h

theorem RotateTile90_at (input output : Nat → Nat) (height : Nat) (hh : height ≤ 8)
    (k : Nat) (hk : k < 8 * height) :
    RotateTile90 input output height linear_lut k =
      input ((height - 1 - k % height) * 8 + k / height) := by
  have h := RotateTile90_map input output linear_lut height
    (linear_lut_inj (8 * height) (by omega)) k hk
  rw [linear_lut_eq k (by omega)] at h
  exact h

theorem RotateTile270_at (input output : Nat → Nat) (height : Nat) (hh : height ≤ 8)
    (k : Nat) (hk : k < 8 * height) :
    RotateTile270 input output height linear_lut k =
      input (k % height * 8 + (7 - k / height)) := by
  have h := RotateTile270_map input output linear_lut height
    (linear_lut_inj (8 * height) (by omega)) k hk
  rw [linear_lut_eq k (by omega)] at h
  exact h

/-- With the linear output map no rotation writes an entry from index `8 * height`
on. -/
theorem RotateTile_linear_frame (input output : Nat → Nat) (height : Nat) (hh : height ≤ 8)
    (a : Nat) (ha : 8 * height ≤ a) :
    RotateTile0 input output height linear_lut a = output a ∧
    RotateTile90 input output height linear_lut a = output a ∧
    RotateTile180 input output height linear_lut a = output a ∧
    RotateTile270 input output height linear_lut a = output a := by
  have ne : ∀ i, i < 8 * height → a ≠ linear_lut i := by
    intro i hi
    rw [linear_lut_eq i (by omega)]
    omega
  have ne2 : ∀ x j, x < 8 → j < height → a ≠ linear_lut (x * height + j) := by
    intro x j hx hj
    have : (x + 1) * height ≤ 8 * height := Nat.mul_le_mul_right _ (by omega)
    rw [Nat.succ_mul] at this
    exact ne _ (by omega)
  refine ⟨?_, ?_, ?_, ?_⟩
  · exact (RotateTile0_spec input output linear_lut height
      (linear_lut_inj (height * 8) (by omega))).2 a (fun i hi => ne i (by omega))
  · exact (RotateTile90_spec input output linear_lut height
      (linear_lut_inj (8 * height) (by omega))).2 a ne2
  · exact (RotateTile180_spec input output linear_lut height
      (linear_lut_inj (height * 8) (by omega))).2 a (fun i hi => ne i (by omega))
  · exact (RotateTile270_spec input output linear_lut height
      (linear_lut_inj (8 * height) (by omega))).2 a ne2

/-- Claim C27. With the linear output map, for every height `h` in `1..8` and every
`k < 8 * h`: `RotateTile0` gives `out[k] = in[k]`, `RotateTile90` gives
`out[k] = in[(h - 1 - (k mod h)) * 8 + (k div h)]`, `RotateTile180` gives
`out[k] = in[8 * h - 1 - k]` and `RotateTile270` gives
`out[k] = in[(k mod h) * 8 + 7 - (k div h)]`; every entry of the output tile with an
index from `8 * h` on is as it was. -/
theorem RotateTile_reference (input output : Nat → Nat) (h : Nat) (_hh1 : 1 ≤ h) (hh8 : h ≤ 8) :
    (∀ k, k < 8 * h →
      RotateTile0 input output h linear_lut k = input k ∧
      RotateTile90 input output h linear_lut k = input ((h - 1 - k % h) * 8 + k / h) ∧
      RotateTile180 input output h linear_lut k = input (8 * h - 1 - k) ∧
      RotateTile270 input output h linear_lut k = input (k % h * 8 + 7 - k / h)) ∧
    (∀ k, 8 * h ≤ k →
      RotateTile0 input output h linear_lut k = output k ∧
      RotateTile90 input output h linear_lut k = output k ∧
      RotateTile180 input output h linear_lut k = output k ∧
      RotateTile270 input output h linear_lut k = output k) := by
  refine ⟨?_, fun k hk => RotateTile_linear_frame input output h hh8 k hk⟩
  intro k hk
  have hx : k / h < 8 := Nat.div_lt_of_lt_mul (by rw [Nat.mul_comm]; exact hk)
  refine ⟨RotateTile0_linear input output h hh8 k (by omega),
    RotateTile90_at input output h hh8 k hk, ?_, ?_⟩
  · rw [RotateTile180_linear input output h hh8 k (by omega), Nat.mul_comm h 8]
  · rw [RotateTile270_at input output h hh8 k hk]
    congr 1
    omega

/-- Claim C28. On full 8-row tiles with the linear output map, for every entry
`k < 64` and whatever the output tiles held before: `RotateTile90` applied twice
gives what `RotateTile180` gives, applied three times what `RotateTile270` gives,
and applied four times what `RotateTile0` gives, which is the original tile; so
`RotateTile270` undoes `RotateTile90` (in either order) and `RotateTile180` applied
twice gives the original tile. -/
theorem RotateTile90_generates (input o1 o2 o3 o4 o : Nat → Nat) (k : Nat) (hk : k < 64) :
    RotateTile90 (RotateTile90 input o1 8 linear_lut) o2 8 linear_lut k =
      RotateTile180 input o 8 linear_lut k ∧
    RotateTile90 (RotateTile90 (RotateTile90 input o1 8 linear_lut) o2 8 linear_lut) o3 8
        linear_lut k = RotateTile270 input o 8 linear_lut k ∧
    RotateTile90 (RotateTile90 (RotateTile90 (RotateTile90 input o1 8 linear_lut) o2 8
        linear_lut) o3 8 linear_lut) o4 8 linear_lut k = RotateTile0 input o 8 linear_lut k ∧
    RotateTile0 input o 8 linear_lut k = input k ∧
    RotateTile270 (RotateTile90 input o1 8 linear_lut) o2 8 linear_lut k = input k ∧
    RotateTile90 (RotateTile270 input o1 8 linear_lut) o2 8 linear_lut k = input k ∧
    RotateTile180 (RotateTile180 input o1 8 linear_lut) o2 8 linear_lut k = input k := by
  have r90 : ∀ (i q : Nat → Nat) j, j < 64 →
      RotateTile90 i q 8 linear_lut j = i ((8 - 1 - j % 8) * 8 + j / 8) :=
    fun i q j hj => RotateTile90_at i q 8 (le_refl _) j (by omega)
  have r270 : ∀ (i q : Nat → Nat) j, j < 64 →
      RotateTile270 i q 8 linear_lut j = i (j % 8 * 8 + (7 - j / 8)) :=
    fun i q j hj => RotateTile270_at i q 8 (le_refl _) j (by omega)
  have r180 : ∀ (i q : Nat → Nat) j, j < 64 →
      RotateTile180 i q 8 linear_lut j = i (8 * 8 - 1 - j) :=
    fun i q j hj => RotateTile180_linear i q 8 (le_refl _) j (by omega)
  have r0 : ∀ (i q : Nat → Nat) j, j < 64 → RotateTile0 i q 8 linear_lut j = i j :=
    fun i q j hj => RotateTile0_linear i q 8 (le_refl _) j (by omega)
  refine ⟨?_, ?_, ?_, r0 _ _ k hk, ?_, ?_, ?_⟩
  · rw [r90 _ _ k hk, r90 _ _ _ (by omega), r180 _ _ k hk]
    congr 1
    omega
  · rw [r90 _ _ k hk, r90 _ _ _ (by omega), r90 _ _ _ (by omega), r270 _ _ k hk]
    congr 1
    omega
  · rw [r90 _ _ k hk, r90 _ _ _ (by omega), r90 _ _ _ (by omega), r90 _ _ _ (by omega),
      r0 _ _ k hk]
    congr 1
    omega
  · rw [r270 _ _ k hk, r90 _ _ _ (by omega)]
    congr 1
    omega
  · rw [r90 _ _ k hk, r270 _ _ _ (by omega)]
    congr 1
    omega
  · rw [r180 _ _ k hk, r180 _ _ _ (by omega)]
    congr 1
    omega

/-- Claim C30. For each of the four rotations, every height `h` in `1..8`, every
output map `m` that is injective on `0 .. 8 * h - 1` and every `k < 8 * h`, the tile
produced with the map `m` has at index `m[k]` the value that the tile produced with
the linear map has at index `k`. -/
theorem RotateTile_fused_remap (input out1 out2 : Nat → Nat) (m : Nat → Nat) (h : Nat)
    (_hh1 : 1 ≤ h) (hh8 : h ≤ 8)
    (hinj : ∀ a b, a < 8 * h → b < 8 * h → m a = m b → a = b) (k : Nat) (hk : k < 8 * h) :
    RotateTile0 input out1 h m (m k) = RotateTile0 input out2 h linear_lut k ∧
    RotateTile90 input out1 h m (m k) = RotateTile90 input out2 h linear_lut k ∧
    RotateTile180 input out1 h m (m k) = RotateTile180 input out2 h linear_lut k ∧
    RotateTile270 input out1 h m (m k) = RotateTile270 input out2 h linear_lut k := by
  have hinj2 : ∀ a b, a < h * 8 → b < h * 8 → m a = m b → a = b :=
    fun a b ha hb => hinj a b (by omega) (by omega)
  refine ⟨?_, ?_, ?_, ?_⟩
  · rw [(RotateTile0_spec input out1 m h hinj2).1 k (by omega),
      RotateTile0_linear input out2 h hh8 k (by omega)]
  · rw [RotateTile90_map input out1 m h hinj k hk, RotateTile90_at input out2 h hh8 k hk]
  · rw [(RotateTile180_spec input out1 m h hinj2).1 k (by omega),
      RotateTile180_linear input out2 h hh8 k (by omega)]
  · rw [RotateTile270_map input out1 m h hinj k hk, RotateTile270_at input out2 h hh8 k hk]

/-! ## The layout tables -/

theorem morton_lut_bits (x y b : Nat) (hx : x < 8) (hy : y < 8) (hb : b < 3) :
    (morton_lut (8 * y + x)).testBit (2 * b) = x.testBit b ∧
    (morton_lut (8 * y + x)).testBit (2 * b + 1) = y.testBit b ∧
    morton_lut (8 * y + x) < 64 := by
  have key : ∀ x, x < 8 → ∀ y, y < 8 → ∀ b, b < 3 →
      (morton_lut (8 * y + x)).testBit (2 * b) = x.testBit b ∧
      (morton_lut (8 * y + x)).testBit (2 * b + 1) = y.testBit b ∧
      morton_lut (8 * y + x) < 64 := by decide
  exact key x hx y hy b hb

theorem morton_lut_index (a : Nat) (ha : a < 64) :
    morton_lut_entries.indexOf (morton_lut a) = a := by
  revert a
  decide

theorem morton_lut_inj (n : Nat) (hn : n ≤ 64) (a b : Nat) (ha : a < n) (hb : b < n)
    (h : morton_lut a = morton_lut b) : a = b := by
  rw [← morton_lut_index a (by omega), ← morton_lut_index b (by omega), h]

theorem morton_lut_surj (v : Nat) (hv : v < 64) : ∃ j, j < 64 ∧ morton_lut j = v := by
  have key : ∀ v, v < 64 → morton_lut_entries.indexOf v < 64 ∧
      morton_lut (morton_lut_entries.indexOf v) = v := by decide
  exact ⟨_, key v hv⟩

/-- Claim C29. `linear_lut[i] = i` for every `i < 64`. `morton_lut` is the 8x8 Morton
table: for `x`, `y` in `0..7` and `b` in `0..2`, bit `2 * b` of `morton_lut[8 * y + x]`
is bit `b` of `x`, bit `2 * b + 1` is bit `b` of `y`, and the entry is below 64 (no
higher bit is set). `morton_lut` is a permutation of `0..63`: no two indices below 64
have the same entry, and every value below 64 is an entry. -/
theorem layout_tables (i x y b : Nat) (hi : i < 64) (hx : x < 8) (hy : y < 8) (hb : b < 3) :
    linear_lut i = i ∧
    (morton_lut (8 * y + x)).testBit (2 * b) = x.testBit b ∧
    (morton_lut (8 * y + x)).testBit (2 * b + 1) = y.testBit b ∧
    morton_lut (8 * y + x) < 64 ∧
    (∀ j, j < 64 → morton_lut j = morton_lut i → j = i) ∧
    (∃ j, j < 64 ∧ morton_lut j = i) := by
  obtain ⟨b1, b2, b3⟩ := morton_lut_bits x y b hx hy hb
  exact ⟨linear_lut_eq i hi, b1, b2, b3,
    fun j hj e => morton_lut_inj 64 (le_refl _) j i hj hi e, morton_lut_surj i hi⟩

/-! ## Last writer of the green table, rounding of the output stream -/

/-- Claim C31. For a coefficient tuple of `s16` values, every `Y` and every pair
`(U, V)` in `0..255`, the entry `YIG2G[Y][UV2IG[U][V]]` of the constructed table
is the green formula `clamp((((c0*Y - c2*V' - c3*U') >> 3) + c6 + 0x18) >> 5, 0, 255)`
at the pair `(U', V')` that is last in construction order (`V` ascending in the
outer loop, `U` ascending in the inner loop, so the order of `V * 256 + U`) among
the pairs with `UV2IG[U'][V'] = UV2IG[U][V]`; and this entry is the green byte
(bits 23..16) of `getRGB(Y, U, V)`. -/
theorem build_YIG2G_last_written (c : CoefficientSet) (hc : c.wellTyped) (raw : Y2UTable)
    (Y U V : Nat) (hY : Y < 256) (hU : U < 256) (hV : V < 256) :
    ∃ U' V', U' < 256 ∧ V' < 256 ∧
      (Y2UTable.build c raw).UV2IG U' V' = (Y2UTable.build c raw).UV2IG U V ∧
      (∀ U2 V2, U2 < 256 → V2 < 256 →
        (Y2UTable.build c raw).UV2IG U2 V2 = (Y2UTable.build c raw).UV2IG U V →
        V2 * 256 + U2 ≤ V' * 256 + U') ∧
      ((Y2UTable.build c raw).YIG2G Y ((Y2UTable.build c raw).UV2IG U V) : Int)
        = greenFormula c Y U' V' ∧
      byteOf ((Y2UTable.build c raw).getRGB Y U V) 2
        = (Y2UTable.build c raw).YIG2G Y ((Y2UTable.build c raw).UV2IG U V) := by
  obtain ⟨U', V', hU', hV', e, hl, hg⟩ := build_green_slot c raw Y U V hY hU hV
  refine ⟨U', V', hU', hV', ?_, ?_, ?_, (build_getRGB_bytes c raw Y U V hY hU hV).2.1⟩
  · rw [build_UV2IG c raw U' V' hU' hV', build_UV2IG c raw U V hU hV]
    exact e
  · intro U2 V2 hU2 hV2 h
    rw [build_UV2IG c raw U2 V2 hU2 hV2, build_UV2IG c raw U V hU hV] at h
    exact hl U2 V2 hU2 hV2 h
  · rw [hg]
    exact gEntry_eq c hc Y U' V' hY hU' hV'

theorem ceil_mul_eq_iff (n p : Nat) (hp : 0 < p) :
    n ≤ (n + p - 1) / p * p ∧ ((n + p - 1) / p * p = n ↔ p ∣ n) := by
  have h1 := (pixelsPerUnit_spec n p hp).1
  refine ⟨h1, ?_, ?_⟩
  · intro h
    exact ⟨(n + p - 1) / p, by rw [Nat.mul_comm]; exact h.symm⟩
  · rintro ⟨k, rfl⟩
    have : (p * k + p - 1) / p = k := by
      have e : p * k + p - 1 = (p - 1) + k * p := by
        rw [Nat.mul_comm]; omega
      rw [e, Nat.add_mul_div_right _ _ hp, Nat.div_eq_of_lt (by omega)]
      omega
    rw [this, Nat.mul_comm]

theorem pixelsPerUnit_pos (fmt : OutputFormat) (tu : Nat) (hb : 0 < bytesPerPixel fmt)
    (htu : 1 ≤ tu) : 0 < pixelsPerUnit fmt tu := by
  have := (pixelsPerUnit_spec tu (bytesPerPixel fmt) hb).1
  unfold pixelsPerUnit
  rcases Nat.eq_zero_or_pos ((tu + bytesPerPixel fmt - 1) / bytesPerPixel fmt) with h0 | h0
  · rw [h0] at this
    omega
  · exact h0

/-- Claim C33. For each of the four output formats, `transfer_unit >= 1` and a pixel
count `n` (in particular `n >= 1`), `SendData` returns having consumed exactly
`ceil(n / p) * p` input pixels, where `p = ceil(transfer_unit / bpp)` is the number
of pixels written per unit; the number consumed is `n` exactly when `p` divides `n`, and otherwise it
exceeds `n`: the pixel of index `n` is read and its encoding is written to the
store, at pixel position `n mod p` of unit `n / p`. -/
theorem SendData_rounds_up (enc : PixelEncoder) (w : FieldWidths) (memory : ByteStore)
    (input : Nat → Nat) (buf : ConversionBuffer) (fmt : OutputFormat) (alpha : Nat)
    (hfmt : fmt = .RGBA8 ∨ fmt = .RGB8 ∨ fmt = .RGB5A1 ∨ fmt = .RGB565)
    (htu : 1 ≤ buf.transfer_unit) (n : Nat) :
    pixelsPerUnit fmt buf.transfer_unit
      = (buf.transfer_unit + bytesPerPixel fmt - 1) / bytesPerPixel fmt ∧
    ∃ s, SendData enc w memory input buf (n : Int) fmt alpha = .done s ∧
      s.inPos = (n + pixelsPerUnit fmt buf.transfer_unit - 1)
        / pixelsPerUnit fmt buf.transfer_unit * pixelsPerUnit fmt buf.transfer_unit ∧
      (s.inPos = n ↔ pixelsPerUnit fmt buf.transfer_unit ∣ n) ∧
      (¬ pixelsPerUnit fmt buf.transfer_unit ∣ n →
        n < s.inPos ∧
        ∀ b, b < bytesPerPixel fmt →
          s.memory (GetPointer buf.address
            + n / pixelsPerUnit fmt buf.transfer_unit
              * (pixelsPerUnit fmt buf.transfer_unit * bytesPerPixel fmt + buf.gap)
            + n % pixelsPerUnit fmt buf.transfer_unit * bytesPerPixel fmt + b) =
          enc fmt (byteOf (input n) 3) (byteOf (input n) 2) (byteOf (input n) 1) alpha b) := by
  refine ⟨rfl, _, SendData_terminates enc w memory input buf (n : Int) fmt alpha hfmt htu, ?_⟩
  obtain ⟨hb, _⟩ := SendData_named enc w memory input buf (n : Int) fmt alpha hfmt
  have hp := pixelsPerUnit_pos fmt buf.transfer_unit hb htu
  obtain ⟨_, _, _, hin, _, hmem, _⟩ := sendUnits_spec enc w fmt input alpha
    (sendInit memory buf (n : Int))
    (((n : Int).toNat + pixelsPerUnit fmt buf.transfer_unit - 1)
      / pixelsPerUnit fmt buf.transfer_unit)
  simp only [sendInit_buf, sendInit_inPos, sendInit_output, Int.toNat_ofNat] at hin hmem
  simp only [Int.toNat_ofNat]
  generalize pixelsPerUnit fmt buf.transfer_unit = p at *
  obtain ⟨c1, c2⟩ := ceil_mul_eq_iff n p hp
  have hin2 : ((sendUnitStep enc w fmt input alpha)^[(n + p - 1) / p]
      (sendInit memory buf (n : Int))).inPos = (n + p - 1) / p * p := by
    rw [hin]; omega
  refine ⟨hin2, ?_, ?_⟩
  · rw [hin2]; exact c2
  · intro hd
    have hlt : n < (n + p - 1) / p * p := by
      rcases Nat.lt_or_ge n ((n + p - 1) / p * p) with h | h
      · exact h
      · exact absurd (c2.1 (by omega)) hd
    rw [hin2]
    refine ⟨hlt, ?_⟩
    intro b hb2
    have hv : n / p < (n + p - 1) / p := by
      rw [Nat.div_lt_iff_lt_mul hp]
      exact hlt
    refine (hmem (n / p) (n % p) b hv (Nat.mod_lt _ hp) hb2).trans ?_
    have e : 0 + n / p * p + n % p = n := by
      have := Nat.div_add_mod n p
      rw [Nat.mul_comm] at this
      omega
    rw [e]

/-- Claim C34. For `transfer_unit >= 1`, every gap and every pixel count (also zero
or negative), the outer loop of `SendData` ends after exactly
`ceil(max(pixel_count, 0) / p)` iterations, `p = ceil(transfer_unit / bpp)`, for
each of the four output formats: that many iterations suffice and fewer do not,
and `SendData` returns the state they produce; the remaining pixel count is
positive before each of them and each lowers it by `p >= 1`. For a format value
outside the four cases no loop is entered and `SendData` returns at once. -/
theorem SendData_iterations (enc : PixelEncoder) (w : FieldWidths) (memory : ByteStore)
    (input : Nat → Nat) (buf : ConversionBuffer) (amount : Int) (fmt : OutputFormat)
    (alpha : Nat) (htu : 1 ≤ buf.transfer_unit) :
    ((fmt = .RGBA8 ∨ fmt = .RGB8 ∨ fmt = .RGB5A1 ∨ fmt = .RGB565) →
      pixelsPerUnit fmt buf.transfer_unit
        = (buf.transfer_unit + bytesPerPixel fmt - 1) / bytesPerPixel fmt ∧
      1 ≤ pixelsPerUnit fmt buf.transfer_unit ∧
      (∀ fuel, sendLoop enc w fmt input alpha fuel (sendInit memory buf amount) =
        if (amount.toNat + pixelsPerUnit fmt buf.transfer_unit - 1)
            / pixelsPerUnit fmt buf.transfer_unit ≤ fuel
        then some ((sendUnitStep enc w fmt input alpha)^[
          (amount.toNat + pixelsPerUnit fmt buf.transfer_unit - 1)
            / pixelsPerUnit fmt buf.transfer_unit] (sendInit memory buf amount))
        else none) ∧
      SendData enc w memory input buf amount fmt alpha =
        .done ((sendUnitStep enc w fmt input alpha)^[
          (amount.toNat + pixelsPerUnit fmt buf.transfer_unit - 1)
            / pixelsPerUnit fmt buf.transfer_unit] (sendInit memory buf amount)) ∧
      (∀ j, j < (amount.toNat + pixelsPerUnit fmt buf.transfer_unit - 1)
            / pixelsPerUnit fmt buf.transfer_unit →
        0 < ((sendUnitStep enc w fmt input alpha)^[j]
          (sendInit memory buf amount)).amount_of_data ∧
        ((sendUnitStep enc w fmt input alpha)^[j + 1]
          (sendInit memory buf amount)).amount_of_data =
        ((sendUnitStep enc w fmt input alpha)^[j]
          (sendInit memory buf amount)).amount_of_data
          - (pixelsPerUnit fmt buf.transfer_unit : Nat))) ∧
    (∀ v, fmt = .other v →
      SendData enc w memory input buf amount fmt alpha = .done (sendInit memory buf amount)) := by
  refine ⟨?_, ?_⟩
  · intro hfmt
    obtain ⟨hb, _⟩ := SendData_named enc w memory input buf amount fmt alpha hfmt
    have hp := pixelsPerUnit_pos fmt buf.transfer_unit hb htu
    obtain ⟨c1, c2, c3⟩ :=
      pixelsPerUnit_spec amount.toNat (pixelsPerUnit fmt buf.transfer_unit) hp
    refine ⟨rfl, hp, ?_,
      SendData_terminates enc w memory input buf amount fmt alpha hfmt htu, ?_⟩
    · intro fuel
      exact sendLoop_spec enc w fmt input alpha hb _ (sendInit memory buf amount)
        (by
          intro v hv
          have := c2 v hv
          show 0 < amount - ((v * pixelsPerUnit fmt buf.transfer_unit : Nat) : Int)
          omega)
        (by
          show amount - ((_ * pixelsPerUnit fmt buf.transfer_unit : Nat) : Int) ≤ 0
          omega) fuel
    · intro j hj
      have a0 := (sendUnits_spec enc w fmt input alpha (sendInit memory buf amount) j).2.2.2.2.1
      have a1 := (sendUnits_spec enc w fmt input alpha (sendInit memory buf amount)
        (j + 1)).2.2.2.2.1
      simp only [sendInit_buf] at a0 a1
      have e0 : (sendInit memory buf amount).amount_of_data = amount := rfl
      rw [e0] at a0 a1
      have := c2 j hj
      rw [a0, a1]
      constructor
      · omega
      · rw [Nat.succ_mul]
        omega
  · intro v hv
    subst hv
    rfl

/-! ## Reads of the decoder against the samples delivered -/

theorem forLoopM_index_invariant {σ : Type} (Q : Nat → σ → Prop)
    (body : Nat → σ → Option σ) (n : Nat) (h : ∀ i s, i < n → Q i s → ∃ s', body i s = some s' ∧ Q (i + 1) s')
    (s : σ) (h0 : Q 0 s) : ∃ s', forLoopM n body s = some s' ∧ Q n s' := by
  induction n with
  | zero => exact ⟨s, rfl, h0⟩
  | succ n ih =>
    obtain ⟨s1, e1, q1⟩ := ih (fun i s hi hq => h i s (by omega) hq)
    obtain ⟨s2, e2, q2⟩ := h n s1 (by omega) q1
    exact ⟨s2, by rw [forLoopM_succ, e1]; exact e2, q2⟩

/-- The pulls of a strip in a planar format store `delivered` samples into each of
the three arrays, at the offsets `arrayOffset`. -/
theorem receiveStrip_delivered (env : Environment) (rds : Nat) (st : PerformState) :
    (st.cvt.input_format = .YUV422_Indiv8 ∨ st.cvt.input_format = .YUV420_Indiv8 →
      receiveStrip env rds st =
        ((receiveInto env 1 .Y (arrayOffset st.cvt.input_line_width .Y)
            (delivered st.cvt.input_format rds .Y) st).andThen
          (receiveInto env 1 .U (arrayOffset st.cvt.input_line_width .U)
            (delivered st.cvt.input_format rds .U))).andThen
          (receiveInto env 1 .V (arrayOffset st.cvt.input_line_width .V)
            (delivered st.cvt.input_format rds .V))) ∧
    (st.cvt.input_format = .YUV422_Indiv16 ∨ st.cvt.input_format = .YUV420_Indiv16 →
      receiveStrip env rds st =
        ((receiveInto env 2 .Y (arrayOffset st.cvt.input_line_width .Y)
            (delivered st.cvt.input_format rds .Y) st).andThen
          (receiveInto env 2 .U (arrayOffset st.cvt.input_line_width .U)
            (delivered st.cvt.input_format rds .U))).andThen
          (receiveInto env 2 .V (arrayOffset st.cvt.input_line_width .V)
            (delivered st.cvt.input_format rds .V))) := by
  constructor
  · intro h
    unfold receiveStrip
    rcases h with h | h <;> rw [h] <;> rfl
  · intro h
    unfold receiveStrip
    rcases h with h | h <;> rw [h] <;> rfl

/-- The tiles of the planar 4:2:2 decoder are determined by the first `k * width`
luma samples and the first `k * width / 2` samples of each chroma plane. -/
theorem strip422_ext (table : Y2UTable) (aY aU aV bY bU bV : Nat → Nat)
    (out0 : Nat → Nat → Nat) (width k : Nat) (hk : k ≤ 8) (hw : width % 2 = 0)
    (hsz : k * width < 4294967296)
    (hY : ∀ i, i < k * width → aY i = bY i)
    (hU : ∀ i, i < k * width / 2 → aU i = bU i)
    (hV : ∀ i, i < k * width / 2 → aV i = bV i) :
    ∃ s1 s2,
      forLoopM k (fun y s =>
        forLoopM width (fun x s => body422 table (some aY) (some aU) (some aV) y x s) s)
        { YI := 0, UI := 0, VI := 0, output := out0 } = some s1 ∧
      forLoopM k (fun y s =>
        forLoopM width (fun x s => body422 table (some bY) (some bU) (some bV) y x s) s)
        { YI := 0, UI := 0, VI := 0, output := out0 } = some s2 ∧
      s1.output = s2.output := by
  obtain ⟨s1, e1, _, _, _, v1, f1⟩ := strip422_spec table aY aU aV out0 width k hk
  obtain ⟨s2, e2, _, _, _, v2, f2⟩ := strip422_spec table bY bU bV out0 width k hk
  refine ⟨s1, s2, e1, e2, ?_⟩
  funext t i
  by_cases h : ∃ x y, x < width ∧ y < k ∧ t = x / 8 ∧ i = 8 * y + x % 8
  · obtain ⟨x, y, hx, hy, rfl, rfl⟩ := h
    have hle : (y + 1) * width ≤ k * width := Nat.mul_le_mul_right _ hy
    have hs : (y + 1) * width = y * width + width := Nat.succ_mul _ _
    obtain ⟨q, hq⟩ : 2 ∣ k * width := Dvd.dvd.mul_left (Nat.dvd_of_mod_eq_zero hw) _
    have hwrap : wrapU32 (y * width + x) = y * width + x := by
      unfold wrapU32; omega
    rw [v1 x y hx hy, v2 x y hx hy, hwrap, hY _ (by omega), hU _ (by omega), hV _ (by omega)]
  · have hn : ∀ x y, x < width → y < k → ¬ (t = x / 8 ∧ i = 8 * y + x % 8) :=
      fun x y hx hy hc => h ⟨x, y, hx, hy, hc.1, hc.2⟩
    rw [f1 t i hn, f2 t i hn]

/-- The tiles of the planar 4:2:0 decoder over `p` pairs of rows are determined by
the first `2 * p * width` luma samples and the first `p * (width / 2)` samples of
each chroma plane. -/
theorem strip420_ext (table : Y2UTable) (aY aU aV bY bU bV : Nat → Nat)
    (out0 : Nat → Nat → Nat) (width p : Nat) (hp : p ≤ 4) (hw : width % 2 = 0)
    (hwlt : width ≤ 4294967296) (hsz : 2 * p * width < 4294967296)
    (hY : ∀ i, i < 2 * p * width → aY i = bY i)
    (hU : ∀ i, i < p * (width / 2) → aU i = bU i)
    (hV : ∀ i, i < p * (width / 2) → aV i = bV i) :
    ∃ s1 s2,
      forLoopM p (fun i s => pair420 table (some aY) (some aU) (some aV) width (2 * i) s)
        { YI := 0, UI := 0, VI := 0, output := out0 } = some s1 ∧
      forLoopM p (fun i s => pair420 table (some bY) (some bU) (some bV) width (2 * i) s)
        { YI := 0, UI := 0, VI := 0, output := out0 } = some s2 ∧
      s1.output = s2.output := by
  obtain ⟨s1, e1, _, _, v1, f1⟩ := strip420_spec table aY aU aV out0 width p hw hwlt hp
  obtain ⟨s2, e2, _, _, v2, f2⟩ := strip420_spec table bY bU bV out0 width p hw hwlt hp
  refine ⟨s1, s2, e1, e2, ?_⟩
  funext t i
  by_cases h : ∃ x y, x < width ∧ y < 2 * p ∧ t = x / 8 ∧ i = 8 * y + x % 8
  · obtain ⟨x, y, hx, hy, rfl, rfl⟩ := h
    have hle : (y + 1) * width ≤ 2 * p * width := Nat.mul_le_mul_right _ hy
    have hs : (y + 1) * width = y * width + width := Nat.succ_mul _ _
    have hle2 : (y / 2 + 1) * (width / 2) ≤ p * (width / 2) :=
      Nat.mul_le_mul_right _ (by omega)
    have hs2 : (y / 2 + 1) * (width / 2) = y / 2 * (width / 2) + width / 2 := Nat.succ_mul _ _
    have hpw : p * (width / 2) ≤ p * width := Nat.mul_le_mul_left _ (Nat.div_le_self _ _)
    have hpw2 : 2 * p * width = 2 * (p * width) := Nat.mul_assoc _ _ _
    have hwrap : wrapU32 (y * width + x) = y * width + x := by
      unfold wrapU32; omega
    have hwrap2 : wrapU32 (y / 2 * (width / 2) + x / 2) = y / 2 * (width / 2) + x / 2 := by
      unfold wrapU32; omega
    rw [v1 x y hx hy, v2 x y hx hy, hwrap, hwrap2, hY _ (by omega), hU _ (by omega),
      hV _ (by omega)]
  · have hn : ∀ x y, x < width → y < 2 * p → ¬ (t = x / 8 ∧ i = 8 * y + x % 8) :=
      fun x y hx hy hc => h ⟨x, y, hx, hy, hc.1, hc.2⟩
    rw [f1 t i hn, f2 t i hn]

/-- The delivered samples of the three arrays lie one after the other inside the
`width << 5` bytes of `data_buffer`. -/
theorem delivered_inside_buffer (fmt : InputFormat) (width row_height : Nat)
    (h8 : row_height ≤ 8) :
    arrayOffset width .Y + delivered fmt (row_height * width) .Y ≤ width <<< 5 ∧
    arrayOffset width .U + delivered fmt (row_height * width) .U ≤ width <<< 5 ∧
    arrayOffset width .V + delivered fmt (row_height * width) .V ≤ width <<< 5 ∧
    (fmt ≠ .YUYV422_Interleaved →
      arrayOffset width .Y + delivered fmt (row_height * width) .Y ≤ arrayOffset width .U ∧
      arrayOffset width .U + delivered fmt (row_height * width) .U ≤ arrayOffset width .V) := by
  have hle : row_height * width ≤ 8 * width := Nat.mul_le_mul_right _ h8
  have sh5 : width <<< 5 = width * 32 := by rw [Nat.shiftLeft_eq]
  have sh3 : width <<< 3 = width * 8 := by rw [Nat.shiftLeft_eq]
  have sh2 : width <<< 2 = width * 4 := by rw [Nat.shiftLeft_eq]
  have d1 : (row_height * width) >>> 1 = row_height * width / 2 := by
    rw [Nat.shiftRight_eq_div_pow]
  have d2 : (row_height * width) >>> 2 = row_height * width / 4 := by
    rw [Nat.shiftRight_eq_div_pow]
  have l1 : (row_height * width) <<< 1 = row_height * width * 2 := by rw [Nat.shiftLeft_eq]
  cases fmt <;>
    simp only [delivered, arrayOffset, sh5, sh3, sh2, d1, d2, l1, ne_eq, not_true_eq_false,
      reduceCtorEq, not_false_eq_true, true_implies, false_implies, and_true] <;>
    omega

/-- Claim C32, the behaviour of the code. The claim is that for every input format
and every `row_height` in `1..8` the decoder reads only samples the strip's pulls
delivered. For the planar 4:2:0 format with width 8 and `row_height = 1` the pull
delivers `1 * 8 = 8` luma samples, and the two luma planes `sampleLuma` and
`alteredLuma` agree on all of them; yet the decoder, whose outer loop handles two
rows per iteration, produces different tiles for them: entry 8 of tile 0 is
decoded from `input_Y[8]` and has the red byte 8 for the one and 255 for the
other. -/
theorem ConvertYUVToRGB_420_reads_undelivered :
    (8 : Nat) % 8 = 0 ∧ 1 ≤ 1 ∧ 1 ≤ 8 ∧
    delivered .YUV420_Indiv8 (1 * 8) .Y = 8 ∧
    (∀ i, i < delivered .YUV420_Indiv8 (1 * 8) .Y → sampleLuma i = alteredLuma i) ∧
    (ConvertYUVToRGB sampleCoefficientArray zeroTable emptyCache .YUV420_Indiv8
      (some sampleLuma) (some sampleChroma) (some sampleChroma) blankTiles 8 1 0).map
      (fun r => byteOf (r.2 0 8) 3) = some 8 ∧
    (ConvertYUVToRGB sampleCoefficientArray zeroTable emptyCache .YUV420_Indiv8
      (some alteredLuma) (some sampleChroma) (some sampleChroma) blankTiles 8 1 0).map
      (fun r => byteOf (r.2 0 8) 3) = some 255 := by
  have key : ∀ luma : Nat → Nat, luma 8 < 256 →
      (ConvertYUVToRGB sampleCoefficientArray zeroTable emptyCache .YUV420_Indiv8
        (some luma) (some sampleChroma) (some sampleChroma) blankTiles 8 1 0).map
        (fun r => byteOf (r.2 0 8) 3) = some (rEntry sampleCoefficients (luma 8) 128) := by
    intro luma hl
    obtain ⟨s', e, _, _, a4, _⟩ := strip420_spec
      (Y2UTable.build sampleCoefficients zeroTable) luma sampleChroma sampleChroma
      blankTiles 8 1 (by decide) (by decide) (by decide)
    have hd : decodeStrip (lookupTable sampleCoefficientArray zeroTable emptyCache 0).1
        .YUV420_Indiv8 (some luma) (some sampleChroma) (some sampleChroma) 8 1
        { YI := 0, UI := 0, VI := 0, output := blankTiles } = some s' := e
    rw [ConvertYUVToRGB_eq, hd]
    have h := a4 0 1 (by decide) (by decide)
    have e1 : s'.output 0 8 = s'.output (0 / 8) (8 * 1 + 0 % 8) := rfl
    show some (byteOf (s'.output 0 8) 3) = some _
    rw [e1, h]
    have hy : wrapU32 (1 * 8 + 0) = 8 := by decide
    have hu : sampleChroma (wrapU32 (1 / 2 * (8 / 2) + 0 / 2)) = 128 := by decide
    rw [hy, hu, (build_getRGB_bytes sampleCoefficients zeroTable (luma 8) 128 128
      hl (by decide) (by decide)).1]
  refine ⟨by decide, by decide, by decide, by decide, by decide, ?_, ?_⟩
  · rw [key sampleLuma (by decide)]
    decide
  · rw [key alteredLuma (by decide)]
    decide

/-- Claim C32, as amended. For the planar 4:2:2 formats with every `row_height` in
`1..8`, and for the planar 4:2:0 formats with an even `row_height` in `1..8`, for
every width that is a multiple of 8 with at most `MAX_TILES` tiles:
`ConvertYUVToRGB`, given non-null arrays, returns (no read goes through a null
pointer), and what it returns is determined by the samples the corresponding
`ReceiveData` calls of `PerformConversion` stored for the strip, that is by the
elements of `input_Y`, `input_U` and `input_V` at the indices below
`row_height * width` (luma), half of it per chroma plane for 4:2:2 and a quarter
for 4:2:0: two calls whose arrays agree at those indices return the same cache
and the same tiles, whatever the arrays hold elsewhere. Those samples lie, from
each array's offset, inside the `width << 5` bytes of `data_buffer`. Nothing is
said of the interleaved format. -/
theorem ConvertYUVToRGB_reads_delivered (sc : Nat → CoefficientSet) (raw : Y2UTable)
    (cache : TableCache) (fmt : InputFormat) (aY aU aV bY bU bV : Nat → Nat)
    (out0 : Nat → Nat → Nat) (width row_height coefficient : Nat)
    (hw8 : width % 8 = 0) (hmax : width >>> 3 ≤ MAX_TILES)
    (h1 : 1 ≤ row_height) (h8 : row_height ≤ 8)
    (hfmt : fmt = .YUV422_Indiv8 ∨ fmt = .YUV422_Indiv16 ∨
      ((fmt = .YUV420_Indiv8 ∨ fmt = .YUV420_Indiv16) ∧ row_height % 2 = 0))
    (hY : ∀ i, i < delivered fmt (row_height * width) .Y → aY i = bY i)
    (hU : ∀ i, i < delivered fmt (row_height * width) .U → aU i = bU i)
    (hV : ∀ i, i < delivered fmt (row_height * width) .V → aV i = bV i) :
    (∃ r, ConvertYUVToRGB sc raw cache fmt (some aY) (some aU) (some aV) out0 width
        row_height coefficient = some r) ∧
    ConvertYUVToRGB sc raw cache fmt (some aY) (some aU) (some aV) out0 width row_height
        coefficient =
      ConvertYUVToRGB sc raw cache fmt (some bY) (some bU) (some bV) out0 width row_height
        coefficient ∧
    arrayOffset width .Y + delivered fmt (row_height * width) .Y ≤ arrayOffset width .U ∧
    arrayOffset width .U + delivered fmt (row_height * width) .U ≤ arrayOffset width .V ∧
    arrayOffset width .V + delivered fmt (row_height * width) .V ≤ width <<< 5 := by
  have hwmax : width ≤ 1024 := by
    rw [shr3] at hmax
    unfold MAX_TILES at hmax
    omega
  have hle : row_height * width ≤ 8 * width := Nat.mul_le_mul_right _ h8
  have d1 : ∀ n : Nat, n >>> 1 = n / 2 := fun n => by rw [Nat.shiftRight_eq_div_pow]
  have d2 : ∀ n : Nat, n >>> 2 = n / 4 := fun n => by rw [Nat.shiftRight_eq_div_pow]
  obtain ⟨i1, i2, i3, i4⟩ := delivered_inside_buffer fmt width row_height h8
  have hne : fmt ≠ .YUYV422_Interleaved := by
    rcases hfmt with h | h | ⟨h | h, _⟩ <;> subst h <;> simp
  have hext : ∃ s1 s2,
      decodeStrip (lookupTable sc raw cache coefficient).1 fmt (some aY) (some aU) (some aV)
        width row_height { YI := 0, UI := 0, VI := 0, output := out0 } = some s1 ∧
      decodeStrip (lookupTable sc raw cache coefficient).1 fmt (some bY) (some bU) (some bV)
        width row_height { YI := 0, UI := 0, VI := 0, output := out0 } = some s2 ∧
      s1.output = s2.output := by
    rcases hfmt with hf | hf | ⟨hf, heven⟩
    · subst hf
      exact strip422_ext _ aY aU aV bY bU bV out0 width row_height h8 (by omega) (by omega)
        hY (fun i hi => hU i (by show i < (row_height * width) >>> 1; rw [d1]; exact hi))
        (fun i hi => hV i (by show i < (row_height * width) >>> 1; rw [d1]; exact hi))
    · subst hf
      exact strip422_ext _ aY aU aV bY bU bV out0 width row_height h8 (by omega) (by omega)
        hY (fun i hi => hU i (by show i < (row_height * width) >>> 1; rw [d1]; exact hi))
        (fun i hi => hV i (by show i < (row_height * width) >>> 1; rw [d1]; exact hi))
    · have hk : (row_height + 1) / 2 = row_height / 2 := by omega
      have hk2 : 2 * (row_height / 2) * width = row_height * width := by
        have : 2 * (row_height / 2) = row_height := by omega
        rw [this]
      have hc : row_height / 2 * (width / 2) ≤ row_height * width / 4 := by
        obtain ⟨m, rfl⟩ : ∃ m, width = 8 * m := ⟨width / 8, by omega⟩
        interval_cases row_height <;> omega
      have hY2 : ∀ i, i < 2 * (row_height / 2) * width → aY i = bY i := by
        intro i hi
        rw [hk2] at hi
        rcases hf with hf | hf <;> subst hf <;> exact hY i hi
      have hU2 : ∀ i, i < row_height / 2 * (width / 2) → aU i = bU i := by
        intro i hi
        rcases hf with hf | hf <;> subst hf <;>
          exact hU i (by show i < (row_height * width) >>> 2; rw [d2]; omega)
      have hV2 : ∀ i, i < row_height / 2 * (width / 2) → aV i = bV i := by
        intro i hi
        rcases hf with hf | hf <;> subst hf <;>
          exact hV i (by show i < (row_height * width) >>> 2; rw [d2]; omega)
      obtain ⟨s1, s2, e1, e2, e3⟩ := strip420_ext (lookupTable sc raw cache coefficient).1
        aY aU aV bY bU bV out0 width (row_height / 2) (by omega) (by omega) (by omega)
        (by rw [hk2]; omega) hY2 hU2 hV2
      refine ⟨s1, s2, ?_, ?_, e3⟩
      · rcases hf with hf | hf <;> subst hf <;>
          · show forLoopM ((row_height + 1) / 2) _ _ = some s1
            rw [hk]
            exact e1
      · rcases hf with hf | hf <;> subst hf <;>
          · show forLoopM ((row_height + 1) / 2) _ _ = some s2
            rw [hk]
            exact e2
  obtain ⟨s1, s2, e1, e2, e3⟩ := hext
  refine ⟨⟨_, by rw [ConvertYUVToRGB_eq, e1]; rfl⟩, ?_, (i4 hne).1, (i4 hne).2, i3⟩
  rw [ConvertYUVToRGB_eq, ConvertYUVToRGB_eq, e1, e2]
  show some (_, s1.output) = some (_, s2.output)
  rw [e3]

/-! ## Independence of the scratch buffer from stale tile data -/

theorem forLoop_congr_below {σ : Type} (b1 b2 : Nat → σ → σ) (n : Nat)
    (h : ∀ i s, i < n → b1 i s = b2 i s) (s : σ) : forLoop n b1 s = forLoop n b2 s := by
  induction n with
  | zero => rfl
  | succ n ih =>
    rw [forLoop_succ, forLoop_succ, ih (fun i s hi => h i s (by omega)), h n _ (by omega)]

/-- The store of a tile reads the entries `0 .. 8 * height - 1` of the tile only. -/
theorem WriteTileToOutput_congr (buffer : Nat → Nat) (out : Nat) (t1 t2 : Nat → Nat)
    (height line_stride : Nat) (h : ∀ k, k < 8 * height → t1 k = t2 k) :
    WriteTileToOutput buffer out t1 height line_stride
      = WriteTileToOutput buffer out t2 height line_stride := by
  unfold WriteTileToOutput
  apply forLoop_congr_below
  intro y b hy
  apply forLoop_congr_below
  intro x b2 hx
  rw [h (y * 8 + x) (by omega)]

/-- Every rotation stores into all positions `out_map 0 .. out_map (8 * height - 1)`,
so wherever the map covers the positions below `n`, the rotated tile does not
depend there on what the output tile held before. -/
theorem RotateTile_overwrites (input o1 o2 out_map : Nat → Nat) (height n : Nat)
    (hinj : ∀ a b, a < 8 * height → b < 8 * height → out_map a = out_map b → a = b)
    (hsurj : ∀ k, k < n → ∃ j, j < 8 * height ∧ out_map j = k) (k : Nat) (hk : k < n) :
    RotateTile0 input o1 height out_map k = RotateTile0 input o2 height out_map k ∧
    RotateTile90 input o1 height out_map k = RotateTile90 input o2 height out_map k ∧
    RotateTile180 input o1 height out_map k = RotateTile180 input o2 height out_map k ∧
    RotateTile270 input o1 height out_map k = RotateTile270 input o2 height out_map k := by
  obtain ⟨j, hj, rfl⟩ := hsurj k hk
  have hinj2 : ∀ a b, a < height * 8 → b < height * 8 → out_map a = out_map b → a = b :=
    fun a b ha hb => hinj a b (by omega) (by omega)
  refine ⟨?_, ?_, ?_, ?_⟩
  · rw [(RotateTile0_spec input o1 out_map height hinj2).1 j (by omega),
      (RotateTile0_spec input o2 out_map height hinj2).1 j (by omega)]
  · rw [RotateTile90_map input o1 out_map height hinj j hj,
      RotateTile90_map input o2 out_map height hinj j hj]
  · rw [(RotateTile180_spec input o1 out_map height hinj2).1 j (by omega),
      (RotateTile180_spec input o2 out_map height hinj2).1 j (by omega)]
  · rw [RotateTile270_map input o1 out_map height hinj j hj,
      RotateTile270_map input o2 out_map height hinj j hj]

theorem RotateTile_overwrites_linear (input o1 o2 : Nat → Nat) (height : Nat)
    (hh : height ≤ 8) (k : Nat) (hk : k < 8 * height) :
    RotateTile0 input o1 height linear_lut k = RotateTile0 input o2 height linear_lut k ∧
    RotateTile90 input o1 height linear_lut k = RotateTile90 input o2 height linear_lut k ∧
    RotateTile180 input o1 height linear_lut k = RotateTile180 input o2 height linear_lut k ∧
    RotateTile270 input o1 height linear_lut k = RotateTile270 input o2 height linear_lut k :=
  RotateTile_overwrites input o1 o2 linear_lut height (8 * height)
    (fun a b ha hb => linear_lut_inj (8 * height) (by omega) a b ha hb)
    (fun k hk => ⟨k, hk, linear_lut_eq k (by omega)⟩) k hk

theorem RotateTile_overwrites_morton (input o1 o2 : Nat → Nat) (k : Nat) (hk : k < 8 * 8) :
    RotateTile0 input o1 8 morton_lut k = RotateTile0 input o2 8 morton_lut k ∧
    RotateTile90 input o1 8 morton_lut k = RotateTile90 input o2 8 morton_lut k ∧
    RotateTile180 input o1 8 morton_lut k = RotateTile180 input o2 8 morton_lut k ∧
    RotateTile270 input o1 8 morton_lut k = RotateTile270 input o2 8 morton_lut k :=
  RotateTile_overwrites input o1 o2 morton_lut 8 (8 * 8)
    (fun a b ha hb => morton_lut_inj 64 (by omega) a b ha hb)
    (fun k hk => morton_lut_surj k hk) k hk

/-- One tile slot: with one of the four rotations, two states that agree on the
scratch buffer and the output position are taken to two such states, whatever the
two tiles `tmp_tile` hold. -/
theorem tileStep_ignores_tmp_tile (rotation : Rotation) (block_alignment : BlockAlignment)
    (tiles : Nat → Nat → Nat) (num_tiles width row_height i : Nat)
    (hrot : rotation = .None ∨ rotation = .Clockwise_90 ∨ rotation = .Clockwise_180 ∨
      rotation = .Clockwise_270)
    (hcfg : (block_alignment = .Linear ∧ row_height ≤ 8) ∨
      (block_alignment = .Block8x8 ∧ row_height = 8))
    (s1 s2 : TileLoopState) (hb : s1.buffer = s2.buffer) (ho : s1.out = s2.out) :
    ∃ t1 t2, tileStep rotation block_alignment tiles num_tiles width row_height i s1 = some t1 ∧
      tileStep rotation block_alignment tiles num_tiles width row_height i s2 = some t2 ∧
      t1.buffer = t2.buffer ∧ t1.out = t2.out := by
  rcases hcfg with ⟨ha, hh⟩ | ⟨ha, hh⟩
  · subst ha
    rcases hrot with hr | hr | hr | hr <;> subst hr
    · refine ⟨_, _, rfl, rfl, ?_, by show s1.out + 8 = s2.out + 8; rw [ho]⟩
      show WriteTileToOutput s1.buffer s1.out _ row_height width
        = WriteTileToOutput s2.buffer s2.out _ row_height width
      rw [hb, ho]
      exact WriteTileToOutput_congr _ _ _ _ _ _
        (fun k hk => (RotateTile_overwrites_linear _ _ _ row_height hh k hk).1)
    · refine ⟨_, _, rfl, rfl, ?_,
        by show s1.out + row_height <<< 3 = s2.out + row_height <<< 3; rw [ho]⟩
      show WriteTileToOutput s1.buffer s1.out _ row_height 8
        = WriteTileToOutput s2.buffer s2.out _ row_height 8
      rw [hb, ho]
      exact WriteTileToOutput_congr _ _ _ _ _ _
        (fun k hk => (RotateTile_overwrites_linear _ _ _ row_height hh k hk).2.1)
    · refine ⟨_, _, rfl, rfl, ?_, by show s1.out + 8 = s2.out + 8; rw [ho]⟩
      show WriteTileToOutput s1.buffer s1.out _ row_height width
        = WriteTileToOutput s2.buffer s2.out _ row_height width
      rw [hb, ho]
      exact WriteTileToOutput_congr _ _ _ _ _ _
        (fun k hk => (RotateTile_overwrites_linear _ _ _ row_height hh k hk).2.2.1)
    · refine ⟨_, _, rfl, rfl, ?_,
        by show s1.out + row_height <<< 3 = s2.out + row_height <<< 3; rw [ho]⟩
      show WriteTileToOutput s1.buffer s1.out _ row_height 8
        = WriteTileToOutput s2.buffer s2.out _ row_height 8
      rw [hb, ho]
      exact WriteTileToOutput_congr _ _ _ _ _ _
        (fun k hk => (RotateTile_overwrites_linear _ _ _ row_height hh k hk).2.2.2)
  · subst ha
    subst hh
    rcases hrot with hr | hr | hr | hr <;> subst hr
    · refine ⟨_, _, rfl, rfl, ?_, by show s1.out + TILE_SIZE = s2.out + TILE_SIZE; rw [ho]⟩
      show WriteTileToOutput s1.buffer s1.out _ 8 8 = WriteTileToOutput s2.buffer s2.out _ 8 8
      rw [hb, ho]
      exact WriteTileToOutput_congr _ _ _ _ _ _
        (fun k hk => (RotateTile_overwrites_morton _ _ _ k hk).1)
    · refine ⟨_, _, rfl, rfl, ?_, by show s1.out + TILE_SIZE = s2.out + TILE_SIZE; rw [ho]⟩
      show WriteTileToOutput s1.buffer s1.out _ 8 8 = WriteTileToOutput s2.buffer s2.out _ 8 8
      rw [hb, ho]
      exact WriteTileToOutput_congr _ _ _ _ _ _
        (fun k hk => (RotateTile_overwrites_morton _ _ _ k hk).2.1)
    · refine ⟨_, _, rfl, rfl, ?_, by show s1.out + TILE_SIZE = s2.out + TILE_SIZE; rw [ho]⟩
      show WriteTileToOutput s1.buffer s1.out _ 8 8 = WriteTileToOutput s2.buffer s2.out _ 8 8
      rw [hb, ho]
      exact WriteTileToOutput_congr _ _ _ _ _ _
        (fun k hk => (RotateTile_overwrites_morton _ _ _ k hk).2.2.1)
    · refine ⟨_, _, rfl, rfl, ?_, by show s1.out + TILE_SIZE = s2.out + TILE_SIZE; rw [ho]⟩
      show WriteTileToOutput s1.buffer s1.out _ 8 8 = WriteTileToOutput s2.buffer s2.out _ 8 8
      rw [hb, ho]
      exact WriteTileToOutput_congr _ _ _ _ _ _
        (fun k hk => (RotateTile_overwrites_morton _ _ _ k hk).2.2.2)

theorem forLoopM_related {σ : Type} (R : σ → σ → Prop) (body : Nat → σ → Option σ) (n : Nat)
    (h : ∀ i s1 s2, i < n → R s1 s2 →
      ∃ t1 t2, body i s1 = some t1 ∧ body i s2 = some t2 ∧ R t1 t2)
    (s1 s2 : σ) (h0 : R s1 s2) :
    ∃ t1 t2, forLoopM n body s1 = some t1 ∧ forLoopM n body s2 = some t2 ∧ R t1 t2 := by
  induction n with
  | zero => exact ⟨s1, s2, rfl, rfl, h0⟩
  | succ n ih =>
    obtain ⟨a1, a2, e1, e2, r⟩ := ih (fun i s1 s2 hi hr => h i s1 s2 (by omega) hr)
    obtain ⟨b1, b2, f1, f2, r2⟩ := h n a1 a2 (by omega) r
    exact ⟨b1, b2, by rw [forLoopM_succ, e1]; exact f1, by rw [forLoopM_succ, e2]; exact f2, r2⟩

/-- Claim C35. In every configuration that passes the entry checks (linear output
with `row_height` in `1..8`, or 8x8 block output with `row_height = 8`) and for each
of the four rotations, what a tile slot writes to the scratch buffer does not
depend on the contents `tmp_tile` had before the tile was rotated: from two states
with the same scratch buffer and output position, whatever their `tmp_tile`, the
slot returns with the same scratch buffer and output position; and two runs of the
loop over the tiles of a strip that differ only in the initial contents of
`tmp_tile` both return, with the same scratch buffer. -/
theorem tileLoop_ignores_stale_tmp_tile (rotation : Rotation)
    (block_alignment : BlockAlignment) (tiles : Nat → Nat → Nat)
    (num_tiles width row_height : Nat) (buffer tmp1 tmp2 : Nat → Nat)
    (hrot : rotation = .None ∨ rotation = .Clockwise_90 ∨ rotation = .Clockwise_180 ∨
      rotation = .Clockwise_270)
    (hcfg : (block_alignment = .Linear ∧ 1 ≤ row_height ∧ row_height ≤ 8) ∨
      (block_alignment = .Block8x8 ∧ row_height = 8)) :
    (∀ i s1 s2, s1.buffer = s2.buffer → s1.out = s2.out →
      ∃ t1 t2,
        tileStep rotation block_alignment tiles num_tiles width row_height i s1 = some t1 ∧
        tileStep rotation block_alignment tiles num_tiles width row_height i s2 = some t2 ∧
        t1.buffer = t2.buffer ∧ t1.out = t2.out) ∧
    ∃ t1 t2,
      tileLoop rotation block_alignment tiles num_tiles width row_height buffer tmp1
        = some t1 ∧
      tileLoop rotation block_alignment tiles num_tiles width row_height buffer tmp2
        = some t2 ∧
      t1.buffer = t2.buffer := by
  have hcfg2 : (block_alignment = .Linear ∧ row_height ≤ 8) ∨
      (block_alignment = .Block8x8 ∧ row_height = 8) := by
    rcases hcfg with ⟨a, _, b⟩ | h
    · exact Or.inl ⟨a, b⟩
    · exact Or.inr h
  have hstep := fun i s1 s2 hb ho => tileStep_ignores_tmp_tile rotation block_alignment tiles
    num_tiles width row_height i hrot hcfg2 s1 s2 hb ho
  refine ⟨hstep, ?_⟩
  obtain ⟨t1, t2, e1, e2, r1, _⟩ := forLoopM_related
    (fun s1 s2 : TileLoopState => s1.buffer = s2.buffer ∧ s1.out = s2.out)
    (tileStep rotation block_alignment tiles num_tiles width row_height) num_tiles
    (fun i s1 s2 _ hr => hstep i s1 s2 hr.1 hr.2)
    { buffer := buffer, tmp_tile := tmp1, out := 0 }
    { buffer := buffer, tmp_tile := tmp2, out := 0 } ⟨rfl, rfl⟩
  exact ⟨t1, t2, e1, e2, r1⟩

end HW.Y2R

/-! ## Linear audio interpolation -/

namespace AudioCore.AudioInterp

theorem scale_factor_eq : scale_factor = 16777216 := by decide

theorem fractionOf_lt (fposition : Nat) : fractionOf fposition < 16777216 := by
  unfold fractionOf scale_mask
  rw [scale_factor_eq, show (16777216 - 1 : Nat) = 2 ^ 24 - 1 from rfl,
    Nat.and_pow_two_sub_one_eq_mod]
  exact Nat.mod_lt _ (by decide)

theorem linearChannel_nonneg_delta (f : Nat) (x0 d : Int) (hf : f < 16777216)
    (h0 : -32768 ≤ x0) (hd0 : 0 ≤ d) (hd1 : x0 + d ≤ 32767) :
    toS16 (wrapU64 (toU64 x0 + wrapU64 (f * toU64 d) / scale_factor))
      = x0 + Int.fdiv ((f : Int) * d) 16777216 ∧
    0 ≤ Int.fdiv ((f : Int) * d) 16777216 ∧ Int.fdiv ((f : Int) * d) 16777216 ≤ d := by
  obtain ⟨a, rfl⟩ := Int.eq_ofNat_of_zero_le hd0
  have hfd : Int.fdiv ((f : Int) * (a : Int)) 16777216 = ((f * a / 16777216 : Nat) : Int) := by
    rw [Int.fdiv_eq_ediv _ (by decide)]
    norm_cast
  have ha : toU64 (a : Int) = a := by
    unfold toU64
    omega
  have hP : f * a ≤ 16777215 * a := Nat.mul_le_mul_right _ (by omega)
  rw [hfd, ha, scale_factor_eq]
  unfold toS16 wrapU64 toU64
  generalize f * a = P at *
  omega

theorem linearChannel_neg_delta (f : Nat) (x0 d : Int) (hf : f < 16777216)
    (h0 : x0 ≤ 32767) (hd0 : d < 0) (hd1 : -32768 ≤ x0 + d) (hd2 : -32768 ≤ d) :
    toS16 (wrapU64 (toU64 x0 + wrapU64 (f * toU64 d) / scale_factor))
      = x0 + Int.fdiv ((f : Int) * d) 16777216 ∧
    d ≤ Int.fdiv ((f : Int) * d) 16777216 ∧ Int.fdiv ((f : Int) * d) 16777216 ≤ 0 := by
  obtain ⟨a, ha⟩ : ∃ a : Nat, d = -(a : Int) := ⟨(-d).toNat, by omega⟩
  subst ha
  have hfd : Int.fdiv ((f : Int) * (-(a : Int))) 16777216
      = -(((f * a + 16777215) / 16777216 : Nat) : Int) := by
    rw [Int.fdiv_eq_ediv _ (by decide)]
    have : ((f : Int) * (-(a : Int))) = -((f * a : Nat) : Int) := by push_cast; ring
    rw [this]
    generalize f * a = P
    omega
  have ha : toU64 (-(a : Int)) = 18446744073709551616 - a := by
    unfold toU64
    omega
  have hP : f * a ≤ 16777215 * a := Nat.mul_le_mul_right _ (by omega)
  have hP2 : f * a ≤ f * 32768 := Nat.mul_le_mul_left _ (by omega)
  have hmul : f * (18446744073709551616 - a) = f * 18446744073709551616 - f * a :=
    Nat.mul_sub f _ _
  rw [hfd, ha, scale_factor_eq, hmul]
  unfold toS16 wrapU64 toU64
  generalize f * a = P at *
  omega

/-- One channel: the value is `x0 + floor(f * d / 2^24)` for the saturated
difference `d`, and it lies between `x0` and `x1`. -/
theorem linearChannel_floor (f : Nat) (x0 x1 : Int) (hf : f < 16777216)
    (h0 : -32768 ≤ x0 ∧ x0 ≤ 32767) (h1 : -32768 ≤ x1 ∧ x1 ≤ 32767) :
    linearChannel f x0 x1
      = x0 + Int.fdiv ((f : Int) * clampS64 (x1 - x0) (-32768) 32767) 16777216 ∧
    min x0 x1 ≤ linearChannel f x0 x1 ∧ linearChannel f x0 x1 ≤ max x0 x1 := by
  unfold linearChannel
  simp only []
  have hc : clampS64 (x1 - x0) (-32768) 32767
      = if x1 - x0 < -32768 then -32768 else if 32767 < x1 - x0 then 32767 else x1 - x0 := rfl
  generalize clampS64 (x1 - x0) (-32768) 32767 = d at *
  rcases Int.lt_or_le d 0 with hd | hd
  · obtain ⟨e, b1, b2⟩ := linearChannel_neg_delta f x0 d hf h0.2 hd
      (by split_ifs at hc <;> omega) (by split_ifs at hc <;> omega)
    rw [e]
    refine ⟨rfl, ?_, ?_⟩
    · split_ifs at hc <;> omega
    · omega
  · obtain ⟨e, b1, b2⟩ := linearChannel_nonneg_delta f x0 d hf h0.1 hd
      (by split_ifs at hc <;> omega)
    rw [e]
    refine ⟨rfl, ?_, ?_⟩
    · omega
    · split_ifs at hc <;> omega

/-- Claim C36. For every fraction `f` with `0 <= f < 2^24` and all signed 16-bit
samples `x0`, `x1`, each channel of the sample the `Linear` interpolation function
produces equals, as an integer, `x0 + floor(f * d / 2^24)`, where `d` is `x1 - x0`
saturated to `[-32768, 32767]` (the product and the quotient being computed in
unsigned 64-bit arithmetic and the result truncated to 16 bits), and lies between
`x0` and `x1` inclusive; the fraction `fposition & scale_mask` that
`StepOverSamples` passes is such an `f`. -/
theorem linearSample_floor (f : Nat) (x0 x1 : Int × Int) (hf : f < 2 ^ 24)
    (h0l : -32768 ≤ x0.1 ∧ x0.1 ≤ 32767) (h0r : -32768 ≤ x0.2 ∧ x0.2 ≤ 32767)
    (h1l : -32768 ≤ x1.1 ∧ x1.1 ≤ 32767) (h1r : -32768 ≤ x1.2 ∧ x1.2 ≤ 32767) :
    ((linearSample f x0 x1).1
        = x0.1 + Int.fdiv ((f : Int) * clampS64 (x1.1 - x0.1) (-32768) 32767) (2 ^ 24) ∧
      min x0.1 x1.1 ≤ (linearSample f x0 x1).1 ∧ (linearSample f x0 x1).1 ≤ max x0.1 x1.1) ∧
    ((linearSample f x0 x1).2
        = x0.2 + Int.fdiv ((f : Int) * clampS64 (x1.2 - x0.2) (-32768) 32767) (2 ^ 24) ∧
      min x0.2 x1.2 ≤ (linearSample f x0 x1).2 ∧ (linearSample f x0 x1).2 ≤ max x0.2 x1.2) ∧
    ∀ fposition, fractionOf fposition < 2 ^ 24 :=
  ⟨linearChannel_floor f x0.1 x1.1 hf h0l h1l, linearChannel_floor f x0.2 x1.2 hf h0r h1r,
    fractionOf_lt⟩

end AudioCore.AudioInterp

/-! ## Alignment helpers -/

namespace Common

theorem subSize_one (size : Nat) (h1 : 1 ≤ size) (hs : size < SIZE_MOD) :
    subSize size 1 = size - 1 := by
  unfold subSize SIZE_MOD at *
  omega

/-- For a nonzero size the test `(size & (size - 1)) == 0` succeeds on powers of
two only. -/
theorem maskTest_pow_two (size : Nat) (h1 : 1 ≤ size) (hs : size < SIZE_MOD)
    (ht : maskTest size = true) : ∃ k, k < 64 ∧ size = 2 ^ k := by
  unfold maskTest at ht
  rw [subSize_one size h1 hs] at ht
  have ht : size &&& (size - 1) = 0 := by simpa using ht
  have hlo : 2 ^ size.log2 ≤ size := Nat.log2_self_le (by omega)
  have hhi : size < 2 ^ (size.log2 + 1) := Nat.lt_log2_self
  have hk : size.log2 < 64 := (Nat.log2_lt (by omega)).2 hs
  refine ⟨size.log2, hk, ?_⟩
  generalize size.log2 = k at *
  rcases Nat.eq_or_lt_of_le hlo with h | h
  · exact h.symm
  · exfalso
    have p2 : 2 ^ (k + 1) = 2 * 2 ^ k := by rw [Nat.pow_succ]; omega
    have b1 : size.testBit k = true := by
      have e : size = 2 ^ k + (size - 2 ^ k) := by omega
      rw [e, Nat.testBit_two_pow_add_eq, Nat.testBit_lt_two_pow (by omega)]
      rfl
    have b2 : (size - 1).testBit k = true := by
      have e : size - 1 = 2 ^ k + (size - 1 - 2 ^ k) := by omega
      rw [e, Nat.testBit_two_pow_add_eq, Nat.testBit_lt_two_pow (by omega)]
      rfl
    have b3 : (size &&& (size - 1)).testBit k = true := by
      rw [Nat.testBit_and, b1, b2]
      rfl
    rw [ht] at b3
    simp at b3

theorem maskTest_two_pow (k : Nat) (hk : k < 64) : maskTest (2 ^ k) = true := by
  have hlt : 2 ^ k < SIZE_MOD := by
    have : 2 ^ k < 2 ^ 64 := Nat.pow_lt_pow_right (by decide) hk
    exact this
  unfold maskTest
  rw [subSize_one _ (Nat.one_le_two_pow) hlt, Nat.and_pow_two_sub_one_eq_mod, Nat.mod_self]
  rfl

/-- Clearing the low `k` bits of a 64-bit value rounds it down to a multiple of
`2 ^ k`. -/
theorem and_not_low_bits (x k : Nat) (hx : x < SIZE_MOD) (hk : k < 64) :
    x &&& notSize (2 ^ k - 1) = x / 2 ^ k * 2 ^ k := by
  have hm : notSize (2 ^ k - 1) = 2 ^ k * (2 ^ (64 - k) - 1) := by
    have e : (2 : Nat) ^ 64 = 2 ^ k * 2 ^ (64 - k) := by
      rw [← Nat.pow_add]; congr 1; omega
    have p1 : 1 ≤ 2 ^ k := Nat.one_le_two_pow
    have p2 : 1 ≤ 2 ^ (64 - k) := Nat.one_le_two_pow
    unfold notSize SIZE_MOD
    rw [Nat.mul_sub, Nat.mul_one, ← e]
    have : (2 : Nat) ^ 64 = 18446744073709551616 := by norm_num
    have hle : 2 ^ k ≤ 2 ^ 64 := Nat.pow_le_pow_right (by decide) (by omega)
    omega
  rw [hm, Nat.mul_comm (x / 2 ^ k)]
  apply Nat.eq_of_testBit_eq
  intro i
  rw [Nat.testBit_and, Nat.testBit_mul_pow_two, Nat.testBit_mul_pow_two,
    Nat.testBit_two_pow_sub_one, ← Nat.shiftRight_eq_div_pow, Nat.testBit_shiftRight]
  by_cases hik : k ≤ i
  · have e : k + (i - k) = i := by omega
    rw [e]
    by_cases hi : i < 64
    · have : i - k < 64 - k := by omega
      simp [hik, this]
    · have hx2 : x < 2 ^ i := by
        have : (2 : Nat) ^ 64 ≤ 2 ^ i := Nat.pow_le_pow_right (by decide) (by omega)
        have h64 : (2 : Nat) ^ 64 = SIZE_MOD := by unfold SIZE_MOD; norm_num
        omega
      rw [Nat.testBit_lt_two_pow hx2]
      simp
  · simp [hik]

theorem div_mul_greatest (v size : Nat) (h1 : 1 ≤ size) :
    v / size * size % size = 0 ∧ v / size * size ≤ v ∧ v < v / size * size + size ∧
    ∀ m, m % size = 0 → m ≤ v → m ≤ v / size * size := by
  have hd := Nat.div_add_mod v size
  have hm := Nat.mod_lt v (by omega : 0 < size)
  rw [Nat.mul_comm] at hd
  refine ⟨Nat.mul_mod_left _ _, by omega, by omega, ?_⟩
  intro m hm0 hmv
  obtain ⟨q, rfl⟩ : ∃ q, m = q * size := ⟨m / size, by
    have := Nat.div_add_mod m size
    rw [Nat.mul_comm] at this
    omega⟩
  apply Nat.mul_le_mul_right
  rw [Nat.le_div_iff_mul_le (by omega)]
  exact hmv

/-- Claim C37. For every unsigned value `v` of a type of `bits <= 64` bits and every
`size >= 1`, `Common::AlignDown(v, size)` returns `v / size * size`, the greatest
multiple of `size` that is `<= v`, whichever branch computes it: the divide and
multiply branch returns it for every such size, and whenever the test
`(size & (size - 1)) == 0` succeeds the size is a power of two and the bit-mask
branch returns the same value. -/
theorem AlignDown_greatest_multiple (bits v size : Nat) (hb : bits ≤ 64) (hv : v < 2 ^ bits)
    (h1 : 1 ≤ size) (hs : size < 2 ^ 64) :
    AlignDown bits v size = some (v / size * size) ∧
    (v / size * size % size = 0 ∧ v / size * size ≤ v ∧
      ∀ m, m % size = 0 → m ≤ v → m ≤ v / size * size) ∧
    alignDownDivide bits v size = v / size * size ∧
    (maskTest size = true →
      (∃ k, size = 2 ^ k) ∧ alignDownMask bits v size = alignDownDivide bits v size) := by
  have h64 : (2 : Nat) ^ 64 = SIZE_MOD := by unfold SIZE_MOD; norm_num
  have hbits : 2 ^ bits ≤ SIZE_MOD := by
    rw [← h64]; exact Nat.pow_le_pow_right (by decide) hb
  obtain ⟨g1, g2, _, g4⟩ := div_mul_greatest v size h1
  have hdiv : alignDownDivide bits v size = v / size * size := by
    unfold alignDownDivide
    rw [Nat.mod_eq_of_lt (show v / size * size < SIZE_MOD by omega),
      Nat.mod_eq_of_lt (by omega)]
  have hmask : maskTest size = true →
      (∃ k, size = 2 ^ k) ∧ alignDownMask bits v size = alignDownDivide bits v size := by
    intro ht
    obtain ⟨k, hk, rfl⟩ := maskTest_pow_two size h1 (by omega) ht
    refine ⟨⟨k, rfl⟩, ?_⟩
    rw [hdiv]
    unfold alignDownMask
    rw [subSize_one _ h1 (by omega), and_not_low_bits v k (by omega) hk,
      Nat.mod_eq_of_lt (by omega)]
  refine ⟨?_, ⟨g1, g2, g4⟩, hdiv, hmask⟩
  unfold AlignDown
  by_cases ht : maskTest size = true
  · rw [if_pos ht, (hmask ht).2, hdiv]
  · rw [if_neg ht, if_neg (by omega), hdiv]

end Common

namespace Common

theorem ceil_mul_least (v size : Nat) (h1 : 1 ≤ size) :
    (v + size - 1) / size * size % size = 0 ∧ v ≤ (v + size - 1) / size * size ∧
    (v + size - 1) / size * size < v + size ∧
    ∀ m, m % size = 0 → v ≤ m → (v + size - 1) / size * size ≤ m := by
  have hd := Nat.div_add_mod (v + size - 1) size
  have hm := Nat.mod_lt (v + size - 1) (by omega : 0 < size)
  rw [Nat.mul_comm] at hd
  refine ⟨Nat.mul_mod_left _ _, by omega, by omega, ?_⟩
  intro m hm0 hmv
  obtain ⟨q, rfl⟩ : ∃ q, m = q * size := ⟨m / size, by
    have := Nat.div_add_mod m size
    rw [Nat.mul_comm] at this
    omega⟩
  apply Nat.mul_le_mul_right
  rw [Nat.div_le_iff_le_mul_add_pred (by omega)]
  rw [Nat.mul_comm]
  omega

theorem AlignUp_zero (bits v : Nat) : AlignUp bits v 0 = some 0 := by
  have t : maskTest 0 = true := by decide
  unfold AlignUp
  rw [if_pos t]
  unfold alignUpMask
  have e : notSize (subSize 0 1) = 0 := by decide
  rw [e, Nat.and_zero, Nat.zero_mod]

theorem AlignUp_returns (bits v size : Nat) : ∃ r, AlignUp bits v size = some r := by
  unfold AlignUp
  by_cases ht : maskTest size = true
  · exact ⟨_, by rw [if_pos ht]⟩
  · have h0 : size ≠ 0 := by
      rintro rfl
      exact ht (by decide)
    exact ⟨_, by rw [if_neg ht, if_neg h0]⟩

/-- Claim C38, the behaviour of the code. The claim covers every unsigned type `T`
and every `size >= 1` for which the least multiple of `size` that is `>= v` is
representable in `T`. For the 64-bit type, `v = 2^64 - 1` and `size = 3`, that
multiple is `v` itself, while `v + size - 1` wraps around to `1` in `std::size_t`
and `AlignUp` returns `1 / 3 * 3 = 0`. -/
theorem AlignUp_wraps_for_64_bit :
    AlignUp 64 18446744073709551615 3 = some 0 ∧
    18446744073709551615 % 3 = 0 ∧ 18446744073709551615 < 2 ^ 64 ∧
    maskTest 3 = false :=
  ⟨by decide, by decide, by decide, by decide⟩

/-- Claim C38, as amended. For every unsigned value `v` of a type `T` of
`bits <= 64` bits and every `size >= 1` such that the least multiple `M` of `size`
that is `>= v` is representable in `T`, and such that `T` is narrower than
`std::size_t`, or `size` passes the power-of-two test, or `v + size - 1` is
representable in `std::size_t`: `Common::AlignUp(v, size)` returns exactly `M`
(so `v <= M < v + size` and `M mod size = 0`); and for `size = 0` the
power-of-two test succeeds and the result is `0`, so that no call performs a
division by zero. -/
theorem AlignUp_least_multiple (bits v size M : Nat) (hb : bits ≤ 64) (hv : v < 2 ^ bits)
    (h1 : 1 ≤ size) (hs : size < 2 ^ 64)
    (hM0 : M % size = 0) (hMv : v ≤ M) (hleast : ∀ m, m % size = 0 → v ≤ m → M ≤ m)
    (hrep : M < 2 ^ bits)
    (hno : bits < 64 ∨ maskTest size = true ∨ v + size - 1 < 2 ^ 64) :
    AlignUp bits v size = some M ∧ M < v + size ∧
    maskTest 0 = true ∧ AlignUp bits v 0 = some 0 ∧
    ∀ b x s, ∃ r, AlignUp b x s = some r := by
  have h64 : (2 : Nat) ^ 64 = SIZE_MOD := by unfold SIZE_MOD; norm_num
  have hbits : 2 ^ bits ≤ SIZE_MOD := by
    rw [← h64]; exact Nat.pow_le_pow_right (by decide) hb
  obtain ⟨c1, c2, c3, c4⟩ := ceil_mul_least v size h1
  have hMC : M = (v + size - 1) / size * size :=
    Nat.le_antisymm (hleast _ c1 c2) (c4 M hM0 hMv)
  have hnowrap : v + size - 1 < SIZE_MOD := by
    rcases hno with h | h | h
    · have hb2 : 2 ^ bits ≤ 2 ^ 63 := Nat.pow_le_pow_right (by decide) (by omega)
      have : (2 : Nat) ^ 63 = 9223372036854775808 := by norm_num
      have p64 : (2 : Nat) ^ 64 = 18446744073709551616 := by norm_num
      rw [p64] at hs
      unfold SIZE_MOD
      rcases Nat.eq_zero_or_pos v with h0 | h0
      · omega
      · have hsz : size ≤ M := by
          obtain ⟨q, hq⟩ : ∃ q, M = size * q := ⟨M / size, by
            have := Nat.div_add_mod M size
            omega⟩
          rcases Nat.eq_zero_or_pos q with hq0 | hq0
          · subst hq0; omega
          · rw [hq]; exact Nat.le_mul_of_pos_right _ hq0
        omega
    · obtain ⟨k, hk, rfl⟩ := maskTest_pow_two size h1 (by omega) h
      rcases Nat.lt_or_ge (v + 2 ^ k - 1) SIZE_MOD with h2 | h2
      · exact h2
      · exfalso
        have d1 : SIZE_MOD / 2 ^ k ≤ (v + 2 ^ k - 1) / 2 ^ k := Nat.div_le_div_right h2
        have d2 : SIZE_MOD / 2 ^ k * 2 ^ k ≤ (v + 2 ^ k - 1) / 2 ^ k * 2 ^ k :=
          Nat.mul_le_mul_right _ d1
        have d3 : SIZE_MOD / 2 ^ k * 2 ^ k = SIZE_MOD := by
          rw [← h64]
          exact Nat.div_mul_cancel (Nat.pow_dvd_pow 2 (by omega))
        omega
    · omega
  have ha : subSize (addSize v size) 1 = v + size - 1 := by
    unfold subSize addSize SIZE_MOD at *
    omega
  have hdiv : alignUpDivide bits v size = M := by
    unfold alignUpDivide
    rw [ha, ← hMC, Nat.mod_eq_of_lt (show M < SIZE_MOD by omega), Nat.mod_eq_of_lt hrep]
  refine ⟨?_, by omega, by decide, AlignUp_zero bits v, AlignUp_returns⟩
  unfold AlignUp
  by_cases ht : maskTest size = true
  · rw [if_pos ht]
    obtain ⟨k, hk, rfl⟩ := maskTest_pow_two size h1 (by omega) ht
    unfold alignUpMask
    rw [ha, subSize_one _ h1 (by omega), and_not_low_bits _ k hnowrap hk, ← hMC,
      Nat.mod_eq_of_lt hrep]
  · rw [if_neg ht, if_neg (by omega), hdiv]

end Common

/-! ## Ring of recent lookups -/

namespace cache_buffer

theorem hitScan_some {κ : Type} [DecidableEq κ] (keys : Nat → κ) (key : κ) (n i : Nat)
    (h : hitScan keys key n = some i) :
    i < n ∧ keys i = key ∧ ∀ j, i < j → j < n → keys j ≠ key := by
  induction n with
  | zero => simp [hitScan] at h
  | succ n ih =>
    unfold hitScan at h
    by_cases hk : keys n = key
    · rw [if_pos hk] at h
      have e : n = i := Option.some.inj h
      subst e
      exact ⟨by omega, hk, fun j h1 h2 => by omega⟩
    · rw [if_neg hk] at h
      obtain ⟨a, b, c⟩ := ih h
      refine ⟨by omega, b, ?_⟩
      intro j h1 h2
      rcases Nat.lt_or_ge j n with h3 | h3
      · exact c j h1 h3
      · have : j = n := by omega
        subst this
        exact hk

theorem hitScan_none {κ : Type} [DecidableEq κ] (keys : Nat → κ) (key : κ) (n : Nat) :
    hitScan keys key n = none ↔ ∀ j, j < n → keys j ≠ key := by
  induction n with
  | zero => simp [hitScan]
  | succ n ih =>
    unfold hitScan
    by_cases hk : keys n = key
    · rw [if_pos hk]
      constructor
      · intro h
        cases h
      · intro h
        exact absurd hk (h n (by omega))
    · rw [if_neg hk, ih]
      constructor
      · intro h j hj
        rcases Nat.lt_or_ge j n with h3 | h3
        · exact h j h3
        · have : j = n := by omega
          subst this
          exact hk
      · intro h j hj
        exact h j (by omega)

theorem hitScan_top {κ : Type} [DecidableEq κ] (keys : Nat → κ) (key : κ) (n i : Nat)
    (hi : i < n)
    (hk : keys i = key) (hab : ∀ j, i < j → j < n → keys j ≠ key) :
    hitScan keys key n = some i := by
  cases h : hitScan keys key n with
  | none => exact absurd hk ((hitScan_none keys key n).1 h i hi)
  | some r =>
    obtain ⟨a, b, c⟩ := hitScan_some keys key n r h
    rcases Nat.lt_trichotomy r i with h1 | h1 | h1
    · exact absurd hk (c i h1 hi)
    · rw [h1]
    · exact absurd b (hab r h1 a)

theorem cache_data_p {κ δ : Type} (_size : Nat) (c : cache_buffer κ δ) (key : κ) (data : δ) :
    (cache_data _size c key data).1.p
      = if c.p < HW.Y2R.wrapS32 (_size : Int) - 1 then c.p + 1 else 0 := by
  simp only [cache_data]

theorem cache_data_l {κ δ : Type} (_size : Nat) (c : cache_buffer κ δ) (key : κ) (data : δ) :
    (cache_data _size c key data).1.l
      = if c.l < HW.Y2R.wrapS32 (_size : Int) - 1 then c.l + 1 else c.l := by
  simp only [cache_data]

theorem cache_data_slot {κ δ : Type} (_size : Nat) (c : cache_buffer κ δ) (key : κ)
    (data : δ) :
    (cache_data _size c key data).2 = c.p.toNat := rfl

theorem cache_data_keys {κ δ : Type} (_size : Nat) (c : cache_buffer κ δ) (key : κ) (data : δ)
    (i : Nat) :
    (cache_data _size c key data).1.keys i = if i = c.p.toNat then key else c.keys i := rfl

theorem cache_data_datas {κ δ : Type} (_size : Nat) (c : cache_buffer κ δ) (key : κ) (data : δ)
    (i : Nat) :
    (cache_data _size c key data).1.datas i = if i = c.p.toNat then data else c.datas i := rfl

theorem after_store {κ δ : Type} (_size : Nat) (c : cache_buffer κ δ) (key : κ) (data : δ)
    (rest : List (Call κ δ)) :
    after _size c (.store key data :: rest) = after _size (cache_data _size c key data).1 rest :=
  rfl

theorem after_reset {κ δ : Type} (_size : Nat) (c : cache_buffer κ δ) (rest : List (Call κ δ)) :
    after _size c (.reset :: rest) = after _size (clear c) rest := rfl

theorem wrapS32_size (_size : Nat) (hs : _size < 2147483648) :
    HW.Y2R.wrapS32 (_size : Int) = _size := by
  unfold HW.Y2R.wrapS32
  omega

/-- The invariant of the members `p` and `l`: both index the arrays, and until
the buffer is full the next slot written is the one after the last valid slot. -/
theorem after_invariant {κ δ : Type} (_size : Nat) (h1 : 1 ≤ _size) (hs : _size < 2147483648)
    (calls : List (Call κ δ)) :
    ∀ c : cache_buffer κ δ,
      (0 ≤ c.p ∧ c.p < _size ∧ -1 ≤ c.l ∧ c.l < _size ∧ (c.l + 1 < _size → c.p = c.l + 1)) →
      0 ≤ (after _size c calls).p ∧ (after _size c calls).p < _size ∧
      -1 ≤ (after _size c calls).l ∧ (after _size c calls).l < _size ∧
      ((after _size c calls).l + 1 < _size →
        (after _size c calls).p = (after _size c calls).l + 1) := by
  have hw := wrapS32_size _size hs
  induction calls with
  | nil => intro c h; exact h
  | cons a rest ih =>
    intro c h
    obtain ⟨a1, a2, a3, a4, a5⟩ := h
    cases a with
    | store key data =>
      rw [after_store]
      apply ih
      rw [cache_data_p, cache_data_l, hw]
      split_ifs <;> omega
    | reset =>
      rw [after_reset]
      apply ih
      have e1 : (clear c).p = 0 := rfl
      have e2 : (clear c).l = -1 := rfl
      rw [e1, e2]
      omega

end cache_buffer

namespace cache_buffer

theorem hit_clear {κ δ : Type} [DecidableEq κ] (c : cache_buffer κ δ) (key : κ) :
    hit (clear c) key = none := rfl

theorem hit_create {κ δ : Type} [DecidableEq κ] (keys : Nat → κ) (datas : Nat → δ) (key : κ) :
    hit (create keys datas) key = none := rfl

/-- Claim C39, the behaviour of the code. The claim is that after every sequence of
`cache_data` calls, `hit(k)` right after `cache_data(k, d)` returns the slot that
holds `d`. With capacity 4, the capacity of the buffers of `cache_map`, after
`cache_data(7, 1)`, `cache_data(7, 2)`, `cache_data(7, 3)` and `cache_data(7, 4)`
the call `cache_data(7, 5)` wraps around and stores into slot 0, while `hit(7)`
scans from slot `l = 3` downwards and returns slot 3, which still holds `4`. -/
theorem hit_stale_after_wrap_around :
    (cache_data 4 (after 4 (create (fun _ => 0) (fun _ => 0))
      [Call.store 7 1, Call.store 7 2, Call.store 7 3, Call.store 7 4]) 7 5).2 = 0 ∧
    hit (cache_data 4 (after 4 (create (fun _ => 0) (fun _ => 0))
      [Call.store 7 1, Call.store 7 2, Call.store 7 3, Call.store 7 4]) 7 5).1 7 = some 3 ∧
    (cache_data 4 (after 4 (create (fun _ => 0) (fun _ => 0))
      [Call.store 7 1, Call.store 7 2, Call.store 7 3, Call.store 7 4]) 7 5).1.datas 3 = 4 ∧
    (cache_data 4 (after 4 (create (fun _ => 0) (fun _ => 0))
      [Call.store 7 1, Call.store 7 2, Call.store 7 3, Call.store 7 4]) 7 5).1.datas 0 = 5 := by
  decide

/-- What `hit` returns after `cache_data`. For every capacity `_size >= 1` and every
sequence of `cache_data` and `clear` calls following construction, immediately
after `cache_data(k, d)` the call `hit(k)` returns the valid slot of highest index
whose key is `k`; this is the slot just written, which holds `d`, exactly when no
valid slot of higher index holds the key `k`, for instance when `hit(k)` was null
before the call; and after `clear()`, as after construction, `hit` returns null
for every key. -/
theorem hit_after_cache_data {κ δ : Type} [DecidableEq κ] (_size : Nat) (h1 : 1 ≤ _size)
    (hs : _size < 2147483648) (keys0 : Nat → κ) (datas0 : Nat → δ) (calls : List (Call κ δ))
    (c : cache_buffer κ δ) (hc : c = after _size (create keys0 datas0) calls) (k : κ) (d : δ) :
    (cache_data _size c k d).2 < _size ∧
    ((cache_data _size c k d).2 : Int) ≤ (cache_data _size c k d).1.l ∧
    (cache_data _size c k d).1.l < _size ∧
    (cache_data _size c k d).1.datas (cache_data _size c k d).2 = d ∧
    (∃ i, hit (cache_data _size c k d).1 k = some i ∧
      (i : Int) ≤ (cache_data _size c k d).1.l ∧
      (cache_data _size c k d).1.keys i = k ∧
      ∀ j, i < j → (j : Int) ≤ (cache_data _size c k d).1.l →
        (cache_data _size c k d).1.keys j ≠ k) ∧
    (hit (cache_data _size c k d).1 k = some (cache_data _size c k d).2 ↔
      ∀ j, (cache_data _size c k d).2 < j → (j : Int) ≤ (cache_data _size c k d).1.l →
        c.keys j ≠ k) ∧
    (hit c k = none → hit (cache_data _size c k d).1 k = some (cache_data _size c k d).2) ∧
    (∀ key, hit (clear (cache_data _size c k d).1) key = none) ∧
    (∀ key, hit (clear c) key = none) ∧
    ∀ key, hit (create keys0 datas0) key = none := by
  have hw := wrapS32_size _size hs
  obtain ⟨a1, a2, a3, a4, a5⟩ := after_invariant _size h1 hs calls (create keys0 datas0)
    (by
      show (0 : Int) ≤ 0 ∧ (0 : Int) < _size ∧ (-1 : Int) ≤ -1 ∧ (-1 : Int) < _size ∧
        ((-1 : Int) + 1 < _size → (0 : Int) = -1 + 1)
      omega)
  rw [← hc] at a1 a2 a3 a4 a5
  have hl : (cache_data _size c k d).1.l = if c.l < (_size : Int) - 1 then c.l + 1 else c.l := by
    rw [cache_data_l, hw]
  have hslot : (cache_data _size c k d).2 = c.p.toNat := rfl
  have hkeys : ∀ i, (cache_data _size c k d).1.keys i = if i = c.p.toNat then k else c.keys i :=
    fun i => rfl
  have hdatas : (cache_data _size c k d).1.datas c.p.toNat = d := by
    rw [cache_data_datas, if_pos rfl]
  have hhit : ∀ key, hit (cache_data _size c k d).1 key
      = hitScan (cache_data _size c k d).1.keys key ((cache_data _size c k d).1.l + 1).toNat :=
    fun _ => rfl
  generalize (cache_data _size c k d).1.l = l2 at *
  generalize (cache_data _size c k d).2 = slot at *
  generalize (cache_data _size c k d).1.keys = keys2 at *
  have hsl : (slot : Int) ≤ l2 := by
    rw [hl, hslot]
    split_ifs <;> omega
  have hl2 : l2 < (_size : Int) := by
    rw [hl]
    split_ifs <;> omega
  have hks : keys2 slot = k := by
    rw [hkeys, hslot, if_pos rfl]
  have hother : ∀ j, slot < j → keys2 j = c.keys j := by
    intro j hj
    rw [hkeys, if_neg (by omega)]
  have hiff : hitScan keys2 k (l2 + 1).toNat = some slot ↔
      ∀ j, slot < j → (j : Int) ≤ l2 → c.keys j ≠ k := by
    constructor
    · intro h j hj hjl
      have := (hitScan_some keys2 k _ _ h).2.2 j hj (by omega)
      rw [hother j hj] at this
      exact this
    · intro h
      apply hitScan_top keys2 k _ slot (by omega) hks
      intro j hj hjl
      rw [hother j hj]
      exact h j hj (by omega)
  refine ⟨by omega, hsl, hl2, by rw [hslot]; exact hdatas, ?_, ?_, ?_,
    fun _ => rfl, fun _ => rfl, fun _ => rfl⟩
  · cases h : hitScan keys2 k (l2 + 1).toNat with
    | none => exact absurd hks ((hitScan_none keys2 k _).1 h slot (by omega))
    | some i =>
      obtain ⟨b1, b2, b3⟩ := hitScan_some keys2 k _ i h
      exact ⟨i, by rw [hhit, h], by omega, b2, fun j hj hjl => b3 j hj (by omega)⟩
  · rw [hhit]
    exact hiff
  · intro hnone
    rw [hhit]
    apply hiff.2
    intro j hj hjl
    have hn : hitScan c.keys k (c.l + 1).toNat = none := hnone
    apply (hitScan_none c.keys k _).1 hn j
    rw [hl] at hjl
    rw [hslot] at hj
    split_ifs at hjl with hfull <;> omega

end cache_buffer

/-! ## Dumped video frames -/

namespace VideoDumper

theorem wrap_of_lt (bits x : Nat) (h : x < 2 ^ bits) : wrap bits x = x :=
  Nat.mod_eq_of_lt h

/-- Without wrap-around the index `a * stride + j * 4 + k` is the byte `4 * j + k` of
row `a`, inside the vector. -/
theorem index_eq (bits width height a j k : Nat) (hfit : 4 * width * height < 2 ^ bits)
    (ha : a < height) (hj : j < width) (hk : k < 4) :
    wrap bits (wrap bits (wrap bits (a * wrap bits (width * 4)) + wrap bits (j * 4)) + k)
      = a * (4 * width) + 4 * j + k ∧
    a * (4 * width) + 4 * j + k < 4 * width * height := by
  have e0 : 4 * width * height = height * (4 * width) := Nat.mul_comm _ _
  have e1 : (a + 1) * (4 * width) ≤ height * (4 * width) := Nat.mul_le_mul_right _ ha
  have e2 : (a + 1) * (4 * width) = a * (4 * width) + 4 * width := Nat.succ_mul _ _
  have e3 : width * 4 = 4 * width := Nat.mul_comm _ _
  rw [e3, wrap_of_lt bits (4 * width) (by omega), wrap_of_lt bits (a * (4 * width)) (by omega),
    wrap_of_lt bits (j * 4) (by omega), wrap_of_lt bits (a * (4 * width) + j * 4) (by omega),
    wrap_of_lt bits (a * (4 * width) + j * 4 + k) (by omega)]
  omega

theorem source_row_eq (bits height i : Nat) (hh : height < 2 ^ bits) (hi : i < height) :
    wrap bits (wrap bits (height - i) - 1) = height - 1 - i := by
  rw [wrap_of_lt bits (height - i) (by omega), wrap_of_lt bits (height - i - 1) (by omega)]
  omega

/-- The three loops of the constructor, run on a vector of `4 * width * height`
bytes: row `i` of the result is row `height - 1 - i` of the source. -/
theorem copyLoops_spec (bits width height : Nat) (data_ d0 : Nat → Nat)
    (hh : height < 2 ^ bits) (hfit : 4 * width * height < 2 ^ bits) :
    ∃ d, HW.Y2R.forLoopM height (fun i data =>
        HW.Y2R.forLoopM width (fun j data =>
          HW.Y2R.forLoopM 4 (fun k data =>
            storeAt (4 * width * height) data
              (wrap bits (wrap bits (wrap bits (i * wrap bits (width * 4)) + wrap bits (j * 4)) + k))
              (data_ (wrap bits (wrap bits (wrap bits (wrap bits (wrap bits (height - i) - 1)
                * wrap bits (width * 4)) + wrap bits (j * 4)) + k)))) data) data) d0 = some d ∧
      ∀ i j k, i < height → j < width → k < 4 →
        d (i * (4 * width) + 4 * j + k) = data_ ((height - 1 - i) * (4 * width) + 4 * j + k) := by
  refine HW.Y2R.forLoopM_index_invariant
    (fun i d => ∀ i' j k, i' < i → j < width → k < 4 →
      d (i' * (4 * width) + 4 * j + k) = data_ ((height - 1 - i') * (4 * width) + 4 * j + k))
    _ height ?_ d0 (fun _ _ _ h => absurd h (Nat.not_lt_zero _))
  intro i d1 hi hrows
  obtain ⟨d2, e2, hcols, hframe⟩ := HW.Y2R.forLoopM_index_invariant
    (fun j d => (∀ j' k, j' < j → k < 4 →
      d (i * (4 * width) + 4 * j' + k) = data_ ((height - 1 - i) * (4 * width) + 4 * j' + k)) ∧
      ∀ idx, idx < i * (4 * width) → d idx = d1 idx)
    (fun j data =>
      HW.Y2R.forLoopM 4 (fun k data =>
        storeAt (4 * width * height) data
          (wrap bits (wrap bits (wrap bits (i * wrap bits (width * 4)) + wrap bits (j * 4)) + k))
          (data_ (wrap bits (wrap bits (wrap bits (wrap bits (wrap bits (height - i) - 1)
            * wrap bits (width * 4)) + wrap bits (j * 4)) + k)))) data)
    width
    (by
      intro j d3 hj ⟨hc, hf⟩
      obtain ⟨d4, e4, hks, hf4⟩ := HW.Y2R.forLoopM_index_invariant
        (fun k d => (∀ k', k' < k →
          d (i * (4 * width) + 4 * j + k')
            = data_ ((height - 1 - i) * (4 * width) + 4 * j + k')) ∧
          ∀ idx, idx < i * (4 * width) + 4 * j → d idx = d3 idx)
        (fun k data =>
          storeAt (4 * width * height) data
            (wrap bits (wrap bits (wrap bits (i * wrap bits (width * 4)) + wrap bits (j * 4)) + k))
            (data_ (wrap bits (wrap bits (wrap bits (wrap bits (wrap bits (height - i) - 1)
              * wrap bits (width * 4)) + wrap bits (j * 4)) + k))))
        4
        (by
          intro k d5 hk ⟨hv, hf5⟩
          obtain ⟨x1, x2⟩ := index_eq bits width height i j k hfit hi hj hk
          obtain ⟨y1, _⟩ := index_eq bits width height (height - 1 - i) j k hfit
            (by omega) hj hk
          beta_reduce
          rw [source_row_eq bits height i hh hi, x1, y1]
          refine ⟨_, by unfold storeAt; rw [if_pos x2], ?_, ?_⟩
          · intro k' hk'
            show (if i * (4 * width) + 4 * j + k' = i * (4 * width) + 4 * j + k then _
              else d5 (i * (4 * width) + 4 * j + k')) = _
            rcases Nat.lt_or_ge k' k with h | h
            · rw [if_neg (by omega)]
              exact hv k' h
            · have : k' = k := by omega
              subst this
              rw [if_pos rfl]
          · intro idx hidx
            show (if idx = i * (4 * width) + 4 * j + k then _ else d5 idx) = _
            rw [if_neg (by omega)]
            exact hf5 idx hidx)
        d3 ⟨fun _ h => absurd h (Nat.not_lt_zero _), fun _ _ => rfl⟩
      refine ⟨d4, e4, ?_, ?_⟩
      · intro j' k hj' hk
        rcases Nat.lt_or_ge j' j with h | h
        · rw [hf4 _ (by omega)]
          exact hc j' k h hk
        · have : j' = j := by omega
          subst this
          exact hks k hk
      · intro idx hidx
        rw [hf4 idx (by omega)]
        exact hf idx hidx)
    d1 ⟨fun _ _ h => absurd h (Nat.not_lt_zero _), fun _ _ => rfl⟩
  refine ⟨d2, e2, ?_⟩
  intro i' j k hi' hj hk
  rcases Nat.lt_or_ge i' i with h | h
  · have e1 : (i' + 1) * (4 * width) ≤ i * (4 * width) := Nat.mul_le_mul_right _ h
    have e2 : (i' + 1) * (4 * width) = i' * (4 * width) + 4 * width := Nat.succ_mul _ _
    rw [hframe _ (by omega)]
    exact hrows i' j k h hj hk
  · have : i' = i := by omega
    subst this
    exact hcols j k hj hk

end VideoDumper

namespace VideoDumper

theorem create_eq (bits width height : Nat) (data_ : Nat → Nat) (hw : width < 2 ^ bits)
    (hh : height < 2 ^ bits) (hfit : 4 * width * height < 2 ^ bits) :
    VideoFrame.create bits width height data_ =
      (HW.Y2R.forLoopM height (fun i data =>
        HW.Y2R.forLoopM width (fun j data =>
          HW.Y2R.forLoopM 4 (fun k data =>
            storeAt (4 * width * height) data
              (wrap bits (wrap bits (wrap bits (i * wrap bits (width * 4)) + wrap bits (j * 4)) + k))
              (data_ (wrap bits (wrap bits (wrap bits (wrap bits (wrap bits (height - i) - 1)
                * wrap bits (width * 4)) + wrap bits (j * 4)) + k)))) data) data)
        (fun _ => 0)).map
      (fun data => { width := width, height := height, stride := wrap bits (width * 4),
                     size := 4 * width * height, data := data }) := by
  have e1 : 4 * width * height = width * height * 4 := by ring
  have s1 : wrap bits (wrap bits (width * height) * 4) = 4 * width * height := by
    rw [wrap_of_lt bits (width * height) (by omega), wrap_of_lt bits _ (by omega)]
    exact e1.symm
  unfold VideoFrame.create
  simp only []
  rw [wrap_of_lt bits width hw, wrap_of_lt bits height hh, s1]

/-- Claim C40. For a frame whose `4 * width * height` bytes can be counted in the
unsigned type of the members, the constructor returns the frame `f` with
`stride = 4 * width` in which, for every row `i < height`, column `j < width` and
channel `k < 4`, `data[i * stride + 4 * j + k]` is
`data_[(height - 1 - i) * stride + 4 * j + k]`: the source image flipped
vertically and otherwise unchanged; and the frame built from the data of `f`
holds the bytes of `data_` again. -/
theorem VideoFrame_flips_rows (bits width height : Nat) (data_ : Nat → Nat)
    (hw : width < 2 ^ bits) (hh : height < 2 ^ bits) (hfit : 4 * width * height < 2 ^ bits) :
    ∃ f, VideoFrame.create bits width height data_ = some f ∧
      f.width = width ∧ f.height = height ∧ f.size = 4 * width * height ∧
      (0 < height → f.stride = 4 * width) ∧
      (∀ i j k, i < height → j < width → k < 4 →
        i * (4 * width) + 4 * j + k < f.size ∧
        f.data (i * (4 * width) + 4 * j + k)
          = data_ ((height - 1 - i) * (4 * width) + 4 * j + k)) ∧
      ∃ g, VideoFrame.create bits width height f.data = some g ∧
        ∀ n, n < 4 * width * height → g.data n = data_ n := by
  obtain ⟨d, e, hd⟩ := copyLoops_spec bits width height data_ (fun _ => 0) hh hfit
  obtain ⟨d2, e2, hd2⟩ := copyLoops_spec bits width height d (fun _ => 0) hh hfit
  refine ⟨{ width := width, height := height, stride := wrap bits (width * 4),
            size := 4 * width * height, data := d }, ?_, rfl, rfl, rfl, ?_, ?_, ?_⟩
  · rw [create_eq bits width height data_ hw hh hfit, e]
    rfl
  · intro h0
    have e0 : 4 * width * height = height * (4 * width) := Nat.mul_comm _ _
    have e1 : 1 * (4 * width) ≤ height * (4 * width) := Nat.mul_le_mul_right _ h0
    show wrap bits (width * 4) = 4 * width
    rw [wrap_of_lt bits _ (by omega)]
    omega
  · intro i j k hi hj hk
    exact ⟨(index_eq bits width height i j k hfit hi hj hk).2, hd i j k hi hj hk⟩
  · refine ⟨{ width := width, height := height, stride := wrap bits (width * 4),
              size := 4 * width * height, data := d2 }, ?_, ?_⟩
    · rw [create_eq bits width height d hw hh hfit, e2]
      rfl
    · intro n hn
      show d2 n = data_ n
      have hwpos : 0 < 4 * width := by
        rcases Nat.eq_zero_or_pos width with h | h
        · subst h; simp at hn
        · omega
      have e0 : 4 * width * height = height * (4 * width) := Nat.mul_comm _ _
      have hdm := Nat.div_add_mod n (4 * width)
      have hml := Nat.mod_lt n hwpos
      have hi : n / (4 * width) < height := by
        rw [Nat.div_lt_iff_lt_mul hwpos, ← e0]
        exact hn
      rw [Nat.mul_comm] at hdm
      generalize n / (4 * width) = i at *
      generalize hr : n % (4 * width) = r at *
      have hn2 : n = i * (4 * width) + 4 * (r / 4) + r % 4 := by omega
      have h1 := hd2 i (r / 4) (r % 4) hi (by omega) (by omega)
      have h2 := hd (height - 1 - i) (r / 4) (r % 4) (by omega) (by omega) (by omega)
      have h3 : height - 1 - (height - 1 - i) = i := by omega
      rw [h3] at h2
      rw [hn2, h1, h2]

end VideoDumper

namespace HW.Y2R

/-! ## Instances of the theorems at sample inputs -/

theorem getRGB_green_byte_last_writer_witness :
    sampleCoefficients.wellTyped ∧ 255 < 256 ∧ 252 < 256 ∧
    ∃ U' V', U' < 256 ∧ V' < 256 ∧
      igEntry sampleCoefficients U' V' = igEntry sampleCoefficients 252 255 ∧
      (∀ U2 V2, U2 < 256 → V2 < 256 →
        igEntry sampleCoefficients U2 V2 = igEntry sampleCoefficients 252 255 →
        V2 * 256 + U2 ≤ V' * 256 + U') ∧
      (byteOf ((Y2UTable.build sampleCoefficients zeroTable).getRGB 255 252 255) 2 : Int) =
        greenFormula sampleCoefficients 255 U' V' :=
  ⟨by decide, by decide, by decide,
    getRGB_green_byte_last_writer sampleCoefficients (by decide) zeroTable 255 252 255
      (by decide) (by decide) (by decide)⟩

theorem getRGB_red_blue_bytes_witness :
    sampleCoefficients.wellTyped ∧ 128 < 256 ∧
    (byteOf ((Y2UTable.build sampleCoefficients zeroTable).getRGB 128 128 128) 3 : Int) =
      redFormula sampleCoefficients 128 128 ∧
    (byteOf ((Y2UTable.build sampleCoefficients zeroTable).getRGB 128 128 128) 1 : Int) =
      blueFormula sampleCoefficients 128 128 :=
  ⟨by decide, by decide,
    getRGB_red_blue_bytes sampleCoefficients (by decide) zeroTable 128 128 128
      (by decide) (by decide) (by decide)⟩

theorem ConvertYUVToRGB_planar422_witness :
    (InputFormat.YUV422_Indiv8 = .YUV422_Indiv8 ∨ InputFormat.YUV422_Indiv8 = .YUV422_Indiv16) ∧
    8 % 8 = 0 ∧ 8 ≤ 8 ∧ 8 * 8 < 4294967296 ∧
    ∃ cache' out,
      ConvertYUVToRGB sampleCoefficientArray zeroTable emptyCache .YUV422_Indiv8
        (some sampleLuma) (some sampleChroma) (some sampleChroma) blankTiles 8 8 0
        = some (cache', out) ∧
      ∀ x y, x < 8 → y < 8 →
        out (x >>> 3) ((y <<< 3) + (x &&& 7)) =
          (lookupTable sampleCoefficientArray zeroTable emptyCache 0).1.getRGB
            (sampleLuma (y * 8 + x)) (sampleChroma ((y * 8 + x) >>> 1))
            (sampleChroma ((y * 8 + x) >>> 1)) :=
  ⟨Or.inl rfl, by decide, by decide, by decide,
    ConvertYUVToRGB_planar422 sampleCoefficientArray zeroTable emptyCache .YUV422_Indiv8
      (Or.inl rfl) sampleLuma sampleChroma sampleChroma blankTiles 8 8
      (by decide) (by decide) (by decide) 0⟩

theorem ConvertYUVToRGB_planar420_witness :
    (InputFormat.YUV420_Indiv8 = .YUV420_Indiv8 ∨ InputFormat.YUV420_Indiv8 = .YUV420_Indiv16) ∧
    8 % 8 = 0 ∧ 2 ≤ 8 ∧ 2 % 2 = 0 ∧ 8 * 2 < 4294967296 ∧
    ∃ cache' out,
      ConvertYUVToRGB sampleCoefficientArray zeroTable emptyCache .YUV420_Indiv8
        (some sampleLuma) (some sampleChroma) (some sampleChroma) blankTiles 8 2 0
        = some (cache', out) ∧
      (∀ x y, x < 8 → y < 2 →
        out (x >>> 3) ((y <<< 3) + (x &&& 7)) =
          (lookupTable sampleCoefficientArray zeroTable emptyCache 0).1.getRGB
            (sampleLuma (y * 8 + x))
            (sampleChroma ((y / 2) * (8 / 2) + x / 2))
            (sampleChroma ((y / 2) * (8 / 2) + x / 2))) ∧
      (∀ x k, x < 8 → 2 * k + 1 < 2 → ∃ c,
        out (x >>> 3) (((2 * k) <<< 3) + (x &&& 7)) =
          (lookupTable sampleCoefficientArray zeroTable emptyCache 0).1.getRGB
            (sampleLuma (2 * k * 8 + x)) (sampleChroma c) (sampleChroma c) ∧
        out (x >>> 3) (((2 * k + 1) <<< 3) + (x &&& 7)) =
          (lookupTable sampleCoefficientArray zeroTable emptyCache 0).1.getRGB
            (sampleLuma ((2 * k + 1) * 8 + x)) (sampleChroma c) (sampleChroma c)) :=
  ⟨Or.inl rfl, by decide, by decide, by decide, by decide,
    ConvertYUVToRGB_planar420 sampleCoefficientArray zeroTable emptyCache .YUV420_Indiv8
      (Or.inl rfl) sampleLuma sampleChroma sampleChroma blankTiles 8 2
      (by decide) (by decide) (by decide) (by decide) 0⟩

theorem ReceiveData_2_takes_first_byte_witness :
    2 ≤ sampleBuffer.transfer_unit ∧
    ∃ s, ReceiveData 2 widths32 sampleStore blankOutput 0 sampleBuffer
        (3 * (sampleBuffer.transfer_unit / 2)) = .done s ∧
      ∀ k' j, k' < 3 → j < sampleBuffer.transfer_unit / 2 →
        s.output (0 + k' * (sampleBuffer.transfer_unit / 2) + j) =
          sampleStore (sampleBuffer.address
            + k' * (sampleBuffer.transfer_unit + sampleBuffer.gap) + 2 * j) :=
  ⟨by decide,
    ReceiveData_2_takes_first_byte widths32 sampleStore blankOutput 0 sampleBuffer (by decide) 3⟩

theorem ReceiveData_1_copies_units_witness :
    1 ≤ sampleBuffer.transfer_unit ∧
    ∃ s, ReceiveData 1 widths32 sampleStore blankOutput 0 sampleBuffer
        (3 * sampleBuffer.transfer_unit) = .done s ∧
      (∀ k' j, k' < 3 → j < sampleBuffer.transfer_unit →
        s.output (0 + k' * sampleBuffer.transfer_unit + j) =
          sampleStore (sampleBuffer.address
            + k' * (sampleBuffer.transfer_unit + sampleBuffer.gap) + j)) ∧
      (∀ p, p < 0 ∨ 0 + 3 * sampleBuffer.transfer_unit ≤ p → s.output p = blankOutput p) :=
  ⟨by decide,
    ReceiveData_1_copies_units widths32 sampleStore blankOutput 0 sampleBuffer (by decide) 3⟩

theorem ReceiveData_cursor_witness :
    1 ≤ 2 ∧ 2 ≤ sampleBuffer.transfer_unit ∧ ConversionBufferFits widths32 sampleBuffer ∧
    ∃ s, ReceiveData 2 widths32 sampleStore blankOutput 0 sampleBuffer
        (3 * (sampleBuffer.transfer_unit / 2)) = .done s ∧
      receiveLoop 2 widths32 3 (receiveInit sampleStore blankOutput 0 sampleBuffer
        (3 * (sampleBuffer.transfer_unit / 2))) = some s ∧
      (∀ fuel, fuel < 3 → receiveLoop 2 widths32 fuel
        (receiveInit sampleStore blankOutput 0 sampleBuffer
          (3 * (sampleBuffer.transfer_unit / 2))) = none) ∧
      s.buf.address =
        (sampleBuffer.address + 3 * (sampleBuffer.transfer_unit + sampleBuffer.gap))
          % 2 ^ widths32.addressBits ∧
      (s.buf.image_size : Int) =
        ((sampleBuffer.image_size : Int) - (3 * sampleBuffer.transfer_unit : Nat))
          % (2 ^ widths32.sizeBits : Nat) ∧
      s.buf.transfer_unit = sampleBuffer.transfer_unit ∧ s.buf.gap = sampleBuffer.gap ∧
      s.memory = sampleStore :=
  ⟨by decide, by decide, by decide,
    ReceiveData_cursor 2 (by decide) widths32 sampleStore blankOutput 0 sampleBuffer
      (by decide) (by decide) 3⟩

theorem ReceiveData_fatal_iff_witness :
    1 ≤ 2 ∧ 2 ≤ sampleBuffer.transfer_unit ∧
    ((∃ s, ReceiveData 2 widths32 sampleStore blankOutput 0 sampleBuffer 5 = .fatal s) ↔
      5 % (sampleBuffer.transfer_unit / 2) ≠ 0) ∧
    (5 % (sampleBuffer.transfer_unit / 2) ≠ 0 →
      ReceiveData 2 widths32 sampleStore blankOutput 0 sampleBuffer 5 =
        .fatal { memory := sampleStore, output := blankOutput, outPos := 0,
                 input := sampleBuffer.address, buf := sampleBuffer, amount_of_data := 5 }) ∧
    (5 % (sampleBuffer.transfer_unit / 2) = 0 →
      ∃ s, ReceiveData 2 widths32 sampleStore blankOutput 0 sampleBuffer 5 = .done s) :=
  ⟨by decide, by decide,
    ReceiveData_fatal_iff 2 (by decide) widths32 sampleStore blankOutput 0 sampleBuffer
      (by decide) 5⟩

theorem ReceiveData_chunking_witness :
    1 ≤ 1 ∧ 1 ≤ sampleBuffer.transfer_unit ∧ ConversionBufferFits widths32 sampleBuffer ∧
    16 % (sampleBuffer.transfer_unit / 1) = 0 ∧ 32 % (sampleBuffer.transfer_unit / 1) = 0 ∧
    sampleBuffer.address
      + 16 / (sampleBuffer.transfer_unit / 1) * (sampleBuffer.transfer_unit + sampleBuffer.gap)
      < 2 ^ widths32.addressBits ∧
    ∃ s1 s2 s12,
      ReceiveData 1 widths32 sampleStore blankOutput 0 sampleBuffer 16 = .done s1 ∧
      ReceiveData 1 widths32 sampleStore s1.output (0 + 16) s1.buf 32 = .done s2 ∧
      ReceiveData 1 widths32 sampleStore blankOutput 0 sampleBuffer (16 + 32) = .done s12 ∧
      (∀ p, s12.output p = s2.output p) ∧ s12.buf = s2.buf :=
  ⟨by decide, by decide, by decide, by decide, by decide, by decide,
    ReceiveData_chunking 1 (by decide) widths32 sampleStore blankOutput 0 sampleBuffer
      (by decide) (by decide) 16 32 (by decide) (by decide) (by decide)⟩

theorem SendData_cursor_witness :
    (OutputFormat.RGB8 = .RGBA8 ∨ OutputFormat.RGB8 = .RGB8 ∨ OutputFormat.RGB8 = .RGB5A1 ∨
      OutputFormat.RGB8 = .RGB565) ∧
    0 < (⟨0x100, 64, 12, 4⟩ : ConversionBuffer).transfer_unit ∧
    (⟨0x100, 64, 12, 4⟩ : ConversionBuffer).transfer_unit % bytesPerPixel .RGB8 = 0 ∧
    ConversionBufferFits widths32 ⟨0x100, 64, 12, 4⟩ ∧
    ∃ s, SendData sampleEncoder widths32 sampleStore samplePixels ⟨0x100, 64, 12, 4⟩
        ((3 * ((⟨0x100, 64, 12, 4⟩ : ConversionBuffer).transfer_unit / bytesPerPixel .RGB8)
          : Nat) : Int) .RGB8 255 = .done s ∧
      s.inPos = 3 * ((⟨0x100, 64, 12, 4⟩ : ConversionBuffer).transfer_unit
        / bytesPerPixel .RGB8) ∧
      (∀ input2 : Nat → Nat,
        (∀ m, m < 3 * ((⟨0x100, 64, 12, 4⟩ : ConversionBuffer).transfer_unit
            / bytesPerPixel .RGB8) → input2 m = samplePixels m) →
        SendData sampleEncoder widths32 sampleStore input2 ⟨0x100, 64, 12, 4⟩
          ((3 * ((⟨0x100, 64, 12, 4⟩ : ConversionBuffer).transfer_unit
            / bytesPerPixel .RGB8) : Nat) : Int) .RGB8 255 = .done s) ∧
      s.buf.address = ((⟨0x100, 64, 12, 4⟩ : ConversionBuffer).address
        + 3 * ((⟨0x100, 64, 12, 4⟩ : ConversionBuffer).transfer_unit
          + (⟨0x100, 64, 12, 4⟩ : ConversionBuffer).gap)) % 2 ^ widths32.addressBits ∧
      (s.buf.image_size : Int) =
        (((⟨0x100, 64, 12, 4⟩ : ConversionBuffer).image_size : Int)
          - (3 * (⟨0x100, 64, 12, 4⟩ : ConversionBuffer).transfer_unit : Nat))
          % (2 ^ widths32.sizeBits : Nat) ∧
      s.buf.transfer_unit = (⟨0x100, 64, 12, 4⟩ : ConversionBuffer).transfer_unit ∧
      s.buf.gap = (⟨0x100, 64, 12, 4⟩ : ConversionBuffer).gap :=
  ⟨by decide, by decide, by decide, by decide,
    SendData_cursor sampleEncoder widths32 sampleStore samplePixels ⟨0x100, 64, 12, 4⟩
      .RGB8 255 (by decide) (by decide) (by decide) (by decide) 3⟩

theorem SendData_byte_placement_witness :
    (OutputFormat.RGBA8 = .RGBA8 ∨ OutputFormat.RGBA8 = .RGB8 ∨
      OutputFormat.RGBA8 = .RGB5A1 ∨ OutputFormat.RGBA8 = .RGB565) ∧
    0 < sampleBuffer.transfer_unit ∧
    sampleBuffer.transfer_unit % bytesPerPixel .RGBA8 = 0 ∧
    ∃ s, SendData sampleEncoder widths32 sampleStore samplePixels sampleBuffer
        ((2 * (sampleBuffer.transfer_unit / bytesPerPixel .RGBA8) : Nat) : Int) .RGBA8 255
        = .done s ∧
      (∀ m i, m < 2 * (sampleBuffer.transfer_unit / bytesPerPixel .RGBA8) →
        i < bytesPerPixel .RGBA8 →
        s.memory (sampleBuffer.address
            + m / (sampleBuffer.transfer_unit / bytesPerPixel .RGBA8)
              * (sampleBuffer.transfer_unit + sampleBuffer.gap)
            + m % (sampleBuffer.transfer_unit / bytesPerPixel .RGBA8) * bytesPerPixel .RGBA8
            + i) =
          sampleEncoder .RGBA8 ((samplePixels m >>> 24) % 256) ((samplePixels m >>> 16) % 256)
            ((samplePixels m >>> 8) % 256) 255 i) ∧
      (∀ a, (∀ m i, m < 2 * (sampleBuffer.transfer_unit / bytesPerPixel .RGBA8) →
          i < bytesPerPixel .RGBA8 →
          a ≠ sampleBuffer.address
            + m / (sampleBuffer.transfer_unit / bytesPerPixel .RGBA8)
              * (sampleBuffer.transfer_unit + sampleBuffer.gap)
            + m % (sampleBuffer.transfer_unit / bytesPerPixel .RGBA8) * bytesPerPixel .RGBA8
            + i) →
        s.memory a = sampleStore a) :=
  ⟨by decide, by decide, by decide,
    SendData_byte_placement sampleEncoder widths32 sampleStore samplePixels sampleBuffer
      .RGBA8 255 (by decide) (by decide) (by decide) 2⟩

theorem PerformConversion_entry_checks_witness :
    (oddWidthConfiguration.input_line_width % 8 ≠ 0 ∨
      (oddWidthConfiguration.block_alignment = .Block8x8 ∧
        oddWidthConfiguration.input_lines % 8 ≠ 0) ∨
      128 < oddWidthConfiguration.input_line_width / 8) ∧
    ∃ st, PerformConversion sampleEnvironment sampleStore emptyCache oddWidthConfiguration
        = .fatal st ∧
      st.memory = sampleStore ∧ st.cvt = oddWidthConfiguration ∧ st.sent = [] :=
  ⟨by decide,
    PerformConversion_entry_checks sampleEnvironment sampleStore emptyCache
      oddWidthConfiguration (by decide)⟩

theorem PerformConversion_strips_witness :
    sampleConfiguration.input_format = .YUV422_Indiv8 ∧
    sampleConfiguration.block_alignment = .Linear ∧
    sampleConfiguration.input_line_width % 8 = 0 ∧
    sampleConfiguration.input_line_width / 8 ≤ 128 ∧
    1 ≤ sampleConfiguration.input_lines ∧
    1 ≤ sampleConfiguration.src_Y.transfer_unit ∧
    1 ≤ sampleConfiguration.src_U.transfer_unit ∧
    1 ≤ sampleConfiguration.src_V.transfer_unit ∧
    (∀ i, i < (sampleConfiguration.input_lines + 7) / 8 →
      (min (sampleConfiguration.input_lines - 8 * i) 8 * sampleConfiguration.input_line_width)
        % sampleConfiguration.src_Y.transfer_unit = 0 ∧
      ((min (sampleConfiguration.input_lines - 8 * i) 8
          * sampleConfiguration.input_line_width) >>> 1)
        % sampleConfiguration.src_U.transfer_unit = 0 ∧
      ((min (sampleConfiguration.input_lines - 8 * i) 8
          * sampleConfiguration.input_line_width) >>> 1)
        % sampleConfiguration.src_V.transfer_unit = 0) ∧
    1 ≤ sampleConfiguration.dst.transfer_unit ∧
    ∃ st, PerformConversion sampleEnvironment sampleStore emptyCache sampleConfiguration
        = .done st ∧
      st.sent.length = (sampleConfiguration.input_lines + 7) / 8 ∧
      (∀ i, i + 1 < (sampleConfiguration.input_lines + 7) / 8 →
        st.sent[i]? = some (8, ((8 * sampleConfiguration.input_line_width : Nat) : Int))) ∧
      st.sent[(sampleConfiguration.input_lines + 7) / 8 - 1]? =
        some (if sampleConfiguration.input_lines % 8 = 0 then 8
            else sampleConfiguration.input_lines % 8,
          (((if sampleConfiguration.input_lines % 8 = 0 then 8
              else sampleConfiguration.input_lines % 8)
            * sampleConfiguration.input_line_width : Nat) : Int)) ∧
      (st.sent.map Prod.snd).sum =
        ((sampleConfiguration.input_lines * sampleConfiguration.input_line_width : Nat)
          : Int) :=
  ⟨rfl, rfl, by decide, by decide, by decide, by decide, by decide, by decide, by decide,
    by decide,
    PerformConversion_strips sampleEnvironment sampleStore emptyCache sampleConfiguration
      rfl rfl (by decide) (by decide) (by decide) (by decide) (by decide) (by decide)
      (by decide) (by decide)⟩

theorem tileLoop_none_linear_row_major_witness :
    16 % 8 = 0 ∧ 1 ≤ 4 ∧ 4 ≤ 8 ∧ (∀ t i, rampTiles t i < 4294967296) ∧
    ∃ s, tileLoop .None .Linear rampTiles (16 >>> 3) 16 4 blankOutput blankOutput = some s ∧
      ∀ X y, X < 16 → y < 4 →
        readU32 s.buffer (y * 16 + X) = rampTiles (X >>> 3) ((y <<< 3) + (X &&& 7)) :=
  ⟨by decide, by decide, by decide, fun _ _ => Nat.mod_lt _ (by decide),
    tileLoop_none_linear_row_major rampTiles 16 4 (by decide) (by decide) (by decide)
      (fun _ _ => Nat.mod_lt _ (by decide)) blankOutput blankOutput⟩

theorem tileLoop_180_linear_half_turn_witness :
    16 % 8 = 0 ∧ 1 ≤ 4 ∧ 4 ≤ 8 ∧ (∀ t i, rampTiles t i < 4294967296) ∧
    ∃ s, tileLoop .Clockwise_180 .Linear rampTiles (16 >>> 3) 16 4 blankOutput blankOutput
        = some s ∧
      (∀ i y x, i < 16 >>> 3 → y < 4 → x < 8 →
        readU32 s.buffer (y * 16 + (i * 8 + x)) =
          RotateTile180 (rampTiles ((16 >>> 3) - 1 - i)) blankOutput 4 linear_lut
            (y * 8 + x)) ∧
      (∀ X y, X < 16 → y < 4 →
        readU32 s.buffer (y * 16 + X) =
          rampTiles ((16 - 1 - X) >>> 3) (((4 - 1 - y) <<< 3) + ((16 - 1 - X) &&& 7))) :=
  ⟨by decide, by decide, by decide, fun _ _ => Nat.mod_lt _ (by decide),
    tileLoop_180_linear_half_turn rampTiles 16 4 (by decide) (by decide) (by decide)
      (fun _ _ => Nat.mod_lt _ (by decide)) blankOutput blankOutput⟩

theorem tileLoop_quarter_turn_linear_witness :
    16 % 8 = 0 ∧ 1 ≤ 8 ∧ 8 ≤ 8 ∧ (∀ t i, rampTiles t i < 4294967296) ∧
    ((∃ s, tileLoop .Clockwise_90 .Linear rampTiles (16 >>> 3) 16 8 blankOutput blankOutput
        = some s ∧
      ∀ R c, R < 16 → c < 8 →
        readU32 s.buffer (R * 8 + c) =
          rampTiles (R >>> 3) (((8 - 1 - c) <<< 3) + (R &&& 7))) ∧
    (∃ s, tileLoop .Clockwise_270 .Linear rampTiles (16 >>> 3) 16 8 blankOutput blankOutput
        = some s ∧
      ∀ R c, R < 16 → c < 8 →
        readU32 s.buffer (R * 8 + c) =
          rampTiles ((16 - 1 - R) >>> 3) ((c <<< 3) + ((16 - 1 - R) &&& 7))) ∧
    (∀ rotation, rotation = Rotation.Clockwise_90 ∨ rotation = Rotation.Clockwise_270 →
      ∀ i, i < 16 >>> 3 → ∃ si sj,
        forLoopM i (tileStep rotation .Linear rampTiles (16 >>> 3) 16 8)
          { buffer := blankOutput, tmp_tile := blankOutput, out := 0 } = some si ∧
        forLoopM (i + 1) (tileStep rotation .Linear rampTiles (16 >>> 3) 16 8)
          { buffer := blankOutput, tmp_tile := blankOutput, out := 0 } = some sj ∧
        si.out = i * (8 * 8) ∧
        ∀ idx, (idx < i * (8 * 8) ∨ (i + 1) * (8 * 8) ≤ idx) →
          readU32 sj.buffer idx = readU32 si.buffer idx)) :=
  ⟨by decide, by decide, by decide, fun _ _ => Nat.mod_lt _ (by decide),
    tileLoop_quarter_turn_linear rampTiles 16 8 (by decide) (by decide) (by decide)
      (fun _ _ => Nat.mod_lt _ (by decide)) blankOutput blankOutput⟩

theorem rotateAllFour_is_half_turn_witness :
    5 < 64 ∧
    rotateAllFour rampTile blankOutput blankOutput blankOutput blankOutput 5 = rampTile (63 - 5) ∧
    rotateAllFour rampTile blankOutput blankOutput blankOutput blankOutput 5 =
      RotateTile180 rampTile blankOutput 8 linear_lut 5 :=
  ⟨by decide,
    rotateAllFour_is_half_turn rampTile blankOutput blankOutput blankOutput blankOutput
      blankOutput 5 (by decide)⟩

theorem build_UV2IG_exact_witness :
    0 ≤ sampleCoefficients.c2 ∧ 0 ≤ sampleCoefficients.c3 ∧
    (sampleCoefficients.c2 * 255 + sampleCoefficients.c3 * 255) * 256 < 2147483648 ∧
    (200 : Nat) < 256 ∧ (100 : Nat) < 256 ∧
    ((((Y2UTable.build sampleCoefficients zeroTable).UV2IG 200 100 : Nat) : Int) =
      (256 * (sampleCoefficients.c2 * (100 : Nat) + sampleCoefficients.c3 * (200 : Nat)))
        / (255 * sampleCoefficients.c2 + 255 * sampleCoefficients.c3 + 1) ∧
    0 ≤ (256 * (sampleCoefficients.c2 * (100 : Nat) + sampleCoefficients.c3 * (200 : Nat)))
        / (255 * sampleCoefficients.c2 + 255 * sampleCoefficients.c3 + 1) ∧
    (256 * (sampleCoefficients.c2 * (100 : Nat) + sampleCoefficients.c3 * (200 : Nat)))
        / (255 * sampleCoefficients.c2 + 255 * sampleCoefficients.c3 + 1) ≤ 255) :=
  ⟨by decide, by decide, by decide, by decide, by decide,
    build_UV2IG_exact sampleCoefficients zeroTable (by decide) (by decide) (by decide)
      200 100 (by decide) (by decide)⟩

theorem ConvertYUVToRGB_frame_witness :
    (16 : Nat) % 8 = 0 ∧ (16 : Nat) < 4294967296 ∧ 3 ≤ 8 ∧
    ((∀ c out, ConvertYUVToRGB sampleCoefficientArray zeroTable emptyCache .YUV420_Indiv8
        (some sampleLuma) (some sampleChroma) (some sampleChroma) blankTiles 16 3 0
        = some (c, out) →
      ∀ t i, (16 / 8 ≤ t ∨ 8 * rowsWritten .YUV420_Indiv8 3 ≤ i) → out t i = blankTiles t i) ∧
    ((some sampleLuma : BytePtr) ≠ none → (some sampleChroma : BytePtr) ≠ none →
      (some sampleChroma : BytePtr) ≠ none →
      ∃ c out, ConvertYUVToRGB sampleCoefficientArray zeroTable emptyCache .YUV420_Indiv8
        (some sampleLuma) (some sampleChroma) (some sampleChroma) blankTiles 16 3 0
        = some (c, out)) ∧
    rowsWritten .YUV420_Indiv8 3 ≤ 3 + 1 ∧
    ((InputFormat.YUV420_Indiv8 ≠ .YUV420_Indiv8 ∧
        InputFormat.YUV420_Indiv8 ≠ .YUV420_Indiv16) ∨ 3 % 2 = 0 →
      rowsWritten .YUV420_Indiv8 3 ≤ 3) ∧
    ((InputFormat.YUV420_Indiv8 = .YUV420_Indiv8 ∨
        InputFormat.YUV420_Indiv8 = .YUV420_Indiv16) → 3 % 2 = 1 →
      rowsWritten .YUV420_Indiv8 3 = 3 + 1)) :=
  ⟨by decide, by decide, by decide,
    ConvertYUVToRGB_frame sampleCoefficientArray zeroTable emptyCache .YUV420_Indiv8
      (some sampleLuma) (some sampleChroma) (some sampleChroma) blankTiles 16 3
      (by decide) (by decide) (by decide) 0⟩

theorem unknown_format_not_rejected_witness :
    unknownFormatConfiguration.input_format = .other 5 ∧
    unknownFormatConfiguration.block_alignment = .Linear ∧
    unknownFormatConfiguration.input_line_width % 8 = 0 ∧
    unknownFormatConfiguration.input_line_width / 8 ≤ 128 ∧
    1 ≤ unknownFormatConfiguration.dst.transfer_unit ∧
    (ConvertYUVToRGB sampleEnvironment.standard_coefficients sampleEnvironment.rawTable
        emptyCache (.other 5) none none none blankTiles 8 8 0 =
      some ((lookupTable sampleEnvironment.standard_coefficients sampleEnvironment.rawTable
        emptyCache 0).2, blankTiles) ∧
    ∃ st, PerformConversion sampleEnvironment sampleStore emptyCache
        unknownFormatConfiguration = .done st ∧
      st.tiles = sampleEnvironment.rawTiles ∧
      st.cvt.src_Y = unknownFormatConfiguration.src_Y ∧
      st.cvt.src_U = unknownFormatConfiguration.src_U ∧
      st.cvt.src_V = unknownFormatConfiguration.src_V ∧
      st.cvt.src_YUYV = unknownFormatConfiguration.src_YUYV ∧
      st.sent.length = (unknownFormatConfiguration.input_lines + 7) / 8) :=
  ⟨rfl, rfl, by decide, by decide, by decide,
    unknown_format_not_rejected sampleEnvironment sampleStore emptyCache
      unknownFormatConfiguration 5 rfl rfl (by decide) (by decide) (by decide)
      none none none blankTiles 8 8 0⟩

theorem layout_tables_witness :
    37 < 64 ∧ 5 < 8 ∧ 4 < 8 ∧ 1 < 3 ∧
    (linear_lut 37 = 37 ∧
    (morton_lut (8 * 4 + 5)).testBit (2 * 1) = (5 : Nat).testBit 1 ∧
    (morton_lut (8 * 4 + 5)).testBit (2 * 1 + 1) = (4 : Nat).testBit 1 ∧
    morton_lut (8 * 4 + 5) < 64 ∧
    (∀ j, j < 64 → morton_lut j = morton_lut 37 → j = 37) ∧
    (∃ j, j < 64 ∧ morton_lut j = 37)) :=
  ⟨by decide, by decide, by decide, by decide,
    layout_tables 37 5 4 1 (by decide) (by decide) (by decide) (by decide)⟩

theorem bytesOnly_sampleLuma : bytesOnly (some sampleLuma) :=
  fun _ h i => Option.some.inj h ▸ Nat.mod_lt i (by decide)

theorem bytesOnly_sampleChroma : bytesOnly (some sampleChroma) :=
  fun _ h _ => Option.some.inj h ▸ (by decide : (128 : Nat) < 256)

theorem build_UV2IG_monotone_witness :
    0 ≤ sampleCoefficients.c2 ∧ 0 ≤ sampleCoefficients.c3 ∧
    (sampleCoefficients.c2 * 255 + sampleCoefficients.c3 * 255) * 256 < 2147483648 ∧
    (10 : Nat) < 256 ∧ (200 : Nat) < 256 ∧ (250 : Nat) < 256 ∧ (201 : Nat) < 256 ∧
    sampleCoefficients.c2 * (200 : Nat) + sampleCoefficients.c3 * (10 : Nat) ≤
      sampleCoefficients.c2 * (201 : Nat) + sampleCoefficients.c3 * (250 : Nat) ∧
    (Y2UTable.build sampleCoefficients zeroTable).UV2IG 10 200 ≤
      (Y2UTable.build sampleCoefficients zeroTable).UV2IG 250 201 :=
  ⟨by decide, by decide, by decide, by decide, by decide, by decide, by decide, by decide,
    build_UV2IG_monotone sampleCoefficients zeroTable (by decide) (by decide) (by decide)
      10 200 250 201 (by decide) (by decide) (by decide) (by decide) (by decide)⟩

theorem getRGB_packed_witness :
    (200 : Nat) < 256 ∧ (100 : Nat) < 256 ∧ (50 : Nat) < 256 ∧
    ((Y2UTable.build sampleCoefficients zeroTable).getRGB 200 100 50 =
      (Y2UTable.build sampleCoefficients zeroTable).YV2R 200 50 * 2 ^ 24
        + (Y2UTable.build sampleCoefficients zeroTable).YIG2G 200
            ((Y2UTable.build sampleCoefficients zeroTable).UV2IG 100 50) * 2 ^ 16
        + (Y2UTable.build sampleCoefficients zeroTable).YU2B 200 100 * 2 ^ 8 ∧
    (Y2UTable.build sampleCoefficients zeroTable).getRGB 200 100 50 < 2 ^ 32 ∧
    ((Y2UTable.build sampleCoefficients zeroTable).YV2R 200 50 < 256 ∧
      (Y2UTable.build sampleCoefficients zeroTable).YIG2G 200
        ((Y2UTable.build sampleCoefficients zeroTable).UV2IG 100 50) < 256 ∧
      (Y2UTable.build sampleCoefficients zeroTable).YU2B 200 100 < 256) ∧
    ((Y2UTable.build sampleCoefficients zeroTable).getRGB 200 100 50 >>> 24) % 256 =
      (Y2UTable.build sampleCoefficients zeroTable).YV2R 200 50 ∧
    ((Y2UTable.build sampleCoefficients zeroTable).getRGB 200 100 50 >>> 16) % 256 =
      (Y2UTable.build sampleCoefficients zeroTable).YIG2G 200
        ((Y2UTable.build sampleCoefficients zeroTable).UV2IG 100 50) ∧
    ((Y2UTable.build sampleCoefficients zeroTable).getRGB 200 100 50 >>> 8) % 256 =
      (Y2UTable.build sampleCoefficients zeroTable).YU2B 200 100 ∧
    (Y2UTable.build sampleCoefficients zeroTable).getRGB 200 100 50 % 256 = 0) :=
  ⟨by decide, by decide, by decide,
    getRGB_packed sampleCoefficients zeroTable 200 100 50 (by decide) (by decide) (by decide)⟩

theorem ConvertYUVToRGB_cache_witness :
    cacheValid sampleCoefficientArray warmCache ∧
    cacheValid sampleCoefficientArray emptyCache ∧
    bytesOnly (some sampleLuma) ∧ bytesOnly (some sampleChroma) ∧
    bytesOnly (some sampleChroma) ∧
    (cacheValid sampleCoefficientArray (fun _ => none) ∧
    (∀ c out, ConvertYUVToRGB sampleCoefficientArray zeroTable warmCache .YUV422_Indiv8
        (some sampleLuma) (some sampleChroma) (some sampleChroma) blankTiles 8 2 0
        = some (c, out) →
      cacheValid sampleCoefficientArray c ∧
      (∀ i t, warmCache i = some t → c i = some t) ∧
      (∀ i, i ≠ 0 → c i = warmCache i) ∧
      (∀ t, warmCache 0 = some t → c = warmCache) ∧
      (warmCache 0 = none →
        c 0 = some (Y2UTable.build (sampleCoefficientArray 0) zeroTable))) ∧
    (ConvertYUVToRGB sampleCoefficientArray zeroTable warmCache .YUV422_Indiv8
        (some sampleLuma) (some sampleChroma) (some sampleChroma) blankTiles 8 2 0).map
        Prod.snd =
      (ConvertYUVToRGB sampleCoefficientArray onesTable emptyCache .YUV422_Indiv8
        (some sampleLuma) (some sampleChroma) (some sampleChroma) blankTiles 8 2 0).map
        Prod.snd) :=
  ⟨cacheValid_warm, cacheValid_empty _, bytesOnly_sampleLuma, bytesOnly_sampleChroma,
    bytesOnly_sampleChroma,
    ConvertYUVToRGB_cache sampleCoefficientArray zeroTable onesTable warmCache emptyCache
      cacheValid_warm (cacheValid_empty _) .YUV422_Indiv8
      (some sampleLuma) (some sampleChroma) (some sampleChroma)
      bytesOnly_sampleLuma bytesOnly_sampleChroma bytesOnly_sampleChroma blankTiles 8 2 0⟩

theorem RotateTile_reference_witness :
    1 ≤ 5 ∧ 5 ≤ 8 ∧
    ((∀ k, k < 8 * 5 →
      RotateTile0 rampTile blankOutput 5 linear_lut k = rampTile k ∧
      RotateTile90 rampTile blankOutput 5 linear_lut k =
        rampTile ((5 - 1 - k % 5) * 8 + k / 5) ∧
      RotateTile180 rampTile blankOutput 5 linear_lut k = rampTile (8 * 5 - 1 - k) ∧
      RotateTile270 rampTile blankOutput 5 linear_lut k = rampTile (k % 5 * 8 + 7 - k / 5)) ∧
    (∀ k, 8 * 5 ≤ k →
      RotateTile0 rampTile blankOutput 5 linear_lut k = blankOutput k ∧
      RotateTile90 rampTile blankOutput 5 linear_lut k = blankOutput k ∧
      RotateTile180 rampTile blankOutput 5 linear_lut k = blankOutput k ∧
      RotateTile270 rampTile blankOutput 5 linear_lut k = blankOutput k)) :=
  ⟨by decide, by decide,
    RotateTile_reference rampTile blankOutput 5 (by decide) (by decide)⟩

theorem RotateTile90_generates_witness :
    10 < 64 ∧
    (RotateTile90 (RotateTile90 rampTile blankOutput 8 linear_lut) blankOutput 8 linear_lut 10 =
      RotateTile180 rampTile blankOutput 8 linear_lut 10 ∧
    RotateTile90 (RotateTile90 (RotateTile90 rampTile blankOutput 8 linear_lut) blankOutput 8
        linear_lut) blankOutput 8 linear_lut 10 =
      RotateTile270 rampTile blankOutput 8 linear_lut 10 ∧
    RotateTile90 (RotateTile90 (RotateTile90 (RotateTile90 rampTile blankOutput 8 linear_lut)
        blankOutput 8 linear_lut) blankOutput 8 linear_lut) blankOutput 8 linear_lut 10 =
      RotateTile0 rampTile blankOutput 8 linear_lut 10 ∧
    RotateTile0 rampTile blankOutput 8 linear_lut 10 = rampTile 10 ∧
    RotateTile270 (RotateTile90 rampTile blankOutput 8 linear_lut) blankOutput 8 linear_lut 10 =
      rampTile 10 ∧
    RotateTile90 (RotateTile270 rampTile blankOutput 8 linear_lut) blankOutput 8 linear_lut 10 =
      rampTile 10 ∧
    RotateTile180 (RotateTile180 rampTile blankOutput 8 linear_lut) blankOutput 8 linear_lut 10 =
      rampTile 10) :=
  ⟨by decide,
    RotateTile90_generates rampTile blankOutput blankOutput blankOutput blankOutput
      blankOutput 10 (by decide)⟩

theorem RotateTile_fused_remap_witness :
    1 ≤ 8 ∧ 8 ≤ 8 ∧
    (∀ a b, a < 8 * 8 → b < 8 * 8 → morton_lut a = morton_lut b → a = b) ∧ 10 < 8 * 8 ∧
    (RotateTile0 rampTile blankOutput 8 morton_lut (morton_lut 10) =
      RotateTile0 rampTile blankOutput 8 linear_lut 10 ∧
    RotateTile90 rampTile blankOutput 8 morton_lut (morton_lut 10) =
      RotateTile90 rampTile blankOutput 8 linear_lut 10 ∧
    RotateTile180 rampTile blankOutput 8 morton_lut (morton_lut 10) =
      RotateTile180 rampTile blankOutput 8 linear_lut 10 ∧
    RotateTile270 rampTile blankOutput 8 morton_lut (morton_lut 10) =
      RotateTile270 rampTile blankOutput 8 linear_lut 10) :=
  ⟨by decide, by decide, morton_lut_inj 64 (le_refl _), by decide,
    RotateTile_fused_remap rampTile blankOutput blankOutput morton_lut 8 (by decide)
      (by decide) (morton_lut_inj 64 (le_refl _)) 10 (by decide)⟩

theorem build_YIG2G_last_written_witness :
    sampleCoefficients.wellTyped ∧ 255 < 256 ∧ 252 < 256 ∧
    ∃ U' V', U' < 256 ∧ V' < 256 ∧
      (Y2UTable.build sampleCoefficients zeroTable).UV2IG U' V'
        = (Y2UTable.build sampleCoefficients zeroTable).UV2IG 252 255 ∧
      (∀ U2 V2, U2 < 256 → V2 < 256 →
        (Y2UTable.build sampleCoefficients zeroTable).UV2IG U2 V2
          = (Y2UTable.build sampleCoefficients zeroTable).UV2IG 252 255 →
        V2 * 256 + U2 ≤ V' * 256 + U') ∧
      ((Y2UTable.build sampleCoefficients zeroTable).YIG2G 255
          ((Y2UTable.build sampleCoefficients zeroTable).UV2IG 252 255) : Int)
        = greenFormula sampleCoefficients 255 U' V' ∧
      byteOf ((Y2UTable.build sampleCoefficients zeroTable).getRGB 255 252 255) 2
        = (Y2UTable.build sampleCoefficients zeroTable).YIG2G 255
            ((Y2UTable.build sampleCoefficients zeroTable).UV2IG 252 255) :=
  ⟨by decide, by decide, by decide,
    build_YIG2G_last_written sampleCoefficients (by decide) zeroTable 255 252 255
      (by decide) (by decide) (by decide)⟩

theorem ConvertYUVToRGB_reads_delivered_witness :
    8 % 8 = 0 ∧ 8 >>> 3 ≤ MAX_TILES ∧ 1 ≤ 1 ∧ 1 ≤ 8 ∧
    (InputFormat.YUV422_Indiv8 = .YUV422_Indiv8 ∨
      InputFormat.YUV422_Indiv8 = .YUV422_Indiv16 ∨
      ((InputFormat.YUV422_Indiv8 = .YUV420_Indiv8 ∨
        InputFormat.YUV422_Indiv8 = .YUV420_Indiv16) ∧ 1 % 2 = 0)) ∧
    (∀ i, i < delivered .YUV422_Indiv8 (1 * 8) .Y → sampleLuma i = alteredLuma i) ∧
    (∀ i, i < delivered .YUV422_Indiv8 (1 * 8) .U → sampleChroma i = sampleChroma i) ∧
    (∀ i, i < delivered .YUV422_Indiv8 (1 * 8) .V → sampleChroma i = sampleChroma i) ∧
    sampleLuma 8 ≠ alteredLuma 8 ∧
    (∃ r, ConvertYUVToRGB sampleCoefficientArray zeroTable emptyCache .YUV422_Indiv8
        (some sampleLuma) (some sampleChroma) (some sampleChroma) blankTiles 8 1 0 = some r) ∧
    ConvertYUVToRGB sampleCoefficientArray zeroTable emptyCache .YUV422_Indiv8
        (some sampleLuma) (some sampleChroma) (some sampleChroma) blankTiles 8 1 0 =
      ConvertYUVToRGB sampleCoefficientArray zeroTable emptyCache .YUV422_Indiv8
        (some alteredLuma) (some sampleChroma) (some sampleChroma) blankTiles 8 1 0 ∧
    arrayOffset 8 .Y + delivered .YUV422_Indiv8 (1 * 8) .Y ≤ arrayOffset 8 .U ∧
    arrayOffset 8 .U + delivered .YUV422_Indiv8 (1 * 8) .U ≤ arrayOffset 8 .V ∧
    arrayOffset 8 .V + delivered .YUV422_Indiv8 (1 * 8) .V ≤ 8 <<< 5 :=
  ⟨by decide, by decide, by decide, by decide, by decide, by decide, fun _ _ => rfl,
    fun _ _ => rfl, by decide,
    ConvertYUVToRGB_reads_delivered sampleCoefficientArray zeroTable emptyCache .YUV422_Indiv8
      sampleLuma sampleChroma sampleChroma alteredLuma sampleChroma sampleChroma blankTiles
      8 1 0 (by decide) (by decide) (by decide) (by decide) (by decide) (by decide)
      (fun _ _ => rfl) (fun _ _ => rfl)⟩

theorem SendData_rounds_up_witness :
    (OutputFormat.RGB8 = .RGBA8 ∨ OutputFormat.RGB8 = .RGB8 ∨ OutputFormat.RGB8 = .RGB5A1 ∨
      OutputFormat.RGB8 = .RGB565) ∧
    1 ≤ sampleBuffer.transfer_unit ∧
    pixelsPerUnit .RGB8 sampleBuffer.transfer_unit
      = (sampleBuffer.transfer_unit + bytesPerPixel .RGB8 - 1) / bytesPerPixel .RGB8 ∧
    ¬ pixelsPerUnit .RGB8 sampleBuffer.transfer_unit ∣ 8 ∧
    ∃ s, SendData sampleEncoder widths32 sampleStore samplePixels sampleBuffer ((8 : Nat) : Int)
        .RGB8 255 = .done s ∧
      s.inPos = (8 + pixelsPerUnit .RGB8 sampleBuffer.transfer_unit - 1)
        / pixelsPerUnit .RGB8 sampleBuffer.transfer_unit
        * pixelsPerUnit .RGB8 sampleBuffer.transfer_unit ∧
      (s.inPos = 8 ↔ pixelsPerUnit .RGB8 sampleBuffer.transfer_unit ∣ 8) ∧
      8 < s.inPos ∧
      ∀ b, b < bytesPerPixel .RGB8 →
        s.memory (GetPointer sampleBuffer.address
          + 8 / pixelsPerUnit .RGB8 sampleBuffer.transfer_unit
            * (pixelsPerUnit .RGB8 sampleBuffer.transfer_unit * bytesPerPixel .RGB8
              + sampleBuffer.gap)
          + 8 % pixelsPerUnit .RGB8 sampleBuffer.transfer_unit * bytesPerPixel .RGB8 + b) =
        sampleEncoder .RGB8 (byteOf (samplePixels 8) 3) (byteOf (samplePixels 8) 2)
          (byteOf (samplePixels 8) 1) 255 b :=
  have h := SendData_rounds_up sampleEncoder widths32 sampleStore samplePixels sampleBuffer
    .RGB8 255 (by decide) (by decide) 8
  have hd : ¬ pixelsPerUnit .RGB8 sampleBuffer.transfer_unit ∣ 8 := by decide
  ⟨by decide, by decide, h.1, hd,
    match h.2 with
    | ⟨s, h1, h2, h3, h4⟩ => ⟨s, h1, h2, h3, (h4 hd).1, (h4 hd).2⟩⟩

theorem SendData_iterations_witness :
    1 ≤ sampleBuffer.transfer_unit ∧
    (OutputFormat.RGB8 = .RGBA8 ∨ OutputFormat.RGB8 = .RGB8 ∨ OutputFormat.RGB8 = .RGB5A1 ∨
      OutputFormat.RGB8 = .RGB565) ∧
    (pixelsPerUnit .RGB8 sampleBuffer.transfer_unit
        = (sampleBuffer.transfer_unit + bytesPerPixel .RGB8 - 1) / bytesPerPixel .RGB8 ∧
      1 ≤ pixelsPerUnit .RGB8 sampleBuffer.transfer_unit ∧
      (∀ fuel, sendLoop sampleEncoder widths32 .RGB8 samplePixels 255 fuel
          (sendInit sampleStore sampleBuffer 8) =
        if ((8 : Int).toNat + pixelsPerUnit .RGB8 sampleBuffer.transfer_unit - 1)
            / pixelsPerUnit .RGB8 sampleBuffer.transfer_unit ≤ fuel
        then some ((sendUnitStep sampleEncoder widths32 .RGB8 samplePixels 255)^[
          ((8 : Int).toNat + pixelsPerUnit .RGB8 sampleBuffer.transfer_unit - 1)
            / pixelsPerUnit .RGB8 sampleBuffer.transfer_unit]
          (sendInit sampleStore sampleBuffer 8))
        else none) ∧
      SendData sampleEncoder widths32 sampleStore samplePixels sampleBuffer 8 .RGB8 255 =
        .done ((sendUnitStep sampleEncoder widths32 .RGB8 samplePixels 255)^[
          ((8 : Int).toNat + pixelsPerUnit .RGB8 sampleBuffer.transfer_unit - 1)
            / pixelsPerUnit .RGB8 sampleBuffer.transfer_unit]
          (sendInit sampleStore sampleBuffer 8)) ∧
      (∀ j, j < ((8 : Int).toNat + pixelsPerUnit .RGB8 sampleBuffer.transfer_unit - 1)
            / pixelsPerUnit .RGB8 sampleBuffer.transfer_unit →
        0 < ((sendUnitStep sampleEncoder widths32 .RGB8 samplePixels 255)^[j]
          (sendInit sampleStore sampleBuffer 8)).amount_of_data ∧
        ((sendUnitStep sampleEncoder widths32 .RGB8 samplePixels 255)^[j + 1]
          (sendInit sampleStore sampleBuffer 8)).amount_of_data =
        ((sendUnitStep sampleEncoder widths32 .RGB8 samplePixels 255)^[j]
          (sendInit sampleStore sampleBuffer 8)).amount_of_data
          - (pixelsPerUnit .RGB8 sampleBuffer.transfer_unit : Nat))) ∧
    (∀ v, OutputFormat.RGB8 = .other v →
      SendData sampleEncoder widths32 sampleStore samplePixels sampleBuffer 8 .RGB8 255
        = .done (sendInit sampleStore sampleBuffer 8)) :=
  have h := SendData_iterations sampleEncoder widths32 sampleStore samplePixels sampleBuffer 8
    .RGB8 255 (by decide)
  ⟨by decide, by decide, h.1 (by decide), h.2⟩

theorem tileLoop_ignores_stale_tmp_tile_witness :
    (Rotation.Clockwise_90 = .None ∨ Rotation.Clockwise_90 = .Clockwise_90 ∨
      Rotation.Clockwise_90 = .Clockwise_180 ∨ Rotation.Clockwise_90 = .Clockwise_270) ∧
    ((BlockAlignment.Linear = .Linear ∧ 1 ≤ 5 ∧ 5 ≤ 8) ∨
      (BlockAlignment.Linear = .Block8x8 ∧ 5 = 8)) ∧
    (∀ i s1 s2, s1.buffer = s2.buffer → s1.out = s2.out →
      ∃ t1 t2,
        tileStep .Clockwise_90 .Linear rampTiles 2 16 5 i s1 = some t1 ∧
        tileStep .Clockwise_90 .Linear rampTiles 2 16 5 i s2 = some t2 ∧
        t1.buffer = t2.buffer ∧ t1.out = t2.out) ∧
    ∃ t1 t2,
      tileLoop .Clockwise_90 .Linear rampTiles 2 16 5 blankOutput blankOutput = some t1 ∧
      tileLoop .Clockwise_90 .Linear rampTiles 2 16 5 blankOutput rampTile = some t2 ∧
      t1.buffer = t2.buffer :=
  ⟨by decide, by decide,
    tileLoop_ignores_stale_tmp_tile .Clockwise_90 .Linear rampTiles 2 16 5 blankOutput
      blankOutput rampTile (by decide) (by decide)⟩

end HW.Y2R

namespace AudioCore.AudioInterp

theorem linearSample_floor_witness :
    8388608 < 2 ^ 24 ∧
    (-32768 ≤ ((100, -32768) : Int × Int).1 ∧ ((100, -32768) : Int × Int).1 ≤ 32767) ∧
    (-32768 ≤ ((100, -32768) : Int × Int).2 ∧ ((100, -32768) : Int × Int).2 ≤ 32767) ∧
    (-32768 ≤ ((-101, 32767) : Int × Int).1 ∧ ((-101, 32767) : Int × Int).1 ≤ 32767) ∧
    (-32768 ≤ ((-101, 32767) : Int × Int).2 ∧ ((-101, 32767) : Int × Int).2 ≤ 32767) ∧
    ((linearSample 8388608 (100, -32768) (-101, 32767)).1
        = ((100, -32768) : Int × Int).1 + Int.fdiv ((8388608 : Nat) *
          clampS64 (((-101, 32767) : Int × Int).1 - ((100, -32768) : Int × Int).1)
            (-32768) 32767) (2 ^ 24) ∧
      min ((100, -32768) : Int × Int).1 ((-101, 32767) : Int × Int).1
        ≤ (linearSample 8388608 (100, -32768) (-101, 32767)).1 ∧
      (linearSample 8388608 (100, -32768) (-101, 32767)).1
        ≤ max ((100, -32768) : Int × Int).1 ((-101, 32767) : Int × Int).1) ∧
    ((linearSample 8388608 (100, -32768) (-101, 32767)).2
        = ((100, -32768) : Int × Int).2 + Int.fdiv ((8388608 : Nat) *
          clampS64 (((-101, 32767) : Int × Int).2 - ((100, -32768) : Int × Int).2)
            (-32768) 32767) (2 ^ 24) ∧
      min ((100, -32768) : Int × Int).2 ((-101, 32767) : Int × Int).2
        ≤ (linearSample 8388608 (100, -32768) (-101, 32767)).2 ∧
      (linearSample 8388608 (100, -32768) (-101, 32767)).2
        ≤ max ((100, -32768) : Int × Int).2 ((-101, 32767) : Int × Int).2) ∧
    ∀ fposition, fractionOf fposition < 2 ^ 24 :=
  ⟨by decide, by decide, by decide, by decide, by decide,
    linearSample_floor 8388608 (100, -32768) (-101, 32767) (by decide) (by decide)
      (by decide) (by decide) (by decide)⟩

end AudioCore.AudioInterp

namespace Common

theorem AlignDown_greatest_multiple_witness :
    32 ≤ 64 ∧ 4103 < 2 ^ 32 ∧ 1 ≤ 4096 ∧ 4096 < 2 ^ 64 ∧
    AlignDown 32 4103 4096 = some (4103 / 4096 * 4096) ∧
    (4103 / 4096 * 4096 % 4096 = 0 ∧ 4103 / 4096 * 4096 ≤ 4103 ∧
      ∀ m, m % 4096 = 0 → m ≤ 4103 → m ≤ 4103 / 4096 * 4096) ∧
    alignDownDivide 32 4103 4096 = 4103 / 4096 * 4096 ∧
    maskTest 4096 = true ∧
    (∃ k, 4096 = 2 ^ k) ∧ alignDownMask 32 4103 4096 = alignDownDivide 32 4103 4096 :=
  have h := AlignDown_greatest_multiple 32 4103 4096 (by decide) (by decide) (by decide)
    (by decide)
  ⟨by decide, by decide, by decide, by decide, h.1, h.2.1, h.2.2.1, by decide,
    h.2.2.2 (by decide)⟩

theorem AlignUp_least_multiple_witness :
    32 ≤ 64 ∧ 13 < 2 ^ 32 ∧ 1 ≤ 6 ∧ 6 < 2 ^ 64 ∧ 18 % 6 = 0 ∧ 13 ≤ 18 ∧
    (∀ m, m % 6 = 0 → 13 ≤ m → 18 ≤ m) ∧ 18 < 2 ^ 32 ∧
    (32 < 64 ∨ maskTest 6 = true ∨ 13 + 6 - 1 < 2 ^ 64) ∧
    AlignUp 32 13 6 = some 18 ∧ 18 < 13 + 6 ∧
    maskTest 0 = true ∧ AlignUp 32 13 0 = some 0 ∧
    ∀ b x s, ∃ r, AlignUp b x s = some r :=
  ⟨by decide, by decide, by decide, by decide, by decide, by decide,
    fun m h1 h2 => by omega, by decide, by decide,
    AlignUp_least_multiple 32 13 6 18 (by decide) (by decide) (by decide) (by decide)
      (by decide) (by decide) (fun m h1 h2 => by omega) (by decide) (by decide)⟩

end Common

namespace cache_buffer

theorem hit_after_cache_data_witness :
    1 ≤ 2 ∧ 2 < 2147483648 ∧
    after 2 (create (fun _ => 0) (fun _ => 0)) [Call.store 5 1, Call.store 7 2]
      = after 2 (create (fun _ => 0) (fun _ => 0)) [Call.store 5 1, Call.store 7 2] ∧
    (cache_data 2 (after 2 (create (fun _ => 0) (fun _ => 0))
      [Call.store 5 1, Call.store 7 2]) 9 3).2 < 2 ∧
    ((cache_data 2 (after 2 (create (fun _ => 0) (fun _ => 0))
        [Call.store 5 1, Call.store 7 2]) 9 3).2 : Int)
      ≤ (cache_data 2 (after 2 (create (fun _ => 0) (fun _ => 0))
        [Call.store 5 1, Call.store 7 2]) 9 3).1.l ∧
    (cache_data 2 (after 2 (create (fun _ => 0) (fun _ => 0))
      [Call.store 5 1, Call.store 7 2]) 9 3).1.l < 2 ∧
    (cache_data 2 (after 2 (create (fun _ => 0) (fun _ => 0))
        [Call.store 5 1, Call.store 7 2]) 9 3).1.datas
      (cache_data 2 (after 2 (create (fun _ => 0) (fun _ => 0))
        [Call.store 5 1, Call.store 7 2]) 9 3).2 = 3 ∧
    hit (cache_data 2 (after 2 (create (fun _ => 0) (fun _ => 0))
        [Call.store 5 1, Call.store 7 2]) 9 3).1 9
      = some (cache_data 2 (after 2 (create (fun _ => 0) (fun _ => 0))
        [Call.store 5 1, Call.store 7 2]) 9 3).2 :=
  have h := hit_after_cache_data 2 (by decide) (by decide) (fun _ => 0) (fun _ => 0)
    [Call.store 5 1, Call.store 7 2]
    (after 2 (create (fun _ => 0) (fun _ => 0)) [Call.store 5 1, Call.store 7 2]) rfl 9 3
  ⟨by decide, by decide, rfl, h.1, h.2.1, h.2.2.1, h.2.2.2.1, h.2.2.2.2.2.2.1 (by decide)⟩

end cache_buffer

namespace VideoDumper

theorem VideoFrame_flips_rows_witness :
    2 < 2 ^ 32 ∧ 3 < 2 ^ 32 ∧ 4 * 2 * 3 < 2 ^ 32 ∧
    ∃ f, VideoFrame.create 32 2 3 (fun n => n % 256) = some f ∧
      f.width = 2 ∧ f.height = 3 ∧ f.size = 4 * 2 * 3 ∧
      (0 < 3 → f.stride = 4 * 2) ∧
      (∀ i j k, i < 3 → j < 2 → k < 4 →
        i * (4 * 2) + 4 * j + k < f.size ∧
        f.data (i * (4 * 2) + 4 * j + k)
          = (fun n => n % 256) ((3 - 1 - i) * (4 * 2) + 4 * j + k)) ∧
      ∃ g, VideoFrame.create 32 2 3 f.data = some g ∧
        ∀ n, n < 4 * 2 * 3 → g.data n = (fun n => n % 256) n :=
  ⟨by decide, by decide, by decide,
    VideoFrame_flips_rows 32 2 3 (fun n => n % 256) (by decide) (by decide) (by decide)⟩

end VideoDumper
